import Mathlib

/-!
# An external demand pager (pager.cc): shallow embedding and verified properties

The development embeds the pager of `pager.cc` as pure functions on an explicit
state `Pager`.

* C++ pointers are modelled by the place where the pointee is stored:
  a `perProcessInfo*` is the pid under which the process is registered, a
  `perPageInfo*` is a `PagePtr`, the pair of the two immutable fields
  `myProcess` and `virtualPage` that `vm_extend` writes into the record and under
  which it stores the record. A null or dangling pointer is `none`.
* `std::map` is a key-sorted association list, `std::queue` is a list whose
  head is the front of the queue.
* `unsigned long` arithmetic is arithmetic on `Nat` modulo `2 ^ 64` wherever the
  source can overflow.
* Undefined behaviour of the C++ code (dereferencing a null, dangling or
  past-the-end pointer, `front()` of an empty queue) makes the embedded function
  return `none`.
* The host (physical memory, disk, log) is part of the state: `pm_physmem`,
  `disk` and the list `hostCalls` of the calls issued to the host.
-/

namespace VMPager

/-! ## Constants of the absent header `vm_pager.h` -/

/-- Modelled from the spec: the constant `VM_PAGESIZE` of the absent header
`vm_pager.h`; the spec fixes `PAGESIZE = 8192`, the source divides "by 8192" and
masks offsets with `0x1fff`. -/
def VM_PAGESIZE : Nat := 8192

/-- Modelled from the spec: the constant `VM_ARENA_BASEADDR` of the absent header
`vm_pager.h`; the spec fixes `ARENA_BASE = 0x60000000`. -/
def VM_ARENA_BASEADDR : Nat := 0x60000000

/-- The modulus of `unsigned long` arithmetic. -/
def ULONG_MOD : Nat := 2 ^ 64

/-- The modulus of `unsigned` arithmetic. -/
def UINT_MOD : Nat := 2 ^ 32

/-! ## Data model -/

/-- Process identifiers (`pid_t`). -/
abbrev pid_t := Int

/-- Modelled from the spec: the entry type of the absent header `vm_pager.h`,
`PageTableEntry { frame, read_enable, write_enable }`. -/
structure page_table_entry_t where
  ppage : Nat
  read_enable : Nat
  write_enable : Nat
deriving DecidableEq, Repr

/-- Modelled from the spec: the page table type of the absent header
`vm_pager.h`, an indexable array `ptes` of entries. -/
structure page_table_t where
  ptes : Nat → page_table_entry_t

/-- A pointer to a `perPageInfo`: the fields `myProcess` and `virtualPage` of the
pointee, which never change after `vm_extend` created it. -/
structure PagePtr where
  myProcess : pid_t
  virtualPage : Nat
deriving DecidableEq, Repr

/-- The mutable fields of `struct perPageInfo` (`myProcess` and `virtualPage` are
carried by the `PagePtr`). -/
structure perPageInfo where
  ppage : Nat
  modified : Nat
  notZeroFilled : Nat
  reference : Nat
  resident : Nat
  diskBlock : Nat
deriving DecidableEq, Repr

/-- The fields of `struct perProcessInfo` (`myPid` is the key under which the process
is registered). -/
structure perProcessInfo where
  pageTable : page_table_t
  pageInfo : List (Nat × perPageInfo)
  nextVirtualADDR : Nat
  nextVirtualPage : Nat

/-- A call issued by the pager to its host. -/
inductive HostCall where
  | disk_read (block ppage : Nat)
  | disk_write (block ppage : Nat)
  | syslog (output : List Nat)
deriving DecidableEq, Repr

/-- The global variables of the pager together with the host state. The fields
`size` and `numberOfBlocks` of the source are written once and never read; they are
left out. -/
structure Pager where
  perProcessInfos : List (pid_t × perProcessInfo)
  clockStructure : List PagePtr
  freeBlocks : List Nat
  freePages : List Nat
  currentProcessInfo : Option pid_t
  page_table_base_register : Option pid_t
  pm_physmem : Nat → Nat
  disk : Nat → Nat → Nat
  hostCalls : List HostCall

/-! ## Association lists (`std::map`) -/

/-- The lookup `map::find`. -/
def mapFind {κ β : Type} [DecidableEq κ] (k : κ) : List (κ × β) → Option β
  | [] => none
  | e :: t => if e.1 = k then some e.2 else mapFind k t

/-- In-place modification of the value stored under a key. -/
def mapModify {κ β : Type} [DecidableEq κ] (k : κ) (f : β → β) (m : List (κ × β)) :
    List (κ × β) :=
  m.map (fun e => if e.1 = k then (e.1, f e.2) else e)

/-- Insertion of a new key at its place in a key-sorted list. -/
def insertSorted {κ β : Type} [LT κ] [DecidableRel (fun a b : κ => a < b)]
    (k : κ) (v : β) : List (κ × β) → List (κ × β)
  | [] => [(k, v)]
  | e :: t => if k < e.1 then (k, v) :: e :: t else e :: insertSorted k v t

/-- The insertion `map::insert`: leaves the map unchanged when the key is present and
keeps the keys sorted otherwise. -/
def mapInsert {κ β : Type} [DecidableEq κ] [LT κ] [DecidableRel (fun a b : κ => a < b)]
    (k : κ) (v : β) (m : List (κ × β)) : List (κ × β) :=
  match mapFind k m with
  | some _ => m
  | none => insertSorted k v m

/-- The removal `map::erase`. -/
def mapErase {κ β : Type} [DecidableEq κ] (k : κ) (m : List (κ × β)) : List (κ × β) :=
  m.filter (fun e => !decide (e.1 = k))

/-! ## Access to the state -/

/-- The process registered under a pid (dereferencing a `perProcessInfo*`). -/
def Pager.findProcess (s : Pager) (pid : pid_t) : Option perProcessInfo :=
  mapFind pid s.perProcessInfos

/-- Dereferencing a `perPageInfo*`. -/
def Pager.deref (s : Pager) (p : PagePtr) : Option perPageInfo :=
  match s.findProcess p.myProcess with
  | none => none
  | some pr => mapFind p.virtualPage pr.pageInfo

/-- In-place modification of a process. -/
def Pager.modifyProcess (s : Pager) (pid : pid_t) (f : perProcessInfo → perProcessInfo) :
    Pager :=
  { s with perProcessInfos := mapModify pid f s.perProcessInfos }

/-- In-place modification of a page record through a `perPageInfo*`. -/
def Pager.modifyPage (s : Pager) (p : PagePtr) (f : perPageInfo → perPageInfo) : Pager :=
  s.modifyProcess p.myProcess
    (fun pr => { pr with pageInfo := mapModify p.virtualPage f pr.pageInfo })

/-- In-place modification of `pageTable->ptes[i]` of a process. -/
def Pager.modifyPte (s : Pager) (pid : pid_t) (i : Nat)
    (f : page_table_entry_t → page_table_entry_t) : Pager :=
  s.modifyProcess pid
    (fun pr => { pr with
      pageTable := { ptes := Function.update pr.pageTable.ptes i (f (pr.pageTable.ptes i)) } })

/-- The entry `pageTable->ptes[i]` of a process. -/
def Pager.pte (s : Pager) (pid : pid_t) (i : Nat) : Option page_table_entry_t :=
  match s.findProcess pid with
  | none => none
  | some pr => some (pr.pageTable.ptes i)

/-! ## The host: disk transfers -/

/-- Modelled from the spec: the host function `disk_read(block, frame)`, a one-page
transfer from a disk block to a physical frame; the call is recorded. -/
def disk_read (s : Pager) (block ppage : Nat) : Pager :=
  { s with
    pm_physmem := fun a =>
      if ppage * VM_PAGESIZE ≤ a ∧ a < ppage * VM_PAGESIZE + VM_PAGESIZE then
        s.disk block (a - ppage * VM_PAGESIZE)
      else s.pm_physmem a
    hostCalls := s.hostCalls ++ [HostCall.disk_read block ppage] }

/-- Modelled from the spec: the host function `disk_write(block, frame)`, a one-page
transfer from a physical frame to a disk block; the call is recorded. -/
def disk_write (s : Pager) (block ppage : Nat) : Pager :=
  { s with
    disk := fun b off =>
      if b = block ∧ off < VM_PAGESIZE then s.pm_physmem (ppage * VM_PAGESIZE + off)
      else s.disk b off
    hostCalls := s.hostCalls ++ [HostCall.disk_write block ppage] }

/-! ## Replacement -/

/-- The body of the `while` loop of `secondChance`: clear the enable bits and the
reference bit of the front record and move it to the back of the queue. -/
def rotateFront (s : Pager) (curr : PagePtr) (rest : List PagePtr) : Pager :=
  let s1 := s.modifyPte curr.myProcess curr.virtualPage
    (fun e => { e with read_enable := 0, write_enable := 0 })
  let s2 := s1.modifyPage curr (fun r => { r with reference := 0 })
  { s2 with clockStructure := rest ++ [curr] }

/-- The `while` loop of `secondChance`, run for at most `fuel` rotations; `none` when
the queue is empty or its front does not point to a record (undefined behaviour),
or when the fuel is used up. -/
def scanClock : Nat → Pager → Option Pager
  | 0, s =>
    match s.clockStructure with
    | [] => none
    | curr :: _ =>
      match s.deref curr with
      | none => none
      | some r => if r.reference = 1 then none else some s
  | n + 1, s =>
    match s.clockStructure with
    | [] => none
    | curr :: rest =>
      match s.deref curr with
      | none => none
      | some r => if r.reference = 1 then scanClock n (rotateFront s curr rest) else some s

/-- The second half of `secondChance`: the front record `evicting` of the queue, whose
content is `r`, is popped, written to disk when its modified bit is set, and
marked as not resident. -/
def evictFront (s : Pager) (evicting : PagePtr) (rest : List PagePtr) (r : perPageInfo) :
    Pager :=
  let s2 := { s with clockStructure := rest }
  let s3 := if r.modified = 1 then disk_write s2 r.diskBlock r.ppage else s2
  let s4 := s3.modifyPage evicting
    (fun x => { x with resident := 0, modified := 0, reference := 0 })
  s4.modifyPte evicting.myProcess evicting.virtualPage
    (fun e => { e with read_enable := 0, write_enable := 0 })

/-- The state in the middle of `evictFront`, after the write to disk and before
the record is marked. -/
def evictWrite (s : Pager) (rest : List PagePtr) (r : perPageInfo) : Pager :=
  if r.modified = 1 then disk_write { s with clockStructure := rest } r.diskBlock r.ppage
  else { s with clockStructure := rest }

/-- The function `secondChance`: scan the clock, evict the first record whose
reference bit is clear and return its physical page. The scan gets one rotation
per queue entry, which is all it can use. -/
def secondChance (s : Pager) : Option (Nat × Pager) :=
  match scanClock s.clockStructure.length s with
  | none => none
  | some s1 =>
    match s1.clockStructure with
    | [] => none
    | evicting :: rest =>
      match s1.deref evicting with
      | none => none
      | some r => some (r.ppage, evictFront s1 evicting rest r)

/-- The function `getPhysPage`: take a free physical page, or evict one. -/
def getPhysPage (s : Pager) : Option (Nat × Pager) :=
  match s.freePages with
  | physMemPage :: rest => some (physMemPage, { s with freePages := rest })
  | [] => secondChance s

/-! ## Public operations -/

/-- The function `vm_init`. The contents of physical memory and of the disk are
whatever the host provides. -/
def vm_init (memory_pages disk_blocks : Nat) (physmem : Nat → Nat) (disk : Nat → Nat → Nat) :
    Pager :=
  { perProcessInfos := []
    clockStructure := []
    freeBlocks := List.range disk_blocks
    freePages := List.range memory_pages
    currentProcessInfo := none
    page_table_base_register := none
    pm_physmem := physmem
    disk := disk
    hostCalls := [] }

/-- The process entry that `vm_create` builds around a page table. -/
def newProcess (fresh : page_table_t) : perProcessInfo :=
  { pageTable := fresh, pageInfo := [], nextVirtualADDR := VM_ARENA_BASEADDR,
    nextVirtualPage := 0 }

/-- The function `vm_create`. The page table comes from `new page_table_t` and is
not initialised: its content `fresh` is arbitrary. -/
def vm_create (s : Pager) (pid : pid_t) (fresh : page_table_t) : Pager :=
  { s with perProcessInfos := mapInsert pid (newProcess fresh) s.perProcessInfos }

/-- The function `vm_switch`; dereferencing the `find` of an unregistered pid is
undefined. -/
def vm_switch (s : Pager) (pid : pid_t) : Option Pager :=
  match s.findProcess pid with
  | none => none
  | some _ =>
    some { s with page_table_base_register := some pid, currentProcessInfo := some pid }

/-- The first loop of `vm_destroy`: pop `n` queue entries, pushing back those of
other processes. -/
def destroyClock (currPid : pid_t) : Nat → Pager → Option Pager
  | 0, s => some s
  | n + 1, s =>
    match s.clockStructure with
    | [] => none
    | curr :: rest =>
      match s.deref curr with
      | none => none
      | some _ =>
        if curr.myProcess ≠ currPid then
          destroyClock currPid n { s with clockStructure := rest ++ [curr] }
        else destroyClock currPid n { s with clockStructure := rest }

/-- The second loop of `vm_destroy`: release the physical pages and the disk blocks
of the records, in key order. -/
def destroyPages : List (Nat × perPageInfo) → Pager → Pager
  | [], s => s
  | e :: t, s =>
    let s1 := if e.2.resident = 1 then { s with freePages := s.freePages ++ [e.2.ppage] } else s
    destroyPages t { s1 with freeBlocks := s1.freeBlocks ++ [e.2.diskBlock] }

/-- The third loop of `vm_destroy`: zero the entries `0 .. n-1` of the page
table. -/
def destroyPtes (currPid : pid_t) : Nat → Pager → Pager
  | 0, s => s
  | n + 1, s =>
    (destroyPtes currPid n s).modifyPte currPid n
      (fun e => { e with ppage := 0, read_enable := 0, write_enable := 0 })

/-- The function `vm_destroy`. The deleted process is dropped from the registry;
`currentProcessInfo` is left dangling by the source, which is `none` here. The
loop counters are `unsigned`: the first loop runs `size() mod 2 ^ 32` times, and the
third loop does not end when `nextVirtualPage` is `2 ^ 32` or more, because its
counter wraps around before it gets there. -/
def vm_destroy (s : Pager) : Option Pager :=
  match s.currentProcessInfo with
  | none => none
  | some currPid =>
    match s.findProcess currPid with
    | none => none
    | some cur =>
      match destroyClock currPid (s.clockStructure.length % UINT_MOD) s with
      | none => none
      | some s1 =>
        let s2 := destroyPages cur.pageInfo s1
        if cur.nextVirtualPage < UINT_MOD then
          let s3 := destroyPtes currPid cur.nextVirtualPage s2
          some { s3 with
            page_table_base_register := none
            currentProcessInfo := none
            perProcessInfos := mapErase currPid s3.perProcessInfos }
        else none

/-- The second half of `normalPageFault`, after `getPhysPage` returned `physPage`: the
disk block of the faulting record (whose content is `r`) is read into the
physical page, and the record of page `virtualPageNum` of the current process
`cur` is bound to it and pushed onto the clock queue. -/
def normalBind (s1 : Pager) (r : perPageInfo) (physPage : Nat) (cur : pid_t)
    (write_flag : Bool) (virtualPageNum : Nat) : Pager :=
  let s2 := disk_read s1 r.diskBlock physPage
  let s3 := s2.modifyPage ⟨cur, virtualPageNum⟩
    (fun x => { x with
      modified := if write_flag then 1 else 0
      resident := 1, reference := 1, ppage := physPage })
  let s4 := s3.modifyPte cur virtualPageNum
    (fun e => { e with
      write_enable := if write_flag then 1 else 0
      ppage := physPage, read_enable := 1 })
  { s4 with clockStructure := s4.clockStructure ++ [⟨cur, virtualPageNum⟩] }

/-- The function `normalPageFault`; `itr` points to the record of page
`virtualPageNum` of the current process `cur`. -/
def normalPageFault (s : Pager) (cur : pid_t) (write_flag : Bool) (virtualPageNum : Nat) :
    Option (Int × Pager) :=
  match getPhysPage s with
  | none => none
  | some (physPage, s1) =>
    match s1.deref ⟨cur, virtualPageNum⟩ with
    | none => none
    | some r => some (0, normalBind s1 r physPage cur write_flag virtualPageNum)

/-- The zero-filling loop of `notZeroFilledPageFault`: `count` bytes from `byte`
on are set to zero, one at a time. -/
def zeroFill (mem : Nat → Nat) (byte : Nat) : Nat → (Nat → Nat)
  | 0 => mem
  | count + 1 => zeroFill (Function.update mem byte 0) (byte + 1) count

/-- The second half of `notZeroFilledPageFault`, after `getPhysPage` returned `physPage`.
The loop runs from `firstByte` to `lastByte = firstByte + VM_PAGESIZE - 1`, that is
`VM_PAGESIZE` times. -/
def zeroFilledBind (s1 : Pager) (physPage : Nat) (cur : pid_t) (write_flag : Bool)
    (virtualPageNum : Nat) : Pager :=
  let firstByte := physPage * VM_PAGESIZE
  let s2 := { s1 with pm_physmem := zeroFill s1.pm_physmem firstByte VM_PAGESIZE }
  let s3 := s2.modifyPage ⟨cur, virtualPageNum⟩
    (fun x => { x with
      notZeroFilled := if write_flag then 0 else x.notZeroFilled
      modified := if write_flag then 1 else 0
      resident := 1, reference := 1, ppage := physPage })
  let s4 := s3.modifyPte cur virtualPageNum
    (fun e => { e with
      write_enable := if write_flag then 1 else 0
      read_enable := 1, ppage := physPage })
  { s4 with clockStructure := s4.clockStructure ++ [⟨cur, virtualPageNum⟩] }

/-- The function `notZeroFilledPageFault`. -/
def notZeroFilledPageFault (s : Pager) (cur : pid_t) (write_flag : Bool)
    (virtualPageNum : Nat) : Option (Int × Pager) :=
  match getPhysPage s with
  | none => none
  | some (physPage, s1) => some (0, zeroFilledBind s1 physPage cur write_flag virtualPageNum)

/-- The assignments of `normalPageFault` to the record. -/
def normalRecord (physPage : Nat) (write_flag : Bool) (x : perPageInfo) : perPageInfo :=
  { x with
    modified := if write_flag then 1 else 0
    resident := 1, reference := 1, ppage := physPage }

/-- The assignments of `normalPageFault` to the page-table entry. -/
def normalEntry (physPage : Nat) (write_flag : Bool) (e : page_table_entry_t) :
    page_table_entry_t :=
  { e with
    write_enable := if write_flag then 1 else 0
    ppage := physPage, read_enable := 1 }

/-- The assignments of `notZeroFilledPageFault` to the record. -/
def zeroFilledRecord (physPage : Nat) (write_flag : Bool) (x : perPageInfo) : perPageInfo :=
  { x with
    notZeroFilled := if write_flag then 0 else x.notZeroFilled
    modified := if write_flag then 1 else 0
    resident := 1, reference := 1, ppage := physPage }

/-- The assignments of `notZeroFilledPageFault` to the page-table entry. -/
def zeroFilledEntry (physPage : Nat) (write_flag : Bool) (e : page_table_entry_t) :
    page_table_entry_t :=
  { e with
    write_enable := if write_flag then 1 else 0
    read_enable := 1, ppage := physPage }

/-- The assignments of `readWriteFault` to the record, chosen by the content `r` the
record has on entry. -/
def upgradeRecord (r : perPageInfo) (write_flag : Bool) (x : perPageInfo) : perPageInfo :=
  if r.notZeroFilled = 0 then
    if write_flag then { x with reference := 1, modified := 1 }
    else { x with reference := 1 }
  else
    if write_flag then { x with notZeroFilled := 0, reference := 1, modified := 1 }
    else { x with reference := 1 }

/-- The assignments of `readWriteFault` to the page-table entry. -/
def upgradeEntry (r : perPageInfo) (write_flag : Bool) (e : page_table_entry_t) :
    page_table_entry_t :=
  if r.notZeroFilled = 0 then
    if write_flag then { e with write_enable := 1, read_enable := 1 }
    else { e with read_enable := 1, write_enable := if r.modified = 0 then 0 else 1 }
  else
    if write_flag then { e with write_enable := 1, read_enable := 1 }
    else { e with read_enable := 1 }

/-- The function `readWriteFault`; `r` is the record `itr` points to, the record of
page `virtualPageNum` of the current process `cur`. The four branches of the source
assign constants to fields of the record and of the entry. -/
def readWriteFault (s : Pager) (cur : pid_t) (r : perPageInfo) (write_flag : Bool)
    (virtualPageNum : Nat) : Option (Int × Pager) :=
  if r.notZeroFilled = 0 then
    if write_flag then
      let s1 := s.modifyPage ⟨cur, virtualPageNum⟩
        (fun x => { x with reference := 1, modified := 1 })
      some (0, s1.modifyPte cur virtualPageNum
        (fun e => { e with write_enable := 1, read_enable := 1 }))
    else
      let s1 := s.modifyPage ⟨cur, virtualPageNum⟩ (fun x => { x with reference := 1 })
      some (0, s1.modifyPte cur virtualPageNum
        (fun e => { e with
          read_enable := 1
          write_enable := if r.modified = 0 then 0 else 1 }))
  else
    if write_flag then
      let s1 := s.modifyPage ⟨cur, virtualPageNum⟩
        (fun x => { x with notZeroFilled := 0, reference := 1, modified := 1 })
      some (0, s1.modifyPte cur virtualPageNum
        (fun e => { e with write_enable := 1, read_enable := 1 }))
    else
      let s1 := s.modifyPage ⟨cur, virtualPageNum⟩ (fun x => { x with reference := 1 })
      some (0, s1.modifyPte cur virtualPageNum (fun e => { e with read_enable := 1 }))

/-- The virtual page number of an address, in `unsigned long` arithmetic. -/
def vpageOf (address : Nat) : Nat :=
  ((address + ULONG_MOD - VM_ARENA_BASEADDR) % ULONG_MOD) / VM_PAGESIZE

/-- The function `vm_fault`. -/
def vm_fault (s : Pager) (addr : Nat) (write_flag : Bool) : Option (Int × Pager) :=
  match s.currentProcessInfo with
  | none => none
  | some cur =>
    match s.findProcess cur with
    | none => none
    | some pr =>
      let virtualPageNum := vpageOf addr
      match mapFind virtualPageNum pr.pageInfo with
      | none => some (-1, s)
      | some r =>
        if r.resident = 0 then
          if r.notZeroFilled ≠ 0 then notZeroFilledPageFault s cur write_flag virtualPageNum
          else normalPageFault s cur write_flag virtualPageNum
        else readWriteFault s cur r write_flag virtualPageNum

/-- The function `vm_extend`, with the arena size `arenaSize` (the constant
`VM_ARENA_SIZE` of the absent header) as a parameter. The result `0` is `NULL`. The
field `ppage` of the new page-table entry and of the new record are not
initialised by the source: their values `junkPte` and `junkPage` are arbitrary. -/
def vm_extend (arenaSize : Nat) (s : Pager) (junkPte junkPage : Nat) : Option (Nat × Pager) :=
  match s.currentProcessInfo with
  | none => none
  | some cur =>
    match s.findProcess cur with
    | none => none
    | some pr =>
      if (pr.nextVirtualADDR + VM_PAGESIZE) % ULONG_MOD >
          (VM_ARENA_BASEADDR + arenaSize) % ULONG_MOD then some (0, s)
      else
        match s.freeBlocks with
        | [] => some (0, s)
        | block :: restBlocks =>
          let newVirtualADDR := pr.nextVirtualADDR
          let newPageNum := pr.nextVirtualPage
          let s1 := s.modifyProcess cur (fun p => { p with
            nextVirtualADDR := (p.nextVirtualADDR + VM_PAGESIZE) % ULONG_MOD
            nextVirtualPage := (p.nextVirtualPage + 1) % ULONG_MOD })
          match s1.page_table_base_register with
          | none => none
          | some pt =>
            match s1.findProcess pt with
            | none => none
            | some _ =>
              let s2 := s1.modifyPte pt newPageNum
                (fun _ => { ppage := junkPte, read_enable := 0, write_enable := 0 })
              let s3 := { s2 with freeBlocks := restBlocks }
              let s4 := s3.modifyProcess cur (fun p => { p with
                pageInfo := mapInsert newPageNum
                  { ppage := junkPage, modified := 0, notZeroFilled := 1, reference := 0,
                    resident := 0, diskBlock := block }
                  p.pageInfo })
              some (newVirtualADDR, s4)

/-- One iteration of the loop of `vm_syslog` up to the byte it reads: look the page
up, fault it in when it is not read enabled, and read the byte. The result is
`none` for the byte when `vm_fault` returned `-1`. -/
def syslogByte (s : Pager) (vAddr : Nat) : Option (Option Nat × Pager) :=
  match s.currentProcessInfo with
  | none => none
  | some cur =>
    match s.findProcess cur with
    | none => none
    | some pr =>
      let vPage := vpageOf vAddr
      match mapFind vPage pr.pageInfo with
      | none => none
      | some _ =>
        match s.page_table_base_register with
        | none => none
        | some pt =>
          match s.pte pt vPage with
          | none => none
          | some e =>
            let faulted : Option (Int × Pager) :=
              if e.read_enable = 0 then vm_fault s vAddr false else some (0, s)
            match faulted with
            | none => none
            | some (rc, s1) =>
              if rc = -1 then some (none, s1)
              else
                match s1.deref ⟨cur, vPage⟩ with
                | none => none
                | some pageEntry =>
                  let offset := vAddr &&& 0x1fff
                  some (some (s1.pm_physmem (pageEntry.ppage * VM_PAGESIZE + offset)), s1)

/-- The loop of `vm_syslog`: `n` bytes from `vAddr` on are appended to `output`. -/
def syslogLoop : Nat → Pager → Nat → List Nat → Option (Int × Pager × List Nat)
  | 0, s, _, output => some (0, s, output)
  | n + 1, s, vAddr, output =>
    match syslogByte s vAddr with
    | none => none
    | some (none, s1) => some (-1, s1, output)
    | some (some b, s1) => syslogLoop n s1 ((vAddr + 1) % ULONG_MOD) (output ++ [b])

/-- The function `vm_syslog`; the emitted line is recorded in `hostCalls`. -/
def vm_syslog (s : Pager) (message len : Nat) : Option (Int × Pager) :=
  match s.currentProcessInfo with
  | none => none
  | some cur =>
    match s.findProcess cur with
    | none => none
    | some pr =>
      if len < 1 then some (-1, s)
      else if message < VM_ARENA_BASEADDR then some (-1, s)
      else if (message + len) % ULONG_MOD > pr.nextVirtualADDR then some (-1, s)
      else
        match syslogLoop len s message [] with
        | none => none
        | some (rc, s1, output) =>
          if rc = -1 then some (-1, s1)
          else some (0, { s1 with hostCalls := s1.hostCalls ++ [HostCall.syslog output] })

/-! ## Observations used by the properties -/

/-- The page records of one registered process, each with the pointer to it. -/
def procRecords (e : pid_t × perProcessInfo) : List (PagePtr × perPageInfo) :=
  e.2.pageInfo.map (fun x => (⟨e.1, x.1⟩, x.2))

/-- All live page records, over all registered processes. -/
def Pager.records (s : Pager) : List (PagePtr × perPageInfo) :=
  s.perProcessInfos.flatMap procRecords

/-- The records with `resident == 1`. -/
def residentRecords (l : List (PagePtr × perPageInfo)) : List (PagePtr × perPageInfo) :=
  l.filter (fun x => decide (x.2.resident = 1))

/-- The physical pages of the resident records. -/
def residentFrames (l : List (PagePtr × perPageInfo)) : List Nat :=
  (residentRecords l).map (fun x => x.2.ppage)

/-- The pointers to the resident records. -/
def residentPtrs (l : List (PagePtr × perPageInfo)) : List PagePtr :=
  (residentRecords l).map (fun x => x.1)

/-- The disk blocks of the records. -/
def blocksOf (l : List (PagePtr × perPageInfo)) : List Nat :=
  l.map (fun x => x.2.diskBlock)

/-- The arena bookkeeping of a process is consistent: the record keys are
`0 .. nextVirtualPage - 1`, `nextVirtualADDR` is the end of the last page, and the
pages lie in an arena of `arenaSize` bytes. -/
def ArenaOK (arenaSize : Nat) (pr : perProcessInfo) : Prop :=
  pr.pageInfo.map Prod.fst = List.range pr.nextVirtualPage ∧
  pr.nextVirtualADDR = VM_ARENA_BASEADDR + pr.nextVirtualPage * VM_PAGESIZE ∧
  pr.nextVirtualPage * VM_PAGESIZE ≤ arenaSize

/-- The arena ends below the top of the address space, so that the address
arithmetic of `vm_extend` does not wrap around. -/
def ArenaFits (arenaSize : Nat) : Prop :=
  VM_ARENA_BASEADDR + arenaSize + VM_PAGESIZE < ULONG_MOD

/-- The state has a current process: `vm_switch` made `cur` current and the process
is still registered, as `pr`. -/
def HasCurrent (s : Pager) (cur : pid_t) (pr : perProcessInfo) : Prop :=
  s.currentProcessInfo = some cur ∧ s.page_table_base_register = some cur ∧
  s.findProcess cur = some pr

/-- Replacement can run: a physical page is free, or the clock queue is not empty
and each of its entries points to a page record. -/
def CanReplace (s : Pager) : Prop :=
  s.freePages ≠ [] ∨ (s.clockStructure ≠ [] ∧ ∀ h ∈ s.clockStructure, s.deref h ≠ none)

/-- Consistency of a page record `r` with its page-table entry `e`. -/
structure RecOK (e : page_table_entry_t) (r : perPageInfo) : Prop where
  residentBit : r.resident = 0 ∨ r.resident = 1
  modifiedBit : r.modified = 0 ∨ r.modified = 1
  referenceBit : r.reference = 0 ∨ r.reference = 1
  zeroBit : r.notZeroFilled = 0 ∨ r.notZeroFilled = 1
  readBit : e.read_enable = 0 ∨ e.read_enable = 1
  writeBit : e.write_enable = 0 ∨ e.write_enable = 1
  writeOK : e.write_enable = 1 → r.resident = 1 ∧ r.modified = 1
  readOK : e.read_enable = 1 → r.resident = 1
  frameOK : r.resident = 1 → e.ppage = r.ppage
  zeroOK : r.notZeroFilled = 1 → r.modified = 0 ∧ e.write_enable = 0
  refOK : e.read_enable = 1 ∨ e.write_enable = 1 → r.reference = 1

/-- The global invariant of the pager for `F` physical pages and `D` disk blocks;
`held` lists the physical pages that were taken by `getPhysPage` and are not yet
bound to a record (empty between public calls). -/
structure Inv (arenaSize F D : Nat) (held : List Nat) (s : Pager) : Prop where
  pids : (s.perProcessInfos.map Prod.fst).Nodup
  arena : ∀ e ∈ s.perProcessInfos, ArenaOK arenaSize e.2
  frames : (held ++ s.freePages ++ residentFrames s.records).Perm (List.range F)
  blocks : (s.freeBlocks ++ blocksOf s.records).Perm (List.range D)
  clock : s.clockStructure.Perm (residentPtrs s.records)
  recs : ∀ h r e, s.deref h = some r → s.pte h.myProcess h.virtualPage = some e → RecOK e r
  ptbr : s.page_table_base_register = s.currentProcessInfo
  cur : ∀ c, s.currentProcessInfo = some c → s.findProcess c ≠ none
  small : F < UINT_MOD
  smallD : D < UINT_MOD
  fits : ArenaFits arenaSize

/-- The states the pager reaches from `vm_init F D` by public calls that do not run
into undefined behaviour; between the calls the host may store anything into
physical memory. The numbers of physical pages and disk blocks are `unsigned`, and
the arena of `arenaSize` bytes ends below the top of the address space. -/
inductive Reachable (arenaSize F D : Nat) : Pager → Prop
  | init (physmem : Nat → Nat) (disk : Nat → Nat → Nat) (hF : F < UINT_MOD)
      (hD : D < UINT_MOD) (hfit : ArenaFits arenaSize) :
      Reachable arenaSize F D (vm_init F D physmem disk)
  | create {s : Pager} (pid : pid_t) (fresh : page_table_t) :
      Reachable arenaSize F D s → Reachable arenaSize F D (vm_create s pid fresh)
  | switch {s s1 : Pager} (pid : pid_t) :
      Reachable arenaSize F D s → vm_switch s pid = some s1 → Reachable arenaSize F D s1
  | extend {s s1 : Pager} (junkPte junkPage addr : Nat) :
      Reachable arenaSize F D s → vm_extend arenaSize s junkPte junkPage = some (addr, s1) →
      Reachable arenaSize F D s1
  | fault {s s1 : Pager} (addr : Nat) (write_flag : Bool) (rc : Int) :
      Reachable arenaSize F D s → addr < ULONG_MOD → vm_fault s addr write_flag = some (rc, s1) →
      Reachable arenaSize F D s1
  | syslog {s s1 : Pager} (message len : Nat) (rc : Int) :
      Reachable arenaSize F D s → message < ULONG_MOD → len < UINT_MOD →
      vm_syslog s message len = some (rc, s1) → Reachable arenaSize F D s1
  | destroy {s s1 : Pager} :
      Reachable arenaSize F D s → vm_destroy s = some s1 → Reachable arenaSize F D s1
  | store {s : Pager} (physmem : Nat → Nat) :
      Reachable arenaSize F D s → Reachable arenaSize F D { s with pm_physmem := physmem }

/-- The page record that `vm_extend` creates for the disk block `block`. -/
def newPageInfo (junkPage block : Nat) : perPageInfo :=
  { ppage := junkPage, modified := 0, notZeroFilled := 1, reference := 0, resident := 0,
    diskBlock := block }

/-- The effect of a successful `vm_extend` that creates the page `newPageNum` on the
current process, when the page table base register points to its page table. -/
def extendProcess (newPageNum junkPte junkPage block : Nat) (p : perProcessInfo) :
    perProcessInfo :=
  { pageTable :=
      { ptes := Function.update p.pageTable.ptes newPageNum
          { ppage := junkPte, read_enable := 0, write_enable := 0 } }
    pageInfo := mapInsert newPageNum (newPageInfo junkPage block) p.pageInfo
    nextVirtualADDR := (p.nextVirtualADDR + VM_PAGESIZE) % ULONG_MOD
    nextVirtualPage := (p.nextVirtualPage + 1) % ULONG_MOD }

/-- A page record and its page-table entry modified together. -/
def Pager.updatePage (s : Pager) (p : PagePtr) (f : perPageInfo → perPageInfo)
    (g : page_table_entry_t → page_table_entry_t) : Pager :=
  (s.modifyPage p f).modifyPte p.myProcess p.virtualPage g

/-- The arena bookkeeping of a process: the end of the arena and the keys of the
page records. -/
def arenaOf (p : perProcessInfo) : Nat × Nat × List Nat :=
  (p.nextVirtualADDR, p.nextVirtualPage, p.pageInfo.map Prod.fst)

/-- What replacement leaves alone: `s1` comes from `s` by steps of `getPhysPage`. Only
records and page-table entries of pages in the clock queue of `s` change, no page
enters the queue, and the host sees at most writes to the disk. -/
structure Replaced (s s1 : Pager) : Prop where
  freeBlocks : s1.freeBlocks = s.freeBlocks
  cur : s1.currentProcessInfo = s.currentProcessInfo
  ptbr : s1.page_table_base_register = s.page_table_base_register
  physmem : s1.pm_physmem = s.pm_physmem
  derefOut : ∀ h, h ∉ s.clockStructure → s1.deref h = s.deref h
  pteOut : ∀ h : PagePtr, h ∉ s.clockStructure →
    s1.pte h.myProcess h.virtualPage = s.pte h.myProcess h.virtualPage
  clockSub : ∀ h, h ∈ s1.clockStructure → h ∈ s.clockStructure
  arena : ∀ q, (s1.findProcess q).map arenaOf = (s.findProcess q).map arenaOf
  calls : ∃ l, s1.hostCalls = s.hostCalls ++ l ∧
    ∀ c ∈ l, ∃ block ppage, c = HostCall.disk_write block ppage

/-- The state after `vm_destroy` of the current process `cur`, whose entry is `p`, when
the clock queue is valid: the records of `cur` leave the queue, its physical
pages and disk blocks join the free lists in key order, the process leaves the
registry, and both `page_table_base_register` and `currentProcessInfo` point
nowhere. -/
def destroyed (s : Pager) (cur : pid_t) (p : perProcessInfo) : Pager :=
  { s with
    perProcessInfos := mapErase cur s.perProcessInfos
    clockStructure := s.clockStructure.filter (fun h => !decide (h.myProcess = cur))
    freePages := s.freePages ++ residentFrames (procRecords (cur, p))
    freeBlocks := s.freeBlocks ++ blocksOf (procRecords (cur, p))
    page_table_base_register := none
    currentProcessInfo := none }

/-- The reads of the loop of `vm_syslog`: for each of the `n` bytes from `vAddr` on, the
byte that `syslogByte` reads and the state in which it reads it; `none` when a byte
step is undefined or `vm_fault` returned `-1`. -/
def syslogReads : Nat → Pager → Nat → Option (List (Nat × Pager))
  | 0, _, _ => some []
  | n + 1, s, vAddr =>
    match syslogByte s vAddr with
    | none => none
    | some (none, _) => none
    | some (some b, s1) =>
      match syslogReads n s1 ((vAddr + 1) % ULONG_MOD) with
      | none => none
      | some l => some ((b, s1) :: l)

/-- In the state `si` the page of the address `vAddr` of process `cur` is resident
and read enabled, its page-table entry names the physical page of the record,
and `b` is the byte of physical memory at the offset of `vAddr` in that page. -/
def ByteRead (cur : pid_t) (vAddr b : Nat) (si : Pager) : Prop :=
  ∃ r e, si.deref ⟨cur, vpageOf vAddr⟩ = some r ∧ r.resident = 1 ∧
    si.pte cur (vpageOf vAddr) = some e ∧ e.read_enable = 1 ∧ e.ppage = r.ppage ∧
    b = si.pm_physmem (r.ppage * VM_PAGESIZE + (vAddr &&& (VM_PAGESIZE - 1)))

/-- No line is emitted to the log among the host calls `l`. -/
def NoSyslog (l : List HostCall) : Prop :=
  ∀ c ∈ l, ∀ output, c ≠ HostCall.syslog output

/-! ## Call sequences and example states -/

/-- A public call other than `vm_init`, with the values the source leaves
indeterminate, or a store of the host into physical memory. -/
inductive Call where
  | create (pid : pid_t) (fresh : page_table_t)
  | switch (pid : pid_t)
  | extend (junkPte junkPage : Nat)
  | fault (addr : Nat) (write_flag : Bool)
  | syslog (message len : Nat)
  | destroy
  | store (physmem : Nat → Nat)

/-- The state after one call; `none` when the call runs into undefined behaviour
or an argument does not fit its C++ type. -/
def step (arenaSize : Nat) (s : Pager) : Call → Option Pager
  | Call.create pid fresh => some (vm_create s pid fresh)
  | Call.switch pid => vm_switch s pid
  | Call.extend junkPte junkPage => (vm_extend arenaSize s junkPte junkPage).map (fun x => x.2)
  | Call.fault addr write_flag =>
    if addr < ULONG_MOD then (vm_fault s addr write_flag).map (fun x => x.2) else none
  | Call.syslog message len =>
    if message < ULONG_MOD ∧ len < UINT_MOD then (vm_syslog s message len).map (fun x => x.2)
    else none
  | Call.destroy => vm_destroy s
  | Call.store physmem => some { s with pm_physmem := physmem }

/-- The state after a sequence of calls. -/
def run (arenaSize : Nat) : Pager → List Call → Option Pager
  | s, [] => some s
  | s, c :: cs =>
    match step arenaSize s c with
    | none => none
    | some s1 => run arenaSize s1 cs

/-- The state after a sequence of calls that is known to run through. -/
def runD (arenaSize : Nat) (s : Pager) (cs : List Call) : Pager :=
  (run arenaSize s cs).getD s

/-- The process registered under a pid that is known to be registered. -/
def Pager.processD (s : Pager) (pid : pid_t) : perProcessInfo :=
  (s.findProcess pid).getD
    { pageTable := { ptes := fun _ => ⟨0, 0, 0⟩ }, pageInfo := [], nextVirtualADDR := 0,
      nextVirtualPage := 0 }

namespace Example

/-- An arena size for the examples (512 MB). -/
def arenaSize : Nat := 0x20000000

/-- An uninitialised page table: every entry claims to be readable and writable. -/
def staleTable : page_table_t := { ptes := fun _ => ⟨7, 1, 1⟩ }

/-- The pager started with `frames` physical pages and `blocks` disk blocks;
memory holds the byte 9 everywhere, the disk the byte 5. -/
def started (frames blocks : Nat) : Pager :=
  vm_init frames blocks (fun _ => 9) (fun _ _ => 5)

/-- No physical page at all: process 1 is current and owns one page. -/
def noFrames : Pager :=
  runD arenaSize (started 0 1) [Call.create 1 staleTable, Call.switch 1, Call.extend 3 4]

/-- Two physical pages, four disk blocks: process 1 is current and owns one
page. -/
def onePage : Pager :=
  runD arenaSize (started 2 4) [Call.create 1 staleTable, Call.switch 1, Call.extend 3 4]

/-- Scenario 3 of the specification: two physical pages, four disk blocks;
process 1 extends three pages, writes each of them and then reads the first one
again. -/
def evicted : Pager :=
  runD arenaSize (started 2 4)
    [Call.create 1 staleTable, Call.switch 1, Call.extend 3 4, Call.extend 3 4, Call.extend 3 4,
      Call.fault VM_ARENA_BASEADDR true, Call.fault (VM_ARENA_BASEADDR + VM_PAGESIZE) true,
      Call.fault (VM_ARENA_BASEADDR + 2 * VM_PAGESIZE) true, Call.fault VM_ARENA_BASEADDR false]

/-- The ten bytes of scenario 5, as the host places them in physical memory: page
`a` (virtual page 0) is bound to physical page 1 and page `b` to physical page 0, so
the bytes 65 .. 69 at `b-5 .. b-1` lie at the end of physical page 1 and the bytes
70 .. 74 at `b .. b+4` at the start of physical page 0. -/
def tenBytes : Nat → Nat :=
  fun a => if 16379 ≤ a ∧ a ≤ 16383 then a - 16379 + 65 else if a < 5 then a + 70 else 0

/-- Scenario 5 of the specification: process 1 extends two contiguous pages `a` and
`b`, writes to `b` and then to `a`, and the host places ten bytes starting at
`b - 5`. -/
def twoPages : Pager :=
  runD arenaSize (started 2 4)
    [Call.create 1 staleTable, Call.switch 1, Call.extend 3 4, Call.extend 3 4,
      Call.fault (VM_ARENA_BASEADDR + VM_PAGESIZE) true,
      Call.fault (VM_ARENA_BASEADDR + VM_PAGESIZE - 5) true, Call.store tenBytes]

/-- The line that `vm_syslog` emitted last, with its return value. -/
def emitted (x : Option (Int × Pager)) : Option (Int × Option HostCall) :=
  x.map (fun y => (y.1, y.2.hostCalls.getLast?))

end Example

/-! ## Observations of the replacement scan -/

/-- The reference bit of the record behind a pointer (`0` when the pointer points
nowhere). -/
def refBit (s : Pager) (h : PagePtr) : Nat :=
  match s.deref h with
  | some r => r.reference
  | none => 0

/-- What the body of the loop of `secondChance` does to the record of `curr` and to
its page-table entry. -/
def clearRef (s : Pager) (curr : PagePtr) : Pager :=
  (s.modifyPte curr.myProcess curr.virtualPage
    (fun e => { e with read_enable := 0, write_enable := 0 })).modifyPage curr
    (fun r => { r with reference := 0 })

/-- The loop body of `secondChance` applied to the records of a list of pointers. -/
def clearRefs : List PagePtr → Pager → Pager
  | [], s => s
  | h :: t, s => clearRefs t (clearRef s h)

/-- The state after `k` executions of the body of the loop of `secondChance`. -/
def rotations : Nat → Pager → Option Pager
  | 0, s => some s
  | k + 1, s =>
    match s.clockStructure with
    | [] => none
    | curr :: rest => rotations k (rotateFront s curr rest)

/-- The condition of the loop of `secondChance`:
`clockStructure.front()->reference == 1`. -/
def frontReferenced (s : Pager) : Option Bool :=
  match s.clockStructure with
  | [] => none
  | curr :: _ =>
    match s.deref curr with
    | none => none
    | some r => some (decide (r.reference = 1))

/-- The entries at the front of the clock queue that the scan of `secondChance`
passes over: the longest prefix of records with a set reference bit. -/
def passedOver (s : Pager) : List PagePtr :=
  s.clockStructure.takeWhile (fun h => decide (refBit s h = 1))

/-- The entries of the clock queue that the scan does not pass over. -/
def notPassed (s : Pager) : List PagePtr :=
  s.clockStructure.dropWhile (fun h => decide (refBit s h = 1))

/-- The state in which the scan of `secondChance` leaves its loop. -/
def scanned (s : Pager) : Pager :=
  { clearRefs (passedOver s) s with clockStructure := notPassed s ++ passedOver s }

namespace Example

/-- Three physical pages, four disk blocks: process 1 writes its pages `a`, `b`,
`c`, `d` in turn and then reads `b`. The clock queue is `b, c, d` and only `c` has a
clear reference bit. -/
def mixed : Pager :=
  runD arenaSize (started 3 4)
    [Call.create 1 staleTable, Call.switch 1, Call.extend 3 4, Call.extend 3 4, Call.extend 3 4,
      Call.extend 3 4,
      Call.fault VM_ARENA_BASEADDR true, Call.fault (VM_ARENA_BASEADDR + VM_PAGESIZE) true,
      Call.fault (VM_ARENA_BASEADDR + 2 * VM_PAGESIZE) true,
      Call.fault (VM_ARENA_BASEADDR + 3 * VM_PAGESIZE) true,
      Call.fault (VM_ARENA_BASEADDR + VM_PAGESIZE) false]

/-- A state that no sequence of calls reaches: one physical page, bound to the
only page of process 1 after a read fault, whose record is then marked
modified. The page is resident and read enabled, not write enabled, with
`notZeroFilled = 1` and `modified = 1`. -/
def dirtyZero : Pager :=
  (runD arenaSize (started 1 2)
    [Call.create 1 staleTable, Call.switch 1, Call.extend 3 4,
      Call.fault VM_ARENA_BASEADDR false]).modifyPage ⟨1, 0⟩ (fun r => { r with modified := 1 })

end Example

/-! ## The logical content of pages -/

/-- The logical content of a page record, byte by byte: the bytes of its
physical page when it is resident, zero when it is not resident and zero pending,
and the bytes of its disk block otherwise. -/
def pageContent (s : Pager) (r : perPageInfo) (off : Nat) : Nat :=
  if r.resident = 1 then s.pm_physmem (r.ppage * VM_PAGESIZE + off)
  else if r.notZeroFilled ≠ 0 then 0
  else s.disk r.diskBlock off

/-- The coherence condition: every resident record that is neither modified nor
zero pending has the bytes of its disk block in its physical page, and every
resident record that is zero pending has a physical page of zeros. -/
def Coherent (s : Pager) : Prop :=
  ∀ h r, s.deref h = some r → r.resident = 1 →
    (r.modified = 0 → r.notZeroFilled = 0 → ∀ off, off < VM_PAGESIZE →
      s.pm_physmem (r.ppage * VM_PAGESIZE + off) = s.disk r.diskBlock off) ∧
    (r.notZeroFilled ≠ 0 → ∀ off, off < VM_PAGESIZE →
      s.pm_physmem (r.ppage * VM_PAGESIZE + off) = 0)

/-- The frame partition invariant (P1) for `F` physical pages: the free pages and
the pages of the resident records are `0 .. F-1`, each once. -/
def FramePartition (F : Nat) (s : Pager) : Prop :=
  (s.freePages ++ residentFrames s.records).Perm (List.range F)

/-- The block partition invariant (P2) for `D` disk blocks: the free blocks and the
blocks of the page records are `0 .. D-1`, each once. -/
def BlockPartition (D : Nat) (s : Pager) : Prop :=
  (s.freeBlocks ++ blocksOf s.records).Perm (List.range D)

namespace Example

/-- A state that no sequence of calls reaches, with one physical page and two disk
blocks. Page 0 of process 1 is resident in the physical page 0 and modified;
page 1 was written to its block 1 and is not resident. Memory holds the byte 9
everywhere and the disk the byte 5. The clock queue, however, lists page 1 and
not page 0. -/
def strayClock : Pager :=
  { perProcessInfos :=
      [(1, { pageTable := { ptes := fun i => if i = 0 then ⟨0, 1, 1⟩ else ⟨0, 0, 0⟩ }
             pageInfo := [(0, ⟨0, 1, 0, 1, 1, 0⟩), (1, ⟨0, 0, 0, 0, 0, 1⟩)]
             nextVirtualADDR := VM_ARENA_BASEADDR + 2 * VM_PAGESIZE
             nextVirtualPage := 2 })]
    clockStructure := [⟨1, 1⟩]
    freeBlocks := []
    freePages := []
    currentProcessInfo := some 1
    page_table_base_register := some 1
    pm_physmem := fun _ => 9
    disk := fun _ _ => 5
    hostCalls := [] }

end Example

/-! ## The clock queue with reference bits, and sequences of faults -/

/-- The clock queue together with the reference bit of each of its records. -/
def clockView (s : Pager) : List (PagePtr × Nat) :=
  s.clockStructure.map (fun h => (h, refBit s h))

/-- What the scan of `secondChance` does to the clock queue with its reference
bits: the referenced entries at the front move to the back with their bit
cleared. -/
def viewScan (v : List (PagePtr × Nat)) : List (PagePtr × Nat) :=
  v.dropWhile (fun x => decide (x.2 = 1)) ++
    (v.takeWhile (fun x => decide (x.2 = 1))).map (fun x => (x.1, 0))

/-- What a fault on the page `p` does to the clock queue with its reference bits
when there are `F` physical pages, and the pages it evicts: a resident page gets
its bit set; otherwise the page joins the queue, after the eviction of the
front of the scanned queue when the queue is full. -/
def viewFault (F : Nat) (v : List (PagePtr × Nat)) (p : PagePtr) :
    List PagePtr × List (PagePtr × Nat) :=
  if p ∈ v.map Prod.fst then ([], v.map (fun x => if x.1 = p then (x.1, 1) else x))
  else if v.length < F then ([], v ++ [(p, 1)])
  else (((viewScan v).head?.map Prod.fst).toList, (viewScan v).tail ++ [(p, 1)])

/-- A sequence of faults on the clock queue with its reference bits: the pages
evicted by each fault and the final queue. -/
def viewRun (F : Nat) : List (PagePtr × Nat) → List PagePtr →
    List (List PagePtr) × List (PagePtr × Nat)
  | v, [] => ([], v)
  | v, p :: ps =>
    ((viewFault F v p).1 :: (viewRun F (viewFault F v p).2 ps).1,
      (viewRun F (viewFault F v p).2 ps).2)

/-- The pages that a step from `s` to `s1` evicted: the page records that are
resident in `s` and not resident in `s1`. -/
def evictedBy (s s1 : Pager) : List PagePtr :=
  (residentPtrs s.records).filter (fun h => !decide (h ∈ residentPtrs s1.records))

/-- A sequence of `vm_fault` calls, given by their addresses and write flags: the
pages evicted by each call, and the final state. -/
def faultTrace : Pager → List (Nat × Bool) → Option (List (List PagePtr) × Pager)
  | s, [] => some ([], s)
  | s, a :: rest =>
    match vm_fault s a.1 a.2 with
    | none => none
    | some (_, s1) =>
      match faultTrace s1 rest with
      | none => none
      | some (evs, s2) => some (evictedBy s s1 :: evs, s2)

/-- The invariant behind the bound on evictions in a working set `W`: `N` lists the
pages that entered the clock queue `v` since the faults on `W` began. They are
pages of `W`; no referenced page outside `W` stands behind one of them; when one of
them is unreferenced no page outside `W` is referenced; and no page outside `W`
stands behind an unreferenced one of them. -/
structure Fresh (W : Finset PagePtr) (N : List PagePtr) (v : List (PagePtr × Nat)) : Prop where
  sub : ∀ x ∈ N, x ∈ W
  ahead : v.Pairwise (fun x y => ¬ (x.1 ∈ N ∧ y.1 ∉ W ∧ y.2 = 1))
  clean : (∃ x ∈ v, x.1 ∈ N ∧ x.2 ≠ 1) → ∀ y ∈ v, y.1 ∉ W → y.2 ≠ 1
  behind : v.Pairwise (fun x y => ¬ (x.1 ∈ N ∧ x.2 ≠ 1 ∧ y.1 ∉ W))

/-- The number of entries of the clock queue `v` that are not among the pages `N`. -/
def oldCount (N : List PagePtr) (v : List (PagePtr × Nat)) : Nat :=
  ((v.map Prod.fst).filter (fun h => !decide (h ∈ N))).length

/-- Faults on the pages `a`, `b`, `d`, `a` of process 1: a write, a read, a write and a
read. -/
def Example.retouch : List (Nat × Bool) :=
  [(VM_ARENA_BASEADDR, true), (VM_ARENA_BASEADDR + VM_PAGESIZE, false),
    (VM_ARENA_BASEADDR + 3 * VM_PAGESIZE, true), (VM_ARENA_BASEADDR, false)]

/-! ## Accesses of the application -/

/-- Modelled from the spec: an access of the application to the address `addr`. The
hardware looks up the entry of the page in the table that the page table base
register points to. When the bit that the access needs is set (`write_enable` for a
write, `read_enable` for a read) the access goes ahead and the pager is not called;
otherwise the access traps to `vm_fault`. -/
def hostAccess (s : Pager) (addr : Nat) (write_flag : Bool) : Option Pager :=
  match s.page_table_base_register with
  | none => none
  | some pt =>
    match s.pte pt (vpageOf addr) with
    | none => none
    | some e =>
      if (if write_flag then e.write_enable else e.read_enable) = 1 then some s
      else (vm_fault s addr write_flag).map (fun x => x.2)

/-- A sequence of accesses of the application. -/
def hostAccesses : Pager → List (Nat × Bool) → Option Pager
  | s, [] => some s
  | s, a :: rest =>
    match hostAccess s a.1 a.2 with
    | none => none
    | some s1 => hostAccesses s1 rest

/-- The resident bits of the pages `0 .. n-1` of the process `pid`. -/
def residentBits (s : Pager) (pid : pid_t) (n : Nat) : List (Option Nat) :=
  (List.range n).map (fun k => (s.deref ⟨pid, k⟩).map (fun r => r.resident))

/-- The calls `vm_create pid`, `vm_switch pid` and one `vm_extend` for each pair of
junk values (what the new page-table entry and the new record hold in the fields
that `vm_extend` does not initialise). -/
def setup (pid : pid_t) (fresh : page_table_t) (junk : List (Nat × Nat)) : List Call :=
  Call.create pid fresh :: Call.switch pid :: junk.map (fun j => Call.extend j.1 j.2)

/-- Two physical pages, four disk blocks: process 1 is current and owns the pages
`a`, `b` and `c`, none of them touched. -/
def Example.threePages : Pager :=
  runD Example.arenaSize (Example.started 2 4)
    (setup 1 Example.staleTable [(3, 4), (3, 4), (3, 4)])

/-- Writes to the pages `a`, `b`, `c`. -/
def Example.fill : List (Nat × Bool) :=
  [(VM_ARENA_BASEADDR, true), (VM_ARENA_BASEADDR + VM_PAGESIZE, true),
    (VM_ARENA_BASEADDR + 2 * VM_PAGESIZE, true)]

/-- Writes to the pages `a`, `b`, `a`, `c`. -/
def Example.writes : List (Nat × Bool) :=
  [(VM_ARENA_BASEADDR, true), (VM_ARENA_BASEADDR + VM_PAGESIZE, true),
    (VM_ARENA_BASEADDR, true), (VM_ARENA_BASEADDR + 2 * VM_PAGESIZE, true)]
/-! ## Association lists: basic facts -/

theorem mapFind_mapModify {κ β : Type} [DecidableEq κ] (k k2 : κ) (f : β → β)
    (m : List (κ × β)) :
    mapFind k2 (mapModify k f m) = if k2 = k then (mapFind k m).map f else mapFind k2 m := by
  induction m with
  | nil => simp [mapFind, mapModify]
  | cons e t ih =>
    unfold mapModify at ih ⊢
    by_cases h1 : e.1 = k <;> by_cases h2 : k2 = k <;>
      by_cases h3 : e.1 = k2 <;> simp_all [mapFind]

theorem mapModify_keys {κ β : Type} [DecidableEq κ] (k : κ) (f : β → β) (m : List (κ × β)) :
    (mapModify k f m).map Prod.fst = m.map Prod.fst := by
  induction m with
  | nil => rfl
  | cons e t ih =>
    unfold mapModify at ih ⊢
    by_cases h1 : e.1 = k <;> simp_all

theorem mapFind_mem {κ β : Type} [DecidableEq κ] {k : κ} {v : β} {m : List (κ × β)}
    (h : mapFind k m = some v) : (k, v) ∈ m := by
  induction m with
  | nil => simp [mapFind] at h
  | cons e t ih =>
    by_cases h1 : e.1 = k
    · simp [mapFind, h1] at h
      subst h; subst h1; simp
    · simp [mapFind, h1] at h
      exact List.mem_cons_of_mem _ (ih h)

theorem mapFind_eq_none_iff {κ β : Type} [DecidableEq κ] {k : κ} {m : List (κ × β)} :
    mapFind k m = none ↔ k ∉ m.map Prod.fst := by
  induction m with
  | nil => simp [mapFind]
  | cons e t ih =>
    by_cases h1 : e.1 = k
    · simp [mapFind, h1]
    · simp only [mapFind, h1, if_false, ih, List.map_cons, List.mem_cons, not_or]
      constructor
      · intro h; exact ⟨fun h2 => h1 h2.symm, h⟩
      · intro h; exact h.2

theorem mapFind_of_mem {κ β : Type} [DecidableEq κ] {k : κ} {v : β} {m : List (κ × β)}
    (hn : (m.map Prod.fst).Nodup) (h : (k, v) ∈ m) : mapFind k m = some v := by
  induction m with
  | nil => simp at h
  | cons e t ih =>
    simp only [List.map_cons, List.nodup_cons] at hn
    rcases List.mem_cons.1 h with h1 | h1
    · subst h1; simp [mapFind]
    · have : e.1 ≠ k := by
        intro h2
        apply hn.1
        rw [h2]
        exact List.mem_map.2 ⟨(k, v), h1, rfl⟩
      simp [mapFind, this, ih hn.2 h1]

theorem mapModify_absent {κ β : Type} [DecidableEq κ] {k : κ} (f : β → β) {m : List (κ × β)}
    (h : k ∉ m.map Prod.fst) : mapModify k f m = m := by
  induction m with
  | nil => rfl
  | cons e t ih =>
    simp only [List.map_cons, List.mem_cons, not_or] at h
    have h1 : ¬ e.1 = k := fun h2 => h.1 h2.symm
    unfold mapModify at ih ⊢
    simp [h1, ih h.2]

theorem mapModify_split {κ β : Type} [DecidableEq κ] {k : κ} {v : β} (f : β → β)
    {m : List (κ × β)} (hn : (m.map Prod.fst).Nodup) (h : mapFind k m = some v) :
    ∃ X Y, m = X ++ (k, v) :: Y ∧ mapModify k f m = X ++ (k, f v) :: Y := by
  obtain ⟨X, Y, hm⟩ := List.append_of_mem (mapFind_mem h)
  refine ⟨X, Y, hm, ?_⟩
  subst hm
  simp only [List.map_append, List.map_cons, List.nodup_append, List.nodup_cons] at hn
  have hX : k ∉ X.map Prod.fst := by
    intro hk
    exact hn.2.2 hk (List.mem_cons_self _ _)
  have hY : k ∉ Y.map Prod.fst := hn.2.1.1
  have e1 := mapModify_absent f hX
  have e2 := mapModify_absent f hY
  unfold mapModify at e1 e2 ⊢
  simp [e1, e2]

theorem mapErase_absent {κ β : Type} [DecidableEq κ] {k : κ} {m : List (κ × β)}
    (h : k ∉ m.map Prod.fst) : mapErase k m = m := by
  unfold mapErase
  rw [List.filter_eq_self]
  intro e he
  simp only [Bool.not_eq_true', decide_eq_false_iff_not]
  intro h1
  exact h (List.mem_map.2 ⟨e, he, h1⟩)

theorem mapErase_split {κ β : Type} [DecidableEq κ] {k : κ} {v : β}
    {m : List (κ × β)} (hn : (m.map Prod.fst).Nodup) (h : mapFind k m = some v) :
    ∃ X Y, m = X ++ (k, v) :: Y ∧ mapErase k m = X ++ Y := by
  obtain ⟨X, Y, hm⟩ := List.append_of_mem (mapFind_mem h)
  refine ⟨X, Y, hm, ?_⟩
  subst hm
  simp only [List.map_append, List.map_cons, List.nodup_append, List.nodup_cons] at hn
  have hX : k ∉ X.map Prod.fst := by
    intro hk
    exact hn.2.2 hk (List.mem_cons_self _ _)
  have hY : k ∉ Y.map Prod.fst := hn.2.1.1
  have e1 := mapErase_absent hX
  have e2 := mapErase_absent hY
  unfold mapErase at e1 e2 ⊢
  rw [List.filter_append, List.filter_cons, e1, e2]
  simp

theorem mapInsert_present {κ β : Type} [DecidableEq κ] [LT κ]
    [DecidableRel (fun a b : κ => a < b)] {k : κ} (v : β) {m : List (κ × β)}
    (h : k ∈ m.map Prod.fst) : mapInsert k v m = m := by
  unfold mapInsert
  cases hf : mapFind k m with
  | none => exact absurd h (mapFind_eq_none_iff.1 hf)
  | some x => rfl

theorem insertSorted_split {κ β : Type} [LT κ] [DecidableRel (fun a b : κ => a < b)]
    (k : κ) (v : β) (m : List (κ × β)) :
    ∃ X Y, m = X ++ Y ∧ insertSorted k v m = X ++ (k, v) :: Y := by
  induction m with
  | nil => exact ⟨[], [], rfl, rfl⟩
  | cons e t ih =>
    by_cases h : k < e.1
    · exact ⟨[], e :: t, rfl, by simp [insertSorted, h]⟩
    · obtain ⟨X, Y, h1, h2⟩ := ih
      exact ⟨e :: X, Y, by simp [h1], by simp [insertSorted, h, h2]⟩

theorem mapInsert_split {κ β : Type} [DecidableEq κ] [LT κ]
    [DecidableRel (fun a b : κ => a < b)] {k : κ} (v : β) {m : List (κ × β)}
    (h : mapFind k m = none) :
    ∃ X Y, m = X ++ Y ∧ mapInsert k v m = X ++ (k, v) :: Y := by
  unfold mapInsert
  rw [h]
  exact insertSorted_split k v m

theorem insertSorted_last {β : Type} (k : Nat) (v : β) (m : List (Nat × β))
    (h : ∀ e ∈ m, e.1 < k) : insertSorted k v m = m ++ [(k, v)] := by
  induction m with
  | nil => rfl
  | cons e t ih =>
    have h1 : ¬ k < e.1 := Nat.not_lt.2 (Nat.le_of_lt (h e (List.mem_cons_self _ _)))
    simp [insertSorted, h1, ih (fun x hx => h x (List.mem_cons_of_mem _ hx))]

/-! ## Access to the state: basic facts -/

theorem findProcess_modifyProcess (s : Pager) (pid q : pid_t)
    (f : perProcessInfo → perProcessInfo) :
    (s.modifyProcess pid f).findProcess q =
      if q = pid then (s.findProcess pid).map f else s.findProcess q :=
  mapFind_mapModify pid q f s.perProcessInfos

theorem deref_modifyProcess_pageInfo (s : Pager) (pid : pid_t)
    (f : perProcessInfo → perProcessInfo) (hf : ∀ p, (f p).pageInfo = p.pageInfo)
    (h : PagePtr) : (s.modifyProcess pid f).deref h = s.deref h := by
  unfold Pager.deref
  rw [findProcess_modifyProcess]
  by_cases h1 : h.myProcess = pid
  · rw [if_pos h1, ← h1]
    cases s.findProcess h.myProcess <;> simp [hf]
  · rw [if_neg h1]

theorem deref_modifyPte (s : Pager) (pid : pid_t) (i : Nat)
    (f : page_table_entry_t → page_table_entry_t) (h : PagePtr) :
    (s.modifyPte pid i f).deref h = s.deref h := by
  unfold Pager.modifyPte
  apply deref_modifyProcess_pageInfo
  intro p
  rfl

theorem deref_modifyPage (s : Pager) (h h2 : PagePtr) (f : perPageInfo → perPageInfo) :
    (s.modifyPage h f).deref h2 = if h2 = h then (s.deref h).map f else s.deref h2 := by
  unfold Pager.deref Pager.modifyPage
  rw [findProcess_modifyProcess]
  by_cases h1 : h2.myProcess = h.myProcess
  · rw [if_pos h1, h1]
    cases hp : s.findProcess h.myProcess with
    | none => simp
    | some pr =>
      simp only [Option.map_some']
      rw [mapFind_mapModify]
      by_cases h3 : h2.virtualPage = h.virtualPage
      · have : h2 = h := by
          cases h2; cases h; simp_all
        simp [this]
      · have : h2 ≠ h := fun e => h3 (by rw [e])
        simp [h3, this]
  · have : h2 ≠ h := fun e => h1 (by rw [e])
    simp [h1, this]

theorem pte_modifyPage (s : Pager) (h : PagePtr) (f : perPageInfo → perPageInfo)
    (pid : pid_t) (i : Nat) : (s.modifyPage h f).pte pid i = s.pte pid i := by
  unfold Pager.pte Pager.modifyPage
  rw [findProcess_modifyProcess]
  by_cases h1 : pid = h.myProcess
  · rw [if_pos h1, h1]
    cases s.findProcess h.myProcess <;> simp
  · rw [if_neg h1]

theorem pte_modifyPte (s : Pager) (pid q : pid_t) (i j : Nat)
    (f : page_table_entry_t → page_table_entry_t) :
    (s.modifyPte pid i f).pte q j =
      if q = pid ∧ j = i then (s.pte pid i).map f else s.pte q j := by
  unfold Pager.pte Pager.modifyPte
  rw [findProcess_modifyProcess]
  by_cases h1 : q = pid
  · subst h1
    cases s.findProcess q with
    | none => simp
    | some pr =>
      by_cases h2 : j = i
      · subst h2; simp
      · simp [h2, Function.update_apply]
  · simp [h1]

theorem mapModify_append {κ β : Type} [DecidableEq κ] (k : κ) (f : β → β)
    (a b : List (κ × β)) : mapModify k f (a ++ b) = mapModify k f a ++ mapModify k f b := by
  simp [mapModify]

theorem procRecords_keys_pid (e : pid_t × perProcessInfo) :
    ∀ x ∈ procRecords e, x.1.myProcess = e.1 := by
  intro x hx
  obtain ⟨y, _, hy⟩ := List.mem_map.1 hx
  rw [← hy]

theorem records_modifyProcess_pageInfo (s : Pager) (pid : pid_t)
    (f : perProcessInfo → perProcessInfo) (hf : ∀ p, (f p).pageInfo = p.pageInfo) :
    (s.modifyProcess pid f).records = s.records := by
  unfold Pager.records Pager.modifyProcess mapModify
  simp only [List.flatMap_map]
  congr 1
  funext e
  by_cases h1 : e.1 = pid <;> simp [h1, procRecords, hf]

theorem records_modifyPte (s : Pager) (pid : pid_t) (i : Nat)
    (f : page_table_entry_t → page_table_entry_t) :
    (s.modifyPte pid i f).records = s.records := by
  unfold Pager.modifyPte
  apply records_modifyProcess_pageInfo
  intro p
  rfl

theorem records_modifyPage (s : Pager) (h : PagePtr) (f : perPageInfo → perPageInfo) :
    (s.modifyPage h f).records = mapModify h f s.records := by
  unfold Pager.records Pager.modifyPage Pager.modifyProcess
  generalize s.perProcessInfos = l
  induction l with
  | nil => rfl
  | cons e t ih =>
    have ih2 := ih
    unfold mapModify at ih ⊢
    simp only [List.map_cons, List.flatMap_cons, List.map_append]
    rw [ih]
    congr 1
    by_cases h1 : e.1 = h.myProcess
    · simp only [h1, if_true, procRecords, List.map_map]
      apply List.map_congr_left
      intro x _
      by_cases h2 : x.1 = h.virtualPage
      · have : (⟨h.myProcess, x.1⟩ : PagePtr) = h := by cases h; simp_all
        simp [h2, this]
      · have : (⟨h.myProcess, x.1⟩ : PagePtr) ≠ h := fun e => h2 (by rw [← e])
        simp [h2, this]
    · simp only [h1, if_false]
      symm
      have := mapModify_absent f (k := h) (m := procRecords e) (by
        intro hk
        obtain ⟨x, hx, hx2⟩ := List.mem_map.1 hk
        have := procRecords_keys_pid e x hx
        rw [hx2] at this
        exact h1 this.symm)
      unfold mapModify at this
      exact this

theorem mapFind_append {κ β : Type} [DecidableEq κ] (k : κ) (a b : List (κ × β)) :
    mapFind k (a ++ b) = match mapFind k a with
      | some v => some v
      | none => mapFind k b := by
  induction a with
  | nil => rfl
  | cons e t ih =>
    by_cases h : e.1 = k <;> simp [mapFind, h, ih]

theorem mapFind_procRecords (e : pid_t × perProcessInfo) (h : PagePtr) :
    mapFind h (procRecords e) =
      if e.1 = h.myProcess then mapFind h.virtualPage e.2.pageInfo else none := by
  unfold procRecords
  generalize e.2.pageInfo = l
  induction l with
  | nil => simp [mapFind]
  | cons x t ih =>
    by_cases h1 : e.1 = h.myProcess
    · by_cases h2 : x.1 = h.virtualPage
      · have : (⟨e.1, x.1⟩ : PagePtr) = h := by cases h; simp_all
        simp [mapFind, h1, h2, this]
      · have : (⟨e.1, x.1⟩ : PagePtr) ≠ h := fun e => h2 (by rw [← e])
        simp only [List.map_cons, mapFind, this, h2, if_false]
        rw [ih]
    · have : (⟨e.1, x.1⟩ : PagePtr) ≠ h := fun e => h1 (by rw [← e])
      simp only [List.map_cons, mapFind, this, h1, if_false]
      rw [ih]
      simp [h1]

/-- With distinct pids, dereferencing a page pointer is the lookup in the list
of all records. -/
theorem deref_eq_mapFind_records (s : Pager) (hn : (s.perProcessInfos.map Prod.fst).Nodup)
    (h : PagePtr) : s.deref h = mapFind h s.records := by
  unfold Pager.deref Pager.findProcess Pager.records
  generalize s.perProcessInfos = l at hn
  induction l with
  | nil => simp [mapFind]
  | cons e t ih =>
    simp only [List.map_cons, List.nodup_cons] at hn
    simp only [List.flatMap_cons]
    rw [mapFind_append, mapFind_procRecords]
    by_cases h1 : e.1 = h.myProcess
    · simp only [mapFind, h1, if_true]
      cases hf : mapFind h.virtualPage e.2.pageInfo with
      | some v => rfl
      | none =>
        simp only
        symm
        rw [mapFind_eq_none_iff]
        intro hk
        obtain ⟨x, hx, hx2⟩ := List.mem_map.1 hk
        obtain ⟨e2, he2, hx3⟩ := List.mem_flatMap.1 hx
        have := procRecords_keys_pid e2 x hx3
        rw [hx2] at this
        apply hn.1
        rw [h1, this]
        exact List.mem_map.2 ⟨e2, he2, rfl⟩
    · simp only [mapFind, h1, if_false]
      exact ih hn.2

theorem procRecords_keys_nodup (e : pid_t × perProcessInfo)
    (hk : (e.2.pageInfo.map Prod.fst).Nodup) : ((procRecords e).map Prod.fst).Nodup := by
  unfold procRecords
  rw [List.map_map]
  have : (Prod.fst ∘ fun x : Nat × perPageInfo => ((⟨e.1, x.1⟩ : PagePtr), x.2)) =
      (fun k => (⟨e.1, k⟩ : PagePtr)) ∘ Prod.fst := rfl
  rw [this, ← List.map_map]
  apply List.Nodup.map _ hk
  intro a b hab
  simpa using hab

theorem records_keys_nodup (s : Pager) (hn : (s.perProcessInfos.map Prod.fst).Nodup)
    (hk : ∀ e ∈ s.perProcessInfos, (e.2.pageInfo.map Prod.fst).Nodup) :
    (s.records.map Prod.fst).Nodup := by
  unfold Pager.records
  generalize s.perProcessInfos = l at hn hk
  induction l with
  | nil => simp
  | cons e t ih =>
    simp only [List.map_cons, List.nodup_cons] at hn
    simp only [List.flatMap_cons, List.map_append]
    rw [List.nodup_append]
    refine ⟨procRecords_keys_nodup e (hk e (List.mem_cons_self _ _)),
      ih hn.2 (fun x hx => hk x (List.mem_cons_of_mem _ hx)), ?_⟩
    intro a ha hb
    obtain ⟨x, hx, hx2⟩ := List.mem_map.1 ha
    obtain ⟨y, hy, hy2⟩ := List.mem_map.1 hb
    obtain ⟨e2, he2, hy3⟩ := List.mem_flatMap.1 hy
    have p1 := procRecords_keys_pid e x hx
    have p2 := procRecords_keys_pid e2 y hy3
    rw [hx2] at p1
    rw [hy2] at p2
    apply hn.1
    rw [← p1, p2]
    exact List.mem_map.2 ⟨e2, he2, rfl⟩

/-! ## Replacement: the scan terminates and keeps the records in place -/

theorem deref_rotateFront (s : Pager) (curr : PagePtr) (rest : List PagePtr) (h : PagePtr) :
    (rotateFront s curr rest).deref h =
      if h = curr then (s.deref curr).map (fun r => { r with reference := 0 })
      else s.deref h := by
  have : (rotateFront s curr rest).deref h =
      ((s.modifyPte curr.myProcess curr.virtualPage
        (fun e => { e with read_enable := 0, write_enable := 0 })).modifyPage curr
        (fun r => { r with reference := 0 })).deref h := rfl
  rw [this, deref_modifyPage, deref_modifyPte, deref_modifyPte]

theorem clock_rotateFront (s : Pager) (curr : PagePtr) (rest : List PagePtr) :
    (rotateFront s curr rest).clockStructure = rest ++ [curr] := rfl

theorem scanClock_eq (fuel : Nat) (s : Pager) :
    scanClock fuel s =
      match s.clockStructure with
      | [] => none
      | curr :: rest =>
        match s.deref curr with
        | none => none
        | some r =>
          if r.reference = 1 then
            match fuel with
            | 0 => none
            | n + 1 => scanClock n (rotateFront s curr rest)
          else some s := by
  cases fuel <;> rw [scanClock]

/-- A property that every rotation preserves holds after the scan, and the scan
stops in front of a record whose reference bit is clear. -/
theorem scanClock_induct (Q : Pager → Prop)
    (hrot : ∀ s curr rest r, Q s → s.clockStructure = curr :: rest → s.deref curr = some r →
      r.reference = 1 → Q (rotateFront s curr rest)) :
    ∀ (n : Nat) (s s1 : Pager), Q s → scanClock n s = some s1 →
      Q s1 ∧ ∃ curr rest r, s1.clockStructure = curr :: rest ∧ s1.deref curr = some r ∧
        r.reference ≠ 1 := by
  intro n
  induction n with
  | zero =>
    intro s s1 hq hs
    rw [scanClock_eq] at hs
    cases hc : s.clockStructure with
    | nil => simp [hc] at hs
    | cons curr rest =>
      cases hd : s.deref curr with
      | none => simp [hc, hd] at hs
      | some r =>
        by_cases hr : r.reference = 1
        · simp [hc, hd, hr] at hs
        · simp only [hc, hd, hr, if_false, Option.some.injEq] at hs
          subst hs
          exact ⟨hq, curr, rest, r, hc, hd, hr⟩
  | succ n ih =>
    intro s s1 hq hs
    rw [scanClock_eq] at hs
    cases hc : s.clockStructure with
    | nil => simp [hc] at hs
    | cons curr rest =>
      cases hd : s.deref curr with
      | none => simp [hc, hd] at hs
      | some r =>
        by_cases hr : r.reference = 1
        · simp only [hc, hd, hr, if_true] at hs
          exact ih _ _ (hrot s curr rest r hq hc hd hr) hs
        · simp only [hc, hd, hr, if_false, Option.some.injEq] at hs
          subst hs
          exact ⟨hq, curr, rest, r, hc, hd, hr⟩

/-- The scan returns when it may rotate once per queue entry: the entries `done`
already passed have a clear reference bit, so the scan stops at the latest when
it comes back to them. -/
theorem scanClock_defined : ∀ (n : Nat) (s : Pager) (rest done : List PagePtr),
    s.clockStructure = rest ++ done → rest.length ≤ n → s.clockStructure ≠ [] →
    (∀ h ∈ s.clockStructure, s.deref h ≠ none) →
    (∀ h ∈ done, ∀ r, s.deref h = some r → r.reference ≠ 1) →
    ∃ s1, scanClock n s = some s1 := by
  intro n
  induction n with
  | zero =>
    intro s rest done hc hl hne hv hdone
    have hrest : rest = [] := List.length_eq_zero.1 (Nat.le_zero.1 hl)
    subst hrest
    rw [scanClock_eq]
    cases hcl : s.clockStructure with
    | nil => exact absurd hcl hne
    | cons curr t =>
      have hmem : curr ∈ s.clockStructure := by rw [hcl]; exact List.mem_cons_self _ _
      cases hd : s.deref curr with
      | none => exact absurd hd (hv curr hmem)
      | some r =>
        have : r.reference ≠ 1 := by
          apply hdone curr _ r hd
          rw [hc] at hmem
          simpa using hmem
        simp [hd, this]
  | succ n ih =>
    intro s rest done hc hl hne hv hdone
    rw [scanClock_eq]
    cases hcl : s.clockStructure with
    | nil => exact absurd hcl hne
    | cons curr t =>
      have hmem : curr ∈ s.clockStructure := by rw [hcl]; exact List.mem_cons_self _ _
      cases hd : s.deref curr with
      | none => exact absurd hd (hv curr hmem)
      | some r =>
        by_cases hr : r.reference = 1
        · simp only [hd, hr, if_true]
          cases rest with
          | nil =>
            exfalso
            apply hdone curr _ r hd hr
            rw [hc] at hmem
            simpa using hmem
          | cons c rest2 =>
            rw [hcl] at hc
            simp only [List.cons_append, List.cons.injEq] at hc
            obtain ⟨hcc, ht⟩ := hc
            subst hcc
            apply ih (rotateFront s curr t) rest2 (done ++ [curr])
            · rw [clock_rotateFront, ht]; simp
            · simpa using hl
            · rw [clock_rotateFront]; simp
            · intro h hh
              rw [deref_rotateFront]
              by_cases e : h = curr
              · simp [e, hd]
              · rw [if_neg e]
                apply hv
                rw [clock_rotateFront] at hh
                rw [hcl]
                simp only [List.mem_append, List.mem_singleton] at hh
                rcases hh with hh | hh
                · exact List.mem_cons_of_mem _ hh
                · exact absurd hh e
            · intro h hh r2 hr2
              rw [deref_rotateFront] at hr2
              by_cases e : h = curr
              · rw [if_pos e, hd] at hr2
                simp only [Option.map_some', Option.some.injEq] at hr2
                rw [← hr2]
                simp
              · rw [if_neg e] at hr2
                simp only [List.mem_append, List.mem_singleton] at hh
                rcases hh with hh | hh
                · exact hdone h hh r2 hr2
                · exact absurd hh e
        · simp [hd, hr]

theorem deref_congr {s s1 : Pager} (h : s1.perProcessInfos = s.perProcessInfos) (p : PagePtr) :
    s1.deref p = s.deref p := by
  unfold Pager.deref Pager.findProcess
  rw [h]

theorem pte_congr {s s1 : Pager} (h : s1.perProcessInfos = s.perProcessInfos) (pid : pid_t)
    (i : Nat) : s1.pte pid i = s.pte pid i := by
  unfold Pager.pte Pager.findProcess
  rw [h]

theorem findProcess_congr {s s1 : Pager} (h : s1.perProcessInfos = s.perProcessInfos)
    (pid : pid_t) : s1.findProcess pid = s.findProcess pid := by
  unfold Pager.findProcess
  rw [h]

theorem records_congr {s s1 : Pager} (h : s1.perProcessInfos = s.perProcessInfos) :
    s1.records = s.records := by
  unfold Pager.records
  rw [h]

theorem evictWrite_procs (s : Pager) (rest : List PagePtr) (r : perPageInfo) :
    (evictWrite s rest r).perProcessInfos = s.perProcessInfos := by
  unfold evictWrite
  split <;> rfl

theorem evictFront_eq (s : Pager) (evicting : PagePtr) (rest : List PagePtr) (r : perPageInfo) :
    evictFront s evicting rest r =
      ((evictWrite s rest r).modifyPage evicting
        (fun x => { x with resident := 0, modified := 0, reference := 0 })).modifyPte
        evicting.myProcess evicting.virtualPage
        (fun e => { e with read_enable := 0, write_enable := 0 }) := rfl

theorem deref_evictFront (s : Pager) (evicting : PagePtr) (rest : List PagePtr)
    (r : perPageInfo) (h : PagePtr) :
    (evictFront s evicting rest r).deref h =
      if h = evicting then
        (s.deref evicting).map (fun x => { x with resident := 0, modified := 0, reference := 0 })
      else s.deref h := by
  rw [evictFront_eq, deref_modifyPte, deref_modifyPage,
    deref_congr (evictWrite_procs s rest r), deref_congr (evictWrite_procs s rest r)]

theorem secondChance_defined (s : Pager) (hne : s.clockStructure ≠ [])
    (hv : ∀ h ∈ s.clockStructure, s.deref h ≠ none) :
    ∃ s1 evicting rest r, scanClock s.clockStructure.length s = some s1 ∧
      s1.clockStructure = evicting :: rest ∧ s1.deref evicting = some r ∧ r.reference ≠ 1 ∧
      secondChance s = some (r.ppage, evictFront s1 evicting rest r) := by
  obtain ⟨s1, hs⟩ := scanClock_defined s.clockStructure.length s s.clockStructure []
    (by simp) (Nat.le_refl _) hne hv (by simp)
  obtain ⟨_, evicting, rest, r, hc, hd, hr⟩ :=
    scanClock_induct (fun _ => True) (fun _ _ _ _ _ _ _ _ => trivial) _ s s1 trivial hs
  refine ⟨s1, evicting, rest, r, hs, hc, hd, hr, ?_⟩
  unfold secondChance
  simp only [hs, hc, hd]

/-- The scan neither creates nor deletes page records. -/
theorem scanClock_deref_none (n : Nat) (s s1 : Pager) (hs : scanClock n s = some s1)
    (h : PagePtr) : s1.deref h = none ↔ s.deref h = none := by
  refine (scanClock_induct (fun x => x.deref h = none ↔ s.deref h = none) ?_ n s s1
    Iff.rfl hs).1
  intro x curr rest r hq _ hd _
  rw [deref_rotateFront]
  by_cases e : h = curr
  · subst e
    rw [if_pos rfl, hd, ← hq, hd]
    simp
  · rw [if_neg e]
    exact hq

theorem getPhysPage_defined (s : Pager) (hr : CanReplace s) :
    ∃ physPage s1, getPhysPage s = some (physPage, s1) ∧
      ∀ h, s1.deref h = none ↔ s.deref h = none := by
  unfold getPhysPage
  cases hf : s.freePages with
  | cons f rest => exact ⟨f, _, rfl, fun h => Iff.rfl⟩
  | nil =>
    rcases hr with hr | hr
    · exact absurd hf hr
    · obtain ⟨s1, evicting, rest, r, hs, hc, hd, _, he⟩ := secondChance_defined s hr.1 hr.2
      refine ⟨_, _, he, ?_⟩
      intro h
      rw [deref_evictFront, ← scanClock_deref_none _ s s1 hs h]
      by_cases e : h = evicting
      · subst e
        simp [hd]
      · rw [if_neg e]


/-! ## The fault handlers return -/

theorem deref_of_findProcess {s : Pager} {cur : pid_t} {pr : perProcessInfo}
    (hp : s.findProcess cur = some pr) (k : Nat) :
    s.deref ⟨cur, k⟩ = mapFind k pr.pageInfo := by
  unfold Pager.deref
  simp only [hp]

theorem notZeroFilledPageFault_defined (s : Pager) (cur : pid_t) (write_flag : Bool)
    (k : Nat) (hr : CanReplace s) :
    ∃ s1, notZeroFilledPageFault s cur write_flag k = some (0, s1) := by
  obtain ⟨f, s1, hg, _⟩ := getPhysPage_defined s hr
  unfold notZeroFilledPageFault
  simp only [hg]
  exact ⟨_, rfl⟩

theorem normalPageFault_defined (s : Pager) (cur : pid_t) (write_flag : Bool)
    (k : Nat) (hr : CanReplace s) (hd : s.deref ⟨cur, k⟩ ≠ none) :
    ∃ s1, normalPageFault s cur write_flag k = some (0, s1) := by
  obtain ⟨f, s1, hg, hdom⟩ := getPhysPage_defined s hr
  unfold normalPageFault
  simp only [hg]
  cases hd1 : s1.deref ⟨cur, k⟩ with
  | none => exact absurd ((hdom _).1 hd1) hd
  | some r => exact ⟨_, rfl⟩

theorem readWriteFault_defined (s : Pager) (cur : pid_t) (r : perPageInfo) (write_flag : Bool)
    (k : Nat) : ∃ s1, readWriteFault s cur r write_flag k = some (0, s1) := by
  unfold readWriteFault
  by_cases h1 : r.notZeroFilled = 0 <;> cases write_flag <;> simp [h1]

/-- A fault on a page that has a record returns `0` when replacement can run. -/
theorem vm_fault_defined (s : Pager) (cur : pid_t) (pr : perProcessInfo) (r : perPageInfo)
    (addr : Nat) (write_flag : Bool) (hc : s.currentProcessInfo = some cur)
    (hp : s.findProcess cur = some pr) (hm : mapFind (vpageOf addr) pr.pageInfo = some r)
    (hr : CanReplace s) : ∃ s1, vm_fault s addr write_flag = some (0, s1) := by
  unfold vm_fault
  simp only [hc, hp, hm]
  by_cases h1 : r.resident = 0
  · by_cases h2 : r.notZeroFilled = 0
    · simp only [h1, h2, if_true, ne_eq, not_true_eq_false, if_false]
      apply normalPageFault_defined s cur write_flag _ hr
      rw [deref_of_findProcess hp, hm]
      simp
    · simp only [h1, if_true, ne_eq, h2, not_false_eq_true]
      exact notZeroFilledPageFault_defined s cur write_flag _ hr
  · simp only [h1, if_false]
    exact readWriteFault_defined s cur r write_flag _

/-- C1 (as amended): in every pager state with a current process in which
replacement can run (a physical page is free, or the clock queue is not empty and
its entries point to page records), for every address and write flag, `vm_fault`
returns; it returns `-1` exactly when the current process has no page record at
the virtual page `(addr - VM_ARENA_BASEADDR) / VM_PAGESIZE` (in `unsigned long`
arithmetic) and `0` otherwise; when it returns `-1` the whole state, host state
included, is unchanged. -/
theorem vm_fault_returns (s : Pager) (cur : pid_t) (pr : perProcessInfo) (addr : Nat)
    (write_flag : Bool) (hc : s.currentProcessInfo = some cur)
    (hp : s.findProcess cur = some pr) (hr : CanReplace s) :
    ∃ rc s1, vm_fault s addr write_flag = some (rc, s1) ∧
      (rc = -1 ↔ mapFind (vpageOf addr) pr.pageInfo = none) ∧
      (rc ≠ -1 → rc = 0) ∧ (rc = -1 → s1 = s) := by
  cases hm : mapFind (vpageOf addr) pr.pageInfo with
  | none =>
    refine ⟨-1, s, ?_, by simp, by simp, fun _ => rfl⟩
    unfold vm_fault
    simp only [hc, hp, hm]
  | some r =>
    obtain ⟨s1, h1⟩ := vm_fault_defined s cur pr r addr write_flag hc hp hm hr
    exact ⟨0, s1, h1, by simp, by simp, by simp⟩

/-! ## Call sequences reach reachable states -/

theorem step_reachable {arenaSize F D : Nat} {s s1 : Pager} (c : Call)
    (hs : Reachable arenaSize F D s) (h : step arenaSize s c = some s1) :
    Reachable arenaSize F D s1 := by
  cases c with
  | create pid fresh =>
    simp only [step, Option.some.injEq] at h
    subst h
    exact Reachable.create pid fresh hs
  | switch pid => exact Reachable.switch pid hs h
  | extend junkPte junkPage =>
    simp only [step, Option.map_eq_some'] at h
    obtain ⟨⟨addr, s2⟩, h1, h2⟩ := h
    subst h2
    exact Reachable.extend junkPte junkPage addr hs h1
  | fault addr write_flag =>
    simp only [step] at h
    by_cases ha : addr < ULONG_MOD
    · simp only [ha, if_true, Option.map_eq_some'] at h
      obtain ⟨⟨rc, s2⟩, h1, h2⟩ := h
      subst h2
      exact Reachable.fault addr write_flag rc hs ha h1
    · simp [ha] at h
  | syslog message len =>
    simp only [step] at h
    by_cases ha : message < ULONG_MOD ∧ len < UINT_MOD
    · simp only [ha, and_self, if_true, Option.map_eq_some'] at h
      obtain ⟨⟨rc, s2⟩, h1, h2⟩ := h
      subst h2
      exact Reachable.syslog message len rc hs ha.1 ha.2 h1
    · simp [ha] at h
  | destroy => exact Reachable.destroy hs h
  | store physmem =>
    simp only [step, Option.some.injEq] at h
    subst h
    exact Reachable.store physmem hs

theorem run_reachable {arenaSize F D : Nat} (cs : List Call) :
    ∀ {s s1 : Pager}, Reachable arenaSize F D s → run arenaSize s cs = some s1 →
      Reachable arenaSize F D s1 := by
  induction cs with
  | nil =>
    intro s s1 hs h
    simp only [run, Option.some.injEq] at h
    subst h
    exact hs
  | cons c cs ih =>
    intro s s1 hs h
    simp only [run] at h
    cases hc : step arenaSize s c with
    | none => simp [hc] at h
    | some s2 =>
      simp only [hc] at h
      exact ih (step_reachable c hs hc) h

theorem runD_reachable {arenaSize F D : Nat} {s : Pager} (cs : List Call)
    (hs : Reachable arenaSize F D s) (h : (run arenaSize s cs).isSome = true) :
    Reachable arenaSize F D (runD arenaSize s cs) := by
  unfold runD
  cases hr : run arenaSize s cs with
  | none => simp [hr] at h
  | some s1 => exact run_reachable cs hs hr

theorem Example.started_reachable (frames blocks : Nat) (hF : frames < UINT_MOD)
    (hD : blocks < UINT_MOD) :
    Reachable Example.arenaSize frames blocks (Example.started frames blocks) :=
  Reachable.init _ _ hF hD (by unfold ArenaFits; decide)

theorem Example.noFrames_reachable : Reachable Example.arenaSize 0 1 Example.noFrames :=
  runD_reachable _ (Example.started_reachable 0 1 (by decide) (by decide)) rfl

theorem Example.onePage_reachable : Reachable Example.arenaSize 2 4 Example.onePage :=
  runD_reachable _ (Example.started_reachable 2 4 (by decide) (by decide)) rfl

/-- C1, witness: process 1 owns one page and both physical pages are free. -/
theorem vm_fault_returns_witness :
    Example.onePage.currentProcessInfo = some 1 ∧
    Example.onePage.findProcess 1 = some (Example.onePage.processD 1) ∧
    CanReplace Example.onePage ∧
    ∃ rc s1, vm_fault Example.onePage VM_ARENA_BASEADDR true = some (rc, s1) ∧
      (rc = -1 ↔ mapFind (vpageOf VM_ARENA_BASEADDR) (Example.onePage.processD 1).pageInfo = none) ∧
      (rc ≠ -1 → rc = 0) ∧ (rc = -1 → s1 = Example.onePage) :=
  ⟨rfl, rfl, Or.inl (by decide),
    vm_fault_returns Example.onePage 1 _ VM_ARENA_BASEADDR true rfl rfl (Or.inl (by decide))⟩

/-- C1, counterexample: started with no physical page, the pager reaches a state
with a current process that has a page record at the virtual page of
`VM_ARENA_BASEADDR`; there `vm_fault` calls `front()` on the empty clock queue,
which is undefined, instead of returning `0`. -/
theorem vm_fault_no_frame :
    Reachable Example.arenaSize 0 1 Example.noFrames ∧
    Example.noFrames.currentProcessInfo = some 1 ∧
    Example.noFrames.findProcess 1 = some (Example.noFrames.processD 1) ∧
    mapFind (vpageOf VM_ARENA_BASEADDR) (Example.noFrames.processD 1).pageInfo ≠ none ∧
    vm_fault Example.noFrames VM_ARENA_BASEADDR false = none :=
  ⟨Example.noFrames_reachable, rfl, rfl, by decide, rfl⟩

/-! ## The arena allocator -/

theorem mapModify_mapModify {κ β : Type} [DecidableEq κ] (k : κ) (f g : β → β)
    (m : List (κ × β)) : mapModify k g (mapModify k f m) = mapModify k (fun x => g (f x)) m := by
  unfold mapModify
  rw [List.map_map]
  apply List.map_congr_left
  intro e _
  by_cases h : e.1 = k <;> simp [h]

theorem mapModify_congr {κ β : Type} [DecidableEq κ] (k : κ) (f g : β → β)
    (m : List (κ × β)) (h : ∀ v, mapFind k m = some v → f v = g v) (hn : (m.map Prod.fst).Nodup) :
    mapModify k f m = mapModify k g m := by
  unfold mapModify
  apply List.map_congr_left
  intro e he
  by_cases h1 : e.1 = k
  · have : mapFind k m = some e.2 := mapFind_of_mem hn (by rw [← h1]; exact he)
    simp [h1, h e.2 this]
  · simp [h1]

/-- The two ways in which `vm_extend` refuses. -/
theorem vm_extend_refuses (arenaSize : Nat) (s : Pager) (junkPte junkPage : Nat) (cur : pid_t)
    (pr : perProcessInfo) (hc : s.currentProcessInfo = some cur)
    (hp : s.findProcess cur = some pr)
    (h : (pr.nextVirtualADDR + VM_PAGESIZE) % ULONG_MOD > (VM_ARENA_BASEADDR + arenaSize) % ULONG_MOD
      ∨ s.freeBlocks = []) :
    vm_extend arenaSize s junkPte junkPage = some (0, s) := by
  unfold vm_extend
  simp only [hc, hp]
  by_cases h1 : (pr.nextVirtualADDR + VM_PAGESIZE) % ULONG_MOD >
      (VM_ARENA_BASEADDR + arenaSize) % ULONG_MOD
  · simp [h1]
  · rcases h with h | h
    · exact absurd h h1
    · simp [h1, h]

/-- The state after a successful `vm_extend`. -/
theorem vm_extend_succeeds (arenaSize : Nat) (s : Pager) (junkPte junkPage : Nat) (cur : pid_t)
    (pr : perProcessInfo) (block : Nat) (rest : List Nat) (hcur : HasCurrent s cur pr)
    (h1 : ¬ (pr.nextVirtualADDR + VM_PAGESIZE) % ULONG_MOD >
      (VM_ARENA_BASEADDR + arenaSize) % ULONG_MOD)
    (h2 : s.freeBlocks = block :: rest) :
    vm_extend arenaSize s junkPte junkPage = some (pr.nextVirtualADDR,
      { s with
        perProcessInfos :=
          mapModify cur (extendProcess pr.nextVirtualPage junkPte junkPage block) s.perProcessInfos
        freeBlocks := rest }) := by
  obtain ⟨hc, hpt, hp⟩ := hcur
  unfold vm_extend
  simp only [hc, hp, h1, if_false, h2]
  have e1 : (s.modifyProcess cur (fun p => { p with
      nextVirtualADDR := (p.nextVirtualADDR + VM_PAGESIZE) % ULONG_MOD
      nextVirtualPage := (p.nextVirtualPage + 1) % ULONG_MOD })).page_table_base_register =
      some cur := hpt
  simp only [e1, findProcess_modifyProcess, if_true, hp, Option.map_some']
  simp only [Pager.modifyPte, Pager.modifyProcess, mapModify_mapModify]
  rw [← hc]
  rfl

theorem arena_no_wrap {arenaSize : Nat} {pr : perProcessInfo} (hfit : ArenaFits arenaSize)
    (ha : ArenaOK arenaSize pr) :
    (pr.nextVirtualADDR + VM_PAGESIZE) % ULONG_MOD = pr.nextVirtualADDR + VM_PAGESIZE ∧
    (VM_ARENA_BASEADDR + arenaSize) % ULONG_MOD = VM_ARENA_BASEADDR + arenaSize ∧
    (pr.nextVirtualPage + 1) % ULONG_MOD = pr.nextVirtualPage + 1 ∧
    VM_ARENA_BASEADDR ≤ pr.nextVirtualADDR := by
  obtain ⟨_, h2, h3⟩ := ha
  unfold ArenaFits at hfit
  unfold VM_PAGESIZE at *
  refine ⟨Nat.mod_eq_of_lt (by omega), Nat.mod_eq_of_lt (by omega),
    Nat.mod_eq_of_lt (by omega), by omega⟩

/-- The result of `vm_extend` in a state with a current process and a consistent
arena. -/
theorem vm_extend_total (arenaSize : Nat) (s : Pager) (cur : pid_t) (pr : perProcessInfo)
    (junkPte junkPage : Nat) (hcur : HasCurrent s cur pr) (hfit : ArenaFits arenaSize)
    (ha : ArenaOK arenaSize pr) :
    (pr.nextVirtualADDR + VM_PAGESIZE > VM_ARENA_BASEADDR + arenaSize ∨ s.freeBlocks = [] →
      vm_extend arenaSize s junkPte junkPage = some (0, s)) ∧
    (¬ (pr.nextVirtualADDR + VM_PAGESIZE > VM_ARENA_BASEADDR + arenaSize) →
      ∀ block rest, s.freeBlocks = block :: rest →
      vm_extend arenaSize s junkPte junkPage = some (pr.nextVirtualADDR,
        { s with
          perProcessInfos :=
            mapModify cur (extendProcess pr.nextVirtualPage junkPte junkPage block)
              s.perProcessInfos
          freeBlocks := rest })) := by
  obtain ⟨w1, w2, _, _⟩ := arena_no_wrap hfit ha
  constructor
  · intro h
    apply vm_extend_refuses arenaSize s junkPte junkPage cur pr hcur.1 hcur.2.2
    rw [w1, w2]
    exact h
  · intro h block rest hb
    apply vm_extend_succeeds arenaSize s junkPte junkPage cur pr block rest hcur _ hb
    rw [w1, w2]
    exact h

/-- C2: in every pager state with a current process whose arena bookkeeping is
consistent, `vm_extend` returns; it returns the null pointer exactly when
`nextVirtualADDR + VM_PAGESIZE > VM_ARENA_BASEADDR + VM_ARENA_SIZE` or no disk block
is free; and when it returns null the whole state is unchanged. -/
theorem vm_extend_null_iff (arenaSize : Nat) (s : Pager) (cur : pid_t) (pr : perProcessInfo)
    (junkPte junkPage : Nat) (hcur : HasCurrent s cur pr) (hfit : ArenaFits arenaSize)
    (ha : ArenaOK arenaSize pr) :
    ∃ addr s1, vm_extend arenaSize s junkPte junkPage = some (addr, s1) ∧
      (addr = 0 ↔
        (pr.nextVirtualADDR + VM_PAGESIZE > VM_ARENA_BASEADDR + arenaSize ∨ s.freeBlocks = [])) ∧
      (addr = 0 → s1 = s) := by
  obtain ⟨t1, t2⟩ := vm_extend_total arenaSize s cur pr junkPte junkPage hcur hfit ha
  by_cases h : pr.nextVirtualADDR + VM_PAGESIZE > VM_ARENA_BASEADDR + arenaSize ∨ s.freeBlocks = []
  · exact ⟨0, s, t1 h, by simp [h], fun _ => rfl⟩
  · rw [not_or] at h
    cases hb : s.freeBlocks with
    | nil => exact absurd hb h.2
    | cons block rest =>
      have hpos : pr.nextVirtualADDR ≠ 0 := by
        have := (arena_no_wrap hfit ha).2.2.2
        unfold VM_ARENA_BASEADDR at this
        omega
      refine ⟨_, _, t2 h.1 block rest hb, ?_, ?_⟩
      · constructor
        · intro h0; exact absurd h0 hpos
        · intro h0
          rcases h0 with h0 | h0
          · exact absurd h0 h.1
          · simp at h0
      · intro h0; exact absurd h0 hpos

/-- C2, witness: process 1 owns one page of a 512 MB arena and three disk blocks are
free. -/
theorem vm_extend_null_iff_witness :
    HasCurrent Example.onePage 1 (Example.onePage.processD 1) ∧
    ArenaFits Example.arenaSize ∧
    ArenaOK Example.arenaSize (Example.onePage.processD 1) ∧
    ∃ addr s1, vm_extend Example.arenaSize Example.onePage 0 0 = some (addr, s1) ∧
      (addr = 0 ↔
        ((Example.onePage.processD 1).nextVirtualADDR + VM_PAGESIZE >
            VM_ARENA_BASEADDR + Example.arenaSize ∨ Example.onePage.freeBlocks = [])) ∧
      (addr = 0 → s1 = Example.onePage) :=
  ⟨⟨rfl, rfl, rfl⟩, by unfold ArenaFits; decide, ⟨by decide, by decide, by decide⟩,
    vm_extend_null_iff Example.arenaSize Example.onePage 1 _ 0 0 ⟨rfl, rfl, rfl⟩
      (by unfold ArenaFits; decide) ⟨by decide, by decide, by decide⟩⟩

theorem arena_key_fresh {arenaSize : Nat} {pr : perProcessInfo} (ha : ArenaOK arenaSize pr) :
    mapFind pr.nextVirtualPage pr.pageInfo = none ∧ ∀ e ∈ pr.pageInfo, e.1 < pr.nextVirtualPage := by
  have hk : ∀ e ∈ pr.pageInfo, e.1 < pr.nextVirtualPage := by
    intro e he
    have : e.1 ∈ pr.pageInfo.map Prod.fst := List.mem_map.2 ⟨e, he, rfl⟩
    rw [ha.1] at this
    exact List.mem_range.1 this
  refine ⟨?_, hk⟩
  rw [mapFind_eq_none_iff, ha.1]
  simp

theorem extendProcess_pageInfo {arenaSize : Nat} {pr : perProcessInfo}
    (ha : ArenaOK arenaSize pr) (junkPte junkPage block : Nat) :
    (extendProcess pr.nextVirtualPage junkPte junkPage block pr).pageInfo =
      pr.pageInfo ++ [(pr.nextVirtualPage, newPageInfo junkPage block)] := by
  obtain ⟨h1, h2⟩ := arena_key_fresh ha
  show mapInsert _ _ _ = _
  unfold mapInsert
  rw [h1]
  exact insertSorted_last _ _ _ h2

/-- What a successful `vm_extend` does, in a state with a current process and a
consistent arena. -/
theorem vm_extend_effect (arenaSize : Nat) (s s1 : Pager) (cur : pid_t) (pr : perProcessInfo)
    (junkPte junkPage addr : Nat) (hcur : HasCurrent s cur pr) (hfit : ArenaFits arenaSize)
    (ha : ArenaOK arenaSize pr)
    (h : vm_extend arenaSize s junkPte junkPage = some (addr, s1)) (hnz : addr ≠ 0) :
    addr = pr.nextVirtualADDR ∧
    ¬ (pr.nextVirtualADDR + VM_PAGESIZE > VM_ARENA_BASEADDR + arenaSize) ∧
    ∃ block rest, s.freeBlocks = block :: rest ∧
      s1 = { s with
        perProcessInfos :=
          mapModify cur (extendProcess pr.nextVirtualPage junkPte junkPage block)
            s.perProcessInfos
        freeBlocks := rest } := by
  obtain ⟨t1, t2⟩ := vm_extend_total arenaSize s cur pr junkPte junkPage hcur hfit ha
  by_cases hx : pr.nextVirtualADDR + VM_PAGESIZE > VM_ARENA_BASEADDR + arenaSize ∨ s.freeBlocks = []
  · rw [t1 hx] at h
    simp only [Option.some.injEq, Prod.mk.injEq] at h
    exact absurd h.1.symm hnz
  · rw [not_or] at hx
    cases hb : s.freeBlocks with
    | nil => exact absurd hb hx.2
    | cons block rest =>
      rw [t2 hx.1 block rest hb] at h
      simp only [Option.some.injEq, Prod.mk.injEq] at h
      exact ⟨h.1.symm, hx.1, block, rest, rfl, h.2.symm⟩

/-- C3: in every pager state with a current process whose arena bookkeeping is
consistent, when `vm_extend` succeeds it returns the previous `nextVirtualADDR`; the
block at the head of `freeBlocks` is removed and is the block of a new record,
stored in the current process at the key (previous `nextVirtualPage`), with
`resident = 0`, `modified = 0`, `reference = 0`, `notZeroFilled = 1`; the page-table
entry at that index has both enable bits clear; `nextVirtualPage` grows by one and
`nextVirtualADDR` by `VM_PAGESIZE`; the free physical pages, the clock queue and every
record that existed before are unchanged. -/
theorem vm_extend_success (arenaSize : Nat) (s s1 : Pager) (cur : pid_t) (pr : perProcessInfo)
    (junkPte junkPage addr : Nat) (hcur : HasCurrent s cur pr) (hfit : ArenaFits arenaSize)
    (ha : ArenaOK arenaSize pr)
    (h : vm_extend arenaSize s junkPte junkPage = some (addr, s1)) (hnz : addr ≠ 0) :
    addr = pr.nextVirtualADDR ∧
    (∃ block rest pr1, s.freeBlocks = block :: rest ∧ s1.freeBlocks = rest ∧
      s1.findProcess cur = some pr1 ∧
      pr1.pageInfo = pr.pageInfo ++ [(pr.nextVirtualPage,
        { ppage := junkPage, modified := 0, notZeroFilled := 1, reference := 0, resident := 0,
          diskBlock := block })] ∧
      s1.deref ⟨cur, pr.nextVirtualPage⟩ = some
        { ppage := junkPage, modified := 0, notZeroFilled := 1, reference := 0, resident := 0,
          diskBlock := block } ∧
      (pr1.pageTable.ptes pr.nextVirtualPage).read_enable = 0 ∧
      (pr1.pageTable.ptes pr.nextVirtualPage).write_enable = 0 ∧
      pr1.nextVirtualPage = pr.nextVirtualPage + 1 ∧
      pr1.nextVirtualADDR = pr.nextVirtualADDR + VM_PAGESIZE) ∧
    s1.freePages = s.freePages ∧ s1.clockStructure = s.clockStructure ∧
    ∀ p r, s.deref p = some r → s1.deref p = some r := by
  obtain ⟨e1, _, block, rest, hb, hs⟩ :=
    vm_extend_effect arenaSize s s1 cur pr junkPte junkPage addr hcur hfit ha h hnz
  obtain ⟨w1, _, w3, _⟩ := arena_no_wrap hfit ha
  have hf : ∀ q, s1.findProcess q =
      if q = cur then some (extendProcess pr.nextVirtualPage junkPte junkPage block pr)
      else s.findProcess q := by
    intro q
    rw [hs]
    have := findProcess_modifyProcess s cur q
      (extendProcess pr.nextVirtualPage junkPte junkPage block)
    rw [hcur.2.2] at this
    exact this
  have hpi := extendProcess_pageInfo ha junkPte junkPage block
  have hfresh := (arena_key_fresh ha).1
  refine ⟨e1, ⟨block, rest, _, hb, by rw [hs], by rw [hf, if_pos rfl], hpi, ?_, ?_, ?_, w3, w1⟩,
    by rw [hs], by rw [hs], ?_⟩
  · unfold Pager.deref
    simp only [hf, if_true, hpi]
    rw [mapFind_append, hfresh]
    simp [mapFind, newPageInfo]
  · simp [extendProcess]
  · simp [extendProcess]
  · intro p r hd
    unfold Pager.deref at hd ⊢
    rw [hf]
    by_cases hq : p.myProcess = cur
    · rw [if_pos hq]
      rw [hq, hcur.2.2] at hd
      simp only at hd ⊢
      rw [hpi, mapFind_append, hd]
    · rw [if_neg hq]
      exact hd

/-- C3, witness: process 1 owns one page and extends its arena by a second one. -/
theorem vm_extend_success_witness :
    HasCurrent Example.onePage 1 (Example.onePage.processD 1) ∧
    ArenaFits Example.arenaSize ∧
    ArenaOK Example.arenaSize (Example.onePage.processD 1) ∧
    vm_extend Example.arenaSize Example.onePage 5 6 =
      some (VM_ARENA_BASEADDR + VM_PAGESIZE,
        runD Example.arenaSize Example.onePage [Call.extend 5 6]) ∧
    VM_ARENA_BASEADDR + VM_PAGESIZE ≠ 0 ∧
    (VM_ARENA_BASEADDR + VM_PAGESIZE = (Example.onePage.processD 1).nextVirtualADDR ∧
    (∃ block rest pr1, Example.onePage.freeBlocks = block :: rest ∧
      (runD Example.arenaSize Example.onePage [Call.extend 5 6]).freeBlocks = rest ∧
      (runD Example.arenaSize Example.onePage [Call.extend 5 6]).findProcess 1 = some pr1 ∧
      pr1.pageInfo = (Example.onePage.processD 1).pageInfo ++
        [((Example.onePage.processD 1).nextVirtualPage,
        { ppage := 6, modified := 0, notZeroFilled := 1, reference := 0, resident := 0,
          diskBlock := block })] ∧
      (runD Example.arenaSize Example.onePage [Call.extend 5 6]).deref
          ⟨1, (Example.onePage.processD 1).nextVirtualPage⟩ = some
        { ppage := 6, modified := 0, notZeroFilled := 1, reference := 0, resident := 0,
          diskBlock := block } ∧
      (pr1.pageTable.ptes (Example.onePage.processD 1).nextVirtualPage).read_enable = 0 ∧
      (pr1.pageTable.ptes (Example.onePage.processD 1).nextVirtualPage).write_enable = 0 ∧
      pr1.nextVirtualPage = (Example.onePage.processD 1).nextVirtualPage + 1 ∧
      pr1.nextVirtualADDR = (Example.onePage.processD 1).nextVirtualADDR + VM_PAGESIZE) ∧
    (runD Example.arenaSize Example.onePage [Call.extend 5 6]).freePages =
      Example.onePage.freePages ∧
    (runD Example.arenaSize Example.onePage [Call.extend 5 6]).clockStructure =
      Example.onePage.clockStructure ∧
    ∀ p r, Example.onePage.deref p = some r →
      (runD Example.arenaSize Example.onePage [Call.extend 5 6]).deref p = some r) :=
  ⟨⟨rfl, rfl, rfl⟩, by unfold ArenaFits; decide, ⟨by decide, by decide, by decide⟩, rfl,
    by decide,
    vm_extend_success Example.arenaSize Example.onePage _ 1 _ 5 6 _ ⟨rfl, rfl, rfl⟩
      (by unfold ArenaFits; decide) ⟨by decide, by decide, by decide⟩ rfl (by decide)⟩

/-! ## The invariant: list bookkeeping -/

theorem residentFrames_append (a b : List (PagePtr × perPageInfo)) :
    residentFrames (a ++ b) = residentFrames a ++ residentFrames b := by
  simp [residentFrames, residentRecords]

theorem residentPtrs_append (a b : List (PagePtr × perPageInfo)) :
    residentPtrs (a ++ b) = residentPtrs a ++ residentPtrs b := by
  simp [residentPtrs, residentRecords]

theorem blocksOf_append (a b : List (PagePtr × perPageInfo)) :
    blocksOf (a ++ b) = blocksOf a ++ blocksOf b := by
  simp [blocksOf]

theorem residentFrames_cons (x : PagePtr × perPageInfo) (l : List (PagePtr × perPageInfo)) :
    residentFrames (x :: l) =
      (if x.2.resident = 1 then [x.2.ppage] else []) ++ residentFrames l := by
  by_cases h : x.2.resident = 1 <;> simp [residentFrames, residentRecords, h]

theorem residentPtrs_cons (x : PagePtr × perPageInfo) (l : List (PagePtr × perPageInfo)) :
    residentPtrs (x :: l) = (if x.2.resident = 1 then [x.1] else []) ++ residentPtrs l := by
  by_cases h : x.2.resident = 1 <;> simp [residentPtrs, residentRecords, h]

theorem blocksOf_mapModify (h : PagePtr) (f : perPageInfo → perPageInfo)
    (hf : ∀ x, (f x).diskBlock = x.diskBlock) (l : List (PagePtr × perPageInfo)) :
    blocksOf (mapModify h f l) = blocksOf l := by
  unfold blocksOf mapModify
  rw [List.map_map]
  apply List.map_congr_left
  intro e _
  by_cases h1 : e.1 = h <;> simp [h1, hf]

theorem Inv.keys {arenaSize F D : Nat} {held : List Nat} {s : Pager}
    (hinv : Inv arenaSize F D held s) : (s.records.map Prod.fst).Nodup := by
  apply records_keys_nodup s hinv.pids
  intro e he
  rw [(hinv.arena e he).1]
  exact List.nodup_range _

theorem Inv.deref_eq {arenaSize F D : Nat} {held : List Nat} {s : Pager}
    (hinv : Inv arenaSize F D held s) (h : PagePtr) : s.deref h = mapFind h s.records :=
  deref_eq_mapFind_records s hinv.pids h

theorem updatePage_records (s : Pager) (h : PagePtr) (f : perPageInfo → perPageInfo)
    (g : page_table_entry_t → page_table_entry_t) :
    (s.updatePage h f g).records = mapModify h f s.records := by
  unfold Pager.updatePage
  rw [records_modifyPte, records_modifyPage]

theorem updatePage_deref (s : Pager) (h h2 : PagePtr) (f : perPageInfo → perPageInfo)
    (g : page_table_entry_t → page_table_entry_t) :
    (s.updatePage h f g).deref h2 = if h2 = h then (s.deref h).map f else s.deref h2 := by
  unfold Pager.updatePage
  rw [deref_modifyPte, deref_modifyPage]

theorem updatePage_pte (s : Pager) (h : PagePtr) (f : perPageInfo → perPageInfo)
    (g : page_table_entry_t → page_table_entry_t) (q : pid_t) (j : Nat) :
    (s.updatePage h f g).pte q j =
      if q = h.myProcess ∧ j = h.virtualPage then (s.pte h.myProcess h.virtualPage).map g
      else s.pte q j := by
  unfold Pager.updatePage
  rw [pte_modifyPte, pte_modifyPage, pte_modifyPage]

theorem updatePage_findProcess_none (s : Pager) (h : PagePtr) (f : perPageInfo → perPageInfo)
    (g : page_table_entry_t → page_table_entry_t) (q : pid_t) :
    (s.updatePage h f g).findProcess q = none ↔ s.findProcess q = none := by
  unfold Pager.updatePage Pager.modifyPte Pager.modifyPage
  rw [findProcess_modifyProcess]
  by_cases h1 : q = h.myProcess
  · subst h1
    rw [findProcess_modifyProcess]
    cases s.findProcess h.myProcess <;> simp
  · rw [if_neg h1, findProcess_modifyProcess, if_neg h1]

theorem updatePage_pids (s : Pager) (h : PagePtr) (f : perPageInfo → perPageInfo)
    (g : page_table_entry_t → page_table_entry_t) :
    (s.updatePage h f g).perProcessInfos.map Prod.fst = s.perProcessInfos.map Prod.fst := by
  unfold Pager.updatePage Pager.modifyPte Pager.modifyPage Pager.modifyProcess
  simp only [mapModify_keys]

theorem updatePage_arena (arenaSize : Nat) (s : Pager) (h : PagePtr)
    (f : perPageInfo → perPageInfo) (g : page_table_entry_t → page_table_entry_t)
    (ha : ∀ e ∈ s.perProcessInfos, ArenaOK arenaSize e.2) :
    ∀ e ∈ (s.updatePage h f g).perProcessInfos, ArenaOK arenaSize e.2 := by
  unfold Pager.updatePage Pager.modifyPte Pager.modifyPage Pager.modifyProcess
  simp only [mapModify_mapModify]
  intro e he
  rw [mapModify] at he
  obtain ⟨e0, he0, rfl⟩ := List.mem_map.1 he
  have := ha e0 he0
  by_cases h1 : e0.1 = h.myProcess
  · simp only [h1, if_true]
    unfold ArenaOK at this ⊢
    simp only [mapModify_keys]
    exact this
  · simp only [h1, if_false]
    exact this

/-- The records before and after a record is modified in place. -/
theorem Inv.split {arenaSize F D : Nat} {held : List Nat} {s : Pager}
    (hinv : Inv arenaSize F D held s) {h : PagePtr} {r : perPageInfo}
    (hd : s.deref h = some r) (f : perPageInfo → perPageInfo)
    (g : page_table_entry_t → page_table_entry_t) :
    ∃ X Y, s.records = X ++ (h, r) :: Y ∧ (s.updatePage h f g).records = X ++ (h, f r) :: Y := by
  rw [updatePage_records]
  apply mapModify_split f hinv.keys
  rw [← hinv.deref_eq]
  exact hd

/-- A record and its page-table entry are modified in place: what is left to
show for the invariant are the partition of the physical pages and the clock
queue. -/
theorem Inv.update {arenaSize F D : Nat} {held held1 : List Nat} {s s1 : Pager}
    (hinv : Inv arenaSize F D held s) {h : PagePtr} {r : perPageInfo}
    {f : perPageInfo → perPageInfo} {g : page_table_entry_t → page_table_entry_t}
    (hd : s.deref h = some r)
    (hprocs : s1.perProcessInfos = (s.updatePage h f g).perProcessInfos)
    (hfb : s1.freeBlocks = s.freeBlocks)
    (hcur : s1.currentProcessInfo = s.currentProcessInfo)
    (hptbr : s1.page_table_base_register = s.page_table_base_register)
    (hblock : ∀ x, (f x).diskBlock = x.diskBlock)
    (hok : ∀ e, s.pte h.myProcess h.virtualPage = some e → RecOK e r → RecOK (g e) (f r))
    (hframes : (held1 ++ s1.freePages ++ residentFrames s1.records).Perm (List.range F))
    (hclock : s1.clockStructure.Perm (residentPtrs s1.records)) :
    Inv arenaSize F D held1 s1 := by
  have hrec : s1.records = mapModify h f s.records := by
    rw [records_congr hprocs, updatePage_records]
  refine ⟨?_, ?_, hframes, ?_, hclock, ?_, ?_, ?_, hinv.small, hinv.smallD, hinv.fits⟩
  · rw [hprocs, updatePage_pids]
    exact hinv.pids
  · rw [hprocs]
    exact updatePage_arena arenaSize s h f g hinv.arena
  · rw [hfb, hrec, blocksOf_mapModify h f hblock]
    exact hinv.blocks
  · intro h2 r2 e2 hd2 he2
    rw [deref_congr hprocs, updatePage_deref] at hd2
    rw [pte_congr hprocs, updatePage_pte] at he2
    by_cases e : h2 = h
    · subst e
      simp only [if_true, and_self] at hd2 he2
      rw [hd] at hd2
      simp only [Option.map_some', Option.some.injEq] at hd2
      cases he0 : s.pte h2.myProcess h2.virtualPage with
      | none => simp [he0] at he2
      | some e0 =>
        rw [he0] at he2
        simp only [Option.map_some', Option.some.injEq] at he2
        rw [← hd2, ← he2]
        exact hok e0 he0 (hinv.recs h2 r e0 hd he0)
    · rw [if_neg e] at hd2
      have : ¬ (h2.myProcess = h.myProcess ∧ h2.virtualPage = h.virtualPage) := by
        intro hh
        apply e
        cases h2; cases h
        simp_all
      rw [if_neg this] at he2
      exact hinv.recs h2 r2 e2 hd2 he2
  · rw [hptbr, hcur]
    exact hinv.ptbr
  · intro c hc
    rw [hcur] at hc
    have := hinv.cur c hc
    rw [findProcess_congr hprocs]
    intro hn
    exact this ((updatePage_findProcess_none s h f g c).1 hn)

theorem updatePage_procs_congr {s s1 : Pager} (hp : s1.perProcessInfos = s.perProcessInfos)
    (h : PagePtr) (f : perPageInfo → perPageInfo) (g : page_table_entry_t → page_table_entry_t) :
    (s1.updatePage h f g).perProcessInfos = (s.updatePage h f g).perProcessInfos := by
  unfold Pager.updatePage Pager.modifyPte Pager.modifyPage Pager.modifyProcess
  simp only [hp]

theorem modifyPte_modifyPage_procs (s : Pager) (h : PagePtr) (f : perPageInfo → perPageInfo)
    (g : page_table_entry_t → page_table_entry_t) :
    ((s.modifyPte h.myProcess h.virtualPage g).modifyPage h f).perProcessInfos =
      (s.updatePage h f g).perProcessInfos := by
  unfold Pager.updatePage Pager.modifyPte Pager.modifyPage Pager.modifyProcess
  simp only [mapModify_mapModify]

/-- The invariant does not look at the host. -/
theorem Inv.congr {arenaSize F D : Nat} {held : List Nat} {s s1 : Pager}
    (hinv : Inv arenaSize F D held s)
    (hprocs : s1.perProcessInfos = s.perProcessInfos)
    (hclock : s1.clockStructure = s.clockStructure)
    (hfb : s1.freeBlocks = s.freeBlocks) (hfp : s1.freePages = s.freePages)
    (hptbr : s1.page_table_base_register = s1.currentProcessInfo)
    (hcur : ∀ c, s1.currentProcessInfo = some c → s.findProcess c ≠ none) :
    Inv arenaSize F D held s1 := by
  refine ⟨?_, ?_, ?_, ?_, ?_, ?_, hptbr, ?_, hinv.small, hinv.smallD, hinv.fits⟩
  · rw [hprocs]; exact hinv.pids
  · rw [hprocs]; exact hinv.arena
  · rw [hfp, records_congr hprocs]; exact hinv.frames
  · rw [hfb, records_congr hprocs]; exact hinv.blocks
  · rw [hclock, records_congr hprocs]; exact hinv.clock
  · intro h r e hd he
    rw [deref_congr hprocs] at hd
    rw [pte_congr hprocs] at he
    exact hinv.recs h r e hd he
  · intro c hc
    rw [findProcess_congr hprocs]
    exact hcur c hc

/-- A record is modified in place without change of its residency. -/
theorem Inv.update_same {arenaSize F D : Nat} {held : List Nat} {s s1 : Pager}
    (hinv : Inv arenaSize F D held s) {h : PagePtr} {r : perPageInfo}
    {f : perPageInfo → perPageInfo} {g : page_table_entry_t → page_table_entry_t}
    (hd : s.deref h = some r)
    (hprocs : s1.perProcessInfos = (s.updatePage h f g).perProcessInfos)
    (hfb : s1.freeBlocks = s.freeBlocks) (hfp : s1.freePages = s.freePages)
    (hcur : s1.currentProcessInfo = s.currentProcessInfo)
    (hptbr : s1.page_table_base_register = s.page_table_base_register)
    (hblock : ∀ x, (f x).diskBlock = x.diskBlock)
    (hres : (f r).resident = r.resident) (hpp : (f r).ppage = r.ppage)
    (hok : ∀ e, s.pte h.myProcess h.virtualPage = some e → RecOK e r → RecOK (g e) (f r))
    (hclock : s1.clockStructure.Perm s.clockStructure) :
    Inv arenaSize F D held s1 := by
  obtain ⟨X, Y, h1, h2⟩ := hinv.split hd f g
  have hrec : s1.records = X ++ (h, f r) :: Y := by rw [records_congr hprocs, h2]
  have e1 : residentFrames s1.records = residentFrames s.records := by
    rw [hrec, h1]
    simp only [residentFrames_append, residentFrames_cons, hres, hpp]
  have e2 : residentPtrs s1.records = residentPtrs s.records := by
    rw [hrec, h1]
    simp only [residentPtrs_append, residentPtrs_cons, hres]
  apply hinv.update hd hprocs hfb hcur hptbr hblock hok
  · rw [hfp, e1]; exact hinv.frames
  · rw [e2]; exact hclock.trans hinv.clock

theorem RecOK.rotate {e : page_table_entry_t} {r : perPageInfo} (h : RecOK e r) :
    RecOK { e with read_enable := 0, write_enable := 0 } { r with reference := 0 } := by
  constructor <;> simp
  · exact h.residentBit
  · exact h.modifiedBit
  · exact h.zeroBit
  · exact h.frameOK
  · intro hz; exact (h.zeroOK hz).1

theorem rotateFront_inv {arenaSize F D : Nat} {held : List Nat} {s : Pager}
    (hinv : Inv arenaSize F D held s) {curr : PagePtr} {rest : List PagePtr} {r : perPageInfo}
    (hc : s.clockStructure = curr :: rest) (hd : s.deref curr = some r) :
    Inv arenaSize F D held (rotateFront s curr rest) := by
  apply hinv.update_same (f := fun r => { r with reference := 0 })
    (g := fun e => { e with read_enable := 0, write_enable := 0 }) hd
  · exact modifyPte_modifyPage_procs s curr _ _
  · rfl
  · rfl
  · rfl
  · rfl
  · intro x; rfl
  · rfl
  · rfl
  · intro e _ he; exact he.rotate
  · rw [clock_rotateFront, hc]
    exact List.perm_append_singleton curr rest

theorem scanClock_inv {arenaSize F D : Nat} {held : List Nat} (n : Nat) {s s1 : Pager}
    (hinv : Inv arenaSize F D held s) (hs : scanClock n s = some s1) :
    Inv arenaSize F D held s1 :=
  (scanClock_induct (fun x => Inv arenaSize F D held x)
    (fun _ _ _ _ hq hc hd _ => rotateFront_inv hq hc hd) n s s1 hinv hs).1

/-! ## The invariant: replacement -/

theorem Inv.resident_of_clock {arenaSize F D : Nat} {held : List Nat} {s : Pager}
    (hinv : Inv arenaSize F D held s) {h : PagePtr} {r : perPageInfo}
    (hc : h ∈ s.clockStructure) (hd : s.deref h = some r) : r.resident = 1 := by
  have h1 : h ∈ residentPtrs s.records := hinv.clock.subset hc
  unfold residentPtrs residentRecords at h1
  obtain ⟨x, hx, hx2⟩ := List.mem_map.1 h1
  obtain ⟨hx3, hx4⟩ := List.mem_filter.1 hx
  have : mapFind h s.records = some x.2 := by
    apply mapFind_of_mem hinv.keys
    rw [← hx2]
    exact hx3
  rw [← hinv.deref_eq, hd] at this
  rw [Option.some.inj this]
  simpa using hx4

theorem Inv.clock_of_resident {arenaSize F D : Nat} {held : List Nat} {s : Pager}
    (hinv : Inv arenaSize F D held s) {h : PagePtr} {r : perPageInfo}
    (hd : s.deref h = some r) (hr : r.resident = 1) : h ∈ s.clockStructure := by
  apply hinv.clock.symm.subset
  unfold residentPtrs residentRecords
  rw [hinv.deref_eq] at hd
  exact List.mem_map.2 ⟨(h, r), List.mem_filter.2 ⟨mapFind_mem hd, by simpa using hr⟩, rfl⟩

theorem Inv.clock_valid {arenaSize F D : Nat} {held : List Nat} {s : Pager}
    (hinv : Inv arenaSize F D held s) : ∀ h ∈ s.clockStructure, s.deref h ≠ none := by
  intro h hc
  have h1 : h ∈ residentPtrs s.records := hinv.clock.subset hc
  unfold residentPtrs residentRecords at h1
  obtain ⟨x, hx, hx2⟩ := List.mem_map.1 h1
  obtain ⟨hx3, _⟩ := List.mem_filter.1 hx
  have : mapFind h s.records = some x.2 := by
    apply mapFind_of_mem hinv.keys
    rw [← hx2]
    exact hx3
  rw [hinv.deref_eq, this]
  simp

theorem RecOK.evict {e : page_table_entry_t} {r : perPageInfo} (h : RecOK e r) :
    RecOK { e with read_enable := 0, write_enable := 0 }
      { r with resident := 0, modified := 0, reference := 0 } := by
  constructor <;> simp
  exact h.zeroBit

theorem evictFront_procs (s : Pager) (evicting : PagePtr) (rest : List PagePtr)
    (r : perPageInfo) :
    (evictFront s evicting rest r).perProcessInfos =
      (s.updatePage evicting (fun x => { x with resident := 0, modified := 0, reference := 0 })
        (fun e => { e with read_enable := 0, write_enable := 0 })).perProcessInfos := by
  rw [evictFront_eq]
  exact updatePage_procs_congr (evictWrite_procs s rest r) _ _ _

theorem evictFront_fields (s : Pager) (evicting : PagePtr) (rest : List PagePtr)
    (r : perPageInfo) :
    (evictFront s evicting rest r).clockStructure = rest ∧
    (evictFront s evicting rest r).freeBlocks = s.freeBlocks ∧
    (evictFront s evicting rest r).freePages = s.freePages ∧
    (evictFront s evicting rest r).currentProcessInfo = s.currentProcessInfo ∧
    (evictFront s evicting rest r).page_table_base_register = s.page_table_base_register ∧
    (evictFront s evicting rest r).pm_physmem = s.pm_physmem := by
  rw [evictFront_eq]
  unfold evictWrite
  by_cases h : r.modified = 1 <;> simp only [h, if_true, if_false] <;>
    exact ⟨rfl, rfl, rfl, rfl, rfl, rfl⟩

theorem evictFront_inv {arenaSize F D : Nat} {held : List Nat} {s : Pager}
    (hinv : Inv arenaSize F D held s) {evicting : PagePtr} {rest : List PagePtr}
    {r : perPageInfo} (hc : s.clockStructure = evicting :: rest)
    (hd : s.deref evicting = some r) :
    Inv arenaSize F D (r.ppage :: held) (evictFront s evicting rest r) := by
  have hres : r.resident = 1 :=
    hinv.resident_of_clock (by rw [hc]; exact List.mem_cons_self _ _) hd
  obtain ⟨hf1, hf2, hf3, hf4, hf5, _⟩ := evictFront_fields s evicting rest r
  obtain ⟨X, Y, h1, h2⟩ := hinv.split hd
    (fun x => { x with resident := 0, modified := 0, reference := 0 })
    (fun e => { e with read_enable := 0, write_enable := 0 })
  have hrec : (evictFront s evicting rest r).records =
      X ++ (evicting, { r with resident := 0, modified := 0, reference := 0 }) :: Y := by
    rw [records_congr (evictFront_procs s evicting rest r), h2]
  apply hinv.update hd (evictFront_procs s evicting rest r) hf2 hf4 hf5 (fun _ => rfl)
    (fun e _ he => he.evict)
  · have := hinv.frames
    rw [h1] at this
    rw [hf3, hrec]
    simp only [residentFrames_append, residentFrames_cons, hres, if_true] at this ⊢
    simp only [Nat.zero_ne_one, if_false, List.nil_append]
    refine List.Perm.trans ?_ this
    rw [List.perm_iff_count]
    intro a
    simp only [List.count_append, List.count_cons, List.count_nil]
    omega
  · have := hinv.clock
    rw [h1, hc] at this
    rw [hf1, hrec]
    simp only [residentPtrs_append, residentPtrs_cons, hres, if_true] at this ⊢
    simp only [Nat.zero_ne_one, if_false, List.nil_append]
    have h3 : (evicting :: rest).Perm (evicting :: (residentPtrs X ++ residentPtrs Y)) :=
      this.trans (by simp)
    exact h3.cons_inv

theorem getPhysPage_inv {arenaSize F D : Nat} {s s1 : Pager} {physPage : Nat}
    (hinv : Inv arenaSize F D [] s) (hg : getPhysPage s = some (physPage, s1)) :
    Inv arenaSize F D [physPage] s1 := by
  unfold getPhysPage at hg
  cases hf : s.freePages with
  | cons f rest =>
    simp only [hf, Option.some.injEq, Prod.mk.injEq] at hg
    obtain ⟨e1, e2⟩ := hg
    subst e1; subst e2
    refine ⟨hinv.pids, hinv.arena, ?_, hinv.blocks, hinv.clock, hinv.recs, hinv.ptbr, hinv.cur,
      hinv.small, hinv.smallD, hinv.fits⟩
    have := hinv.frames
    rw [hf] at this
    exact this
  | nil =>
    simp only [hf] at hg
    unfold secondChance at hg
    cases hs : scanClock s.clockStructure.length s with
    | none => simp [hs] at hg
    | some s2 =>
      simp only [hs] at hg
      have hinv2 := scanClock_inv _ hinv hs
      cases hc : s2.clockStructure with
      | nil => simp [hc] at hg
      | cons evicting rest =>
        simp only [hc] at hg
        cases hd : s2.deref evicting with
        | none => simp [hd] at hg
        | some r =>
          simp only [hd, Option.some.injEq, Prod.mk.injEq] at hg
          obtain ⟨e1, e2⟩ := hg
          subst e1; subst e2
          exact evictFront_inv hinv2 hc hd

theorem Inv.canReplace {arenaSize F D : Nat} {s : Pager} (hinv : Inv arenaSize F D [] s)
    (hF : 1 ≤ F) : CanReplace s := by
  by_cases hf : s.freePages = []
  · right
    refine ⟨?_, hinv.clock_valid⟩
    intro hc
    have h1 := hinv.frames.length_eq
    have h2 := hinv.clock.length_eq
    rw [hc] at h2
    rw [hf] at h1
    simp only [List.nil_append, List.length_range] at h1
    unfold residentFrames at h1
    unfold residentPtrs at h2
    simp only [List.length_map, List.length_nil] at h1 h2
    omega
  · left; exact hf

/-! ## What replacement leaves alone -/

theorem arena_modifyProcess (s : Pager) (pid q : pid_t) (f : perProcessInfo → perProcessInfo)
    (hf : ∀ p, arenaOf (f p) = arenaOf p) :
    ((s.modifyProcess pid f).findProcess q).map arenaOf = (s.findProcess q).map arenaOf := by
  rw [findProcess_modifyProcess]
  by_cases h : q = pid
  · subst h
    cases s.findProcess q <;> simp [hf]
  · rw [if_neg h]

theorem arena_updatePage (s : Pager) (h : PagePtr) (f : perPageInfo → perPageInfo)
    (g : page_table_entry_t → page_table_entry_t) (q : pid_t) :
    ((s.updatePage h f g).findProcess q).map arenaOf = (s.findProcess q).map arenaOf := by
  unfold Pager.updatePage Pager.modifyPte Pager.modifyPage
  refine (arena_modifyProcess _ _ _ _ ?_).trans (arena_modifyProcess _ _ _ _ ?_)
  · intro p; rfl
  · intro p
    simp [arenaOf, mapModify_keys]

theorem ptr_ne_iff {h h2 : PagePtr} (e : h2 ≠ h) :
    ¬ (h2.myProcess = h.myProcess ∧ h2.virtualPage = h.virtualPage) := by
  intro hh
  apply e
  cases h2; cases h
  simp_all

theorem Replaced.refl (s : Pager) : Replaced s s :=
  ⟨rfl, rfl, rfl, rfl, fun _ _ => rfl, fun _ _ => rfl, fun _ h => h, fun _ => rfl,
    ⟨[], by simp, by simp⟩⟩

/-- A state whose processes are those of `x` with the page `p` of the clock queue
updated, and which agrees with `x` elsewhere up to the queue and the host calls. -/
theorem Replaced.step {s x y : Pager} (hr : Replaced s x) {p : PagePtr}
    {f : perPageInfo → perPageInfo} {g : page_table_entry_t → page_table_entry_t}
    (hp : p ∈ s.clockStructure)
    (hprocs : y.perProcessInfos = (x.updatePage p f g).perProcessInfos)
    (hfb : y.freeBlocks = x.freeBlocks) (hcur : y.currentProcessInfo = x.currentProcessInfo)
    (hptbr : y.page_table_base_register = x.page_table_base_register)
    (hmem : y.pm_physmem = x.pm_physmem)
    (hclock : ∀ h, h ∈ y.clockStructure → h ∈ x.clockStructure)
    (hcalls : ∃ l, y.hostCalls = x.hostCalls ++ l ∧
      ∀ c ∈ l, ∃ block ppage, c = HostCall.disk_write block ppage) :
    Replaced s y := by
  refine ⟨hfb.trans hr.freeBlocks, hcur.trans hr.cur, hptbr.trans hr.ptbr, hmem.trans hr.physmem,
    ?_, ?_, fun h hh => hr.clockSub h (hclock h hh), ?_, ?_⟩
  · intro h hh
    have e : h ≠ p := fun e => hh (e ▸ hp)
    rw [deref_congr hprocs, updatePage_deref, if_neg e]
    exact hr.derefOut h hh
  · intro h hh
    have e : h ≠ p := fun e => hh (e ▸ hp)
    rw [pte_congr hprocs, updatePage_pte, if_neg (ptr_ne_iff e)]
    exact hr.pteOut h hh
  · intro q
    rw [findProcess_congr hprocs, arena_updatePage]
    exact hr.arena q
  · obtain ⟨l1, h1, h2⟩ := hr.calls
    obtain ⟨l2, h3, h4⟩ := hcalls
    refine ⟨l1 ++ l2, by rw [h3, h1, List.append_assoc], ?_⟩
    intro c hc
    rcases List.mem_append.1 hc with hc | hc
    · exact h2 c hc
    · exact h4 c hc

theorem scanClock_replaced (n : Nat) {s s1 : Pager} (hs : scanClock n s = some s1) :
    Replaced s s1 := by
  refine (scanClock_induct (fun x => Replaced s x) ?_ n s s1 (Replaced.refl s) hs).1
  intro x curr rest r hq hc _ _
  apply hq.step (p := curr) (f := fun r => { r with reference := 0 })
    (g := fun e => { e with read_enable := 0, write_enable := 0 })
  · exact hq.clockSub curr (by rw [hc]; exact List.mem_cons_self _ _)
  · exact modifyPte_modifyPage_procs x curr _ _
  · rfl
  · rfl
  · rfl
  · rfl
  · intro h hh
    rw [clock_rotateFront] at hh
    rw [hc]
    simp only [List.mem_append, List.mem_singleton] at hh
    rcases hh with hh | hh
    · exact List.mem_cons_of_mem _ hh
    · rw [hh]; exact List.mem_cons_self _ _
  · exact ⟨[], by rw [List.append_nil]; rfl, by simp⟩

theorem evictFront_calls (s : Pager) (evicting : PagePtr) (rest : List PagePtr)
    (r : perPageInfo) :
    (evictFront s evicting rest r).hostCalls =
      s.hostCalls ++ (if r.modified = 1 then [HostCall.disk_write r.diskBlock r.ppage] else []) := by
  rw [evictFront_eq]
  unfold evictWrite
  by_cases h : r.modified = 1
  · simp only [h, if_true]; rfl
  · simp only [h, if_false, List.append_nil]; rfl

theorem getPhysPage_replaced {s s1 : Pager} {physPage : Nat}
    (hg : getPhysPage s = some (physPage, s1)) : Replaced s s1 := by
  unfold getPhysPage at hg
  cases hf : s.freePages with
  | cons f rest =>
    simp only [hf, Option.some.injEq, Prod.mk.injEq] at hg
    obtain ⟨_, e2⟩ := hg
    subst e2
    exact ⟨rfl, rfl, rfl, rfl, fun _ _ => rfl, fun _ _ => rfl, fun _ h => h, fun _ => rfl,
      ⟨[], by simp, by simp⟩⟩
  | nil =>
    simp only [hf] at hg
    unfold secondChance at hg
    cases hs : scanClock s.clockStructure.length s with
    | none => simp [hs] at hg
    | some s2 =>
      simp only [hs] at hg
      have hrep := scanClock_replaced _ hs
      cases hc : s2.clockStructure with
      | nil => simp [hc] at hg
      | cons evicting rest =>
        simp only [hc] at hg
        cases hd : s2.deref evicting with
        | none => simp [hd] at hg
        | some r =>
          simp only [hd, Option.some.injEq, Prod.mk.injEq] at hg
          obtain ⟨_, e2⟩ := hg
          subst e2
          obtain ⟨hf1, hf2, _, hf4, hf5, hf6⟩ := evictFront_fields s2 evicting rest r
          apply hrep.step (p := evicting)
            (hrep.clockSub evicting (by rw [hc]; exact List.mem_cons_self _ _))
            (evictFront_procs s2 evicting rest r) hf2 hf4 hf5 hf6
          · intro h hh
            rw [hf1] at hh
            rw [hc]
            exact List.mem_cons_of_mem _ hh
          · refine ⟨_, evictFront_calls s2 evicting rest r, ?_⟩
            intro c hc2
            by_cases hm : r.modified = 1
            · simp only [hm, if_true, List.mem_singleton] at hc2
              exact ⟨_, _, hc2⟩
            · simp [hm] at hc2

/-! ## The invariant: the fault handlers -/

/-- A page that is not resident is bound to the physical page that was taken. -/
theorem Inv.faultIn {arenaSize F D : Nat} {physPage : Nat} {s1 s2 : Pager}
    (hinv : Inv arenaSize F D [physPage] s1) {h : PagePtr} {r : perPageInfo}
    {f : perPageInfo → perPageInfo} {g : page_table_entry_t → page_table_entry_t}
    (hd : s1.deref h = some r) (hnr : r.resident = 0)
    (hprocs : s2.perProcessInfos = (s1.updatePage h f g).perProcessInfos)
    (hclock : s2.clockStructure = s1.clockStructure ++ [h])
    (hfp : s2.freePages = s1.freePages) (hfb : s2.freeBlocks = s1.freeBlocks)
    (hcur : s2.currentProcessInfo = s1.currentProcessInfo)
    (hptbr : s2.page_table_base_register = s1.page_table_base_register)
    (hblock : ∀ x, (f x).diskBlock = x.diskBlock)
    (hres : (f r).resident = 1) (hpp : (f r).ppage = physPage)
    (hok : ∀ e, s1.pte h.myProcess h.virtualPage = some e → RecOK e r → RecOK (g e) (f r)) :
    Inv arenaSize F D [] s2 := by
  obtain ⟨X, Y, h1, h2⟩ := hinv.split hd f g
  have hrec : s2.records = X ++ (h, f r) :: Y := by rw [records_congr hprocs, h2]
  have hnr1 : ¬ r.resident = 1 := by rw [hnr]; decide
  apply hinv.update hd hprocs hfb hcur hptbr hblock hok
  · have := hinv.frames
    rw [h1] at this
    rw [hfp, hrec]
    simp only [residentFrames_append, residentFrames_cons, hnr1, if_false, hres, if_true, hpp]
      at this ⊢
    refine List.Perm.trans ?_ this
    rw [List.perm_iff_count]
    intro a
    simp only [List.count_append, List.count_cons, List.count_nil]
    omega
  · have := hinv.clock
    rw [h1] at this
    rw [hclock, hrec]
    simp only [residentPtrs_append, residentPtrs_cons, hnr1, if_false, hres, if_true] at this ⊢
    refine (List.Perm.append_right [h] this).trans ?_
    rw [List.perm_iff_count]
    intro a
    simp only [List.count_append, List.count_cons, List.count_nil]
    omega

theorem recOK_bindNormal (e : page_table_entry_t) {r : perPageInfo}
    (hz : r.notZeroFilled = 0) (write_flag : Bool) (physPage : Nat) :
    RecOK (normalEntry physPage write_flag e) (normalRecord physPage write_flag r) := by
  unfold normalEntry normalRecord
  cases write_flag <;> constructor <;> simp [hz]

theorem RecOK.bindZero {e : page_table_entry_t} {r : perPageInfo} (h : RecOK e r)
    (write_flag : Bool) (physPage : Nat) :
    RecOK (zeroFilledEntry physPage write_flag e) (zeroFilledRecord physPage write_flag r) := by
  unfold zeroFilledEntry zeroFilledRecord
  cases write_flag <;> constructor <;> simp
  exact h.zeroBit

theorem RecOK.upgrade {e : page_table_entry_t} {r : perPageInfo} (h : RecOK e r)
    (hres : r.resident = 1) (write_flag : Bool) :
    RecOK (upgradeEntry r write_flag e) (upgradeRecord r write_flag r) := by
  have hp := h.frameOK hres
  unfold upgradeEntry upgradeRecord
  by_cases hz : r.notZeroFilled = 0
  · cases write_flag
    · rcases h.modifiedBit with hm | hm <;> constructor <;> simp [hz, hm, hres, hp]
    · constructor <;> simp [hz, hres, hp]
  · have hz1 : r.notZeroFilled = 1 := by
      rcases h.zeroBit with h0 | h0
      · exact absurd h0 hz
      · exact h0
    obtain ⟨hm, hw⟩ := h.zeroOK hz1
    cases write_flag
    · constructor <;> simp [hz1, hm, hw, hres, hp]
    · constructor <;> simp [hz1, hres, hp]

theorem readWriteFault_eq (s : Pager) (cur : pid_t) (r : perPageInfo) (write_flag : Bool)
    (k : Nat) :
    readWriteFault s cur r write_flag k =
      some (0, s.updatePage ⟨cur, k⟩ (upgradeRecord r write_flag) (upgradeEntry r write_flag)) := by
  unfold readWriteFault upgradeRecord upgradeEntry
  by_cases hz : r.notZeroFilled = 0 <;> cases write_flag <;> simp [hz] <;> rfl

theorem updatePage_fields (s : Pager) (h : PagePtr) (f : perPageInfo → perPageInfo)
    (g : page_table_entry_t → page_table_entry_t) :
    (s.updatePage h f g).clockStructure = s.clockStructure ∧
    (s.updatePage h f g).freePages = s.freePages ∧
    (s.updatePage h f g).freeBlocks = s.freeBlocks ∧
    (s.updatePage h f g).currentProcessInfo = s.currentProcessInfo ∧
    (s.updatePage h f g).page_table_base_register = s.page_table_base_register ∧
    (s.updatePage h f g).pm_physmem = s.pm_physmem ∧
    (s.updatePage h f g).disk = s.disk ∧
    (s.updatePage h f g).hostCalls = s.hostCalls :=
  ⟨rfl, rfl, rfl, rfl, rfl, rfl, rfl, rfl⟩

theorem zeroFilledBind_eq (s : Pager) (physPage : Nat) (cur : pid_t) (write_flag : Bool)
    (k : Nat) :
    zeroFilledBind s physPage cur write_flag k =
      Pager.updatePage
        { s with
          pm_physmem := zeroFill s.pm_physmem (physPage * VM_PAGESIZE) VM_PAGESIZE
          clockStructure := s.clockStructure ++ [⟨cur, k⟩] }
        ⟨cur, k⟩ (zeroFilledRecord physPage write_flag) (zeroFilledEntry physPage write_flag) := by
  unfold zeroFilledBind Pager.updatePage Pager.modifyPte Pager.modifyPage Pager.modifyProcess
    zeroFilledRecord zeroFilledEntry
  simp only

theorem normalBind_eq (s : Pager) (r : perPageInfo) (physPage : Nat) (cur : pid_t)
    (write_flag : Bool) (k : Nat) :
    normalBind s r physPage cur write_flag k =
      Pager.updatePage
        { disk_read s r.diskBlock physPage with
          clockStructure := s.clockStructure ++ [⟨cur, k⟩] }
        ⟨cur, k⟩ (normalRecord physPage write_flag) (normalEntry physPage write_flag) := by
  unfold normalBind Pager.updatePage Pager.modifyPte Pager.modifyPage Pager.modifyProcess disk_read
    normalRecord normalEntry
  simp only

theorem zeroFilledBind_deref (s : Pager) (physPage : Nat) (cur : pid_t) (write_flag : Bool)
    (k : Nat) (h2 : PagePtr) :
    (zeroFilledBind s physPage cur write_flag k).deref h2 =
      if h2 = ⟨cur, k⟩ then (s.deref ⟨cur, k⟩).map (zeroFilledRecord physPage write_flag)
      else s.deref h2 := by
  rw [zeroFilledBind_eq, updatePage_deref]
  rfl

theorem zeroFilledBind_pte (s : Pager) (physPage : Nat) (cur : pid_t) (write_flag : Bool)
    (k : Nat) (q : pid_t) (j : Nat) :
    (zeroFilledBind s physPage cur write_flag k).pte q j =
      if q = cur ∧ j = k then (s.pte cur k).map (zeroFilledEntry physPage write_flag)
      else s.pte q j := by
  rw [zeroFilledBind_eq, updatePage_pte]
  rfl

theorem zeroFilledBind_fields (s : Pager) (physPage : Nat) (cur : pid_t) (write_flag : Bool)
    (k : Nat) :
    (zeroFilledBind s physPage cur write_flag k).clockStructure = s.clockStructure ++ [⟨cur, k⟩] ∧
    (zeroFilledBind s physPage cur write_flag k).freePages = s.freePages ∧
    (zeroFilledBind s physPage cur write_flag k).freeBlocks = s.freeBlocks ∧
    (zeroFilledBind s physPage cur write_flag k).currentProcessInfo = s.currentProcessInfo ∧
    (zeroFilledBind s physPage cur write_flag k).page_table_base_register =
      s.page_table_base_register ∧
    (zeroFilledBind s physPage cur write_flag k).disk = s.disk ∧
    (zeroFilledBind s physPage cur write_flag k).hostCalls = s.hostCalls := by
  rw [zeroFilledBind_eq]
  exact ⟨rfl, rfl, rfl, rfl, rfl, rfl, rfl⟩

theorem normalBind_deref (s : Pager) (r : perPageInfo) (physPage : Nat) (cur : pid_t)
    (write_flag : Bool) (k : Nat) (h2 : PagePtr) :
    (normalBind s r physPage cur write_flag k).deref h2 =
      if h2 = ⟨cur, k⟩ then (s.deref ⟨cur, k⟩).map (normalRecord physPage write_flag)
      else s.deref h2 := by
  rw [normalBind_eq, updatePage_deref]
  rfl

theorem normalBind_pte (s : Pager) (r : perPageInfo) (physPage : Nat) (cur : pid_t)
    (write_flag : Bool) (k : Nat) (q : pid_t) (j : Nat) :
    (normalBind s r physPage cur write_flag k).pte q j =
      if q = cur ∧ j = k then (s.pte cur k).map (normalEntry physPage write_flag)
      else s.pte q j := by
  rw [normalBind_eq, updatePage_pte]
  rfl

theorem normalBind_fields (s : Pager) (r : perPageInfo) (physPage : Nat) (cur : pid_t)
    (write_flag : Bool) (k : Nat) :
    (normalBind s r physPage cur write_flag k).clockStructure = s.clockStructure ++ [⟨cur, k⟩] ∧
    (normalBind s r physPage cur write_flag k).freePages = s.freePages ∧
    (normalBind s r physPage cur write_flag k).freeBlocks = s.freeBlocks ∧
    (normalBind s r physPage cur write_flag k).currentProcessInfo = s.currentProcessInfo ∧
    (normalBind s r physPage cur write_flag k).page_table_base_register =
      s.page_table_base_register ∧
    (normalBind s r physPage cur write_flag k).disk = s.disk ∧
    (normalBind s r physPage cur write_flag k).hostCalls =
      s.hostCalls ++ [HostCall.disk_read r.diskBlock physPage] := by
  rw [normalBind_eq]
  exact ⟨rfl, rfl, rfl, rfl, rfl, rfl, rfl⟩

theorem zeroFilledBind_physmem (s : Pager) (physPage : Nat) (cur : pid_t) (write_flag : Bool)
    (k : Nat) :
    (zeroFilledBind s physPage cur write_flag k).pm_physmem =
      zeroFill s.pm_physmem (physPage * VM_PAGESIZE) VM_PAGESIZE := by
  rw [zeroFilledBind_eq, (updatePage_fields _ _ _ _).2.2.2.2.2.1]

/-- The three ways in which `vm_fault` handles a page that has a record. -/
theorem vm_fault_cases {s s1 : Pager} {cur : pid_t} {pr : perProcessInfo} {r : perPageInfo}
    {addr : Nat} {write_flag : Bool} {rc : Int}
    (hc : s.currentProcessInfo = some cur) (hp : s.findProcess cur = some pr)
    (hm : mapFind (vpageOf addr) pr.pageInfo = some r)
    (h : vm_fault s addr write_flag = some (rc, s1)) :
    rc = 0 ∧
    ((r.resident = 0 ∧ r.notZeroFilled ≠ 0 ∧ ∃ physPage sg, getPhysPage s = some (physPage, sg) ∧
        s1 = zeroFilledBind sg physPage cur write_flag (vpageOf addr)) ∨
     (r.resident = 0 ∧ r.notZeroFilled = 0 ∧ ∃ physPage sg r1,
        getPhysPage s = some (physPage, sg) ∧ sg.deref ⟨cur, vpageOf addr⟩ = some r1 ∧
        s1 = normalBind sg r1 physPage cur write_flag (vpageOf addr)) ∨
     (r.resident ≠ 0 ∧
        s1 = s.updatePage ⟨cur, vpageOf addr⟩ (upgradeRecord r write_flag)
          (upgradeEntry r write_flag))) := by
  unfold vm_fault at h
  simp only [hc, hp, hm] at h
  by_cases h1 : r.resident = 0
  · by_cases h2 : r.notZeroFilled = 0
    · simp only [h1, h2, if_true, ne_eq, not_true_eq_false, if_false] at h
      unfold normalPageFault at h
      cases hg : getPhysPage s with
      | none => simp [hg] at h
      | some x =>
        obtain ⟨physPage, sg⟩ := x
        simp only [hg] at h
        cases hd : sg.deref ⟨cur, vpageOf addr⟩ with
        | none => simp [hd] at h
        | some r1 =>
          simp only [hd, Option.some.injEq, Prod.mk.injEq] at h
          exact ⟨h.1.symm, Or.inr (Or.inl ⟨h1, h2, physPage, sg, r1, rfl, hd, h.2.symm⟩)⟩
    · simp only [h1, if_true, ne_eq, h2, not_false_eq_true] at h
      unfold notZeroFilledPageFault at h
      cases hg : getPhysPage s with
      | none => simp [hg] at h
      | some x =>
        obtain ⟨physPage, sg⟩ := x
        simp only [hg, Option.some.injEq, Prod.mk.injEq] at h
        exact ⟨h.1.symm, Or.inl ⟨h1, h2, physPage, sg, rfl, h.2.symm⟩⟩
  · simp only [h1, if_false] at h
    rw [readWriteFault_eq] at h
    simp only [Option.some.injEq, Prod.mk.injEq] at h
    exact ⟨h.1.symm, Or.inr (Or.inr ⟨h1, h.2.symm⟩)⟩

theorem vm_fault_invalid {s s1 : Pager} {cur : pid_t} {pr : perProcessInfo}
    {addr : Nat} {write_flag : Bool} {rc : Int}
    (hc : s.currentProcessInfo = some cur) (hp : s.findProcess cur = some pr)
    (hm : mapFind (vpageOf addr) pr.pageInfo = none)
    (h : vm_fault s addr write_flag = some (rc, s1)) : rc = -1 ∧ s1 = s := by
  unfold vm_fault at h
  simp only [hc, hp, hm, Option.some.injEq, Prod.mk.injEq] at h
  exact ⟨h.1.symm, h.2.symm⟩

theorem Inv.not_in_clock {arenaSize F D : Nat} {held : List Nat} {s : Pager}
    (hinv : Inv arenaSize F D held s) {h : PagePtr} {r : perPageInfo}
    (hd : s.deref h = some r) (hnr : r.resident = 0) : h ∉ s.clockStructure := by
  intro hc
  have := hinv.resident_of_clock hc hd
  rw [hnr] at this
  exact absurd this (by decide)

theorem Inv.pte_some {arenaSize F D : Nat} {held : List Nat} {s : Pager}
    (_hinv : Inv arenaSize F D held s) {cur : pid_t} {pr : perProcessInfo}
    (hp : s.findProcess cur = some pr) (k : Nat) :
    s.pte cur k = some (pr.pageTable.ptes k) := by
  unfold Pager.pte
  simp only [hp]

theorem vm_fault_inv {arenaSize F D : Nat} {s s1 : Pager} {addr : Nat} {write_flag : Bool}
    {rc : Int} (hinv : Inv arenaSize F D [] s)
    (h : vm_fault s addr write_flag = some (rc, s1)) : Inv arenaSize F D [] s1 := by
  cases hc : s.currentProcessInfo with
  | none => simp [vm_fault, hc] at h
  | some cur =>
    cases hp : s.findProcess cur with
    | none => simp [vm_fault, hc, hp] at h
    | some pr =>
      cases hm : mapFind (vpageOf addr) pr.pageInfo with
      | none =>
        rw [(vm_fault_invalid hc hp hm h).2]
        exact hinv
      | some r =>
        have hd : s.deref ⟨cur, vpageOf addr⟩ = some r := by
          rw [deref_of_findProcess hp, hm]
        obtain ⟨_, hcase⟩ := vm_fault_cases hc hp hm h
        rcases hcase with ⟨h1, _, physPage, sg, hg, hs⟩ | ⟨h1, h2, physPage, sg, r1, hg, hd1, hs⟩ |
          ⟨h1, hs⟩
        · have hrep := getPhysPage_replaced hg
          have hd2 : sg.deref ⟨cur, vpageOf addr⟩ = some r := by
            rw [hrep.derefOut _ (hinv.not_in_clock hd h1)]
            exact hd
          rw [hs, zeroFilledBind_eq]
          apply (getPhysPage_inv hinv hg).faultIn hd2 h1 (h := ⟨cur, vpageOf addr⟩)
            (f := zeroFilledRecord physPage write_flag) (g := zeroFilledEntry physPage write_flag)
          · apply updatePage_procs_congr
            rfl
          · exact (updatePage_fields _ _ _ _).1
          · exact (updatePage_fields _ _ _ _).2.1
          · exact (updatePage_fields _ _ _ _).2.2.1
          · exact (updatePage_fields _ _ _ _).2.2.2.1
          · exact (updatePage_fields _ _ _ _).2.2.2.2.1
          · intro x; rfl
          · rfl
          · rfl
          · intro e _ he
            exact he.bindZero write_flag physPage
        · have hrep := getPhysPage_replaced hg
          have hd2 : sg.deref ⟨cur, vpageOf addr⟩ = some r := by
            rw [hrep.derefOut _ (hinv.not_in_clock hd h1)]
            exact hd
          rw [hs, normalBind_eq]
          apply (getPhysPage_inv hinv hg).faultIn hd2 h1 (h := ⟨cur, vpageOf addr⟩)
            (f := normalRecord physPage write_flag) (g := normalEntry physPage write_flag)
          · apply updatePage_procs_congr
            rfl
          · exact (updatePage_fields _ _ _ _).1
          · exact (updatePage_fields _ _ _ _).2.1
          · exact (updatePage_fields _ _ _ _).2.2.1
          · exact (updatePage_fields _ _ _ _).2.2.2.1
          · exact (updatePage_fields _ _ _ _).2.2.2.2.1
          · intro x; rfl
          · rfl
          · rfl
          · intro e _ _
            exact recOK_bindNormal e h2 write_flag physPage
        · have he := hinv.pte_some hp (vpageOf addr)
          have hok := hinv.recs ⟨cur, vpageOf addr⟩ r _ hd he
          have hres : r.resident = 1 := by
            rcases hok.residentBit with h0 | h0
            · exact absurd h0 h1
            · exact h0
          rw [hs]
          apply hinv.update_same hd rfl rfl rfl rfl rfl
          · intro x
            unfold upgradeRecord
            by_cases hz : r.notZeroFilled = 0 <;> cases write_flag <;> simp [hz]
          · unfold upgradeRecord
            by_cases hz : r.notZeroFilled = 0 <;> cases write_flag <;> simp [hz]
          · unfold upgradeRecord
            by_cases hz : r.notZeroFilled = 0 <;> cases write_flag <;> simp [hz]
          · intro e he2 hok2
            exact hok2.upgrade hres write_flag
          · exact List.Perm.refl _

/-! ## The invariant: the other public operations -/

theorem vm_init_inv (arenaSize F D : Nat) (physmem : Nat → Nat) (disk : Nat → Nat → Nat)
    (hF : F < UINT_MOD) (hD : D < UINT_MOD) (hfit : ArenaFits arenaSize) :
    Inv arenaSize F D [] (vm_init F D physmem disk) := by
  refine ⟨by simp [vm_init], by simp [vm_init], ?_, ?_, ?_, ?_, rfl, ?_, hF, hD, hfit⟩
  · simp [vm_init, Pager.records, residentFrames, residentRecords]
  · simp [vm_init, Pager.records, blocksOf]
  · simp [vm_init, Pager.records, residentPtrs, residentRecords]
  · intro h r e hd
    simp [vm_init, Pager.deref, Pager.findProcess, mapFind] at hd
  · intro c hc
    simp [vm_init] at hc

theorem mapFind_insertSorted {κ β : Type} [DecidableEq κ] [LT κ]
    [DecidableRel (fun a b : κ => a < b)] (k k2 : κ) (v : β) (m : List (κ × β))
    (h : mapFind k m = none) :
    mapFind k2 (insertSorted k v m) = if k2 = k then some v else mapFind k2 m := by
  induction m with
  | nil =>
    by_cases e : k2 = k
    · simp [insertSorted, mapFind, e]
    · have : ¬ k = k2 := fun x => e x.symm
      simp [insertSorted, mapFind, e, this]
  | cons x t ih =>
    have hx : ¬ x.1 = k := by
      intro hx
      simp [mapFind, hx] at h
    have ht : mapFind k t = none := by
      simpa [mapFind, hx] using h
    by_cases hlt : k < x.1
    · by_cases e : k2 = k
      · simp [insertSorted, hlt, mapFind, e]
      · have : ¬ k = k2 := fun x => e x.symm
        simp [insertSorted, hlt, mapFind, e, this]
    · simp only [insertSorted, hlt, if_false, mapFind]
      rw [ih ht]
      by_cases e : k2 = k
      · subst e
        simp [hx]
      · simp [e]

theorem mapFind_mapInsert {κ β : Type} [DecidableEq κ] [LT κ]
    [DecidableRel (fun a b : κ => a < b)] (k k2 : κ) (v : β) (m : List (κ × β))
    (h : mapFind k m = none) :
    mapFind k2 (mapInsert k v m) = if k2 = k then some v else mapFind k2 m := by
  unfold mapInsert
  rw [h]
  exact mapFind_insertSorted k k2 v m h

theorem vm_create_inv {arenaSize F D : Nat} {s : Pager} (hinv : Inv arenaSize F D [] s)
    (pid : pid_t) (fresh : page_table_t) : Inv arenaSize F D [] (vm_create s pid fresh) := by
  cases hf : s.findProcess pid with
  | some p =>
    have : vm_create s pid fresh = s := by
      unfold vm_create
      have h1 : pid ∈ s.perProcessInfos.map Prod.fst := by
        by_contra hc
        have := mapFind_eq_none_iff.2 hc
        unfold Pager.findProcess at hf
        rw [hf] at this
        simp at this
      rw [mapInsert_present _ h1]
    rw [this]
    exact hinv
  | none =>
    have hfn : mapFind pid s.perProcessInfos = none := hf
    obtain ⟨X, Y, h1, h2⟩ := mapInsert_split (newProcess fresh) hfn
    have hprocs : (vm_create s pid fresh).perProcessInfos = X ++ (pid, newProcess fresh) :: Y := h2
    have hrec : (vm_create s pid fresh).records = s.records := by
      unfold Pager.records
      rw [hprocs, h1]
      simp [procRecords, newProcess]
    have hfind : ∀ q, (vm_create s pid fresh).findProcess q =
        if q = pid then some (newProcess fresh) else s.findProcess q :=
      fun q => mapFind_mapInsert pid q _ _ hfn
    refine ⟨?_, ?_, ?_, ?_, ?_, ?_, hinv.ptbr, ?_, hinv.small, hinv.smallD, hinv.fits⟩
    · rw [hprocs]
      have hp := hinv.pids
      rw [h1] at hp
      simp only [List.map_append, List.map_cons]
      rw [List.nodup_middle, List.nodup_cons]
      refine ⟨?_, by simpa using hp⟩
      have := mapFind_eq_none_iff.1 hfn
      rw [h1] at this
      simpa using this
    · intro e he
      rw [hprocs] at he
      have : e = (pid, newProcess fresh) ∨ e ∈ s.perProcessInfos := by
        rw [h1]
        simp only [List.mem_append, List.mem_cons] at he ⊢
        tauto
      rcases this with e1 | e1
      · rw [e1]
        exact ⟨rfl, by simp [newProcess], by simp [newProcess]⟩
      · exact hinv.arena e e1
    · rw [hrec]; exact hinv.frames
    · rw [hrec]; exact hinv.blocks
    · rw [hrec]; exact hinv.clock
    · intro h r e hd he
      unfold Pager.deref at hd
      unfold Pager.pte at he
      rw [hfind] at hd he
      by_cases hq : h.myProcess = pid
      · simp [hq, mapFind, newProcess] at hd
      · rw [if_neg hq] at hd he
        exact hinv.recs h r e hd he
    · intro c hc
      rw [hfind]
      by_cases hq : c = pid
      · simp [hq]
      · rw [if_neg hq]
        exact hinv.cur c hc

theorem vm_switch_inv {arenaSize F D : Nat} {s s1 : Pager} (hinv : Inv arenaSize F D [] s)
    {pid : pid_t} (h : vm_switch s pid = some s1) : Inv arenaSize F D [] s1 := by
  unfold vm_switch at h
  cases hf : s.findProcess pid with
  | none => simp [hf] at h
  | some p =>
    simp only [hf, Option.some.injEq] at h
    subst h
    apply Inv.congr hinv
    · rfl
    · rfl
    · rfl
    · rfl
    · rfl
    · intro c hc
      simp only [Option.some.injEq] at hc
      rw [← hc, hf]
      simp

theorem Inv.hasCurrent {arenaSize F D : Nat} {held : List Nat} {s : Pager}
    (hinv : Inv arenaSize F D held s) {cur : pid_t} {pr : perProcessInfo}
    (hc : s.currentProcessInfo = some cur) (hp : s.findProcess cur = some pr) :
    HasCurrent s cur pr ∧ ArenaOK arenaSize pr :=
  ⟨⟨hc, by rw [hinv.ptbr, hc], hp⟩, hinv.arena (cur, pr) (mapFind_mem hp)⟩

theorem records_modifyProcess_split (s : Pager) (pid : pid_t)
    (f : perProcessInfo → perProcessInfo) (pr : perProcessInfo)
    (hn : (s.perProcessInfos.map Prod.fst).Nodup) (hp : s.findProcess pid = some pr) :
    ∃ X Y, s.records = X ++ procRecords (pid, pr) ++ Y ∧
      (s.modifyProcess pid f).records = X ++ procRecords (pid, f pr) ++ Y := by
  obtain ⟨P, Q, h1, h2⟩ := mapModify_split f hn hp
  refine ⟨P.flatMap procRecords, Q.flatMap procRecords, ?_, ?_⟩
  · unfold Pager.records
    rw [h1]
    simp
  · unfold Pager.records Pager.modifyProcess
    simp only [h2]
    simp

theorem vm_extend_inv {arenaSize F D : Nat} {s s1 : Pager} {junkPte junkPage addr : Nat}
    (hinv : Inv arenaSize F D [] s)
    (h : vm_extend arenaSize s junkPte junkPage = some (addr, s1)) :
    Inv arenaSize F D [] s1 := by
  cases hc : s.currentProcessInfo with
  | none => simp [vm_extend, hc] at h
  | some cur =>
    cases hp : s.findProcess cur with
    | none => simp [vm_extend, hc, hp] at h
    | some pr =>
      obtain ⟨hcur, ha⟩ := hinv.hasCurrent hc hp
      obtain ⟨t1, t2⟩ := vm_extend_total arenaSize s cur pr junkPte junkPage hcur hinv.fits ha
      by_cases hx : pr.nextVirtualADDR + VM_PAGESIZE > VM_ARENA_BASEADDR + arenaSize ∨
          s.freeBlocks = []
      · rw [t1 hx] at h
        simp only [Option.some.injEq, Prod.mk.injEq] at h
        rw [← h.2]
        exact hinv
      · rw [not_or] at hx
        cases hb : s.freeBlocks with
        | nil => exact absurd hb hx.2
        | cons block rest =>
          rw [t2 hx.1 block rest hb] at h
          simp only [Option.some.injEq, Prod.mk.injEq] at h
          obtain ⟨_, hs⟩ := h
          have hpi := extendProcess_pageInfo ha junkPte junkPage block
          obtain ⟨w1, _, w3, _⟩ := arena_no_wrap hinv.fits ha
          have hf : ∀ q, s1.findProcess q =
              if q = cur then some (extendProcess pr.nextVirtualPage junkPte junkPage block pr)
              else s.findProcess q := by
            intro q
            rw [← hs]
            have := findProcess_modifyProcess s cur q
              (extendProcess pr.nextVirtualPage junkPte junkPage block)
            rw [hp] at this
            exact this
          obtain ⟨X, Y, r1, r2⟩ := records_modifyProcess_split s cur
            (extendProcess pr.nextVirtualPage junkPte junkPage block) pr hinv.pids hp
          have hrec : s1.records = X ++ procRecords (cur, pr) ++
              [(⟨cur, pr.nextVirtualPage⟩, newPageInfo junkPage block)] ++ Y := by
            rw [← hs]
            have : ({ s with
                perProcessInfos := mapModify cur
                  (extendProcess pr.nextVirtualPage junkPte junkPage block) s.perProcessInfos
                freeBlocks := rest } : Pager).records =
                (s.modifyProcess cur
                  (extendProcess pr.nextVirtualPage junkPte junkPage block)).records := rfl
            rw [this, r2]
            simp only [procRecords, hpi, List.map_append, List.map_cons, List.map_nil,
              List.append_assoc]
          have hnew : residentFrames [((⟨cur, pr.nextVirtualPage⟩ : PagePtr),
              newPageInfo junkPage block)] = [] := by
            simp [residentFrames, residentRecords, newPageInfo]
          have hnew2 : residentPtrs [((⟨cur, pr.nextVirtualPage⟩ : PagePtr),
              newPageInfo junkPage block)] = [] := by
            simp [residentPtrs, residentRecords, newPageInfo]
          refine ⟨?_, ?_, ?_, ?_, ?_, ?_, ?_, ?_, hinv.small, hinv.smallD, hinv.fits⟩
          · rw [← hs]
            simp only [mapModify_keys]
            exact hinv.pids
          · intro e he
            rw [← hs] at he
            simp only [mapModify] at he
            obtain ⟨e0, he0, rfl⟩ := List.mem_map.1 he
            by_cases h1 : e0.1 = cur
            · have e1 : e0.2 = pr := by
                have := mapFind_of_mem hinv.pids (k := e0.1) (v := e0.2) he0
                rw [h1] at this
                have hp2 : mapFind cur s.perProcessInfos = some pr := hp
                rw [hp2] at this
                exact (Option.some.inj this).symm
              simp only [h1, if_true, e1]
              refine ⟨?_, ?_, ?_⟩
              · rw [hpi]
                show _ = List.range ((pr.nextVirtualPage + 1) % ULONG_MOD)
                rw [w3, List.range_succ, List.map_append, ha.1]
                rfl
              · show (pr.nextVirtualADDR + VM_PAGESIZE) % ULONG_MOD =
                  VM_ARENA_BASEADDR + (pr.nextVirtualPage + 1) % ULONG_MOD * VM_PAGESIZE
                rw [w1, w3, ha.2.1]
                ring
              · show (pr.nextVirtualPage + 1) % ULONG_MOD * VM_PAGESIZE ≤ arenaSize
                rw [w3]
                have := hx.1
                rw [ha.2.1] at this
                have e2 : (pr.nextVirtualPage + 1) * VM_PAGESIZE =
                    pr.nextVirtualPage * VM_PAGESIZE + VM_PAGESIZE := by ring
                omega
            · simp only [h1, if_false]
              exact hinv.arena e0 he0
          · have := hinv.frames
            rw [r1] at this
            rw [hrec]
            have e0 : s1.freePages = s.freePages := by rw [← hs]
            rw [e0]
            simp only [residentFrames_append, hnew, List.append_nil] at this ⊢
            exact this
          · have := hinv.blocks
            rw [r1, hb] at this
            rw [hrec]
            have e0 : s1.freeBlocks = rest := by rw [← hs]
            rw [e0]
            refine List.Perm.trans ?_ this
            rw [List.perm_iff_count]
            intro a
            simp only [blocksOf, List.map_append, List.map_cons, List.map_nil,
              List.count_append, List.count_cons, List.count_nil, newPageInfo]
            omega
          · have := hinv.clock
            rw [r1] at this
            rw [hrec]
            have e0 : s1.clockStructure = s.clockStructure := by rw [← hs]
            rw [e0]
            simp only [residentPtrs_append, hnew2, List.append_nil] at this ⊢
            exact this
          · intro p r e hd he
            unfold Pager.deref at hd
            unfold Pager.pte at he
            rw [hf] at hd he
            by_cases hq : p.myProcess = cur
            · rw [if_pos hq] at hd he
              simp only [Option.some.injEq] at hd he
              rw [hpi, mapFind_append] at hd
              cases hm : mapFind p.virtualPage pr.pageInfo with
              | some r0 =>
                rw [hm] at hd
                simp only [Option.some.injEq] at hd
                have hne : p.virtualPage ≠ pr.nextVirtualPage := by
                  intro e1
                  rw [e1, (arena_key_fresh ha).1] at hm
                  simp at hm
                have he0 : e = pr.pageTable.ptes p.virtualPage := by
                  rw [← he]
                  simp [extendProcess, Function.update_apply, hne]
                rw [he0, ← hd]
                apply hinv.recs p r0 _ _ _
                · unfold Pager.deref
                  rw [hq, hp]
                  exact hm
                · unfold Pager.pte
                  rw [hq, hp]
              | none =>
                rw [hm] at hd
                by_cases e1 : pr.nextVirtualPage = p.virtualPage
                · simp only [mapFind, e1, if_true, Option.some.injEq] at hd
                  have he0 : e = ⟨junkPte, 0, 0⟩ := by
                    rw [← he]
                    simp [extendProcess, Function.update_apply, e1]
                  rw [he0, ← hd]
                  constructor <;> simp [newPageInfo]
                · simp [mapFind, e1] at hd
            · rw [if_neg hq] at hd he
              exact hinv.recs p r e hd he
          · rw [← hs]
            exact hinv.ptbr
          · intro c hc2
            rw [hf]
            by_cases hq : c = cur
            · simp [hq]
            · rw [if_neg hq]
              apply hinv.cur c
              rw [← hs] at hc2
              exact hc2

/-! ## Teardown -/

theorem destroyClock_eq (cur : pid_t) : ∀ (n : Nat) (s : Pager) (pending done : List PagePtr),
    s.clockStructure = pending ++ done → pending.length = n →
    (∀ h ∈ pending, s.deref h ≠ none) →
    destroyClock cur n s = some { s with
      clockStructure := done ++ pending.filter (fun h => !decide (h.myProcess = cur)) } := by
  intro n
  induction n with
  | zero =>
    intro s pending done hc hl _
    have : pending = [] := List.length_eq_zero.1 hl
    subst this
    simp only [List.nil_append] at hc
    simp only [destroyClock, List.filter_nil, List.append_nil]
    rw [← hc]
  | succ n ih =>
    intro s pending done hc hl hv
    cases pending with
    | nil => simp at hl
    | cons c p2 =>
      have hc2 : s.clockStructure = c :: (p2 ++ done) := by rw [hc]; rfl
      have hd := hv c (List.mem_cons_self _ _)
      cases hdc : s.deref c with
      | none => exact absurd hdc hd
      | some r =>
        simp only [destroyClock, hc2, hdc]
        by_cases hq : c.myProcess = cur
        · simp only [hq, ne_eq, not_true_eq_false, if_false]
          rw [ih { s with clockStructure := p2 ++ done } p2 done rfl (by simpa using hl)
            (fun h hh => hv h (List.mem_cons_of_mem _ hh))]
          simp [List.filter_cons, hq]
        · simp only [hq, ne_eq, not_false_eq_true, if_true]
          rw [ih { s with clockStructure := p2 ++ done ++ [c] } p2 (done ++ [c])
            (by simp) (by simpa using hl)
            (fun h hh => hv h (List.mem_cons_of_mem _ hh))]
          simp [List.filter_cons, hq]

theorem destroyPages_eq : ∀ (l : List (Nat × perPageInfo)) (s : Pager),
    destroyPages l s = { s with
      freePages := s.freePages ++
        (l.filter (fun x => decide (x.2.resident = 1))).map (fun x => x.2.ppage)
      freeBlocks := s.freeBlocks ++ l.map (fun x => x.2.diskBlock) } := by
  intro l
  induction l with
  | nil => intro s; simp [destroyPages]
  | cons e t ih =>
    intro s
    simp only [destroyPages]
    rw [ih]
    by_cases h : e.2.resident = 1 <;> simp [h, List.filter_cons]

theorem mapErase_mapModify {κ β : Type} [DecidableEq κ] (k : κ) (f : β → β)
    (m : List (κ × β)) : mapErase k (mapModify k f m) = mapErase k m := by
  induction m with
  | nil => rfl
  | cons e t ih =>
    unfold mapErase mapModify at ih ⊢
    by_cases h : e.1 = k <;> simp [List.filter_cons, h, ih]

theorem destroyPtes_fields (cur : pid_t) (n : Nat) (s : Pager) :
    mapErase cur (destroyPtes cur n s).perProcessInfos = mapErase cur s.perProcessInfos ∧
    (destroyPtes cur n s).clockStructure = s.clockStructure ∧
    (destroyPtes cur n s).freePages = s.freePages ∧
    (destroyPtes cur n s).freeBlocks = s.freeBlocks ∧
    (destroyPtes cur n s).pm_physmem = s.pm_physmem ∧
    (destroyPtes cur n s).disk = s.disk ∧
    (destroyPtes cur n s).hostCalls = s.hostCalls := by
  induction n with
  | zero => exact ⟨rfl, rfl, rfl, rfl, rfl, rfl, rfl⟩
  | succ n ih =>
    obtain ⟨h1, h2, h3, h4, h5, h6, h7⟩ := ih
    refine ⟨?_, h2, h3, h4, h5, h6, h7⟩
    simp only [destroyPtes, Pager.modifyPte, Pager.modifyProcess, mapErase_mapModify]
    exact h1

theorem procRecords_frames (cur : pid_t) (p : perProcessInfo) :
    residentFrames (procRecords (cur, p)) =
      (p.pageInfo.filter (fun x => decide (x.2.resident = 1))).map (fun x => x.2.ppage) ∧
    blocksOf (procRecords (cur, p)) = p.pageInfo.map (fun x => x.2.diskBlock) := by
  unfold residentFrames residentRecords blocksOf procRecords
  simp only [List.filter_map, List.map_map]
  exact ⟨rfl, rfl⟩

/-- The state after `vm_destroy` when every entry of the clock queue points to a
record, the queue has fewer than `2 ^ 32` entries and the process fewer than `2 ^ 32`
pages. -/
theorem vm_destroy_eq (s : Pager) (cur : pid_t) (p : perProcessInfo)
    (hc : s.currentProcessInfo = some cur) (hp : s.findProcess cur = some p)
    (hv : ∀ h ∈ s.clockStructure, s.deref h ≠ none)
    (hl : s.clockStructure.length < UINT_MOD) (hn : p.nextVirtualPage < UINT_MOD) :
    vm_destroy s = some (destroyed s cur p) := by
  unfold vm_destroy
  simp only [hc, hp]
  rw [Nat.mod_eq_of_lt hl]
  rw [destroyClock_eq cur _ s s.clockStructure [] (by simp) rfl hv]
  simp only [List.nil_append, hn, if_true, Option.some.injEq]
  rw [destroyPages_eq]
  obtain ⟨h1, h2, h3, h4, h5, h6, h7⟩ := destroyPtes_fields cur p.nextVirtualPage
    { s with
      clockStructure := s.clockStructure.filter (fun h => !decide (h.myProcess = cur))
      freePages := s.freePages ++
        (p.pageInfo.filter (fun x => decide (x.2.resident = 1))).map (fun x => x.2.ppage)
      freeBlocks := s.freeBlocks ++ p.pageInfo.map (fun x => x.2.diskBlock) }
  unfold destroyed
  rw [(procRecords_frames cur p).1, (procRecords_frames cur p).2]
  simp only at h1 h2 h3 h4 h5 h6 h7 ⊢
  rw [h1, h2, h3, h4, h5, h6, h7]

theorem Inv.clock_length {arenaSize F D : Nat} {held : List Nat} {s : Pager}
    (hinv : Inv arenaSize F D held s) :
    held.length + s.freePages.length + s.clockStructure.length = F := by
  have h1 := hinv.frames.length_eq
  have h2 := hinv.clock.length_eq
  unfold residentFrames at h1
  unfold residentPtrs at h2
  simp only [List.length_append, List.length_map, List.length_range] at h1 h2
  omega

theorem destroyed_inv {arenaSize F D : Nat} {s : Pager} (hinv : Inv arenaSize F D [] s)
    {cur : pid_t} {p : perProcessInfo} (hp : s.findProcess cur = some p) :
    Inv arenaSize F D [] (destroyed s cur p) := by
  obtain ⟨P, Q, h1, h2⟩ := mapErase_split hinv.pids hp
  have hpids := hinv.pids
  rw [h1] at hpids
  simp only [List.map_append, List.map_cons, List.nodup_append, List.nodup_cons] at hpids
  have hP : ∀ e ∈ P, e.1 ≠ cur := by
    intro e he hq
    exact hpids.2.2 (List.mem_map.2 ⟨e, he, hq⟩) (List.mem_cons_self _ _)
  have hQ : ∀ e ∈ Q, e.1 ≠ cur := by
    intro e he hq
    exact hpids.2.1.1 (List.mem_map.2 ⟨e, he, hq⟩)
  have hrec0 : s.records = P.flatMap procRecords ++ procRecords (cur, p) ++
      Q.flatMap procRecords := by
    unfold Pager.records
    rw [h1]
    simp
  have hrec : (destroyed s cur p).records = P.flatMap procRecords ++ Q.flatMap procRecords := by
    unfold Pager.records destroyed
    simp only [h2]
    simp
  have hother : ∀ (L : List (pid_t × perProcessInfo)), (∀ e ∈ L, e.1 ≠ cur) →
      (residentPtrs (L.flatMap procRecords)).filter (fun h => !decide (h.myProcess = cur)) =
        residentPtrs (L.flatMap procRecords) := by
    intro L hL
    rw [List.filter_eq_self]
    intro h hh
    unfold residentPtrs residentRecords at hh
    obtain ⟨x, hx, hx2⟩ := List.mem_map.1 hh
    obtain ⟨hx3, _⟩ := List.mem_filter.1 hx
    obtain ⟨e, he, hx4⟩ := List.mem_flatMap.1 hx3
    have := procRecords_keys_pid e x hx4
    rw [hx2] at this
    simp only [Bool.not_eq_true', decide_eq_false_iff_not, this]
    exact hL e he
  have hmine : (residentPtrs (procRecords (cur, p))).filter
      (fun h => !decide (h.myProcess = cur)) = [] := by
    rw [List.filter_eq_nil_iff]
    intro h hh
    unfold residentPtrs residentRecords at hh
    obtain ⟨x, hx, hx2⟩ := List.mem_map.1 hh
    obtain ⟨hx3, _⟩ := List.mem_filter.1 hx
    have := procRecords_keys_pid (cur, p) x hx3
    rw [hx2] at this
    simp [this]
  have hfind : ∀ q, q ≠ cur → (destroyed s cur p).findProcess q = s.findProcess q := by
    intro q hq
    have : ¬ cur = q := fun e => hq e.symm
    show mapFind q (mapErase cur s.perProcessInfos) = mapFind q s.perProcessInfos
    rw [h2, h1]
    simp only [mapFind_append, mapFind, this, if_false]
  have hfind2 : (destroyed s cur p).findProcess cur = none := by
    unfold Pager.findProcess destroyed
    simp only [h2]
    rw [mapFind_eq_none_iff]
    simp only [List.map_append, List.mem_append, not_or]
    exact ⟨fun hc => hpids.2.2 hc (List.mem_cons_self _ _), hpids.2.1.1⟩
  refine ⟨?_, ?_, ?_, ?_, ?_, ?_, rfl, ?_, hinv.small, hinv.smallD, hinv.fits⟩
  · show (List.map Prod.fst (mapErase cur s.perProcessInfos)).Nodup
    rw [h2]
    simp only [List.map_append, List.nodup_append]
    refine ⟨hpids.1, hpids.2.1.2, ?_⟩
    intro a ha hb
    exact hpids.2.2 ha (List.mem_cons_of_mem _ hb)
  · intro e he
    have he2 : e ∈ mapErase cur s.perProcessInfos := he
    rw [h2] at he2
    apply hinv.arena e
    rw [h1]
    simp only [List.mem_append, List.mem_cons] at he2 ⊢
    tauto
  · have := hinv.frames
    rw [hrec0] at this
    rw [hrec]
    refine List.Perm.trans ?_ this
    show ([] ++ (s.freePages ++ residentFrames (procRecords (cur, p))) ++ _).Perm _
    rw [List.perm_iff_count]
    intro a
    simp only [residentFrames_append, List.count_append, List.count_nil]
    omega
  · have := hinv.blocks
    rw [hrec0] at this
    rw [hrec]
    refine List.Perm.trans ?_ this
    show ((s.freeBlocks ++ blocksOf (procRecords (cur, p))) ++ _).Perm _
    rw [List.perm_iff_count]
    intro a
    simp only [blocksOf_append, List.count_append]
    omega
  · have := (hinv.clock).filter (fun h => !decide (h.myProcess = cur))
    rw [hrec0] at this
    rw [hrec]
    simp only [residentPtrs_append, List.filter_append, hother P hP, hother Q hQ, hmine,
      List.append_nil] at this ⊢
    exact this
  · intro h r e hd he
    by_cases hq : h.myProcess = cur
    · unfold Pager.deref at hd
      rw [hq, hfind2] at hd
      simp at hd
    · unfold Pager.deref at hd
      unfold Pager.pte at he
      rw [hfind _ hq] at hd he
      exact hinv.recs h r e hd he
  · intro c hc
    simp [destroyed] at hc

theorem vm_destroy_inv {arenaSize F D : Nat} {s s1 : Pager} (hinv : Inv arenaSize F D [] s)
    (h : vm_destroy s = some s1) : Inv arenaSize F D [] s1 := by
  cases hc : s.currentProcessInfo with
  | none => simp [vm_destroy, hc] at h
  | some cur =>
    cases hp : s.findProcess cur with
    | none => simp [vm_destroy, hc, hp] at h
    | some p =>
      have hl : s.clockStructure.length < UINT_MOD := by
        have := hinv.clock_length
        have := hinv.small
        omega
      have hn : p.nextVirtualPage < UINT_MOD := by
        have h1 := hinv.blocks.length_eq
        have h2 := (hinv.arena (cur, p) (mapFind_mem hp)).1
        have h3 : p.pageInfo.length = p.nextVirtualPage := by
          have := congrArg List.length h2
          simpa using this
        obtain ⟨X, Y, h4, _⟩ := records_modifyProcess_split s cur id p hinv.pids hp
        have h5 := congrArg List.length h4
        simp only [List.length_append, procRecords, List.length_map] at h5
        simp only [List.length_append, blocksOf, List.length_map, List.length_range] at h1
        have := hinv.smallD
        omega
      rw [vm_destroy_eq s cur p hc hp hinv.clock_valid hl hn] at h
      rw [← Option.some.inj h]
      exact destroyed_inv hinv hp

/-! ## The message reader and the reachable states -/

/-- The byte step of `vm_syslog` either leaves the state alone or is a read fault. -/
theorem syslogByte_state {s s1 : Pager} {vAddr : Nat} {b : Option Nat}
    (h : syslogByte s vAddr = some (b, s1)) :
    s1 = s ∨ ∃ rc, vm_fault s vAddr false = some (rc, s1) := by
  unfold syslogByte at h
  cases hc : s.currentProcessInfo with
  | none => simp [hc] at h
  | some cur =>
    cases hp : s.findProcess cur with
    | none => simp [hc, hp] at h
    | some pr =>
      cases hm : mapFind (vpageOf vAddr) pr.pageInfo with
      | none => simp [hc, hp, hm] at h
      | some r =>
        cases hpt : s.page_table_base_register with
        | none => simp [hc, hp, hm, hpt] at h
        | some pt =>
          cases he : s.pte pt (vpageOf vAddr) with
          | none => simp [hc, hp, hm, hpt, he] at h
          | some e =>
            simp only [hc, hp, hm, hpt, he] at h
            by_cases hre : e.read_enable = 0
            · simp only [hre, if_true] at h
              cases hf : vm_fault s vAddr false with
              | none => simp [hf] at h
              | some x =>
                obtain ⟨rc, s2⟩ := x
                simp only [hf] at h
                right
                refine ⟨rc, ?_⟩
                by_cases hrc : rc = -1
                · simp only [hrc, if_true, Option.some.injEq, Prod.mk.injEq] at h
                  rw [hrc, h.2]
                · simp only [hrc, if_false] at h
                  cases hd : s2.deref ⟨cur, vpageOf vAddr⟩ with
                  | none => simp [hd] at h
                  | some pe =>
                    simp only [hd, Option.some.injEq, Prod.mk.injEq] at h
                    rw [h.2]
            · simp only [hre, if_false] at h
              left
              cases hd : s.deref ⟨cur, vpageOf vAddr⟩ with
              | none => simp [hd] at h
              | some pe =>
                simp only [hd] at h
                simp only [Int.reduceNeg, zero_eq_neg, one_ne_zero, if_false, Option.some.injEq,
                  Prod.mk.injEq] at h
                exact h.2.symm

theorem syslogByte_inv {arenaSize F D : Nat} {s s1 : Pager} {vAddr : Nat} {b : Option Nat}
    (hinv : Inv arenaSize F D [] s) (h : syslogByte s vAddr = some (b, s1)) :
    Inv arenaSize F D [] s1 := by
  rcases syslogByte_state h with e | ⟨rc, hf⟩
  · rw [e]; exact hinv
  · exact vm_fault_inv hinv hf

theorem syslogLoop_inv {arenaSize F D : Nat} : ∀ (n : Nat) {s s1 : Pager} {vAddr : Nat}
    {output out1 : List Nat} {rc : Int}, Inv arenaSize F D [] s →
    syslogLoop n s vAddr output = some (rc, s1, out1) → Inv arenaSize F D [] s1 := by
  intro n
  induction n with
  | zero =>
    intro s s1 vAddr output out1 rc hinv h
    simp only [syslogLoop, Option.some.injEq, Prod.mk.injEq] at h
    rw [← h.2.1]
    exact hinv
  | succ n ih =>
    intro s s1 vAddr output out1 rc hinv h
    simp only [syslogLoop] at h
    cases hb : syslogByte s vAddr with
    | none => simp [hb] at h
    | some x =>
      obtain ⟨b, s2⟩ := x
      have hinv2 := syslogByte_inv hinv hb
      cases b with
      | none =>
        simp only [hb, Option.some.injEq, Prod.mk.injEq] at h
        rw [← h.2.1]
        exact hinv2
      | some byte =>
        simp only [hb] at h
        exact ih hinv2 h

theorem vm_syslog_inv {arenaSize F D : Nat} {s s1 : Pager} {message len : Nat} {rc : Int}
    (hinv : Inv arenaSize F D [] s) (h : vm_syslog s message len = some (rc, s1)) :
    Inv arenaSize F D [] s1 := by
  unfold vm_syslog at h
  cases hc : s.currentProcessInfo with
  | none => simp [hc] at h
  | some cur =>
    cases hp : s.findProcess cur with
    | none => simp [hc, hp] at h
    | some pr =>
      simp only [hc, hp] at h
      by_cases h1 : len < 1
      · simp only [h1, if_true, Option.some.injEq, Prod.mk.injEq] at h
        rw [← h.2]; exact hinv
      · by_cases h2 : message < VM_ARENA_BASEADDR
        · simp only [h1, h2, if_true, if_false, Option.some.injEq, Prod.mk.injEq] at h
          rw [← h.2]; exact hinv
        · by_cases h3 : (message + len) % ULONG_MOD > pr.nextVirtualADDR
          · simp only [h1, h2, h3, if_true, if_false, Option.some.injEq, Prod.mk.injEq] at h
            rw [← h.2]; exact hinv
          · simp only [h1, h2, h3, if_false] at h
            cases hl : syslogLoop len s message [] with
            | none => simp [hl] at h
            | some x =>
              obtain ⟨rc2, s2, out⟩ := x
              have hinv2 := syslogLoop_inv len hinv hl
              simp only [hl] at h
              by_cases hrc : rc2 = -1
              · simp only [hrc, if_true, Option.some.injEq, Prod.mk.injEq] at h
                rw [← h.2]; exact hinv2
              · simp only [hrc, if_false, Option.some.injEq, Prod.mk.injEq] at h
                rw [← h.2]
                exact hinv2.congr rfl rfl rfl rfl hinv2.ptbr hinv2.cur

/-- Every reachable state satisfies the invariant. -/
theorem reachable_inv {arenaSize F D : Nat} {s : Pager} (h : Reachable arenaSize F D s) :
    Inv arenaSize F D [] s := by
  induction h with
  | init physmem disk hF hD hfit => exact vm_init_inv arenaSize F D physmem disk hF hD hfit
  | create pid fresh _ ih => exact vm_create_inv ih pid fresh
  | switch pid _ h ih => exact vm_switch_inv ih h
  | extend junkPte junkPage addr _ h ih => exact vm_extend_inv ih h
  | fault addr write_flag rc _ _ h ih => exact vm_fault_inv ih h
  | syslog message len rc _ _ _ h ih => exact vm_syslog_inv ih h
  | destroy _ h ih => exact vm_destroy_inv ih h
  | store physmem _ ih => exact ih.congr rfl rfl rfl rfl ih.ptbr ih.cur

theorem Example.evicted_reachable : Reachable Example.arenaSize 2 4 Example.evicted :=
  runD_reachable _ (Example.started_reachable 2 4 (by decide) (by decide)) rfl

/-! ## The invariants of the specification -/

/-- C4 (P1, frame partition): in every state reachable from `vm_init F D` by public
calls, the number of free physical pages plus the number of records with
`resident = 1` is `F`; no physical page occurs twice among the free pages and the
pages of the resident records; these pages are exactly `0 .. F-1`; and two resident
records with the same physical page are the same record. -/
theorem frame_partition {arenaSize F D : Nat} {s : Pager} (h : Reachable arenaSize F D s) :
    s.freePages.length + (residentRecords s.records).length = F ∧
    (s.freePages ++ residentFrames s.records).Nodup ∧
    (∀ f, f ∈ s.freePages ++ residentFrames s.records ↔ f < F) ∧
    (∀ p1 r1 p2 r2, s.deref p1 = some r1 → s.deref p2 = some r2 → r1.resident = 1 →
      r2.resident = 1 → r1.ppage = r2.ppage → p1 = p2) := by
  have hinv := reachable_inv h
  have hfr : (s.freePages ++ residentFrames s.records).Perm (List.range F) := by
    simpa using hinv.frames
  have hnd : (s.freePages ++ residentFrames s.records).Nodup :=
    hfr.nodup_iff.2 (List.nodup_range F)
  refine ⟨?_, hnd, ?_, ?_⟩
  · have := hfr.length_eq
    simpa [residentFrames] using this
  · intro f
    rw [hfr.mem_iff, List.mem_range]
  · intro p1 r1 p2 r2 h1 h2 e1 e2 e3
    have hn2 : (residentFrames s.records).Nodup := (List.nodup_append.1 hnd).2.1
    have m1 : (p1, r1) ∈ residentRecords s.records := by
      rw [hinv.deref_eq] at h1
      exact List.mem_filter.2 ⟨mapFind_mem h1, by simpa using e1⟩
    have m2 : (p2, r2) ∈ residentRecords s.records := by
      rw [hinv.deref_eq] at h2
      exact List.mem_filter.2 ⟨mapFind_mem h2, by simpa using e2⟩
    have := List.inj_on_of_nodup_map hn2 m1 m2 e3
    exact (Prod.mk.inj this).1

/-- C4, witness: the state of scenario 3. -/
theorem frame_partition_witness :
    Reachable Example.arenaSize 2 4 Example.evicted ∧
    (Example.evicted.freePages.length + (residentRecords Example.evicted.records).length = 2 ∧
    (Example.evicted.freePages ++ residentFrames Example.evicted.records).Nodup ∧
    (∀ f, f ∈ Example.evicted.freePages ++ residentFrames Example.evicted.records ↔ f < 2) ∧
    (∀ p1 r1 p2 r2, Example.evicted.deref p1 = some r1 → Example.evicted.deref p2 = some r2 →
      r1.resident = 1 → r2.resident = 1 → r1.ppage = r2.ppage → p1 = p2)) :=
  ⟨Example.evicted_reachable, frame_partition Example.evicted_reachable⟩

/-- C5 (P2, block partition): in every state reachable from `vm_init F D` by public
calls, the number of free disk blocks plus the number of live page records (over
all registered processes) is `D`; no block occurs twice among the free blocks and
the blocks of the live records; and these blocks are exactly `0 .. D-1`. -/
theorem block_partition {arenaSize F D : Nat} {s : Pager} (h : Reachable arenaSize F D s) :
    s.freeBlocks.length + s.records.length = D ∧
    (s.freeBlocks ++ blocksOf s.records).Nodup ∧
    (∀ b, b ∈ s.freeBlocks ++ blocksOf s.records ↔ b < D) := by
  have hinv := reachable_inv h
  refine ⟨?_, hinv.blocks.nodup_iff.2 (List.nodup_range D), ?_⟩
  · have := hinv.blocks.length_eq
    simpa [blocksOf] using this
  · intro b
    rw [hinv.blocks.mem_iff, List.mem_range]

/-- C5, witness: the state of scenario 3. -/
theorem block_partition_witness :
    Reachable Example.arenaSize 2 4 Example.evicted ∧
    (Example.evicted.freeBlocks.length + Example.evicted.records.length = 4 ∧
    (Example.evicted.freeBlocks ++ blocksOf Example.evicted.records).Nodup ∧
    (∀ b, b ∈ Example.evicted.freeBlocks ++ blocksOf Example.evicted.records ↔ b < 4)) :=
  ⟨Example.evicted_reachable, block_partition Example.evicted_reachable⟩

/-- C6 (P3, clock fidelity): in every state reachable from `vm_init F D` by public
calls, a live page record has `resident = 1` if and only if the pointer to it is in
the clock queue; the queue has no entry twice; every entry points to a record of a
registered process; and the queue is a permutation of the pointers to the resident
records. -/
theorem clock_fidelity {arenaSize F D : Nat} {s : Pager} (h : Reachable arenaSize F D s) :
    (∀ p r, s.deref p = some r → (r.resident = 1 ↔ p ∈ s.clockStructure)) ∧
    s.clockStructure.Nodup ∧
    (∀ p ∈ s.clockStructure, ∃ r pr, s.deref p = some r ∧ s.findProcess p.myProcess = some pr) ∧
    s.clockStructure.Perm (residentPtrs s.records) := by
  have hinv := reachable_inv h
  refine ⟨?_, ?_, ?_, hinv.clock⟩
  · intro p r hd
    exact ⟨fun hr => hinv.clock_of_resident hd hr, fun hc => hinv.resident_of_clock hc hd⟩
  · rw [hinv.clock.nodup_iff]
    unfold residentPtrs residentRecords
    exact hinv.keys.sublist ((List.filter_sublist _).map _)
  · intro p hp
    have hv := hinv.clock_valid p hp
    cases hd : s.deref p with
    | none => exact absurd hd hv
    | some r =>
      cases hf : s.findProcess p.myProcess with
      | none =>
        unfold Pager.deref at hd
        rw [hf] at hd
        simp at hd
      | some pr => exact ⟨r, pr, rfl, rfl⟩

/-- C6, witness: the state of scenario 3. -/
theorem clock_fidelity_witness :
    Reachable Example.arenaSize 2 4 Example.evicted ∧
    ((∀ p r, Example.evicted.deref p = some r →
      (r.resident = 1 ↔ p ∈ Example.evicted.clockStructure)) ∧
    Example.evicted.clockStructure.Nodup ∧
    (∀ p ∈ Example.evicted.clockStructure, ∃ r pr, Example.evicted.deref p = some r ∧
      Example.evicted.findProcess p.myProcess = some pr) ∧
    Example.evicted.clockStructure.Perm (residentPtrs Example.evicted.records)) :=
  ⟨Example.evicted_reachable, clock_fidelity Example.evicted_reachable⟩

/-- C7 (P4, permission conservatism): in every state reachable from `vm_init F D` by
public calls, for every registered process and every index below its
`nextVirtualPage` there is a page record, and for it and the page-table entry at
that index: a set `write_enable` implies that the record is resident and modified; a
set `read_enable` implies that the record is resident and that the entry and the
record name the same physical page. In particular no enable bit is set while
`resident` is `0`. -/
theorem permission_conservatism {arenaSize F D : Nat} {s : Pager}
    (h : Reachable arenaSize F D s) (pid : pid_t) (pr : perProcessInfo) (k : Nat)
    (hp : s.findProcess pid = some pr) (hk : k < pr.nextVirtualPage) :
    ∃ r, mapFind k pr.pageInfo = some r ∧
      ((pr.pageTable.ptes k).write_enable ≠ 0 → r.resident = 1 ∧ r.modified = 1) ∧
      ((pr.pageTable.ptes k).read_enable ≠ 0 →
        r.resident = 1 ∧ (pr.pageTable.ptes k).ppage = r.ppage) ∧
      (r.resident = 0 →
        (pr.pageTable.ptes k).read_enable = 0 ∧ (pr.pageTable.ptes k).write_enable = 0) := by
  have hinv := reachable_inv h
  have ha := hinv.arena (pid, pr) (mapFind_mem hp)
  cases hm : mapFind k pr.pageInfo with
  | none =>
    rw [mapFind_eq_none_iff, ha.1, List.mem_range] at hm
    exact absurd hk hm
  | some r =>
    have hd : s.deref ⟨pid, k⟩ = some r := by rw [deref_of_findProcess hp, hm]
    have hok := hinv.recs ⟨pid, k⟩ r _ hd (hinv.pte_some hp k)
    have hw : (pr.pageTable.ptes k).write_enable ≠ 0 → (pr.pageTable.ptes k).write_enable = 1 := by
      intro h0
      rcases hok.writeBit with h1 | h1
      · exact absurd h1 h0
      · exact h1
    have hr : (pr.pageTable.ptes k).read_enable ≠ 0 → (pr.pageTable.ptes k).read_enable = 1 := by
      intro h0
      rcases hok.readBit with h1 | h1
      · exact absurd h1 h0
      · exact h1
    refine ⟨r, rfl, fun h0 => hok.writeOK (hw h0), ?_, ?_⟩
    · intro h0
      have := hok.readOK (hr h0)
      exact ⟨this, hok.frameOK this⟩
    · intro h0
      constructor
      · by_contra h1
        have := hok.readOK (hr h1)
        omega
      · by_contra h1
        have := (hok.writeOK (hw h1)).1
        omega

/-- C7, witness: page 1 of process 1 in the state of scenario 3. -/
theorem permission_conservatism_witness :
    Reachable Example.arenaSize 2 4 Example.evicted ∧
    Example.evicted.findProcess 1 = some (Example.evicted.processD 1) ∧
    1 < (Example.evicted.processD 1).nextVirtualPage ∧
    ∃ r, mapFind 1 (Example.evicted.processD 1).pageInfo = some r ∧
      (((Example.evicted.processD 1).pageTable.ptes 1).write_enable ≠ 0 →
        r.resident = 1 ∧ r.modified = 1) ∧
      (((Example.evicted.processD 1).pageTable.ptes 1).read_enable ≠ 0 →
        r.resident = 1 ∧ ((Example.evicted.processD 1).pageTable.ptes 1).ppage = r.ppage) ∧
      (r.resident = 0 →
        ((Example.evicted.processD 1).pageTable.ptes 1).read_enable = 0 ∧
        ((Example.evicted.processD 1).pageTable.ptes 1).write_enable = 0) :=
  ⟨Example.evicted_reachable, rfl, by decide,
    permission_conservatism Example.evicted_reachable 1 _ 1 rfl (by decide)⟩

/-! ## Zero-fill safety -/

theorem zeroFill_apply (n : Nat) : ∀ (mem : Nat → Nat) (byte a : Nat),
    zeroFill mem byte n a = if byte ≤ a ∧ a < byte + n then 0 else mem a := by
  induction n with
  | zero =>
    intro mem byte a
    have : ¬ (byte ≤ a ∧ a < byte + 0) := by omega
    rw [if_neg this]
    rfl
  | succ n ih =>
    intro mem byte a
    rw [zeroFill, ih]
    by_cases h1 : a = byte
    · subst h1
      have h2 : ¬ (a + 1 ≤ a ∧ a < a + 1 + n) := by omega
      have h3 : a ≤ a ∧ a < a + (n + 1) := by omega
      simp [h2, h3]
    · by_cases h2 : byte + 1 ≤ a ∧ a < byte + 1 + n
      · have h3 : byte ≤ a ∧ a < byte + (n + 1) := by omega
        simp [h2, h3]
      · have h3 : ¬ (byte ≤ a ∧ a < byte + (n + 1)) := by omega
        simp [h2, h3, Function.update_apply, h1]

theorem vpageOf_arena {a : Nat} (h1 : VM_ARENA_BASEADDR ≤ a) (h2 : a < ULONG_MOD) :
    vpageOf a = (a - VM_ARENA_BASEADDR) / VM_PAGESIZE := by
  unfold vpageOf
  unfold VM_ARENA_BASEADDR ULONG_MOD VM_PAGESIZE at *
  omega

theorem vpageOf_page {arenaSize : Nat} (hfit : ArenaFits arenaSize) {k off : Nat}
    (hk : k * VM_PAGESIZE + off < arenaSize + VM_PAGESIZE) (ho : off < VM_PAGESIZE) :
    vpageOf (VM_ARENA_BASEADDR + k * VM_PAGESIZE + off) = k := by
  rw [vpageOf_arena (by omega) (by unfold ArenaFits at hfit; omega)]
  unfold VM_ARENA_BASEADDR VM_PAGESIZE at *
  omega

/-- A read fault on a page that is not resident and not yet zero-filled: the
shape of the resulting state. -/
theorem zeroFault_state {arenaSize F D : Nat} {s : Pager} (hinv : Inv arenaSize F D [] s)
    (hF : 1 ≤ F) {cur : pid_t} {pr : perProcessInfo} {r : perPageInfo} {addr : Nat}
    (write_flag : Bool)
    (hc : s.currentProcessInfo = some cur) (hp : s.findProcess cur = some pr)
    (hm : mapFind (vpageOf addr) pr.pageInfo = some r) (hnr : r.resident = 0)
    (hz : r.notZeroFilled ≠ 0) :
    ∃ physPage sg, getPhysPage s = some (physPage, sg) ∧
      vm_fault s addr write_flag =
        some (0, zeroFilledBind sg physPage cur write_flag (vpageOf addr)) ∧
      sg.deref ⟨cur, vpageOf addr⟩ = some r ∧
      sg.pte cur (vpageOf addr) = some (pr.pageTable.ptes (vpageOf addr)) := by
  obtain ⟨physPage, sg, hg, _⟩ := getPhysPage_defined s (hinv.canReplace hF)
  have hd : s.deref ⟨cur, vpageOf addr⟩ = some r := by rw [deref_of_findProcess hp, hm]
  have hrep := getPhysPage_replaced hg
  have hout := hinv.not_in_clock hd hnr
  refine ⟨physPage, sg, hg, ?_, ?_, ?_⟩
  · unfold vm_fault
    simp only [hc, hp, hm, hnr, if_true, ne_eq, hz, not_false_eq_true]
    unfold notZeroFilledPageFault
    simp only [hg]
  · rw [hrep.derefOut _ hout]
    exact hd
  · have := hrep.pteOut ⟨cur, vpageOf addr⟩ hout
    rw [this]
    exact hinv.pte_some hp _

/-- C8 (P6, zero-fill safety): in every state reachable with at least one physical
page, if `vm_extend` succeeds with the address `addr` and `vm_fault addr false` is
called next, whatever physical memory and the disk contain at that moment, then
the fault returns `0`; afterwards the record of the page is resident, its
page-table entry is read enabled and names the same physical page, all
`VM_PAGESIZE` bytes of that physical page are zero, and the fault issued no
`disk_read` at all. -/
theorem zero_fill_safety {arenaSize F D : Nat} {s s1 : Pager} (h : Reachable arenaSize F D s)
    (hF : 1 ≤ F) {junkPte junkPage addr : Nat}
    (he : vm_extend arenaSize s junkPte junkPage = some (addr, s1)) (hnz : addr ≠ 0)
    (physmem : Nat → Nat) (disk : Nat → Nat → Nat) :
    ∃ s2 cur r e,
      vm_fault { s1 with pm_physmem := physmem, disk := disk } addr false = some (0, s2) ∧
      s2.currentProcessInfo = some cur ∧
      s2.deref ⟨cur, vpageOf addr⟩ = some r ∧ r.resident = 1 ∧
      s2.pte cur (vpageOf addr) = some e ∧ e.read_enable = 1 ∧ e.ppage = r.ppage ∧
      (∀ off, off < VM_PAGESIZE → s2.pm_physmem (r.ppage * VM_PAGESIZE + off) = 0) ∧
      ∃ l, s2.hostCalls = s1.hostCalls ++ l ∧
        ∀ block ppage, HostCall.disk_read block ppage ∉ l := by
  have hinv := reachable_inv h
  cases hc : s.currentProcessInfo with
  | none => simp [vm_extend, hc] at he
  | some cur =>
    cases hp : s.findProcess cur with
    | none => simp [vm_extend, hc, hp] at he
    | some pr =>
      obtain ⟨hcur, ha⟩ := hinv.hasCurrent hc hp
      obtain ⟨e1, hx, block, rest, hb, hs⟩ :=
        vm_extend_effect arenaSize s s1 cur pr junkPte junkPage addr hcur hinv.fits ha he hnz
      have hinv1 : Inv arenaSize F D [] { s1 with pm_physmem := physmem, disk := disk } :=
        (vm_extend_inv hinv he).congr rfl rfl rfl rfl (vm_extend_inv hinv he).ptbr
          (vm_extend_inv hinv he).cur
      have hc1 : ({ s1 with pm_physmem := physmem, disk := disk } : Pager).currentProcessInfo =
          some cur := by
        rw [hs]; exact hc
      have hp1 : ({ s1 with pm_physmem := physmem, disk := disk } : Pager).findProcess cur =
          some (extendProcess pr.nextVirtualPage junkPte junkPage block pr) := by
        rw [hs]
        have := findProcess_modifyProcess s cur cur
          (extendProcess pr.nextVirtualPage junkPte junkPage block)
        rw [hp] at this
        simpa using this
      have hv : vpageOf addr = pr.nextVirtualPage := by
        rw [e1, ha.2.1]
        have := @vpageOf_page arenaSize hinv.fits pr.nextVirtualPage 0
          (by have := ha.2.2; unfold VM_PAGESIZE at *; omega) (by unfold VM_PAGESIZE; omega)
        simpa using this
      have hm1 : mapFind (vpageOf addr)
          (extendProcess pr.nextVirtualPage junkPte junkPage block pr).pageInfo =
          some (newPageInfo junkPage block) := by
        rw [hv, extendProcess_pageInfo ha, mapFind_append, (arena_key_fresh ha).1]
        simp [mapFind]
      obtain ⟨physPage, sg, hg, hf, hd, hpte⟩ := zeroFault_state hinv1 hF false hc1 hp1 hm1
        rfl (by simp [newPageInfo])
      have hrep := getPhysPage_replaced hg
      obtain ⟨l, hl1, hl2⟩ := hrep.calls
      have hr : (zeroFilledBind sg physPage cur false (vpageOf addr)).deref ⟨cur, vpageOf addr⟩ =
          some (zeroFilledRecord physPage false (newPageInfo junkPage block)) := by
        rw [zeroFilledBind_deref, if_pos rfl, hd]
        rfl
      have hpe : (zeroFilledBind sg physPage cur false (vpageOf addr)).pte cur (vpageOf addr) =
          some (zeroFilledEntry physPage false
            ((extendProcess pr.nextVirtualPage junkPte junkPage block pr).pageTable.ptes
              (vpageOf addr))) := by
        rw [zeroFilledBind_pte, if_pos ⟨rfl, rfl⟩, hpte]
        rfl
      obtain ⟨_, _, _, hf4, _, _, hf7⟩ :=
        zeroFilledBind_fields sg physPage cur false (vpageOf addr)
      refine ⟨_, cur, _, _, hf, ?_, hr, rfl, hpe, rfl, rfl, ?_, l, ?_, ?_⟩
      · rw [hf4]
        exact hrep.cur.trans hc1
      · intro off ho
        rw [zeroFilledBind_physmem, zeroFill_apply]
        have : physPage * VM_PAGESIZE ≤ physPage * VM_PAGESIZE + off ∧
            physPage * VM_PAGESIZE + off < physPage * VM_PAGESIZE + VM_PAGESIZE := by omega
        exact if_pos this
      · rw [hf7]
        exact hl1
      · intro block ppage hmem
        obtain ⟨b2, p2, hh⟩ := hl2 _ hmem
        cases hh

/-- C8, witness: process 1 owns one page, extends a second one and reads it; at that
moment memory holds the byte 1 everywhere and the disk the byte 2. -/
theorem zero_fill_safety_witness :
    Reachable Example.arenaSize 2 4 Example.onePage ∧ 1 ≤ 2 ∧
    vm_extend Example.arenaSize Example.onePage 5 6 =
      some (VM_ARENA_BASEADDR + VM_PAGESIZE,
        runD Example.arenaSize Example.onePage [Call.extend 5 6]) ∧
    VM_ARENA_BASEADDR + VM_PAGESIZE ≠ 0 ∧
    ∃ s2 cur r e,
      vm_fault { runD Example.arenaSize Example.onePage [Call.extend 5 6] with
          pm_physmem := fun _ => 1, disk := fun _ _ => 2 }
        (VM_ARENA_BASEADDR + VM_PAGESIZE) false = some (0, s2) ∧
      s2.currentProcessInfo = some cur ∧
      s2.deref ⟨cur, vpageOf (VM_ARENA_BASEADDR + VM_PAGESIZE)⟩ = some r ∧ r.resident = 1 ∧
      s2.pte cur (vpageOf (VM_ARENA_BASEADDR + VM_PAGESIZE)) = some e ∧ e.read_enable = 1 ∧
      e.ppage = r.ppage ∧
      (∀ off, off < VM_PAGESIZE → s2.pm_physmem (r.ppage * VM_PAGESIZE + off) = 0) ∧
      ∃ l, s2.hostCalls =
          (runD Example.arenaSize Example.onePage [Call.extend 5 6]).hostCalls ++ l ∧
        ∀ block ppage, HostCall.disk_read block ppage ∉ l :=
  ⟨Example.onePage_reachable, by decide, rfl, by decide,
    zero_fill_safety Example.onePage_reachable (by decide) rfl (by decide) (fun _ => 1)
      (fun _ _ => 2)⟩

/-! ## The message reader -/

/-- What a fault on a page with a record guarantees in a reachable state with at
least one physical page. -/
theorem vm_fault_post {arenaSize F D : Nat} {s : Pager} (hinv : Inv arenaSize F D [] s)
    (hF : 1 ≤ F) {cur : pid_t} {pr : perProcessInfo} {r : perPageInfo} {addr : Nat}
    (write_flag : Bool) (hc : s.currentProcessInfo = some cur)
    (hp : s.findProcess cur = some pr) (hm : mapFind (vpageOf addr) pr.pageInfo = some r) :
    ∃ s1, vm_fault s addr write_flag = some (0, s1) ∧ Inv arenaSize F D [] s1 ∧
      s1.currentProcessInfo = some cur ∧
      (∀ q, (s1.findProcess q).map arenaOf = (s.findProcess q).map arenaOf) ∧
      (∃ e, s1.pte cur (vpageOf addr) = some e ∧ e.read_enable = 1) ∧
      (∃ l, s1.hostCalls = s.hostCalls ++ l ∧ NoSyslog l) := by
  obtain ⟨s1, hf⟩ := vm_fault_defined s cur pr r addr write_flag hc hp hm (hinv.canReplace hF)
  have hinv1 := vm_fault_inv hinv hf
  have hpte0 := hinv.pte_some hp (vpageOf addr)
  refine ⟨s1, hf, hinv1, ?_⟩
  obtain ⟨_, hcase⟩ := vm_fault_cases hc hp hm hf
  rcases hcase with ⟨h1, _, physPage, sg, hg, hs⟩ | ⟨h1, h2, physPage, sg, r1, hg, hd1, hs⟩ |
    ⟨h1, hs⟩
  · have hrep := getPhysPage_replaced hg
    obtain ⟨l, hl1, hl2⟩ := hrep.calls
    obtain ⟨_, _, _, hf4, _, _, hf7⟩ := zeroFilledBind_fields sg physPage cur write_flag (vpageOf addr)
    have hsome : ∃ e0, sg.pte cur (vpageOf addr) = some e0 := by
      have := hrep.arena cur
      rw [hp] at this
      unfold Pager.pte
      cases hq : sg.findProcess cur with
      | none => simp [hq] at this
      | some p0 => exact ⟨_, rfl⟩
    obtain ⟨e0, he0⟩ := hsome
    subst hs
    refine ⟨by rw [hf4, hrep.cur, hc], ?_, ⟨zeroFilledEntry physPage write_flag e0, ?_, rfl⟩,
      l, by rw [hf7, hl1], ?_⟩
    · intro q
      rw [zeroFilledBind_eq, arena_updatePage]
      exact hrep.arena q
    · rw [zeroFilledBind_pte, if_pos ⟨rfl, rfl⟩, he0]
      rfl
    · intro c hcl output hco
      obtain ⟨b, f, hbf⟩ := hl2 c hcl
      rw [hbf] at hco
      cases hco
  · have hrep := getPhysPage_replaced hg
    obtain ⟨l, hl1, hl2⟩ := hrep.calls
    obtain ⟨_, _, _, hf4, _, _, hf7⟩ :=
      normalBind_fields sg r1 physPage cur write_flag (vpageOf addr)
    have hsome : ∃ e0, sg.pte cur (vpageOf addr) = some e0 := by
      have := hrep.arena cur
      rw [hp] at this
      unfold Pager.pte
      cases hq : sg.findProcess cur with
      | none => simp [hq] at this
      | some p0 => exact ⟨_, rfl⟩
    obtain ⟨e0, he0⟩ := hsome
    subst hs
    refine ⟨by rw [hf4, hrep.cur, hc], ?_, ⟨normalEntry physPage write_flag e0, ?_, rfl⟩,
      l ++ [HostCall.disk_read r1.diskBlock physPage],
      by rw [hf7, hl1, List.append_assoc], ?_⟩
    · intro q
      rw [normalBind_eq, arena_updatePage]
      exact hrep.arena q
    · rw [normalBind_pte, if_pos ⟨rfl, rfl⟩, he0]
      rfl
    · intro c hcl output hco
      rcases List.mem_append.1 hcl with hcl | hcl
      · obtain ⟨b, f, hbf⟩ := hl2 c hcl
        rw [hbf] at hco
        cases hco
      · rw [List.mem_singleton.1 hcl] at hco
        cases hco
  · subst hs
    obtain ⟨_, _, _, hf4, _, _, _, hf8⟩ := updatePage_fields s ⟨cur, vpageOf addr⟩
      (upgradeRecord r write_flag) (upgradeEntry r write_flag)
    refine ⟨by rw [hf4, hc], fun q => arena_updatePage _ _ _ _ q,
      ⟨upgradeEntry r write_flag (pr.pageTable.ptes (vpageOf addr)), ?_, ?_⟩, [],
      by rw [hf8, List.append_nil], by simp [NoSyslog]⟩
    · rw [updatePage_pte, if_pos ⟨rfl, rfl⟩, hpte0]
      rfl
    · unfold upgradeEntry
      by_cases hz : r.notZeroFilled = 0 <;> cases write_flag <;> simp [hz]

theorem Inv.record_at {arenaSize F D : Nat} {held : List Nat} {s : Pager}
    (hinv : Inv arenaSize F D held s) {cur : pid_t} {pr : perProcessInfo}
    (hp : s.findProcess cur = some pr) {k : Nat} (hk : k < pr.nextVirtualPage) :
    ∃ r, mapFind k pr.pageInfo = some r ∧ RecOK (pr.pageTable.ptes k) r := by
  have ha := hinv.arena (cur, pr) (mapFind_mem hp)
  cases hm : mapFind k pr.pageInfo with
  | none =>
    rw [mapFind_eq_none_iff, ha.1, List.mem_range] at hm
    exact absurd hk hm
  | some r =>
    have hd : s.deref ⟨cur, k⟩ = some r := by rw [deref_of_findProcess hp, hm]
    exact ⟨r, rfl, hinv.recs ⟨cur, k⟩ r _ hd (hinv.pte_some hp k)⟩

theorem vpageOf_lt {arenaSize : Nat} (hfit : ArenaFits arenaSize) {pr : perProcessInfo}
    (ha : ArenaOK arenaSize pr) {v : Nat} (h1 : VM_ARENA_BASEADDR ≤ v)
    (h2 : v < pr.nextVirtualADDR) : vpageOf v < pr.nextVirtualPage ∧ v < ULONG_MOD := by
  obtain ⟨_, a2, a3⟩ := ha
  unfold ArenaFits at hfit
  have hv : v < ULONG_MOD := by omega
  refine ⟨?_, hv⟩
  rw [vpageOf_arena h1 hv]
  unfold VM_ARENA_BASEADDR VM_PAGESIZE at *
  rw [Nat.div_lt_iff_lt_mul (by decide)]
  omega

theorem mask_eq : (0x1fff : Nat) = VM_PAGESIZE - 1 := by decide

/-- One byte step of `vm_syslog` at an address inside the arena of the current
process, in a state that satisfies the invariant with at least one physical
page. -/
theorem syslogByte_post {arenaSize F D : Nat} {s : Pager} (hinv : Inv arenaSize F D [] s)
    (hF : 1 ≤ F) {cur : pid_t} {pr : perProcessInfo} {v : Nat}
    (hc : s.currentProcessInfo = some cur) (hp : s.findProcess cur = some pr)
    (h1 : VM_ARENA_BASEADDR ≤ v) (h2 : v < pr.nextVirtualADDR) :
    ∃ b s1, syslogByte s v = some (some b, s1) ∧ Inv arenaSize F D [] s1 ∧
      s1.currentProcessInfo = some cur ∧
      (∃ pr1, s1.findProcess cur = some pr1 ∧ pr1.nextVirtualADDR = pr.nextVirtualADDR) ∧
      ByteRead cur v b s1 ∧ ∃ l, s1.hostCalls = s.hostCalls ++ l ∧ NoSyslog l := by
  obtain ⟨hcur, ha⟩ := hinv.hasCurrent hc hp
  obtain ⟨hk, _⟩ := vpageOf_lt hinv.fits ha h1 h2
  obtain ⟨r, hm, hok⟩ := hinv.record_at hp hk
  have hpte := hinv.pte_some hp (vpageOf v)
  have key : ∀ (s1 : Pager) (rc : Int), rc = 0 → Inv arenaSize F D [] s1 →
      s1.currentProcessInfo = some cur →
      (∀ q, (s1.findProcess q).map arenaOf = (s.findProcess q).map arenaOf) →
      (∃ e, s1.pte cur (vpageOf v) = some e ∧ e.read_enable = 1) →
      (∃ l, s1.hostCalls = s.hostCalls ++ l ∧ NoSyslog l) →
      ∃ b s2, (if rc = -1 then some (none, s1) else
          match s1.deref ⟨cur, vpageOf v⟩ with
          | none => none
          | some pageEntry =>
            some (some (s1.pm_physmem (pageEntry.ppage * VM_PAGESIZE + (v &&& 0x1fff))), s1)) =
          some (some b, s2) ∧ Inv arenaSize F D [] s2 ∧
        s2.currentProcessInfo = some cur ∧
        (∃ pr1, s2.findProcess cur = some pr1 ∧ pr1.nextVirtualADDR = pr.nextVirtualADDR) ∧
        ByteRead cur v b s2 ∧ ∃ l, s2.hostCalls = s.hostCalls ++ l ∧ NoSyslog l := by
    intro s1 rc hrc hinv1 hc1 harena hread hcalls
    have hne : ¬ rc = -1 := by rw [hrc]; decide
    rw [if_neg hne]
    have har := harena cur
    rw [hp] at har
    cases hp1 : s1.findProcess cur with
    | none => simp [hp1] at har
    | some pr1 =>
      rw [hp1] at har
      simp only [Option.map_some', Option.some.injEq, arenaOf, Prod.mk.injEq] at har
      have hk1 : vpageOf v < pr1.nextVirtualPage := by rw [har.2.1]; exact hk
      obtain ⟨r1, hm1, hok1⟩ := hinv1.record_at hp1 hk1
      have hd1 : s1.deref ⟨cur, vpageOf v⟩ = some r1 := by rw [deref_of_findProcess hp1, hm1]
      obtain ⟨e, he1, he2⟩ := hread
      have he3 : e = pr1.pageTable.ptes (vpageOf v) := by
        have := hinv1.pte_some hp1 (vpageOf v)
        rw [he1] at this
        exact Option.some.inj this
      rw [he3] at he2
      have hres := hok1.readOK he2
      refine ⟨_, s1, by rw [hd1], hinv1, hc1, ⟨pr1, hp1, har.1⟩, ?_, hcalls⟩
      refine ⟨r1, e, hd1, hres, he1, by rw [he3]; exact he2, ?_, ?_⟩
      · rw [he3]; exact hok1.frameOK hres
      · rw [mask_eq]
  unfold syslogByte
  simp only [hc, hp, hm, hcur.2.1, hpte]
  by_cases hre : (pr.pageTable.ptes (vpageOf v)).read_enable = 0
  · simp only [hre, if_true]
    obtain ⟨s1, hf, hinv1, hc1, harena, hread, hcalls⟩ := vm_fault_post hinv hF false hc hp hm
    rw [hf]
    exact key s1 0 rfl hinv1 hc1 harena hread hcalls
  · simp only [hre, if_false]
    have hre1 : (pr.pageTable.ptes (vpageOf v)).read_enable = 1 := by
      rcases hok.readBit with h0 | h0
      · exact absurd h0 hre
      · exact h0
    exact key s 0 rfl hinv hc (fun _ => rfl) ⟨_, hpte, hre1⟩ ⟨[], by simp, by simp [NoSyslog]⟩

theorem NoSyslog.append {l1 l2 : List HostCall} (h1 : NoSyslog l1) (h2 : NoSyslog l2) :
    NoSyslog (l1 ++ l2) := by
  intro c hc
  rcases List.mem_append.1 hc with h | h
  · exact h1 c h
  · exact h2 c h

/-- The loop of `vm_syslog` over a region inside the arena of the current process:
it runs through, returns `0`, and appends to the output exactly the bytes that
the byte steps read. -/
theorem syslog_run {arenaSize F D : Nat} (hF : 1 ≤ F) {cur : pid_t} :
    ∀ (n : Nat) (s : Pager) (v : Nat) (output : List Nat) (pr : perProcessInfo),
    Inv arenaSize F D [] s → s.currentProcessInfo = some cur → s.findProcess cur = some pr →
    VM_ARENA_BASEADDR ≤ v → v + n ≤ pr.nextVirtualADDR →
    ∃ reads sfin, syslogReads n s v = some reads ∧
      syslogLoop n s v output = some (0, sfin, output ++ reads.map Prod.fst) ∧
      reads.length = n ∧
      (∃ l, sfin.hostCalls = s.hostCalls ++ l ∧ NoSyslog l) ∧
      ∀ i b si, reads[i]? = some (b, si) → ByteRead cur (v + i) b si := by
  intro n
  induction n with
  | zero =>
    intro s v output pr _ _ _ _ _
    exact ⟨[], s, rfl, by simp [syslogLoop], rfl, ⟨[], by simp, by simp [NoSyslog]⟩, by simp⟩
  | succ n ih =>
    intro s v output pr hinv hc hp h1 h2
    obtain ⟨b, s1, hb, hinv1, hc1, ⟨pr1, hp1, hnva⟩, hread, l1, hl1, hl1n⟩ :=
      syslogByte_post hinv hF hc hp h1 (by omega)
    have hmod : (v + 1) % ULONG_MOD = v + 1 := by
      apply Nat.mod_eq_of_lt
      have ha := (hinv.hasCurrent hc hp).2
      have hfit := hinv.fits
      unfold ArenaFits at hfit
      have := ha.2.1
      have := ha.2.2
      omega
    obtain ⟨reads, sfin, hr1, hr2, hr3, ⟨l2, hl2, hl2n⟩, hr5⟩ :=
      ih s1 (v + 1) (output ++ [b]) pr1 hinv1 hc1 hp1 (by omega) (by omega)
    refine ⟨(b, s1) :: reads, sfin, ?_, ?_, by simp [hr3], ⟨l1 ++ l2, ?_, hl1n.append hl2n⟩, ?_⟩
    · simp only [syslogReads, hb, hmod, hr1]
    · simp only [syslogLoop, hb, hmod, hr2]
      simp
    · rw [hl2, hl1, List.append_assoc]
    · intro i b2 si hi
      cases i with
      | zero =>
        simp only [List.getElem?_cons_zero, Option.some.injEq, Prod.mk.injEq] at hi
        rw [← hi.1, ← hi.2]
        exact hread
      | succ j =>
        simp only [List.getElem?_cons_succ] at hi
        have := hr5 j b2 si hi
        have e : v + (j + 1) = v + 1 + j := by omega
        rw [e]
        exact this

/-- The result of `vm_syslog` in a reachable state with at least one physical page,
for a region whose end does not wrap around. -/
theorem vm_syslog_total {arenaSize F D : Nat} {s : Pager} (hinv : Inv arenaSize F D [] s)
    (hF : 1 ≤ F) {cur : pid_t} {pr : perProcessInfo}
    (hc : s.currentProcessInfo = some cur) (hp : s.findProcess cur = some pr)
    (message len : Nat) (hm : message + len < ULONG_MOD) :
    (len = 0 ∨ message < VM_ARENA_BASEADDR ∨ message + len > pr.nextVirtualADDR →
      vm_syslog s message len = some (-1, s)) ∧
    (¬ (len = 0 ∨ message < VM_ARENA_BASEADDR ∨ message + len > pr.nextVirtualADDR) →
      ∃ (reads : List (Nat × Pager)) (sfin : Pager) (l : List HostCall),
        syslogReads len s message = some reads ∧ reads.length = len ∧
        vm_syslog s message len = some (0, { sfin with
          hostCalls := sfin.hostCalls ++ [HostCall.syslog (reads.map Prod.fst)] }) ∧
        sfin.hostCalls = s.hostCalls ++ l ∧ NoSyslog l ∧
        ∀ i b si, reads[i]? = some (b, si) → ByteRead cur (message + i) b si) := by
  have hmod : (message + len) % ULONG_MOD = message + len := Nat.mod_eq_of_lt hm
  constructor
  · intro h
    unfold vm_syslog
    simp only [hc, hp, hmod]
    by_cases h1 : len < 1
    · simp [h1]
    · by_cases h2 : message < VM_ARENA_BASEADDR
      · simp [h1, h2]
      · have h3 : message + len > pr.nextVirtualADDR := by
          rcases h with h | h | h
          · omega
          · exact absurd h h2
          · exact h
        simp [h1, h2, h3]
  · intro h
    simp only [not_or] at h
    obtain ⟨h1, h2, h3⟩ := h
    obtain ⟨reads, sfin, hr1, hr2, hr3, ⟨l, hl, hln⟩, hr5⟩ :=
      syslog_run hF len s message [] pr hinv hc hp (by omega) (by omega)
    refine ⟨reads, sfin, l, hr1, hr3, ?_, hl, hln, hr5⟩
    unfold vm_syslog
    have g1 : ¬ len < 1 := by omega
    simp only [hc, hp, hmod, g1, h2, h3, if_false, hr2]
    simp

theorem Example.twoPages_reachable : Reachable Example.arenaSize 2 4 Example.twoPages :=
  runD_reachable _ (Example.started_reachable 2 4 (by decide) (by decide)) rfl

/-- C9 (as amended): in every state reachable with at least one physical page that
has a current process, for every pointer and length whose sum does not wrap
around (`message + len < 2 ^ 64`), `vm_syslog` returns; it returns `-1` exactly when
`len = 0`, or `message < VM_ARENA_BASEADDR`, or `message + len > nextVirtualADDR`; when
it returns `-1` nothing is emitted and the whole state is unchanged; for every
other such input every page lookup succeeds and it returns `0`. -/
theorem vm_syslog_validation {arenaSize F D : Nat} {s : Pager}
    (h : Reachable arenaSize F D s) (hF : 1 ≤ F) {cur : pid_t} {pr : perProcessInfo}
    (hc : s.currentProcessInfo = some cur) (hp : s.findProcess cur = some pr)
    (message len : Nat) (hm : message + len < ULONG_MOD) :
    ∃ rc s1, vm_syslog s message len = some (rc, s1) ∧
      (rc = -1 ↔
        (len = 0 ∨ message < VM_ARENA_BASEADDR ∨ message + len > pr.nextVirtualADDR)) ∧
      (rc ≠ -1 → rc = 0) ∧ (rc = -1 → s1 = s) := by
  obtain ⟨t1, t2⟩ := vm_syslog_total (reachable_inv h) hF hc hp message len hm
  by_cases hx : len = 0 ∨ message < VM_ARENA_BASEADDR ∨ message + len > pr.nextVirtualADDR
  · exact ⟨-1, s, t1 hx, by simp [hx], by simp, fun _ => rfl⟩
  · obtain ⟨reads, sfin, l, _, _, hv, _⟩ := t2 hx
    exact ⟨0, _, hv, by simp [hx], by simp, by simp⟩

/-- C9, witness: in the state of scenario 3 a message of three bytes that ends
beyond the arena of process 1 is refused. -/
theorem vm_syslog_validation_witness :
    Reachable Example.arenaSize 2 4 Example.evicted ∧ 1 ≤ 2 ∧
    Example.evicted.currentProcessInfo = some 1 ∧
    Example.evicted.findProcess 1 = some (Example.evicted.processD 1) ∧
    VM_ARENA_BASEADDR + 3 * VM_PAGESIZE - 1 + 3 < ULONG_MOD ∧
    ∃ rc s1, vm_syslog Example.evicted (VM_ARENA_BASEADDR + 3 * VM_PAGESIZE - 1) 3 =
        some (rc, s1) ∧
      (rc = -1 ↔
        (3 = 0 ∨ VM_ARENA_BASEADDR + 3 * VM_PAGESIZE - 1 < VM_ARENA_BASEADDR ∨
          VM_ARENA_BASEADDR + 3 * VM_PAGESIZE - 1 + 3 >
            (Example.evicted.processD 1).nextVirtualADDR)) ∧
      (rc ≠ -1 → rc = 0) ∧ (rc = -1 → s1 = Example.evicted) :=
  ⟨Example.evicted_reachable, by decide, rfl, rfl, by decide,
    vm_syslog_validation Example.evicted_reachable (by decide) rfl rfl
      (VM_ARENA_BASEADDR + 3 * VM_PAGESIZE - 1) 3 (by decide)⟩

/-- C9, counterexample: (1) in the reachable state `Example.onePage` (two physical
pages) the message of one byte at the address `2 ^ 64 - 1` ends, in true
arithmetic, beyond `nextVirtualADDR`, but the sum wraps around to `0`, the check
lets it pass, and the lookup of its page dereferences the end iterator:
undefined, not `-1`. (2) In the reachable state `Example.noFrames` (no physical
page) a one-byte message at the start of the arena passes the checks, and the
read fault calls `front()` on the empty clock queue: undefined, not `0`. -/
theorem vm_syslog_wraps_or_no_frame :
    (Reachable Example.arenaSize 2 4 Example.onePage ∧
      Example.onePage.currentProcessInfo = some 1 ∧
      Example.onePage.findProcess 1 = some (Example.onePage.processD 1) ∧
      ULONG_MOD - 1 < ULONG_MOD ∧ 1 < UINT_MOD ∧
      ULONG_MOD - 1 + 1 > (Example.onePage.processD 1).nextVirtualADDR ∧
      vm_syslog Example.onePage (ULONG_MOD - 1) 1 = none) ∧
    (Reachable Example.arenaSize 0 1 Example.noFrames ∧
      Example.noFrames.currentProcessInfo = some 1 ∧
      Example.noFrames.findProcess 1 = some (Example.noFrames.processD 1) ∧
      ¬ (1 = 0 ∨ VM_ARENA_BASEADDR < VM_ARENA_BASEADDR ∨
        VM_ARENA_BASEADDR + 1 > (Example.noFrames.processD 1).nextVirtualADDR) ∧
      vm_syslog Example.noFrames VM_ARENA_BASEADDR 1 = none) :=
  ⟨⟨Example.onePage_reachable, rfl, rfl, by decide, by decide, by decide, rfl⟩,
    ⟨Example.noFrames_reachable, rfl, rfl, by decide, rfl⟩⟩

/-- C10: in every state reachable with at least one physical page that has a
current process, for every region that the validation of `vm_syslog` accepts
(`len ≥ 1`, `message ≥ VM_ARENA_BASEADDR`, `message + len ≤ nextVirtualADDR`), `vm_syslog`
returns `0` and emits one line of exactly `len` bytes, after disk transfers only.
The `i`-th byte is read in a state `si` in which the page of `message + i` is
resident and read enabled, the entry and the record name the same physical page,
and the byte is the byte of physical memory at
`ppage * VM_PAGESIZE + ((message + i) & (VM_PAGESIZE - 1))`. This holds across page
boundaries and for regions of more pages than there are physical pages. -/
theorem vm_syslog_bytes {arenaSize F D : Nat} {s : Pager}
    (h : Reachable arenaSize F D s) (hF : 1 ≤ F) {cur : pid_t} {pr : perProcessInfo}
    (hc : s.currentProcessInfo = some cur) (hp : s.findProcess cur = some pr)
    (message len : Nat) (h1 : 1 ≤ len) (h2 : VM_ARENA_BASEADDR ≤ message)
    (h3 : message + len ≤ pr.nextVirtualADDR) :
    ∃ (reads : List (Nat × Pager)) (s1 : Pager) (io : List HostCall),
      syslogReads len s message = some reads ∧ reads.length = len ∧
      vm_syslog s message len = some (0, s1) ∧
      s1.hostCalls = s.hostCalls ++ io ++ [HostCall.syslog (reads.map Prod.fst)] ∧
      NoSyslog io ∧
      ∀ (i b : Nat) (si : Pager), reads[i]? = some (b, si) →
        ∃ (r : perPageInfo) (e : page_table_entry_t),
          si.deref ⟨cur, vpageOf (message + i)⟩ = some r ∧ r.resident = 1 ∧
          si.pte cur (vpageOf (message + i)) = some e ∧ e.read_enable = 1 ∧
          e.ppage = r.ppage ∧
          b = si.pm_physmem (r.ppage * VM_PAGESIZE + ((message + i) &&& (VM_PAGESIZE - 1))) := by
  have hinv := reachable_inv h
  have hm : message + len < ULONG_MOD := by
    have ha := (hinv.hasCurrent hc hp).2
    have hfit := hinv.fits
    unfold ArenaFits at hfit
    have := ha.2.1
    have := ha.2.2
    omega
  obtain ⟨_, t2⟩ := vm_syslog_total hinv hF hc hp message len hm
  obtain ⟨reads, sfin, l, hr1, hr2, hv, hl, hln, hr5⟩ := t2 (by omega)
  refine ⟨reads, _, l, hr1, hr2, hv, ?_, hln, hr5⟩
  show sfin.hostCalls ++ _ = _
  rw [hl]

/-- C10, witness: scenario 5. Process 1 owns the contiguous pages `a` and `b`, both
resident, and the host placed the bytes 65 .. 74 at `b - 5`; `vm_syslog (b - 5) 10`
reads across the page boundary and emits exactly these ten bytes. -/
theorem vm_syslog_bytes_witness :
    Reachable Example.arenaSize 2 4 Example.twoPages ∧ 1 ≤ 2 ∧
    Example.twoPages.currentProcessInfo = some 1 ∧
    Example.twoPages.findProcess 1 = some (Example.twoPages.processD 1) ∧
    1 ≤ 10 ∧ VM_ARENA_BASEADDR ≤ VM_ARENA_BASEADDR + VM_PAGESIZE - 5 ∧
    VM_ARENA_BASEADDR + VM_PAGESIZE - 5 + 10 ≤ (Example.twoPages.processD 1).nextVirtualADDR ∧
    (∃ (reads : List (Nat × Pager)) (s1 : Pager) (io : List HostCall),
      syslogReads 10 Example.twoPages (VM_ARENA_BASEADDR + VM_PAGESIZE - 5) = some reads ∧
      reads.length = 10 ∧
      vm_syslog Example.twoPages (VM_ARENA_BASEADDR + VM_PAGESIZE - 5) 10 = some (0, s1) ∧
      s1.hostCalls = Example.twoPages.hostCalls ++ io ++
        [HostCall.syslog (reads.map Prod.fst)] ∧
      NoSyslog io ∧
      ∀ (i b : Nat) (si : Pager), reads[i]? = some (b, si) →
        ∃ (r : perPageInfo) (e : page_table_entry_t),
          si.deref ⟨1, vpageOf (VM_ARENA_BASEADDR + VM_PAGESIZE - 5 + i)⟩ = some r ∧
          r.resident = 1 ∧
          si.pte 1 (vpageOf (VM_ARENA_BASEADDR + VM_PAGESIZE - 5 + i)) = some e ∧
          e.read_enable = 1 ∧ e.ppage = r.ppage ∧
          b = si.pm_physmem (r.ppage * VM_PAGESIZE +
            ((VM_ARENA_BASEADDR + VM_PAGESIZE - 5 + i) &&& (VM_PAGESIZE - 1)))) ∧
    Example.emitted (vm_syslog Example.twoPages (VM_ARENA_BASEADDR + VM_PAGESIZE - 5) 10) =
      some (0, some (HostCall.syslog [65, 66, 67, 68, 69, 70, 71, 72, 73, 74])) :=
  ⟨Example.twoPages_reachable, by decide, rfl, rfl, by decide, by decide, by decide,
    vm_syslog_bytes Example.twoPages_reachable (by decide) rfl rfl
      (VM_ARENA_BASEADDR + VM_PAGESIZE - 5) 10 (by decide) (by decide) (by decide),
    by decide⟩
/-! ## Teardown releases what the process holds -/

theorem procRecords_sublist {s : Pager} {cur : pid_t} {p : perProcessInfo}
    (hn : (s.perProcessInfos.map Prod.fst).Nodup) (hp : s.findProcess cur = some p) :
    ∃ X Y, s.records = X ++ procRecords (cur, p) ++ Y := by
  obtain ⟨X, Y, h1, _⟩ := records_modifyProcess_split s cur id p hn hp
  exact ⟨X, Y, h1⟩

theorem mapFind_mapErase {κ β : Type} [DecidableEq κ] (k q : κ) (m : List (κ × β)) :
    mapFind q (mapErase k m) = if q = k then none else mapFind q m := by
  induction m with
  | nil => simp [mapErase, mapFind]
  | cons e t ih =>
    obtain ⟨a, b⟩ := e
    unfold mapErase at ih ⊢
    by_cases h1 : a = k
    · subst h1
      by_cases h2 : q = a
      · subst h2
        simpa [List.filter_cons] using ih
      · have h3 : ¬ a = q := fun h3 => h2 h3.symm
        simp only [List.filter_cons, decide_True, Bool.not_true, if_false, Bool.false_eq_true,
          mapFind, h3, h2, ih]
    · by_cases h2 : a = q
      · subst h2
        simp [List.filter_cons, h1, mapFind]
      · simp only [List.filter_cons, h1, decide_False, Bool.not_false, if_true, mapFind, h2,
          if_false, ih]

/-- C11: in every reachable state with a live current process `cur`, whose entry is
`p`, `vm_destroy` returns. It appends to the free physical pages the pages of the
resident records of `p`, in key order and each once, and to the free disk blocks
the blocks of all records of `p`, each once. The clock queue keeps exactly the
entries of the other processes, in their previous order. The process leaves the
registry, every other process entry (records and page table) is unchanged, and
the page table base register is cleared. -/
theorem vm_destroy_releases {arenaSize F D : Nat} {s : Pager} (h : Reachable arenaSize F D s)
    {cur : pid_t} {p : perProcessInfo} (hc : s.currentProcessInfo = some cur)
    (hp : s.findProcess cur = some p) :
    ∃ s1, vm_destroy s = some s1 ∧
      s1.freePages = s.freePages ++
        (p.pageInfo.filter (fun x => decide (x.2.resident = 1))).map (fun x => x.2.ppage) ∧
      ((p.pageInfo.filter (fun x => decide (x.2.resident = 1))).map (fun x => x.2.ppage)).Nodup ∧
      s1.freeBlocks = s.freeBlocks ++ p.pageInfo.map (fun x => x.2.diskBlock) ∧
      (p.pageInfo.map (fun x => x.2.diskBlock)).Nodup ∧
      s1.clockStructure = s.clockStructure.filter (fun h => !decide (h.myProcess = cur)) ∧
      (∀ k, (⟨cur, k⟩ : PagePtr) ∉ s1.clockStructure) ∧
      s1.perProcessInfos = mapErase cur s.perProcessInfos ∧
      s1.findProcess cur = none ∧
      (∀ q, q ≠ cur → s1.findProcess q = s.findProcess q) ∧
      s1.page_table_base_register = none := by
  have hinv := reachable_inv h
  have hl : s.clockStructure.length < UINT_MOD := by
    have h1 := hinv.clock_length
    have h2 := hinv.small
    omega
  obtain ⟨X, Y, hrec⟩ := procRecords_sublist hinv.pids hp
  have hfr := (procRecords_frames cur p).1
  have hbl := (procRecords_frames cur p).2
  have hn : p.nextVirtualPage < UINT_MOD := by
    have h1 := hinv.blocks.length_eq
    have h2 := (hinv.arena (cur, p) (mapFind_mem hp)).1
    have h3 : p.pageInfo.length = p.nextVirtualPage := by
      have := congrArg List.length h2
      simpa using this
    have h5 := congrArg List.length hrec
    simp only [List.length_append, procRecords, List.length_map] at h5
    simp only [List.length_append, blocksOf, List.length_map, List.length_range] at h1
    have := hinv.smallD
    omega
  refine ⟨destroyed s cur p, vm_destroy_eq s cur p hc hp hinv.clock_valid hl hn, ?_, ?_, ?_, ?_,
    rfl, ?_, rfl, ?_, ?_, rfl⟩
  · show s.freePages ++ residentFrames (procRecords (cur, p)) = _
    rw [hfr]
  · rw [← hfr]
    have h1 : (s.freePages ++ residentFrames s.records).Nodup := by
      have := hinv.frames
      simp only [List.nil_append] at this
      exact this.nodup_iff.2 (List.nodup_range F)
    rw [hrec, residentFrames_append, residentFrames_append] at h1
    exact (List.nodup_append.1 (List.nodup_append.1 (List.nodup_append.1 h1).2.1).1).2.1
  · show s.freeBlocks ++ blocksOf (procRecords (cur, p)) = _
    rw [hbl]
  · rw [← hbl]
    have h1 : (s.freeBlocks ++ blocksOf s.records).Nodup :=
      hinv.blocks.nodup_iff.2 (List.nodup_range D)
    rw [hrec, blocksOf_append, blocksOf_append] at h1
    exact (List.nodup_append.1 (List.nodup_append.1 (List.nodup_append.1 h1).2.1).1).2.1
  · intro k hk
    have : (destroyed s cur p).clockStructure =
        s.clockStructure.filter (fun h => !decide (h.myProcess = cur)) := rfl
    rw [this, List.mem_filter] at hk
    simp at hk
  · show mapFind cur (mapErase cur s.perProcessInfos) = none
    rw [mapFind_mapErase, if_pos rfl]
  · intro q hq
    show mapFind q (mapErase cur s.perProcessInfos) = mapFind q s.perProcessInfos
    rw [mapFind_mapErase, if_neg hq]

/-- C11, witness: scenario 6. In the state of scenario 3 (two physical pages, four
disk blocks, three pages written and the first touched again) `vm_destroy` leaves
two free physical pages, four free disk blocks and an empty clock queue. -/
theorem vm_destroy_releases_witness :
    Reachable Example.arenaSize 2 4 Example.evicted ∧
    Example.evicted.currentProcessInfo = some 1 ∧
    Example.evicted.findProcess 1 = some (Example.evicted.processD 1) ∧
    (∃ s1, vm_destroy Example.evicted = some s1 ∧
      s1.freePages = Example.evicted.freePages ++
        ((Example.evicted.processD 1).pageInfo.filter
          (fun x => decide (x.2.resident = 1))).map (fun x => x.2.ppage) ∧
      (((Example.evicted.processD 1).pageInfo.filter
          (fun x => decide (x.2.resident = 1))).map (fun x => x.2.ppage)).Nodup ∧
      s1.freeBlocks = Example.evicted.freeBlocks ++
        (Example.evicted.processD 1).pageInfo.map (fun x => x.2.diskBlock) ∧
      ((Example.evicted.processD 1).pageInfo.map (fun x => x.2.diskBlock)).Nodup ∧
      s1.clockStructure =
        Example.evicted.clockStructure.filter (fun h => !decide (h.myProcess = 1)) ∧
      (∀ k, (⟨1, k⟩ : PagePtr) ∉ s1.clockStructure) ∧
      s1.perProcessInfos = mapErase 1 Example.evicted.perProcessInfos ∧
      s1.findProcess 1 = none ∧
      (∀ q, q ≠ 1 → s1.findProcess q = Example.evicted.findProcess q) ∧
      s1.page_table_base_register = none) ∧
    (vm_destroy Example.evicted).map
      (fun s => (s.freePages, s.freeBlocks, s.clockStructure)) =
      some ([1, 0], [3, 0, 1, 2], []) :=
  ⟨Example.evicted_reachable, rfl, rfl, vm_destroy_releases Example.evicted_reachable rfl rfl,
    by decide⟩


/-! ## The replacement scan -/

theorem rotateFront_eq (s : Pager) (curr : PagePtr) (rest : List PagePtr) :
    rotateFront s curr rest = { clearRef s curr with clockStructure := rest ++ [curr] } := rfl

theorem deref_clearRef (s : Pager) (curr h : PagePtr) :
    (clearRef s curr).deref h =
      if h = curr then (s.deref curr).map (fun r => { r with reference := 0 })
      else s.deref h := by
  unfold clearRef
  rw [deref_modifyPage, deref_modifyPte, deref_modifyPte]

theorem pte_clearRef (s : Pager) (curr : PagePtr) (q : pid_t) (j : Nat) :
    (clearRef s curr).pte q j =
      if q = curr.myProcess ∧ j = curr.virtualPage then
        (s.pte curr.myProcess curr.virtualPage).map
          (fun e => { e with read_enable := 0, write_enable := 0 })
      else s.pte q j := by
  unfold clearRef
  rw [pte_modifyPage, pte_modifyPte]

theorem clearRefs_clock (l : List PagePtr) : ∀ (s : Pager) (c : List PagePtr),
    clearRefs l { s with clockStructure := c } = { clearRefs l s with clockStructure := c } := by
  induction l with
  | nil => intro s c; rfl
  | cons a t ih =>
    intro s c
    show clearRefs t (clearRef { s with clockStructure := c } a) = _
    have : clearRef { s with clockStructure := c } a =
        { clearRef s a with clockStructure := c } := rfl
    rw [this, ih]
    rfl

theorem deref_clearRefs (l : List PagePtr) : ∀ (s : Pager) (h : PagePtr),
    (clearRefs l s).deref h =
      if h ∈ l then (s.deref h).map (fun r => { r with reference := 0 }) else s.deref h := by
  induction l with
  | nil => intro s h; simp [clearRefs]
  | cons a t ih =>
    intro s h
    show (clearRefs t (clearRef s a)).deref h = _
    rw [ih, deref_clearRef]
    by_cases e : h = a
    · subst e
      by_cases m : h ∈ t
      · simp only [m, if_true, List.mem_cons, true_or, Option.map_map]
        cases s.deref h <;> rfl
      · simp [m]
    · by_cases m : h ∈ t <;> simp [e, m]

theorem pte_clearRefs (l : List PagePtr) : ∀ (s : Pager) (q : pid_t) (j : Nat),
    (clearRefs l s).pte q j =
      if (⟨q, j⟩ : PagePtr) ∈ l then
        (s.pte q j).map (fun e => { e with read_enable := 0, write_enable := 0 })
      else s.pte q j := by
  induction l with
  | nil => intro s q j; simp [clearRefs]
  | cons a t ih =>
    intro s q j
    show (clearRefs t (clearRef s a)).pte q j = _
    rw [ih, pte_clearRef]
    by_cases e : (⟨q, j⟩ : PagePtr) = a
    · subst e
      by_cases m : (⟨q, j⟩ : PagePtr) ∈ t
      · simp only [m, if_true, List.mem_cons, true_or, and_self, Option.map_map]
        cases s.pte q j <;> rfl
      · simp [m]
    · have e2 : ¬ (q = a.myProcess ∧ j = a.virtualPage) := by
        intro h2
        apply e
        cases a
        simp only [PagePtr.mk.injEq]
        exact h2
      by_cases m : (⟨q, j⟩ : PagePtr) ∈ t <;> simp [e, e2, m]

theorem clearRefs_fields (l : List PagePtr) : ∀ (s : Pager),
    (clearRefs l s).clockStructure = s.clockStructure ∧
    (clearRefs l s).freePages = s.freePages ∧
    (clearRefs l s).freeBlocks = s.freeBlocks ∧
    (clearRefs l s).currentProcessInfo = s.currentProcessInfo ∧
    (clearRefs l s).page_table_base_register = s.page_table_base_register ∧
    (clearRefs l s).pm_physmem = s.pm_physmem ∧
    (clearRefs l s).disk = s.disk ∧
    (clearRefs l s).hostCalls = s.hostCalls := by
  induction l with
  | nil => intro s; exact ⟨rfl, rfl, rfl, rfl, rfl, rfl, rfl, rfl⟩
  | cons a t ih =>
    intro s
    exact ih (clearRef s a)

theorem refBit_rotateFront (s : Pager) (curr : PagePtr) (rest : List PagePtr) (h : PagePtr) :
    refBit (rotateFront s curr rest) h = if h = curr then 0 else refBit s h := by
  unfold refBit
  rw [deref_rotateFront]
  by_cases e : h = curr
  · subst e
    cases s.deref h <;> simp
  · simp [e]

theorem takeWhile_rotate {α : Type} (p q : α → Bool) (curr : α) :
    ∀ (rest : List α), (∀ a ∈ rest, q a = p a) → q curr = false →
    (rest ++ [curr]).takeWhile q = rest.takeWhile p ∧
    (rest ++ [curr]).dropWhile q = rest.dropWhile p ++ [curr] := by
  intro rest
  induction rest with
  | nil =>
    intro _ hq
    simp [List.takeWhile, List.dropWhile, hq]
  | cons a t ih =>
    intro hr hq
    have h1 := hr a (List.mem_cons_self _ _)
    have h2 := ih (fun x hx => hr x (List.mem_cons_of_mem _ hx)) hq
    cases hp : p a
    · rw [hp] at h1
      simp [List.takeWhile, List.dropWhile, h1, hp]
    · rw [hp] at h1
      simp [List.takeWhile, List.dropWhile, h1, hp, h2.1, h2.2]

theorem scanned_rotateFront (s : Pager) (curr : PagePtr) (rest : List PagePtr) (r : perPageInfo)
    (hc : s.clockStructure = curr :: rest) (hn : s.clockStructure.Nodup)
    (hd : s.deref curr = some r) (hr : r.reference = 1) :
    passedOver s = curr :: passedOver (rotateFront s curr rest) ∧
    notPassed (rotateFront s curr rest) = notPassed s ++ [curr] ∧
    scanned (rotateFront s curr rest) = scanned s := by
  have hcurr : refBit s curr = 1 := by
    unfold refBit
    rw [hd]
    exact hr
  have hnot : curr ∉ rest := by
    rw [hc] at hn
    exact (List.nodup_cons.1 hn).1
  have ht := takeWhile_rotate (fun h => decide (refBit s h = 1))
    (fun h => decide (refBit (rotateFront s curr rest) h = 1)) curr rest
    (by
      intro a ha
      have : a ≠ curr := fun e => hnot (e ▸ ha)
      simp only [refBit_rotateFront, this, if_false])
    (by simp [refBit_rotateFront])
  have hp : passedOver s = curr :: passedOver (rotateFront s curr rest) := by
    unfold passedOver
    rw [clock_rotateFront, ht.1, hc]
    simp [List.takeWhile, hcurr]
  have hq : notPassed (rotateFront s curr rest) = notPassed s ++ [curr] := by
    unfold notPassed
    rw [clock_rotateFront, ht.2, hc]
    simp [List.dropWhile, hcurr]
  refine ⟨hp, hq, ?_⟩
  unfold scanned
  rw [hq, hp, rotateFront_eq, clearRefs_clock]
  show _ = { clearRefs (passedOver (rotateFront s curr rest)) (clearRef s curr) with
    clockStructure := notPassed s ++ curr :: passedOver (rotateFront s curr rest) }
  simp only [List.append_assoc, List.singleton_append]
  rfl

theorem scanned_of_unreferenced (s : Pager) (curr : PagePtr) (rest : List PagePtr)
    (r : perPageInfo) (hc : s.clockStructure = curr :: rest) (hd : s.deref curr = some r)
    (hr : r.reference ≠ 1) : passedOver s = [] ∧ notPassed s = s.clockStructure ∧ scanned s = s := by
  have hcurr : ¬ refBit s curr = 1 := by
    unfold refBit
    rw [hd]
    exact hr
  have hp : passedOver s = [] := by
    unfold passedOver
    rw [hc]
    simp [List.takeWhile, hcurr]
  have hq : notPassed s = s.clockStructure := by
    unfold notPassed
    rw [hc]
    simp [List.dropWhile, hcurr]
  refine ⟨hp, hq, ?_⟩
  unfold scanned
  rw [hp, hq, List.append_nil]
  rfl

/-- The scan of `secondChance`, for a clock queue without repetitions whose entries
point to records: it leaves the loop in the state `scanned s`, after exactly as
many rotations as there are entries with a set reference bit at the front of
the queue. -/
theorem scanClock_scanned : ∀ (n : Nat) (s : Pager), s.clockStructure.Nodup →
    (∀ h ∈ s.clockStructure, s.deref h ≠ none) → s.clockStructure ≠ [] →
    (passedOver s).length ≤ n →
    scanClock n s = some (scanned s) ∧
    rotations (passedOver s).length s = some (scanned s) ∧
    (∀ j, j < (passedOver s).length →
      ∃ sj, rotations j s = some sj ∧ frontReferenced sj = some true) ∧
    frontReferenced (scanned s) = some false := by
  intro n
  induction n with
  | zero =>
    intro s hn hv hne hl
    cases hc : s.clockStructure with
    | nil => exact absurd hc hne
    | cons curr rest =>
      cases hd : s.deref curr with
      | none => exact absurd hd (hv curr (by rw [hc]; exact List.mem_cons_self _ _))
      | some r =>
        by_cases hr : r.reference = 1
        · have := (scanned_rotateFront s curr rest r hc hn hd hr).1
          rw [this] at hl
          simp at hl
        · obtain ⟨hp, _, hs⟩ := scanned_of_unreferenced s curr rest r hc hd hr
          rw [hp, hs, scanClock_eq]
          simp only [hc, hd, hr, if_false, List.length_nil, rotations, true_and]
          refine ⟨fun j hj => absurd hj (Nat.not_lt_zero j), ?_⟩
          unfold frontReferenced
          simp [hc, hd, hr]
  | succ n ih =>
    intro s hn hv hne hl
    cases hc : s.clockStructure with
    | nil => exact absurd hc hne
    | cons curr rest =>
      cases hd : s.deref curr with
      | none => exact absurd hd (hv curr (by rw [hc]; exact List.mem_cons_self _ _))
      | some r =>
        by_cases hr : r.reference = 1
        · obtain ⟨hp, _, hs⟩ := scanned_rotateFront s curr rest r hc hn hd hr
          have hn1 : (rotateFront s curr rest).clockStructure.Nodup := by
            rw [clock_rotateFront]
            rw [hc] at hn
            have := List.nodup_cons.1 hn
            rw [List.nodup_append]
            refine ⟨this.2, List.nodup_singleton _, ?_⟩
            intro a ha hb
            rw [List.mem_singleton] at hb
            exact this.1 (hb ▸ ha)
          have hv1 : ∀ h ∈ (rotateFront s curr rest).clockStructure,
              (rotateFront s curr rest).deref h ≠ none := by
            intro h hh
            rw [deref_rotateFront]
            by_cases e : h = curr
            · simp [e, hd]
            · rw [if_neg e]
              apply hv
              rw [clock_rotateFront] at hh
              rw [hc]
              simp only [List.mem_append, List.mem_singleton] at hh
              rcases hh with hh | hh
              · exact List.mem_cons_of_mem _ hh
              · exact absurd hh e
          have hne1 : (rotateFront s curr rest).clockStructure ≠ [] := by
            rw [clock_rotateFront]; simp
          have hl1 : (passedOver (rotateFront s curr rest)).length ≤ n := by
            rw [hp] at hl
            simpa using hl
          obtain ⟨i1, i2, i3, i4⟩ := ih (rotateFront s curr rest) hn1 hv1 hne1 hl1
          rw [hs] at i1 i2 i4
          refine ⟨?_, ?_, ?_, i4⟩
          · rw [scanClock_eq]
            simp only [hc, hd, hr, if_true]
            exact i1
          · rw [hp]
            simp only [List.length_cons, rotations, hc]
            exact i2
          · intro j hj
            cases j with
            | zero =>
              refine ⟨s, rfl, ?_⟩
              unfold frontReferenced
              simp [hc, hd, hr]
            | succ j =>
              rw [hp] at hj
              obtain ⟨sj, h1, h2⟩ := i3 j (by simpa using hj)
              exact ⟨sj, by simp only [rotations, hc]; exact h1, h2⟩
        · obtain ⟨hp, _, hs⟩ := scanned_of_unreferenced s curr rest r hc hd hr
          rw [hp, hs, scanClock_eq]
          simp only [hc, hd, hr, if_false, List.length_nil, rotations, true_and]
          refine ⟨fun j hj => absurd hj (Nat.not_lt_zero j), ?_⟩
          unfold frontReferenced
          simp [hc, hd, hr]

theorem passedOver_length_le (s : Pager) : (passedOver s).length ≤ s.clockStructure.length := by
  unfold passedOver
  exact (List.takeWhile_sublist _).length_le

theorem passed_append (s : Pager) : passedOver s ++ notPassed s = s.clockStructure := by
  unfold passedOver notPassed
  exact List.takeWhile_append_dropWhile _ _

theorem Inv.clock_nodup {arenaSize F D : Nat} {held : List Nat} {s : Pager}
    (hinv : Inv arenaSize F D held s) : s.clockStructure.Nodup := by
  rw [hinv.clock.nodup_iff]
  unfold residentPtrs residentRecords
  exact hinv.keys.sublist ((List.filter_sublist _).map _)

/-- The function `secondChance` for a clock queue without repetitions whose entries
point to records: the victim is the front of the queue after the scan. -/
theorem secondChance_scanned (s : Pager) (hn : s.clockStructure.Nodup)
    (hv : ∀ h ∈ s.clockStructure, s.deref h ≠ none) (hne : s.clockStructure ≠ []) :
    ∃ victim rest r, notPassed s ++ passedOver s = victim :: rest ∧
      (scanned s).deref victim = some r ∧ r.reference ≠ 1 ∧
      scanClock s.clockStructure.length s = some (scanned s) ∧
      secondChance s = some (r.ppage, evictFront (scanned s) victim rest r) := by
  obtain ⟨h1, _, _, h4⟩ := scanClock_scanned _ s hn hv hne (passedOver_length_le s)
  have hcl : (scanned s).clockStructure = notPassed s ++ passedOver s := rfl
  unfold frontReferenced at h4
  rw [hcl] at h4
  cases hq : notPassed s ++ passedOver s with
  | nil => simp [hq] at h4
  | cons victim rest =>
    cases hd : (scanned s).deref victim with
    | none => simp [hq, hd] at h4
    | some r =>
      simp only [hq, hd, Option.some.injEq, decide_eq_false_iff_not] at h4
      refine ⟨victim, rest, r, rfl, hd, h4, h1, ?_⟩
      unfold secondChance
      simp only [h1, hcl, hq, hd]

theorem deref_scanned (s : Pager) (h : PagePtr) :
    (scanned s).deref h =
      if h ∈ passedOver s then (s.deref h).map (fun r => { r with reference := 0 })
      else s.deref h := by
  rw [← deref_clearRefs]
  rfl

theorem pte_scanned (s : Pager) (q : pid_t) (j : Nat) :
    (scanned s).pte q j =
      if (⟨q, j⟩ : PagePtr) ∈ passedOver s then
        (s.pte q j).map (fun e => { e with read_enable := 0, write_enable := 0 })
      else s.pte q j := by
  rw [← pte_clearRefs]
  rfl

theorem scanned_fields (s : Pager) :
    (scanned s).clockStructure = notPassed s ++ passedOver s ∧
    (scanned s).freePages = s.freePages ∧
    (scanned s).freeBlocks = s.freeBlocks ∧
    (scanned s).currentProcessInfo = s.currentProcessInfo ∧
    (scanned s).page_table_base_register = s.page_table_base_register ∧
    (scanned s).pm_physmem = s.pm_physmem ∧
    (scanned s).disk = s.disk ∧
    (scanned s).hostCalls = s.hostCalls := by
  obtain ⟨_, h2, h3, h4, h5, h6, h7, h8⟩ := clearRefs_fields (passedOver s) s
  exact ⟨rfl, h2, h3, h4, h5, h6, h7, h8⟩

theorem passedOver_referenced (s : Pager) : ∀ h ∈ passedOver s, refBit s h = 1 := by
  intro h hh
  unfold passedOver at hh
  simpa using List.mem_takeWhile_imp hh

theorem notPassed_head (s : Pager) (victim : PagePtr) (rest : List PagePtr)
    (h : notPassed s = victim :: rest) : refBit s victim ≠ 1 := by
  unfold notPassed at h
  have := List.head_dropWhile_not (fun h => decide (refBit s h = 1)) s.clockStructure
    (by rw [h]; simp)
  simp only [h, List.head_cons] at this
  simpa using this

theorem passed_take (s : Pager) :
    s.clockStructure.take (passedOver s).length = passedOver s ∧
    s.clockStructure.drop (passedOver s).length = notPassed s ∧
    s.clockStructure[(passedOver s).length]? = (notPassed s).head? := by
  have h := passed_append s
  refine ⟨?_, ?_, ?_⟩
  · conv_lhs => rw [← h]
    exact List.take_left _ _
  · conv_lhs => rw [← h]
    exact List.drop_left _ _
  · have : s.clockStructure[(passedOver s).length]? =
        (passedOver s ++ notPassed s)[(passedOver s).length]? := by rw [h]
    rw [this, List.getElem?_append_right (Nat.le_refl _)]
    simp [List.head?_eq_getElem?]

/-- C16: the clock scan. For every state whose clock queue `c` is not empty, has no
repetition and whose `n` entries point to page records, the loop of `secondChance`
ends after exactly `k` rotations, `k ≤ n`, where `k` is the position of the first
record of `c` whose reference bit is not set (`k = n` when all are set): the loop
condition holds after each of the first `k` rotations and fails after the `k`-th.
The victim, the front of the queue then, is that first unreferenced record, or
the original front `c[0]` when all were referenced. Each of the `k` records passed
over has its reference bit and both enable bits of its page-table entry cleared
and nothing else changed; the queue is `c[k..] ++ c[0..k-1]`; all other records
and entries and the rest of the state are unchanged. The function `secondChance`
then pops the victim and returns its physical page: the queue afterwards is
`c[k+1..] ++ c[0..k-1]`, or `c[1..]` when all were referenced. -/
theorem clock_scan (s : Pager) (hn : s.clockStructure.Nodup)
    (hv : ∀ h ∈ s.clockStructure, s.deref h ≠ none) (hne : s.clockStructure ≠ []) :
    ∃ (k : Nat) (s1 : Pager) (victim : PagePtr) (r : perPageInfo),
      k ≤ s.clockStructure.length ∧
      (∀ h ∈ s.clockStructure.take k, refBit s h = 1) ∧
      (∀ h, s.clockStructure[k]? = some h → refBit s h ≠ 1) ∧
      (∀ j, j < k → ∃ sj, rotations j s = some sj ∧ frontReferenced sj = some true) ∧
      rotations k s = some s1 ∧ frontReferenced s1 = some false ∧
      scanClock s.clockStructure.length s = some s1 ∧
      s1.clockStructure = s.clockStructure.drop k ++ s.clockStructure.take k ∧
      s1.clockStructure.head? = some victim ∧
      (k < s.clockStructure.length → s.clockStructure[k]? = some victim) ∧
      (k = s.clockStructure.length → s.clockStructure.head? = some victim) ∧
      (∀ h ∈ s.clockStructure.take k,
        s1.deref h = (s.deref h).map (fun x => { x with reference := 0 }) ∧
        s1.pte h.myProcess h.virtualPage = (s.pte h.myProcess h.virtualPage).map
          (fun e => { e with read_enable := 0, write_enable := 0 })) ∧
      (∀ h, h ∉ s.clockStructure.take k →
        s1.deref h = s.deref h ∧
        s1.pte h.myProcess h.virtualPage = s.pte h.myProcess h.virtualPage) ∧
      (s1.freePages = s.freePages ∧ s1.freeBlocks = s.freeBlocks ∧
        s1.pm_physmem = s.pm_physmem ∧ s1.disk = s.disk ∧ s1.hostCalls = s.hostCalls) ∧
      s1.deref victim = some r ∧
      ∃ s2, secondChance s = some (r.ppage, s2) ∧
        (k < s.clockStructure.length →
          s2.clockStructure = s.clockStructure.drop (k + 1) ++ s.clockStructure.take k) ∧
        (k = s.clockStructure.length → s2.clockStructure = s.clockStructure.drop 1) := by
  obtain ⟨_, g2, g3, g4⟩ := scanClock_scanned _ s hn hv hne (passedOver_length_le s)
  obtain ⟨victim, rest, r, hq, hd, _, hs, hsc⟩ := secondChance_scanned s hn hv hne
  obtain ⟨t1, t2, t3⟩ := passed_take s
  obtain ⟨f1, f2, f3, _, _, f6, f7, f8⟩ := scanned_fields s
  have hlen : (passedOver s).length + (notPassed s).length = s.clockStructure.length := by
    rw [← passed_append s, List.length_append]
  refine ⟨(passedOver s).length, scanned s, victim, r, passedOver_length_le s, ?_, ?_, g3, g2,
    g4, hs, ?_, ?_, ?_, ?_, ?_, ?_, ⟨f2, f3, f6, f7, f8⟩, hd,
    evictFront (scanned s) victim rest r, hsc, ?_, ?_⟩
  · rw [t1]
    exact passedOver_referenced s
  · intro h hh
    rw [t3] at hh
    cases hnp : notPassed s with
    | nil => simp [hnp] at hh
    | cons a t =>
      simp only [hnp, List.head?_cons, Option.some.injEq] at hh
      subst hh
      exact notPassed_head s a t hnp
  · rw [t1, t2, f1]
  · rw [f1, hq]
    rfl
  · intro hk
    rw [t3]
    cases hnp : notPassed s with
    | nil =>
      rw [hnp] at hlen
      simp only [List.length_nil, Nat.add_zero] at hlen
      omega
    | cons a t =>
      rw [hnp] at hq
      simp only [List.cons_append, List.cons.injEq] at hq
      rw [hq.1]
      rfl
  · intro hk
    have hnp : notPassed s = [] := by
      apply List.length_eq_zero.1
      omega
    rw [hnp, List.nil_append] at hq
    rw [← passed_append s, hnp, List.append_nil, hq]
    rfl
  · intro h hh
    rw [t1] at hh
    rw [deref_scanned, pte_scanned, if_pos hh, if_pos hh]
    exact ⟨rfl, rfl⟩
  · intro h hh
    rw [t1] at hh
    rw [deref_scanned, pte_scanned, if_neg hh, if_neg hh]
    exact ⟨rfl, rfl⟩
  · intro hk
    have hcl : (evictFront (scanned s) victim rest r).clockStructure = rest :=
      (evictFront_fields (scanned s) victim rest r).1
    rw [hcl, t1, ← List.tail_drop, t2]
    cases hnp : notPassed s with
    | nil =>
      rw [hnp] at hlen
      simp only [List.length_nil, Nat.add_zero] at hlen
      omega
    | cons a t =>
      rw [hnp] at hq
      simp only [List.cons_append, List.cons.injEq] at hq
      rw [← hq.2]
      rfl
  · intro hk
    have hcl : (evictFront (scanned s) victim rest r).clockStructure = rest :=
      (evictFront_fields (scanned s) victim rest r).1
    have hnp : notPassed s = [] := by
      apply List.length_eq_zero.1
      omega
    rw [hnp, List.nil_append] at hq
    rw [hcl, List.drop_one, ← passed_append s, hnp, List.append_nil, hq]
    rfl

theorem pte_evictFront (s : Pager) (evicting : PagePtr) (rest : List PagePtr)
    (r : perPageInfo) (q : pid_t) (j : Nat) :
    (evictFront s evicting rest r).pte q j =
      if q = evicting.myProcess ∧ j = evicting.virtualPage then
        (s.pte evicting.myProcess evicting.virtualPage).map
          (fun e => { e with read_enable := 0, write_enable := 0 })
      else s.pte q j := by
  rw [evictFront_eq, pte_modifyPte, pte_modifyPage, pte_modifyPage,
    pte_congr (evictWrite_procs s rest r), pte_congr (evictWrite_procs s rest r)]

theorem evictFront_disk (s : Pager) (evicting : PagePtr) (rest : List PagePtr)
    (r : perPageInfo) :
    (evictFront s evicting rest r).disk =
      if r.modified = 1 then (disk_write s r.diskBlock r.ppage).disk else s.disk := by
  rw [evictFront_eq]
  unfold evictWrite
  by_cases h : r.modified = 1 <;> simp only [h, if_true, if_false] <;> rfl

/-- The effect of `secondChance` on a state whose clock queue is not empty, has
no repetition and points to records, in terms of the state before the call. The
victim, whose record is `r0`, is the front of the queue after the scan; it is
written to its disk block exactly when `r0.modified = 1`. -/
theorem secondChance_effect (s : Pager) (hn : s.clockStructure.Nodup)
    (hv : ∀ h ∈ s.clockStructure, s.deref h ≠ none) (hne : s.clockStructure ≠ []) :
    ∃ victim rest r0 s2,
      notPassed s ++ passedOver s = victim :: rest ∧ victim ∈ s.clockStructure ∧
      s.deref victim = some r0 ∧ (victim ∉ passedOver s → r0.reference ≠ 1) ∧
      secondChance s = some (r0.ppage, s2) ∧
      s2.clockStructure = rest ∧
      (∀ h, s2.deref h =
        if h = victim then some { r0 with resident := 0, modified := 0, reference := 0 }
        else if h ∈ passedOver s then (s.deref h).map (fun x => { x with reference := 0 })
        else s.deref h) ∧
      (∀ q j, s2.pte q j =
        if (⟨q, j⟩ : PagePtr) = victim ∨ (⟨q, j⟩ : PagePtr) ∈ passedOver s then
          (s.pte q j).map (fun e => { e with read_enable := 0, write_enable := 0 })
        else s.pte q j) ∧
      (s2.freePages = s.freePages ∧ s2.freeBlocks = s.freeBlocks ∧
        s2.currentProcessInfo = s.currentProcessInfo ∧
        s2.page_table_base_register = s.page_table_base_register ∧
        s2.pm_physmem = s.pm_physmem) ∧
      s2.disk = (if r0.modified = 1 then (disk_write s r0.diskBlock r0.ppage).disk else s.disk) ∧
      s2.hostCalls = s.hostCalls ++
        (if r0.modified = 1 then [HostCall.disk_write r0.diskBlock r0.ppage] else []) := by
  obtain ⟨victim, rest, r, hq, hd, hr, _, hsc⟩ := secondChance_scanned s hn hv hne
  obtain ⟨_, f2, f3, f4, f5, f6, f7, f8⟩ := scanned_fields s
  obtain ⟨e1, e2, e3, e4, e5, e6⟩ := evictFront_fields (scanned s) victim rest r
  have hmem : victim ∈ s.clockStructure := by
    rw [← passed_append s]
    have : victim ∈ notPassed s ++ passedOver s := by rw [hq]; exact List.mem_cons_self _ _
    rw [List.mem_append] at this ⊢
    exact this.symm
  cases hd0 : s.deref victim with
  | none => exact absurd hd0 (hv victim hmem)
  | some r0 =>
    have hr0 : r = if victim ∈ passedOver s then { r0 with reference := 0 } else r0 := by
      rw [deref_scanned, hd0] at hd
      by_cases m : victim ∈ passedOver s
      · simp only [m, if_true, Option.map_some', Option.some.injEq] at hd ⊢
        exact hd.symm
      · simp only [m, if_false, Option.some.injEq] at hd ⊢
        exact hd.symm
    have hpp : r.ppage = r0.ppage := by rw [hr0]; split <;> rfl
    have hmod : r.modified = r0.modified := by rw [hr0]; split <;> rfl
    have hblk : r.diskBlock = r0.diskBlock := by rw [hr0]; split <;> rfl
    have hev : ({ r with resident := 0, modified := 0, reference := 0 } : perPageInfo) =
        { r0 with resident := 0, modified := 0, reference := 0 } := by
      rw [hr0]; split <;> rfl
    refine ⟨victim, rest, r0, evictFront (scanned s) victim rest r, hq, hmem, hd0, ?_, ?_, e1,
      ?_, ?_, ⟨e3.trans f2, e2.trans f3, e4.trans f4, e5.trans f5, e6.trans f6⟩, ?_, ?_⟩
    · intro m
      rw [hr0, if_neg m] at hr
      exact hr
    · rw [hsc, hpp]
    · intro h
      rw [deref_evictFront, hd, deref_scanned]
      by_cases e : h = victim
      · simp only [e, if_true, Option.map_some']
        rw [hev]
      · simp only [e, if_false]
    · intro q j
      rw [pte_evictFront, pte_scanned, pte_scanned]
      by_cases e : (⟨q, j⟩ : PagePtr) = victim
      · have e2 : q = victim.myProcess ∧ j = victim.virtualPage := by
          rw [← e]; exact ⟨rfl, rfl⟩
        obtain ⟨e3, e4⟩ := e2
        subst e3 e4
        have e5 : (⟨victim.myProcess, victim.virtualPage⟩ : PagePtr) = victim := rfl
        simp only [and_self, if_true, true_or, e5]
        by_cases m : victim ∈ passedOver s
        · simp only [m, if_true, Option.map_map]
          cases s.pte victim.myProcess victim.virtualPage <;> rfl
        · simp only [m, if_false]
      · have e2 : ¬ (q = victim.myProcess ∧ j = victim.virtualPage) := by
          intro h2
          apply e
          cases victim
          simp only [PagePtr.mk.injEq]
          exact h2
        simp only [e, e2, if_false, false_or]
    · rw [evictFront_disk, f7, hmod, hblk, hpp]
      by_cases m : r0.modified = 1
      · simp only [m, if_true]
        unfold disk_write
        simp only [f6, f7]
      · simp only [m, if_false]
    · rw [evictFront_calls, f8, hmod, hblk, hpp]


theorem Example.mixed_reachable : Reachable Example.arenaSize 3 4 Example.mixed :=
  runD_reachable _ (Example.started_reachable 3 4 (by decide) (by decide)) rfl

theorem pte_of_deref {s : Pager} {h : PagePtr} {r : perPageInfo} (hd : s.deref h = some r) :
    ∃ e, s.pte h.myProcess h.virtualPage = some e := by
  unfold Pager.deref at hd
  unfold Pager.pte
  cases hp : s.findProcess h.myProcess with
  | none => simp [hp] at hd
  | some pr => exact ⟨_, rfl⟩

/-- C15 (as amended): for every state with no free physical page whose clock queue
is not empty, has no repetition and points to page records, the replacement
routine returns the physical page of the victim and issues
`disk_write(victim.diskBlock, victim.ppage)` if and only if the victim has
`modified = 1`; the block then holds the bytes of the page. In a state in which no
zero-pending record is modified (every reachable state is one) this is: if and
only if `modified = 1` and `notZeroFilled = 0`, and a zero-pending victim is not
written. In every case the victim ends with `modified = reference = resident = 0`
and the rest of its record unchanged, both enable bits of its page-table entry
are cleared, and it has left the clock queue. -/
theorem write_back_policy (s : Pager) (hf : s.freePages = []) (hn : s.clockStructure.Nodup)
    (hv : ∀ h ∈ s.clockStructure, s.deref h ≠ none) (hne : s.clockStructure ≠ []) :
    ∃ victim r0 e0 s2,
      victim ∈ s.clockStructure ∧ s.deref victim = some r0 ∧
      s.pte victim.myProcess victim.virtualPage = some e0 ∧
      getPhysPage s = some (r0.ppage, s2) ∧
      s2.hostCalls = s.hostCalls ++
        (if r0.modified = 1 then [HostCall.disk_write r0.diskBlock r0.ppage] else []) ∧
      ((r0.notZeroFilled ≠ 0 → r0.modified ≠ 1) →
        (s2.hostCalls = s.hostCalls ++ [HostCall.disk_write r0.diskBlock r0.ppage] ↔
          r0.modified = 1 ∧ r0.notZeroFilled = 0) ∧
        (r0.notZeroFilled ≠ 0 → s2.hostCalls = s.hostCalls)) ∧
      (r0.modified = 1 → ∀ off, off < VM_PAGESIZE →
        s2.disk r0.diskBlock off = s.pm_physmem (r0.ppage * VM_PAGESIZE + off)) ∧
      s2.deref victim = some { r0 with resident := 0, modified := 0, reference := 0 } ∧
      s2.pte victim.myProcess victim.virtualPage =
        some { e0 with read_enable := 0, write_enable := 0 } ∧
      victim ∉ s2.clockStructure := by
  obtain ⟨victim, rest, r0, s2, hq, hmem, hd, _, hsc, hcl, hder, hpte, _, hdisk, hcalls⟩ :=
    secondChance_effect s hn hv hne
  obtain ⟨e0, he0⟩ := pte_of_deref hd
  have hperm : (victim :: rest).Perm s.clockStructure := by
    rw [← hq, ← passed_append s]
    exact List.perm_append_comm
  have hnv : victim ∉ rest := (List.nodup_cons.1 (hperm.nodup_iff.2 hn)).1
  refine ⟨victim, r0, e0, s2, hmem, hd, he0, ?_, hcalls, ?_, ?_, ?_, ?_, ?_⟩
  · unfold getPhysPage
    rw [hf]
    exact hsc
  · intro hz
    by_cases m : r0.modified = 1
    · have hz0 : r0.notZeroFilled = 0 := by
        by_contra hz1
        exact hz hz1 m
      rw [hcalls]
      simp [m, hz0]
    · rw [hcalls]
      simp [m]
  · intro m off ho
    rw [hdisk, if_pos m]
    unfold disk_write
    simp [ho]
  · rw [hder, if_pos rfl]
  · rw [hpte, if_pos (Or.inl rfl), he0]
    rfl
  · rw [hcl]
    exact hnv

/-- C15, witness: replacement in the state `Example.mixed`, whose victim `c` is
modified and not zero pending and is written to its disk block 2 from the
physical page 2. -/
theorem write_back_policy_witness :
    Example.mixed.freePages = [] ∧ Example.mixed.clockStructure.Nodup ∧
    (∀ h ∈ Example.mixed.clockStructure, Example.mixed.deref h ≠ none) ∧
    Example.mixed.clockStructure ≠ [] ∧
    (∃ victim r0 e0 s2,
      victim ∈ Example.mixed.clockStructure ∧ Example.mixed.deref victim = some r0 ∧
      Example.mixed.pte victim.myProcess victim.virtualPage = some e0 ∧
      getPhysPage Example.mixed = some (r0.ppage, s2) ∧
      s2.hostCalls = Example.mixed.hostCalls ++
        (if r0.modified = 1 then [HostCall.disk_write r0.diskBlock r0.ppage] else []) ∧
      ((r0.notZeroFilled ≠ 0 → r0.modified ≠ 1) →
        (s2.hostCalls = Example.mixed.hostCalls ++ [HostCall.disk_write r0.diskBlock r0.ppage] ↔
          r0.modified = 1 ∧ r0.notZeroFilled = 0) ∧
        (r0.notZeroFilled ≠ 0 → s2.hostCalls = Example.mixed.hostCalls)) ∧
      (r0.modified = 1 → ∀ off, off < VM_PAGESIZE →
        s2.disk r0.diskBlock off = Example.mixed.pm_physmem (r0.ppage * VM_PAGESIZE + off)) ∧
      s2.deref victim = some { r0 with resident := 0, modified := 0, reference := 0 } ∧
      s2.pte victim.myProcess victim.virtualPage =
        some { e0 with read_enable := 0, write_enable := 0 } ∧
      victim ∉ s2.clockStructure) ∧
    (getPhysPage Example.mixed).map (fun x => (x.1, x.2.hostCalls)) =
      some (2, [HostCall.disk_write 0 0, HostCall.disk_write 2 2]) :=
  ⟨rfl, by decide, by decide, by decide,
    write_back_policy Example.mixed rfl (by decide) (by decide) (by decide), by decide⟩

/-- C15, counterexample: in the state `Example.dirtyZero` no physical page is free and
the clock queue holds one record, which is resident with `modified = 1` and
`notZeroFilled = 1` (zero pending), its entry being read enabled and not write
enabled. Replacement evicts it and issues `disk_write` for it: the source tests
`modified == 1` only. -/
theorem write_back_ignores_zero_pending :
    Example.dirtyZero.freePages = [] ∧
    Example.dirtyZero.clockStructure = [⟨1, 0⟩] ∧
    Example.dirtyZero.deref ⟨1, 0⟩ =
      some { (newPageInfo 0 0) with modified := 1, reference := 1, resident := 1 } ∧
    Example.dirtyZero.pte 1 0 = some { ppage := 0, read_enable := 1, write_enable := 0 } ∧
    (getPhysPage Example.dirtyZero).map (fun x => (x.1, x.2.clockStructure, x.2.hostCalls)) =
      some (0, [], [HostCall.disk_write 0 0]) :=
  ⟨rfl, rfl, rfl, rfl, by decide⟩

/-- C16, witness: the scan in the state `Example.mixed`, whose clock queue is `b, c, d`
with the reference bit of `c` clear: one rotation, the victim is `c`, and the queue
afterwards is `d, b`. -/
theorem clock_scan_witness :
    Example.mixed.clockStructure.Nodup ∧
    (∀ h ∈ Example.mixed.clockStructure, Example.mixed.deref h ≠ none) ∧
    Example.mixed.clockStructure ≠ [] ∧
    (∃ (k : Nat) (s1 : Pager) (victim : PagePtr) (r : perPageInfo),
      k ≤ Example.mixed.clockStructure.length ∧
      (∀ h ∈ Example.mixed.clockStructure.take k, refBit Example.mixed h = 1) ∧
      (∀ h, Example.mixed.clockStructure[k]? = some h → refBit Example.mixed h ≠ 1) ∧
      (∀ j, j < k → ∃ sj, rotations j Example.mixed = some sj ∧ frontReferenced sj = some true) ∧
      rotations k Example.mixed = some s1 ∧ frontReferenced s1 = some false ∧
      scanClock Example.mixed.clockStructure.length Example.mixed = some s1 ∧
      s1.clockStructure = Example.mixed.clockStructure.drop k ++ Example.mixed.clockStructure.take k ∧
      s1.clockStructure.head? = some victim ∧
      (k < Example.mixed.clockStructure.length → Example.mixed.clockStructure[k]? = some victim) ∧
      (k = Example.mixed.clockStructure.length → Example.mixed.clockStructure.head? = some victim) ∧
      (∀ h ∈ Example.mixed.clockStructure.take k,
        s1.deref h = (Example.mixed.deref h).map (fun x => { x with reference := 0 }) ∧
        s1.pte h.myProcess h.virtualPage = (Example.mixed.pte h.myProcess h.virtualPage).map
          (fun e => { e with read_enable := 0, write_enable := 0 })) ∧
      (∀ h, h ∉ Example.mixed.clockStructure.take k →
        s1.deref h = Example.mixed.deref h ∧
        s1.pte h.myProcess h.virtualPage = Example.mixed.pte h.myProcess h.virtualPage) ∧
      (s1.freePages = Example.mixed.freePages ∧ s1.freeBlocks = Example.mixed.freeBlocks ∧
        s1.pm_physmem = Example.mixed.pm_physmem ∧ s1.disk = Example.mixed.disk ∧ s1.hostCalls = Example.mixed.hostCalls) ∧
      s1.deref victim = some r ∧
      ∃ s2, secondChance Example.mixed = some (r.ppage, s2) ∧
        (k < Example.mixed.clockStructure.length →
          s2.clockStructure = Example.mixed.clockStructure.drop (k + 1) ++ Example.mixed.clockStructure.take k) ∧
        (k = Example.mixed.clockStructure.length → s2.clockStructure = Example.mixed.clockStructure.drop 1)) ∧
    Example.mixed.clockStructure = [⟨1, 1⟩, ⟨1, 2⟩, ⟨1, 3⟩] ∧
    Example.mixed.clockStructure.map (refBit Example.mixed) = [1, 0, 1] ∧
    (secondChance Example.mixed).map
      (fun x => (x.1, x.2.clockStructure, x.2.clockStructure.map (refBit x.2))) =
      some (2, [⟨1, 3⟩, ⟨1, 1⟩], [1, 0]) :=
  ⟨by decide, by decide, by decide,
    clock_scan Example.mixed (by decide) (by decide) (by decide), rfl, by decide, by decide⟩

/-! ## Zero-pending pages are never dirty -/

/-- C19: in every reachable state, every page record that is zero pending
(`notZeroFilled` not `0`, in fact `1`) has `modified = 0` and the entry of its page has
`write_enable = 0`. Consequently the replacement routine, which writes back exactly
the victims with `modified = 1`, never issues `disk_write` for a zero-pending page:
whenever `getPhysPage` returns, it issued no call to the host, or exactly one
`disk_write`, for a victim that was resident and modified with `notZeroFilled = 0`.
With at least one physical page it does return. -/
theorem zero_pending_unmodified {arenaSize F D : Nat} {s : Pager}
    (h : Reachable arenaSize F D s) :
    (∀ p r, s.deref p = some r → r.notZeroFilled ≠ 0 →
      r.notZeroFilled = 1 ∧ r.modified = 0 ∧
      ∃ e, s.pte p.myProcess p.virtualPage = some e ∧ e.write_enable = 0) ∧
    (∀ frame s2, getPhysPage s = some (frame, s2) →
      s2.hostCalls = s.hostCalls ∨
      ∃ victim r0, s.deref victim = some r0 ∧ r0.resident = 1 ∧ r0.modified = 1 ∧
        r0.notZeroFilled = 0 ∧ r0.ppage = frame ∧
        s2.hostCalls = s.hostCalls ++ [HostCall.disk_write r0.diskBlock r0.ppage]) ∧
    (1 ≤ F → ∃ frame s2, getPhysPage s = some (frame, s2)) := by
  have hinv := reachable_inv h
  refine ⟨?_, ?_, ?_⟩
  · intro p r hd hz
    obtain ⟨e, he⟩ := pte_of_deref hd
    have hok := hinv.recs p r e hd he
    have h1 : r.notZeroFilled = 1 := by
      rcases hok.zeroBit with h0 | h1
      · exact absurd h0 hz
      · exact h1
    exact ⟨h1, (hok.zeroOK h1).1, e, he, (hok.zeroOK h1).2⟩
  · intro frame s2 hg
    unfold getPhysPage at hg
    cases hf : s.freePages with
    | cons f rest =>
      simp only [hf, Option.some.injEq, Prod.mk.injEq] at hg
      left
      rw [← hg.2]
    | nil =>
      simp only [hf] at hg
      have hne : s.clockStructure ≠ [] := by
        intro hc
        unfold secondChance at hg
        rw [scanClock_eq] at hg
        simp [hc] at hg
      obtain ⟨victim, rest, r0, s3, _, hmem, hd, _, hsc, _, _, _, _, _, hcalls⟩ :=
        secondChance_effect s hinv.clock_nodup hinv.clock_valid hne
      rw [hsc] at hg
      simp only [Option.some.injEq, Prod.mk.injEq] at hg
      obtain ⟨hg1, hg2⟩ := hg
      subst hg2
      by_cases m : r0.modified = 1
      · right
        obtain ⟨e, he⟩ := pte_of_deref hd
        have hok := hinv.recs victim r0 e hd he
        have hz : r0.notZeroFilled = 0 := by
          rcases hok.zeroBit with h0 | h1
          · exact h0
          · have := (hok.zeroOK h1).1
            omega
        refine ⟨victim, r0, hd, hinv.resident_of_clock hmem hd, m, hz, hg1, ?_⟩
        rw [hcalls, if_pos m]
      · left
        rw [hcalls, if_neg m, List.append_nil]
  · intro hF
    obtain ⟨frame, s2, hg, _⟩ := getPhysPage_defined s (hinv.canReplace hF)
    exact ⟨frame, s2, hg⟩

/-- C19, witness: the state `Example.onePage`, whose only page record is zero
pending. -/
theorem zero_pending_unmodified_witness :
    Reachable Example.arenaSize 2 4 Example.onePage ∧
    ((∀ p r, Example.onePage.deref p = some r → r.notZeroFilled ≠ 0 →
      r.notZeroFilled = 1 ∧ r.modified = 0 ∧
      ∃ e, Example.onePage.pte p.myProcess p.virtualPage = some e ∧ e.write_enable = 0) ∧
    (∀ frame s2, getPhysPage Example.onePage = some (frame, s2) →
      s2.hostCalls = Example.onePage.hostCalls ∨
      ∃ victim r0, Example.onePage.deref victim = some r0 ∧ r0.resident = 1 ∧ r0.modified = 1 ∧
        r0.notZeroFilled = 0 ∧ r0.ppage = frame ∧
        s2.hostCalls = Example.onePage.hostCalls ++ [HostCall.disk_write r0.diskBlock r0.ppage]) ∧
    (1 ≤ 2 → ∃ frame s2, getPhysPage Example.onePage = some (frame, s2))) :=
  ⟨Example.onePage_reachable, zero_pending_unmodified Example.onePage_reachable⟩

/-! ## Faults on resident pages -/

/-- A fault on a resident page of the current process is handled by
`readWriteFault`. -/
theorem vm_fault_resident {s : Pager} {cur : pid_t} {pr : perProcessInfo} {r : perPageInfo}
    {addr : Nat} (write_flag : Bool) (hc : s.currentProcessInfo = some cur)
    (hp : s.findProcess cur = some pr) (hm : mapFind (vpageOf addr) pr.pageInfo = some r)
    (hres : r.resident ≠ 0) :
    vm_fault s addr write_flag =
      some (0, s.updatePage ⟨cur, vpageOf addr⟩ (upgradeRecord r write_flag)
        (upgradeEntry r write_flag)) := by
  unfold vm_fault
  simp only [hc, hp, hm, hres, if_false]
  exact readWriteFault_eq s cur r write_flag (vpageOf addr)

/-- C18: in every reachable state, a `vm_fault` on a page of the current process whose
record `r` is resident returns `0`. Afterwards the record has `reference = 1` and the
entry `read_enable = 1`. If the fault is a write, `modified = 1`, `write_enable = 1` and
`notZeroFilled = 0`; if it is a read, `write_enable` equals the modified bit of the
record, and `modified` and `notZeroFilled` are unchanged. In both cases the record
stays resident with its physical page and disk block, the entry names that
physical page, and the clock queue, the free pages, the free blocks, physical
memory, the disk and the list of host calls are unchanged (no disk I/O); so are
all other records and entries. -/
theorem resident_upgrade {arenaSize F D : Nat} {s : Pager} (h : Reachable arenaSize F D s)
    {cur : pid_t} {pr : perProcessInfo} {r : perPageInfo} {addr : Nat} (write_flag : Bool)
    (hc : s.currentProcessInfo = some cur) (hp : s.findProcess cur = some pr)
    (hm : mapFind (vpageOf addr) pr.pageInfo = some r) (hres : r.resident = 1) :
    ∃ s1 r1 e1, vm_fault s addr write_flag = some (0, s1) ∧
      s1.deref ⟨cur, vpageOf addr⟩ = some r1 ∧ s1.pte cur (vpageOf addr) = some e1 ∧
      r1.reference = 1 ∧ e1.read_enable = 1 ∧
      (write_flag = true → r1.modified = 1 ∧ e1.write_enable = 1 ∧ r1.notZeroFilled = 0) ∧
      (write_flag = false → e1.write_enable = r.modified ∧ r1.modified = r.modified ∧
        r1.notZeroFilled = r.notZeroFilled) ∧
      (r1.resident = 1 ∧ r1.ppage = r.ppage ∧ r1.diskBlock = r.diskBlock ∧
        e1.ppage = r.ppage) ∧
      (s1.clockStructure = s.clockStructure ∧ s1.freePages = s.freePages ∧
        s1.freeBlocks = s.freeBlocks ∧ s1.pm_physmem = s.pm_physmem ∧ s1.disk = s.disk ∧
        s1.hostCalls = s.hostCalls) ∧
      (∀ p : PagePtr, p ≠ ⟨cur, vpageOf addr⟩ →
        s1.deref p = s.deref p ∧
        s1.pte p.myProcess p.virtualPage = s.pte p.myProcess p.virtualPage) := by
  have hinv := reachable_inv h
  have hd : s.deref ⟨cur, vpageOf addr⟩ = some r := by
    rw [deref_of_findProcess hp]; exact hm
  have he := hinv.pte_some hp (vpageOf addr)
  have hok := hinv.recs ⟨cur, vpageOf addr⟩ r _ hd he
  have hres0 : r.resident ≠ 0 := by omega
  obtain ⟨f1, f2, f3, _, _, f6, f7, f8⟩ := updatePage_fields s ⟨cur, vpageOf addr⟩
    (upgradeRecord r write_flag) (upgradeEntry r write_flag)
  refine ⟨_, upgradeRecord r write_flag r, upgradeEntry r write_flag (pr.pageTable.ptes (vpageOf addr)),
    vm_fault_resident write_flag hc hp hm hres0, ?_, ?_, ?_, ?_, ?_, ?_, ?_, ⟨f1, f2, f3, f6, f7, f8⟩, ?_⟩
  · rw [updatePage_deref, if_pos rfl, hd]; rfl
  · rw [updatePage_pte, if_pos ⟨rfl, rfl⟩, he]; rfl
  · unfold upgradeRecord
    split <;> split <;> rfl
  · unfold upgradeEntry
    split <;> split <;> rfl
  · intro hw
    subst hw
    unfold upgradeRecord upgradeEntry
    by_cases hz : r.notZeroFilled = 0 <;> simp [hz]
  · intro hw
    subst hw
    unfold upgradeRecord upgradeEntry
    by_cases hz : r.notZeroFilled = 0
    · rcases hok.modifiedBit with m | m <;> simp [hz, m]
    · have hz1 : r.notZeroFilled = 1 := by
        rcases hok.zeroBit with z | z
        · exact absurd z hz
        · exact z
      simp [hz, (hok.zeroOK hz1).1, (hok.zeroOK hz1).2]
  · have hfr := hok.frameOK hres
    unfold upgradeRecord upgradeEntry
    by_cases hz : r.notZeroFilled = 0 <;> cases write_flag <;> simp [hz, hres, hfr]
  · intro p hpne
    rw [updatePage_deref, if_neg hpne, updatePage_pte, if_neg (ptr_ne_iff hpne)]
    exact ⟨rfl, rfl⟩

/-- C18, witness: a read fault on page `c` of the state `Example.mixed`, which is resident
and modified with a clear reference bit (record `⟨2, 1, 0, 0, 1, 2⟩`: physical page 2,
modified, not zero pending, not referenced, resident, disk block 2). -/
theorem resident_upgrade_witness :
    Reachable Example.arenaSize 3 4 Example.mixed ∧
    Example.mixed.currentProcessInfo = some 1 ∧
    Example.mixed.findProcess 1 = some (Example.mixed.processD 1) ∧
    mapFind (vpageOf (VM_ARENA_BASEADDR + 2 * VM_PAGESIZE)) (Example.mixed.processD 1).pageInfo =
      some (⟨2, 1, 0, 0, 1, 2⟩ : perPageInfo) ∧
    (⟨2, 1, 0, 0, 1, 2⟩ : perPageInfo).resident = 1 ∧
    (∃ s1 r1 e1, vm_fault Example.mixed (VM_ARENA_BASEADDR + 2 * VM_PAGESIZE) false = some (0, s1) ∧
      s1.deref ⟨1, vpageOf (VM_ARENA_BASEADDR + 2 * VM_PAGESIZE)⟩ = some r1 ∧ s1.pte 1 (vpageOf (VM_ARENA_BASEADDR + 2 * VM_PAGESIZE)) = some e1 ∧
      r1.reference = 1 ∧ e1.read_enable = 1 ∧
      (false = true → r1.modified = 1 ∧ e1.write_enable = 1 ∧ r1.notZeroFilled = 0) ∧
      (false = false → e1.write_enable = (⟨2, 1, 0, 0, 1, 2⟩ : perPageInfo).modified ∧ r1.modified = (⟨2, 1, 0, 0, 1, 2⟩ : perPageInfo).modified ∧
        r1.notZeroFilled = (⟨2, 1, 0, 0, 1, 2⟩ : perPageInfo).notZeroFilled) ∧
      (r1.resident = 1 ∧ r1.ppage = (⟨2, 1, 0, 0, 1, 2⟩ : perPageInfo).ppage ∧ r1.diskBlock = (⟨2, 1, 0, 0, 1, 2⟩ : perPageInfo).diskBlock ∧
        e1.ppage = (⟨2, 1, 0, 0, 1, 2⟩ : perPageInfo).ppage) ∧
      (s1.clockStructure = Example.mixed.clockStructure ∧ s1.freePages = Example.mixed.freePages ∧
        s1.freeBlocks = Example.mixed.freeBlocks ∧ s1.pm_physmem = Example.mixed.pm_physmem ∧ s1.disk = Example.mixed.disk ∧
        s1.hostCalls = Example.mixed.hostCalls) ∧
      (∀ p : PagePtr, p ≠ ⟨1, vpageOf (VM_ARENA_BASEADDR + 2 * VM_PAGESIZE)⟩ →
        s1.deref p = Example.mixed.deref p ∧
        s1.pte p.myProcess p.virtualPage = Example.mixed.pte p.myProcess p.virtualPage)) :=
  ⟨Example.mixed_reachable, rfl, rfl, by decide, rfl,
    resident_upgrade Example.mixed_reachable false rfl rfl (by decide) rfl⟩

/-! ## Faults on pages that are not resident -/

theorem normalBind_physmem (s : Pager) (r : perPageInfo) (physPage : Nat) (cur : pid_t)
    (write_flag : Bool) (k : Nat) :
    (normalBind s r physPage cur write_flag k).pm_physmem =
      (disk_read s r.diskBlock physPage).pm_physmem := by
  rw [normalBind_eq]
  exact (updatePage_fields _ _ _ _).2.2.2.2.2.1

theorem normalRecord_eq (physPage : Nat) (write_flag : Bool) {r : perPageInfo}
    (hz : r.notZeroFilled = 0) :
    normalRecord physPage write_flag r = zeroFilledRecord physPage write_flag r := by
  unfold normalRecord zeroFilledRecord
  cases write_flag <;> simp [hz]

theorem normalEntry_eq (physPage : Nat) (write_flag : Bool) (e : page_table_entry_t) :
    normalEntry physPage write_flag e = zeroFilledEntry physPage write_flag e := rfl

/-- The effect of a fault on a page of the current process that is not resident,
relative to the state `sg` that `getPhysPage` leaves. -/
theorem fault_in_effect {arenaSize F D : Nat} {s : Pager} (hinv : Inv arenaSize F D [] s)
    (hF : 1 ≤ F) {cur : pid_t} {pr : perProcessInfo} {r : perPageInfo} {addr : Nat}
    (write_flag : Bool) (hc : s.currentProcessInfo = some cur)
    (hp : s.findProcess cur = some pr) (hm : mapFind (vpageOf addr) pr.pageInfo = some r)
    (hnr : r.resident = 0) :
    ∃ frame sg s1, getPhysPage s = some (frame, sg) ∧
      vm_fault s addr write_flag = some (0, s1) ∧
      sg.deref ⟨cur, vpageOf addr⟩ = some r ∧
      sg.pte cur (vpageOf addr) = some (pr.pageTable.ptes (vpageOf addr)) ∧
      (∀ h, s1.deref h =
        if h = ⟨cur, vpageOf addr⟩ then some (zeroFilledRecord frame write_flag r)
        else sg.deref h) ∧
      (∀ q j, s1.pte q j =
        if q = cur ∧ j = vpageOf addr then
          some (zeroFilledEntry frame write_flag (pr.pageTable.ptes (vpageOf addr)))
        else sg.pte q j) ∧
      (s1.clockStructure = sg.clockStructure ++ [⟨cur, vpageOf addr⟩] ∧
        s1.freePages = sg.freePages ∧ s1.freeBlocks = sg.freeBlocks ∧
        s1.currentProcessInfo = sg.currentProcessInfo ∧
        s1.page_table_base_register = sg.page_table_base_register ∧ s1.disk = sg.disk) ∧
      (r.notZeroFilled ≠ 0 →
        s1.pm_physmem = zeroFill sg.pm_physmem (frame * VM_PAGESIZE) VM_PAGESIZE ∧
        s1.hostCalls = sg.hostCalls) ∧
      (r.notZeroFilled = 0 →
        s1.pm_physmem = (disk_read sg r.diskBlock frame).pm_physmem ∧
        s1.hostCalls = sg.hostCalls ++ [HostCall.disk_read r.diskBlock frame]) := by
  obtain ⟨frame, sg, hg, _⟩ := getPhysPage_defined s (hinv.canReplace hF)
  have hd : s.deref ⟨cur, vpageOf addr⟩ = some r := by rw [deref_of_findProcess hp, hm]
  have hrep := getPhysPage_replaced hg
  have hout := hinv.not_in_clock hd hnr
  have hdg : sg.deref ⟨cur, vpageOf addr⟩ = some r := by
    rw [hrep.derefOut _ hout]; exact hd
  have hpg : sg.pte cur (vpageOf addr) = some (pr.pageTable.ptes (vpageOf addr)) := by
    have := hrep.pteOut ⟨cur, vpageOf addr⟩ hout
    rw [this]
    exact hinv.pte_some hp _
  by_cases hz : r.notZeroFilled = 0
  · obtain ⟨f1, f2, f3, f4, f5, f6, f7⟩ :=
      normalBind_fields sg r frame cur write_flag (vpageOf addr)
    refine ⟨frame, sg, normalBind sg r frame cur write_flag (vpageOf addr), hg, ?_, hdg, hpg,
      ?_, ?_, ⟨f1, f2, f3, f4, f5, f6⟩, fun h => absurd hz h,
      fun _ => ⟨normalBind_physmem _ _ _ _ _ _, f7⟩⟩
    · unfold vm_fault
      simp only [hc, hp, hm, hnr, if_true, ne_eq, hz, not_true_eq_false, if_false]
      unfold normalPageFault
      simp only [hg, hdg]
    · intro h
      rw [normalBind_deref, hdg, Option.map_some', normalRecord_eq _ _ hz]
    · intro q j
      rw [normalBind_pte, hpg, Option.map_some', normalEntry_eq]
  · obtain ⟨f1, f2, f3, f4, f5, f6, f7⟩ :=
      zeroFilledBind_fields sg frame cur write_flag (vpageOf addr)
    refine ⟨frame, sg, zeroFilledBind sg frame cur write_flag (vpageOf addr), hg, ?_, hdg, hpg,
      ?_, ?_, ⟨f1, f2, f3, f4, f5, f6⟩,
      fun _ => ⟨zeroFilledBind_physmem _ _ _ _ _, f7⟩, fun h => absurd h hz⟩
    · unfold vm_fault
      simp only [hc, hp, hm, hnr, if_true, ne_eq, hz, not_false_eq_true]
      unfold notZeroFilledPageFault
      simp only [hg]
    · intro h
      rw [zeroFilledBind_deref, hdg, Option.map_some']
    · intro q j
      rw [zeroFilledBind_pte, hpg, Option.map_some']

theorem getPhysPage_free (s : Pager) (f : Nat) (rest : List Nat) (hf : s.freePages = f :: rest) :
    getPhysPage s = some (f, { s with freePages := rest }) := by
  unfold getPhysPage
  rw [hf]

/-- Replacement when no physical page is free, in a state that satisfies the
invariant: the effect of `secondChance`. -/
theorem getPhysPage_evict {arenaSize F D : Nat} {s : Pager} (hinv : Inv arenaSize F D [] s)
    (hF : 1 ≤ F) (hf : s.freePages = []) :
    ∃ victim rest r0 s2,
      notPassed s ++ passedOver s = victim :: rest ∧ victim ∈ s.clockStructure ∧
      s.deref victim = some r0 ∧ (victim ∉ passedOver s → r0.reference ≠ 1) ∧
      getPhysPage s = some (r0.ppage, s2) ∧
      s2.clockStructure = rest ∧
      (∀ h, s2.deref h =
        if h = victim then some { r0 with resident := 0, modified := 0, reference := 0 }
        else if h ∈ passedOver s then (s.deref h).map (fun x => { x with reference := 0 })
        else s.deref h) ∧
      (∀ q j, s2.pte q j =
        if (⟨q, j⟩ : PagePtr) = victim ∨ (⟨q, j⟩ : PagePtr) ∈ passedOver s then
          (s.pte q j).map (fun e => { e with read_enable := 0, write_enable := 0 })
        else s.pte q j) ∧
      (s2.freePages = s.freePages ∧ s2.freeBlocks = s.freeBlocks ∧
        s2.currentProcessInfo = s.currentProcessInfo ∧
        s2.page_table_base_register = s.page_table_base_register ∧
        s2.pm_physmem = s.pm_physmem) ∧
      s2.disk = (if r0.modified = 1 then (disk_write s r0.diskBlock r0.ppage).disk else s.disk) ∧
      s2.hostCalls = s.hostCalls ++
        (if r0.modified = 1 then [HostCall.disk_write r0.diskBlock r0.ppage] else []) := by
  have hne : s.clockStructure ≠ [] := by
    rcases hinv.canReplace hF with h1 | h1
    · exact absurd hf h1
    · exact h1.1
  obtain ⟨victim, rest, r0, s2, h1, h2, h3, h4, h5, h6⟩ :=
    secondChance_effect s hinv.clock_nodup hinv.clock_valid hne
  refine ⟨victim, rest, r0, s2, h1, h2, h3, h4, ?_, h6⟩
  unfold getPhysPage
  rw [hf]
  exact h5

theorem scan_perm (s : Pager) : (notPassed s ++ passedOver s).Perm s.clockStructure := by
  rw [← passed_append s]
  exact List.perm_append_comm

/-- C17: in every state reachable with at least one physical page, a `vm_fault` on a
page of the current process whose record `r` is not resident returns `0`. The
physical page `frame` it binds is the one `getPhysPage` returns: the head of the
free pages when there is one, otherwise the physical page of the replacement
victim, which ends not resident and outside the clock queue. Afterwards the
record has `resident = 1`, `reference = 1`, `ppage = frame`, `modified = write` and its disk
block; the page-table entry has `ppage = frame`, `read_enable = 1` and
`write_enable = write`; the record is appended at the tail of the clock queue that
replacement left. Replacement issues `disk_write` calls only. If the page was not
zero pending, exactly one `disk_read(r.diskBlock, frame)` follows, the physical
page holds the bytes of the block, and the page stays not zero pending. If it
was zero pending, no `disk_read` is issued, the `VM_PAGESIZE` bytes of the physical
page are zero, and `notZeroFilled` becomes `0` on a write and is unchanged on a
read. -/
theorem fault_in {arenaSize F D : Nat} {s : Pager} (h : Reachable arenaSize F D s)
    (hF : 1 ≤ F) {cur : pid_t} {pr : perProcessInfo} {r : perPageInfo} {addr : Nat}
    (write_flag : Bool) (hc : s.currentProcessInfo = some cur)
    (hp : s.findProcess cur = some pr) (hm : mapFind (vpageOf addr) pr.pageInfo = some r)
    (hnr : r.resident = 0) :
    ∃ (frame : Nat) (sg s1 : Pager) (r1 : perPageInfo) (e1 : page_table_entry_t)
      (writes : List HostCall),
      getPhysPage s = some (frame, sg) ∧
      (∀ f rest, s.freePages = f :: rest →
        frame = f ∧ s1.freePages = rest ∧ sg.clockStructure = s.clockStructure ∧ writes = []) ∧
      (s.freePages = [] → s1.freePages = [] ∧
        ∃ victim rv, victim ∈ s.clockStructure ∧ s.deref victim = some rv ∧ rv.ppage = frame ∧
          s1.deref victim = some { rv with resident := 0, modified := 0, reference := 0 } ∧
          victim ∉ s1.clockStructure) ∧
      vm_fault s addr write_flag = some (0, s1) ∧
      s1.deref ⟨cur, vpageOf addr⟩ = some r1 ∧ s1.pte cur (vpageOf addr) = some e1 ∧
      (r1.resident = 1 ∧ r1.reference = 1 ∧ r1.ppage = frame ∧
        r1.modified = (if write_flag then 1 else 0) ∧ r1.diskBlock = r.diskBlock) ∧
      (e1.ppage = frame ∧ e1.read_enable = 1 ∧
        e1.write_enable = (if write_flag then 1 else 0)) ∧
      s1.clockStructure = sg.clockStructure ++ [⟨cur, vpageOf addr⟩] ∧
      sg.hostCalls = s.hostCalls ++ writes ∧
      (∀ c ∈ writes, ∃ b f, c = HostCall.disk_write b f) ∧
      (r.notZeroFilled = 0 →
        s1.hostCalls = s.hostCalls ++ writes ++ [HostCall.disk_read r.diskBlock frame] ∧
        r1.notZeroFilled = 0 ∧
        ∀ off, off < VM_PAGESIZE →
          s1.pm_physmem (frame * VM_PAGESIZE + off) = sg.disk r.diskBlock off) ∧
      (r.notZeroFilled ≠ 0 →
        s1.hostCalls = s.hostCalls ++ writes ∧
        (∀ off, off < VM_PAGESIZE → s1.pm_physmem (frame * VM_PAGESIZE + off) = 0) ∧
        (write_flag = true → r1.notZeroFilled = 0) ∧
        (write_flag = false → r1.notZeroFilled = r.notZeroFilled)) := by
  have hinv := reachable_inv h
  obtain ⟨frame, sg, s1, hg, hflt, hdg, hpg, hder, hpte, ⟨c1, c2, _, _, _, c6⟩, hzero, hnorm⟩ :=
    fault_in_effect hinv hF write_flag hc hp hm hnr
  have hd : s.deref ⟨cur, vpageOf addr⟩ = some r := by rw [deref_of_findProcess hp, hm]
  have hout := hinv.not_in_clock hd hnr
  obtain ⟨writes, hw1, hw2⟩ := (getPhysPage_replaced hg).calls
  refine ⟨frame, sg, s1, zeroFilledRecord frame write_flag r,
    zeroFilledEntry frame write_flag (pr.pageTable.ptes (vpageOf addr)), writes, hg, ?_, ?_,
    hflt, ?_, ?_, ?_, ⟨rfl, rfl, rfl⟩, c1, hw1, hw2, ?_, ?_⟩
  · intro f rest hf
    rw [getPhysPage_free s f rest hf] at hg
    simp only [Option.some.injEq, Prod.mk.injEq] at hg
    obtain ⟨hg1, hg2⟩ := hg
    subst hg2
    refine ⟨hg1.symm, c2, rfl, ?_⟩
    have : s.hostCalls = s.hostCalls ++ writes := hw1
    simpa using this
  · intro hf
    obtain ⟨victim, rest, r0, s2, hq, hmem, hd0, _, hg2, hcl, hder2, _, ⟨g1, _⟩, _⟩ :=
      getPhysPage_evict hinv hF hf
    rw [hg] at hg2
    simp only [Option.some.injEq, Prod.mk.injEq] at hg2
    obtain ⟨hg3, hg4⟩ := hg2
    subst hg4
    have hne : victim ≠ ⟨cur, vpageOf addr⟩ := fun e => hout (e ▸ hmem)
    have hnv : victim ∉ rest := by
      have := (scan_perm s).nodup_iff.2 hinv.clock_nodup
      rw [hq] at this
      exact (List.nodup_cons.1 this).1
    refine ⟨by rw [c2, g1, hf], victim, r0, hmem, hd0, hg3.symm, ?_, ?_⟩
    · rw [hder, if_neg hne, hder2, if_pos rfl]
    · rw [c1, hcl]
      simp only [List.mem_append, List.mem_singleton, not_or]
      exact ⟨hnv, hne⟩
  · rw [hder, if_pos rfl]
  · rw [hpte, if_pos ⟨rfl, rfl⟩]
  · unfold zeroFilledRecord
    exact ⟨rfl, rfl, rfl, rfl, rfl⟩
  · intro hz
    obtain ⟨m1, m2⟩ := hnorm hz
    refine ⟨by rw [m2, hw1], ?_, ?_⟩
    · unfold zeroFilledRecord
      cases write_flag <;> simp [hz]
    · intro off ho
      rw [m1]
      unfold disk_read
      simp [ho]
  · intro hz
    obtain ⟨m1, m2⟩ := hzero hz
    refine ⟨by rw [m2, hw1], ?_, ?_, ?_⟩
    · intro off ho
      rw [m1, zeroFill_apply]
      simp [ho]
    · intro hw; subst hw; rfl
    · intro hw; subst hw; rfl

/-- C17, witness: a read fault on page `a` of the state `Example.mixed`, which was
written and evicted (record `⟨0, 0, 0, 0, 0, 0⟩`: not resident, not zero pending, disk
block 0). No physical page is free: the fault evicts `c`, writes it to its block,
reads block 0 into the physical page 2 and appends `a` to the clock queue. -/
theorem fault_in_witness :
    Reachable Example.arenaSize 3 4 Example.mixed ∧ 1 ≤ 3 ∧
    Example.mixed.currentProcessInfo = some 1 ∧
    Example.mixed.findProcess 1 = some (Example.mixed.processD 1) ∧
    mapFind (vpageOf VM_ARENA_BASEADDR) (Example.mixed.processD 1).pageInfo = some (⟨0, 0, 0, 0, 0, 0⟩ : perPageInfo) ∧
    (⟨0, 0, 0, 0, 0, 0⟩ : perPageInfo).resident = 0 ∧
    (∃ (frame : Nat) (sg s1 : Pager) (r1 : perPageInfo) (e1 : page_table_entry_t)
      (writes : List HostCall),
      getPhysPage Example.mixed = some (frame, sg) ∧
      (∀ f rest, Example.mixed.freePages = f :: rest →
        frame = f ∧ s1.freePages = rest ∧ sg.clockStructure = Example.mixed.clockStructure ∧ writes = []) ∧
      (Example.mixed.freePages = [] → s1.freePages = [] ∧
        ∃ victim rv, victim ∈ Example.mixed.clockStructure ∧ Example.mixed.deref victim = some rv ∧ rv.ppage = frame ∧
          s1.deref victim = some { rv with resident := 0, modified := 0, reference := 0 } ∧
          victim ∉ s1.clockStructure) ∧
      vm_fault Example.mixed VM_ARENA_BASEADDR false = some (0, s1) ∧
      s1.deref ⟨1, vpageOf VM_ARENA_BASEADDR⟩ = some r1 ∧ s1.pte 1 (vpageOf VM_ARENA_BASEADDR) = some e1 ∧
      (r1.resident = 1 ∧ r1.reference = 1 ∧ r1.ppage = frame ∧
        r1.modified = (if false then 1 else 0) ∧ r1.diskBlock = (⟨0, 0, 0, 0, 0, 0⟩ : perPageInfo).diskBlock) ∧
      (e1.ppage = frame ∧ e1.read_enable = 1 ∧
        e1.write_enable = (if false then 1 else 0)) ∧
      s1.clockStructure = sg.clockStructure ++ [⟨1, vpageOf VM_ARENA_BASEADDR⟩] ∧
      sg.hostCalls = Example.mixed.hostCalls ++ writes ∧
      (∀ c ∈ writes, ∃ b f, c = HostCall.disk_write b f) ∧
      ((⟨0, 0, 0, 0, 0, 0⟩ : perPageInfo).notZeroFilled = 0 →
        s1.hostCalls = Example.mixed.hostCalls ++ writes ++ [HostCall.disk_read (⟨0, 0, 0, 0, 0, 0⟩ : perPageInfo).diskBlock frame] ∧
        r1.notZeroFilled = 0 ∧
        ∀ off, off < VM_PAGESIZE →
          s1.pm_physmem (frame * VM_PAGESIZE + off) = sg.disk (⟨0, 0, 0, 0, 0, 0⟩ : perPageInfo).diskBlock off) ∧
      ((⟨0, 0, 0, 0, 0, 0⟩ : perPageInfo).notZeroFilled ≠ 0 →
        s1.hostCalls = Example.mixed.hostCalls ++ writes ∧
        (∀ off, off < VM_PAGESIZE → s1.pm_physmem (frame * VM_PAGESIZE + off) = 0) ∧
        (false = true → r1.notZeroFilled = 0) ∧
        (false = false → r1.notZeroFilled = (⟨0, 0, 0, 0, 0, 0⟩ : perPageInfo).notZeroFilled))) ∧
    (vm_fault Example.mixed VM_ARENA_BASEADDR false).map
      (fun x => (x.1, x.2.clockStructure, x.2.hostCalls)) =
      some (0, [⟨1, 3⟩, ⟨1, 1⟩, ⟨1, 0⟩],
        [HostCall.disk_write 0 0, HostCall.disk_write 2 2, HostCall.disk_read 0 2]) :=
  ⟨Example.mixed_reachable, by decide, rfl, rfl, by decide, rfl,
    fault_in Example.mixed_reachable (by decide) false rfl rfl (by decide) rfl, by decide⟩

/-! ## Page contents survive paging -/

theorem Inv.mem_records {arenaSize F D : Nat} {held : List Nat} {s : Pager}
    (hinv : Inv arenaSize F D held s) {h : PagePtr} {r : perPageInfo}
    (hd : s.deref h = some r) : (h, r) ∈ s.records := by
  rw [hinv.deref_eq] at hd
  exact mapFind_mem hd

theorem Inv.block_inj {arenaSize F D : Nat} {held : List Nat} {s : Pager}
    (hinv : Inv arenaSize F D held s) {h1 h2 : PagePtr} {r1 r2 : perPageInfo}
    (d1 : s.deref h1 = some r1) (d2 : s.deref h2 = some r2)
    (e : r1.diskBlock = r2.diskBlock) : h1 = h2 := by
  have hnd : (s.freeBlocks ++ blocksOf s.records).Nodup :=
    hinv.blocks.nodup_iff.2 (List.nodup_range D)
  have hn2 : (blocksOf s.records).Nodup := (List.nodup_append.1 hnd).2.1
  have := List.inj_on_of_nodup_map hn2 (hinv.mem_records d1) (hinv.mem_records d2) e
  exact (Prod.mk.inj this).1

theorem Inv.frame_not_held {arenaSize F D : Nat} {held : List Nat} {s : Pager}
    (hinv : Inv arenaSize F D held s) {h : PagePtr} {r : perPageInfo}
    (hd : s.deref h = some r) (hr : r.resident = 1) : r.ppage ∉ held ∧ r.ppage ∉ s.freePages := by
  have hnd : (held ++ s.freePages ++ residentFrames s.records).Nodup :=
    hinv.frames.nodup_iff.2 (List.nodup_range F)
  have hm : r.ppage ∈ residentFrames s.records := by
    unfold residentFrames residentRecords
    exact List.mem_map.2 ⟨(h, r), List.mem_filter.2 ⟨hinv.mem_records hd, by simpa using hr⟩, rfl⟩
  have hdis := (List.nodup_append.1 hnd).2.2
  constructor
  · intro hh
    exact hdis (List.mem_append_left _ hh) hm
  · intro hh
    exact hdis (List.mem_append_right _ hh) hm

theorem frame_bytes_apart {q f off : Nat} (hq : q ≠ f) (ho : off < VM_PAGESIZE) :
    ¬ (f * VM_PAGESIZE ≤ q * VM_PAGESIZE + off ∧
      q * VM_PAGESIZE + off < f * VM_PAGESIZE + VM_PAGESIZE) := by
  unfold VM_PAGESIZE at *
  omega

theorem pageContent_congr {s sg : Pager} {r rg : perPageInfo}
    (hm : sg.pm_physmem = s.pm_physmem)
    (h1 : rg.resident = r.resident) (h2 : rg.ppage = r.ppage)
    (h3 : rg.notZeroFilled = r.notZeroFilled) (h4 : rg.diskBlock = r.diskBlock) (off : Nat)
    (hdisk : r.resident ≠ 1 → r.notZeroFilled = 0 → sg.disk r.diskBlock off = s.disk r.diskBlock off) :
    pageContent sg rg off = pageContent s r off := by
  unfold pageContent
  rw [h1, h2, h3, h4, hm]
  by_cases e1 : r.resident = 1
  · simp only [e1, if_true]
  · by_cases e2 : r.notZeroFilled = 0
    · simp only [e1, if_false, e2, ne_eq, not_true_eq_false]
      exact hdisk e1 e2
    · simp only [e1, if_false, ne_eq, e2, not_false_eq_true, if_true]

/-- What `getPhysPage` keeps: physical memory, the coherence condition and the
logical content of every page record; records that are not resident are
unchanged, and no resident record is left on the physical page it returns. -/
theorem getPhysPage_content {arenaSize F D : Nat} {s sg : Pager} {frame : Nat}
    (hinv : Inv arenaSize F D [] s) (hcoh : Coherent s) (hF : 1 ≤ F)
    (hg : getPhysPage s = some (frame, sg)) :
    sg.pm_physmem = s.pm_physmem ∧ Coherent sg ∧
    (∀ h rr, s.deref h = some rr →
      ∃ rg, sg.deref h = some rg ∧
        (∀ off, off < VM_PAGESIZE → pageContent sg rg off = pageContent s rr off) ∧
        (rr.resident ≠ 1 → rg = rr ∧
          (rr.notZeroFilled = 0 → ∀ off, off < VM_PAGESIZE →
            sg.disk rr.diskBlock off = s.disk rr.diskBlock off))) ∧
    (∀ h rg, sg.deref h = some rg → rg.resident = 1 → rg.ppage ≠ frame) := by
  have hinvg := getPhysPage_inv hinv hg
  have haway : ∀ h rg, sg.deref h = some rg → rg.resident = 1 → rg.ppage ≠ frame := by
    intro h rg hd hr e
    have := (hinvg.frame_not_held hd hr).1
    rw [e] at this
    exact this (List.mem_singleton.2 rfl)
  cases hf : s.freePages with
  | cons f rest =>
    rw [getPhysPage_free s f rest hf] at hg
    simp only [Option.some.injEq, Prod.mk.injEq] at hg
    obtain ⟨_, hg2⟩ := hg
    subst hg2
    refine ⟨rfl, hcoh, ?_, haway⟩
    intro h rr hd
    exact ⟨rr, hd, fun off _ => rfl, fun _ => ⟨rfl, fun _ off _ => rfl⟩⟩
  | nil =>
    obtain ⟨victim, rest, r0, s2, hq, hmem, hd0, _, hg2, hcl, hder, _, ⟨_, _, _, _, g5⟩, hdisk,
      _⟩ := getPhysPage_evict hinv hF hf
    rw [hg] at hg2
    simp only [Option.some.injEq, Prod.mk.injEq] at hg2
    obtain ⟨hg3, hg4⟩ := hg2
    subst hg4
    have hres0 : r0.resident = 1 := hinv.resident_of_clock hmem hd0
    obtain ⟨e0, he0⟩ := pte_of_deref hd0
    have hok0 := hinv.recs victim r0 e0 hd0 he0
    -- the disk away from the block of the victim
    have hdisk2 : ∀ b off, b ≠ r0.diskBlock → sg.disk b off = s.disk b off := by
      intro b off hb
      rw [hdisk]
      by_cases m : r0.modified = 1
      · simp only [m, if_true]
        unfold disk_write
        simp [hb]
      · simp only [m, if_false]
    have hblk : ∀ h rr, s.deref h = some rr → h ≠ victim → rr.diskBlock ≠ r0.diskBlock := by
      intro h rr hd hne e
      exact hne (hinv.block_inj hd hd0 e)
    have hcont : ∀ h rr, s.deref h = some rr →
        ∃ rg, sg.deref h = some rg ∧
          (∀ off, off < VM_PAGESIZE → pageContent sg rg off = pageContent s rr off) ∧
          (rr.resident ≠ 1 → rg = rr ∧
            (rr.notZeroFilled = 0 → ∀ off, off < VM_PAGESIZE →
              sg.disk rr.diskBlock off = s.disk rr.diskBlock off)) := by
      intro h rr hd
      by_cases e : h = victim
      · subst e
        rw [hd0] at hd
        have hrr : r0 = rr := Option.some.inj hd
        subst hrr
        refine ⟨_, by rw [hder, if_pos rfl], ?_, fun hn => absurd hres0 hn⟩
        intro off ho
        unfold pageContent
        simp only [hres0, if_true, Nat.zero_ne_one, if_false]
        by_cases z : r0.notZeroFilled = 0
        · simp only [z, ne_eq, not_true_eq_false, if_false]
          rw [hdisk]
          by_cases m : r0.modified = 1
          · simp only [m, if_true]
            unfold disk_write
            simp [ho]
          · simp only [m, if_false]
            have m0 : r0.modified = 0 := by
              rcases hok0.modifiedBit with m1 | m1
              · exact m1
              · exact absurd m1 m
            exact (((hcoh h r0 hd0 hres0).1 m0 z) off ho).symm
        · simp only [ne_eq, z, not_false_eq_true, if_true]
          exact (((hcoh h r0 hd0 hres0).2 z) off ho).symm
      · have hb := hblk h rr hd e
        by_cases m : h ∈ passedOver s
        · refine ⟨{ rr with reference := 0 }, by rw [hder, if_neg e, if_pos m, hd]; rfl, ?_, ?_⟩
          · intro off _
            exact pageContent_congr g5 rfl rfl rfl rfl off (fun _ _ => hdisk2 _ _ hb)
          · intro hn
            have : h ∈ s.clockStructure := by
              rw [← passed_append s]
              exact List.mem_append_left _ m
            exact absurd (hinv.resident_of_clock this hd) hn
        · refine ⟨rr, by rw [hder, if_neg e, if_neg m, hd], ?_, ?_⟩
          · intro off _
            exact pageContent_congr g5 rfl rfl rfl rfl off (fun _ _ => hdisk2 _ _ hb)
          · intro _
            exact ⟨rfl, fun _ off _ => hdisk2 _ _ hb⟩
    refine ⟨g5, ?_, hcont, haway⟩
    -- coherence after replacement
    intro h rg hdg hrg
    have hne : h ≠ victim := by
      intro e
      subst e
      rw [hder, if_pos rfl] at hdg
      have := Option.some.inj hdg
      rw [← this] at hrg
      simp at hrg
    rw [hder, if_neg hne] at hdg
    have hsome : ∃ rr, s.deref h = some rr ∧ rg.resident = rr.resident ∧
        rg.modified = rr.modified ∧ rg.notZeroFilled = rr.notZeroFilled ∧
        rg.ppage = rr.ppage ∧ rg.diskBlock = rr.diskBlock := by
      cases hd : s.deref h with
      | none => simp [hd] at hdg
      | some rr =>
        refine ⟨rr, rfl, ?_⟩
        by_cases m : h ∈ passedOver s
        · simp only [m, if_true, hd, Option.map_some', Option.some.injEq] at hdg
          subst hdg
          exact ⟨rfl, rfl, rfl, rfl, rfl⟩
        · simp only [m, if_false, hd, Option.some.injEq] at hdg
          subst hdg
          exact ⟨rfl, rfl, rfl, rfl, rfl⟩
    obtain ⟨rr, hd, k1, k2, k3, k4, k5⟩ := hsome
    have hb := hblk h rr hd hne
    rw [k1] at hrg
    have hc := hcoh h rr hd hrg
    rw [k2, k3, k4, k5, g5]
    refine ⟨?_, hc.2⟩
    intro m z off ho
    rw [hdisk2 _ _ hb]
    exact hc.1 m z off ho

/-- C20 (as amended): page contents survive paging. For every state that satisfies
the invariant `Inv` of the data model (frame partition, block partition, clock
fidelity - the clock queue lists exactly the resident records, each once -, and
the consistency of records and page-table entries) for at least one physical
page, has a live current process and satisfies the coherence condition, every
`vm_fault` call (any address, any write flag) returns, and it leaves the logical
content of every page record of every process unchanged and re-establishes the
invariant and the coherence condition. -/
theorem content_preserved {arenaSize F D : Nat} {s : Pager} (hinv : Inv arenaSize F D [] s)
    (hcoh : Coherent s) (hF : 1 ≤ F) {cur : pid_t} {pr : perProcessInfo}
    (hc : s.currentProcessInfo = some cur) (hp : s.findProcess cur = some pr)
    (addr : Nat) (write_flag : Bool) :
    ∃ rc s1, vm_fault s addr write_flag = some (rc, s1) ∧
      Inv arenaSize F D [] s1 ∧ Coherent s1 ∧
      ∀ h r, s.deref h = some r →
        ∃ r1, s1.deref h = some r1 ∧
          ∀ off, off < VM_PAGESIZE → pageContent s1 r1 off = pageContent s r off := by
  cases hm : mapFind (vpageOf addr) pr.pageInfo with
  | none =>
    have hflt : vm_fault s addr write_flag = some (-1, s) := by
      unfold vm_fault
      simp only [hc, hp, hm]
    exact ⟨-1, s, hflt, hinv, hcoh, fun h r hd => ⟨r, hd, fun _ _ => rfl⟩⟩
  | some r =>
    have hd : s.deref ⟨cur, vpageOf addr⟩ = some r := by rw [deref_of_findProcess hp, hm]
    have hok := hinv.recs ⟨cur, vpageOf addr⟩ r _ hd (hinv.pte_some hp (vpageOf addr))
    rcases hok.residentBit with hnr | hres
    · -- the page is not resident
      obtain ⟨frame, sg, s1, hg, hflt, hdg, _, hder, _, ⟨_, _, _, _, _, c6⟩, hzero, hnorm⟩ :=
        fault_in_effect hinv hF write_flag hc hp hm hnr
      obtain ⟨k1, k2, k3, k4⟩ := getPhysPage_content hinv hcoh hF hg
      have hnr1 : r.resident ≠ 1 := by omega
      -- physical memory away from the bound page
      have hmem : ∀ q off, q ≠ frame → off < VM_PAGESIZE →
          s1.pm_physmem (q * VM_PAGESIZE + off) = sg.pm_physmem (q * VM_PAGESIZE + off) := by
        intro q off hq ho
        by_cases z : r.notZeroFilled = 0
        · rw [(hnorm z).1]
          unfold disk_read
          simp only [frame_bytes_apart hq ho, if_false]
        · rw [(hzero z).1, zeroFill_apply]
          simp only [frame_bytes_apart hq ho, if_false]
      -- the bound page
      have hnew : ∀ off, off < VM_PAGESIZE →
          s1.pm_physmem (frame * VM_PAGESIZE + off) =
            if r.notZeroFilled = 0 then sg.disk r.diskBlock off else 0 := by
        intro off ho
        by_cases z : r.notZeroFilled = 0
        · rw [(hnorm z).1, if_pos z]
          unfold disk_read
          simp [ho]
        · rw [(hzero z).1, zeroFill_apply, if_neg z]
          simp [ho]
      refine ⟨0, s1, hflt, vm_fault_inv hinv hflt, ?_, ?_⟩
      · intro h r1 hd1 hr1
        rw [hder] at hd1
        by_cases e : h = ⟨cur, vpageOf addr⟩
        · simp only [e, if_true, Option.some.injEq] at hd1
          subst hd1
          have hpp : (zeroFilledRecord frame write_flag r).ppage = frame := rfl
          have hblk : (zeroFilledRecord frame write_flag r).diskBlock = r.diskBlock := rfl
          rw [hpp, hblk, c6]
          constructor
          · intro m z off ho
            have hz : r.notZeroFilled = 0 := by
              unfold zeroFilledRecord at z
              cases write_flag
              · exact z
              · unfold zeroFilledRecord at m
                simp at m
            rw [hnew off ho, if_pos hz]
          · intro z off ho
            have hz : r.notZeroFilled ≠ 0 := by
              unfold zeroFilledRecord at z
              cases write_flag
              · exact z
              · simp at z
            rw [hnew off ho, if_neg hz]
        · simp only [e, if_false] at hd1
          have hq := k4 h r1 hd1 hr1
          have hc1 := k2 h r1 hd1 hr1
          rw [c6]
          constructor
          · intro m z off ho
            rw [hmem _ off hq ho]
            exact hc1.1 m z off ho
          · intro z off ho
            rw [hmem _ off hq ho]
            exact hc1.2 z off ho
      · intro h rr hdh
        obtain ⟨rg, hdg2, hcg, hng⟩ := k3 h rr hdh
        by_cases e : h = ⟨cur, vpageOf addr⟩
        · subst e
          rw [hd] at hdh
          have : r = rr := Option.some.inj hdh
          subst this
          refine ⟨zeroFilledRecord frame write_flag r, by rw [hder, if_pos rfl], ?_⟩
          intro off ho
          have hdk := (hng hnr1).2
          have hres1 : (zeroFilledRecord frame write_flag r).resident = 1 := rfl
          have hpp : (zeroFilledRecord frame write_flag r).ppage = frame := rfl
          unfold pageContent
          rw [hres1, hpp]
          simp only [if_true, hnr1, if_false]
          rw [hnew off ho]
          by_cases z : r.notZeroFilled = 0
          · simp only [z, if_true, ne_eq, not_true_eq_false, if_false]
            exact hdk z off ho
          · simp only [z, if_false, ne_eq, not_false_eq_true, if_true]
        · refine ⟨rg, by rw [hder, if_neg e]; exact hdg2, ?_⟩
          intro off ho
          rw [← hcg off ho]
          unfold pageContent
          by_cases hr : rg.resident = 1
          · simp only [hr, if_true]
            exact hmem _ off (k4 h rg hdg2 hr) ho
          · simp only [hr, if_false, c6]
    · -- the page is resident
      have hres0 : r.resident ≠ 0 := by omega
      have hflt := vm_fault_resident write_flag hc hp hm hres0
      obtain ⟨_, _, _, _, _, f6, f7, _⟩ := updatePage_fields s ⟨cur, vpageOf addr⟩
        (upgradeRecord r write_flag) (upgradeEntry r write_flag)
      have hup : (upgradeRecord r write_flag r).resident = r.resident ∧
          (upgradeRecord r write_flag r).ppage = r.ppage ∧
          (upgradeRecord r write_flag r).diskBlock = r.diskBlock ∧
          (write_flag = false → (upgradeRecord r write_flag r).modified = r.modified ∧
            (upgradeRecord r write_flag r).notZeroFilled = r.notZeroFilled) ∧
          (write_flag = true → (upgradeRecord r write_flag r).modified = 1 ∧
            (upgradeRecord r write_flag r).notZeroFilled = 0) := by
        unfold upgradeRecord
        by_cases z : r.notZeroFilled = 0 <;> cases write_flag <;> simp [z]
      obtain ⟨u1, u2, u3, u4, u5⟩ := hup
      refine ⟨0, _, hflt, vm_fault_inv hinv hflt, ?_, ?_⟩
      · intro h r1 hd1 hr1
        rw [updatePage_deref] at hd1
        rw [f6, f7]
        by_cases e : h = ⟨cur, vpageOf addr⟩
        · simp only [e, if_true, hd, Option.map_some', Option.some.injEq] at hd1
          subst hd1
          rw [u2, u3]
          have hc1 := hcoh _ r hd hres
          cases hw : write_flag
          · have h4 := u4 hw
            rw [hw] at h4
            rw [h4.1, h4.2]
            exact hc1
          · have h5 := u5 hw
            rw [hw] at h5
            constructor
            · intro m
              rw [h5.1] at m
              exact absurd m (by decide)
            · intro z
              exact absurd h5.2 z
        · simp only [e, if_false] at hd1
          exact hcoh h r1 hd1 hr1
      · intro h rr hdh
        rw [updatePage_deref]
        by_cases e : h = ⟨cur, vpageOf addr⟩
        · subst e
          rw [hd] at hdh
          have : r = rr := Option.some.inj hdh
          subst this
          refine ⟨upgradeRecord r write_flag r, by rw [if_pos rfl, hd]; rfl, ?_⟩
          intro off _
          unfold pageContent
          rw [u1, u2, f6]
          simp only [hres, if_true]
        · exact ⟨rr, by rw [if_neg e]; exact hdh, fun _ _ => rfl⟩

theorem Example.mixed_coherent : Coherent Example.mixed := by
  intro h r hd hr
  have hmem := (reachable_inv Example.mixed_reachable).mem_records hd
  have hrec : Example.mixed.records =
      [(⟨1, 0⟩, ⟨0, 0, 0, 0, 0, 0⟩), (⟨1, 1⟩, ⟨1, 1, 0, 1, 1, 1⟩), (⟨1, 2⟩, ⟨2, 1, 0, 0, 1, 2⟩),
        (⟨1, 3⟩, ⟨0, 1, 0, 1, 1, 3⟩)] := by decide
  rw [hrec] at hmem
  simp only [List.mem_cons, Prod.mk.injEq, List.mem_nil_iff, or_false] at hmem
  rcases hmem with ⟨_, e⟩ | ⟨_, e⟩ | ⟨_, e⟩ | ⟨_, e⟩ <;> subst e <;> simp at hr ⊢

theorem Example.strayClock_coherent : Coherent Example.strayClock := by
  intro h r hd hr
  have hmem : (h, r) ∈ Example.strayClock.records := by
    rw [deref_eq_mapFind_records _ (by decide)] at hd
    exact mapFind_mem hd
  have hrec : Example.strayClock.records =
      [(⟨1, 0⟩, ⟨0, 1, 0, 1, 1, 0⟩), (⟨1, 1⟩, ⟨0, 0, 0, 0, 0, 1⟩)] := by decide
  rw [hrec] at hmem
  simp only [List.mem_cons, Prod.mk.injEq, List.mem_nil_iff, or_false] at hmem
  rcases hmem with ⟨_, e⟩ | ⟨_, e⟩ <;> subst e <;> simp at hr ⊢

/-- C20, witness: a read fault on the evicted page `a` in the state `Example.mixed`, which
evicts `c` and reads `a` back from its disk block. -/
theorem content_preserved_witness :
    Inv Example.arenaSize 3 4 [] Example.mixed ∧ Coherent Example.mixed ∧ 1 ≤ 3 ∧
    Example.mixed.currentProcessInfo = some 1 ∧
    Example.mixed.findProcess 1 = some (Example.mixed.processD 1) ∧
    (∃ rc s1, vm_fault Example.mixed VM_ARENA_BASEADDR false = some (rc, s1) ∧
      Inv Example.arenaSize 3 4 [] s1 ∧ Coherent s1 ∧
      ∀ h r, Example.mixed.deref h = some r →
        ∃ r1, s1.deref h = some r1 ∧
          ∀ off, off < VM_PAGESIZE → pageContent s1 r1 off = pageContent Example.mixed r off) :=
  ⟨reachable_inv Example.mixed_reachable, Example.mixed_coherent, by decide, rfl, rfl,
    content_preserved (reachable_inv Example.mixed_reachable) Example.mixed_coherent (by decide)
      rfl rfl VM_ARENA_BASEADDR false⟩

/-- C20, counterexample: the state `Example.strayClock` satisfies the frame partition
invariant, the block partition invariant and the coherence condition, but its
clock queue lists the page 1, which is not resident, instead of the resident
page 0. A read fault on page 1 finds no free physical page, takes the record of
page 1 for the victim and its stale `ppage = 0` for a free physical page, and reads
the disk block of page 1 over it: the content of page 0, whose record is
unchanged, turns from the byte 9 into the byte 5. -/
theorem content_lost_with_stray_clock :
    FramePartition 1 Example.strayClock ∧ BlockPartition 2 Example.strayClock ∧
    Coherent Example.strayClock ∧
    Example.strayClock.deref ⟨1, 0⟩ = some ⟨0, 1, 0, 1, 1, 0⟩ ∧
    (∀ off, pageContent Example.strayClock ⟨0, 1, 0, 1, 1, 0⟩ off = 9) ∧
    ∃ s1, vm_fault Example.strayClock (VM_ARENA_BASEADDR + VM_PAGESIZE) false = some (0, s1) ∧
      s1.deref ⟨1, 0⟩ = some ⟨0, 1, 0, 1, 1, 0⟩ ∧
      pageContent s1 ⟨0, 1, 0, 1, 1, 0⟩ 0 = 5 :=
  ⟨by unfold FramePartition; decide, by unfold BlockPartition; decide,
    Example.strayClock_coherent, rfl, fun _ => rfl, _, rfl, rfl, rfl⟩

/-! ## The clock algorithm on queues with reference bits -/

theorem viewScan_parts (v : List (PagePtr × Nat)) :
    ∃ P Q, v = P ++ Q ∧ viewScan v = Q ++ P.map (fun x => (x.1, 0)) ∧
      (∀ x ∈ P, x.2 = 1) ∧ (∀ y, Q.head? = some y → y.2 ≠ 1) := by
  refine ⟨v.takeWhile (fun x => decide (x.2 = 1)), v.dropWhile (fun x => decide (x.2 = 1)),
    (List.takeWhile_append_dropWhile _ _).symm, rfl, ?_, ?_⟩
  · intro x hx
    simpa using List.mem_takeWhile_imp hx
  · intro y hy
    cases hq : v.dropWhile (fun x => decide (x.2 = 1)) with
    | nil => simp [hq] at hy
    | cons a t =>
      have := List.head_dropWhile_not (fun x : PagePtr × Nat => decide (x.2 = 1)) v
        (by rw [hq]; simp)
      simp only [hq, List.head_cons, List.head?_cons, Option.some.injEq] at this hy
      subst hy
      simpa using this

theorem viewScan_keys (v : List (PagePtr × Nat)) :
    ((viewScan v).map Prod.fst).Perm (v.map Prod.fst) := by
  obtain ⟨P, Q, h1, h2, _, _⟩ := viewScan_parts v
  rw [h2]
  conv_rhs => rw [h1]
  simp only [List.map_append, List.map_map]
  have : (Prod.fst ∘ fun x : PagePtr × Nat => (x.1, 0)) = Prod.fst := by
    funext x; rfl
  rw [this]
  exact List.perm_append_comm

theorem viewScan_head (v : List (PagePtr × Nat)) :
    ∀ y, (viewScan v).head? = some y → y.2 ≠ 1 := by
  obtain ⟨P, Q, _, h2, _, h4⟩ := viewScan_parts v
  intro y hy
  rw [h2] at hy
  cases Q with
  | cons a t => exact h4 y (by simpa using hy)
  | nil =>
    simp only [List.nil_append] at hy
    cases P with
    | nil => simp at hy
    | cons a t =>
      simp only [List.map_cons, List.head?_cons, Option.some.injEq] at hy
      subst hy
      simp

theorem Fresh.sublist {W : Finset PagePtr} {N : List PagePtr} {v v1 : List (PagePtr × Nat)}
    (h : Fresh W N v) (hs : v1.Sublist v) : Fresh W N v1 :=
  ⟨h.sub, h.ahead.sublist hs,
    fun ⟨x, hx, hx2⟩ y hy => h.clean ⟨x, hs.subset hx, hx2⟩ y (hs.subset hy),
    h.behind.sublist hs⟩

theorem Fresh.scan {W : Finset PagePtr} {N : List PagePtr} {v : List (PagePtr × Nat)}
    (h : Fresh W N v) : Fresh W N (viewScan v) := by
  obtain ⟨P, Q, h1, h2, hP, _⟩ := viewScan_parts v
  have ha := h.ahead
  have hb := h.behind
  have hc := h.clean
  rw [h1] at ha hb hc
  rw [List.pairwise_append] at ha hb
  rw [h2]
  refine ⟨h.sub, ?_, ?_, ?_⟩
  · rw [List.pairwise_append]
    refine ⟨ha.2.1, ?_, ?_⟩
    · rw [List.pairwise_map]
      exact List.Pairwise.imp_of_mem (fun _ _ _ => by simp) ha.1
    · intro a _ b hb2
      obtain ⟨b0, _, hb0⟩ := List.mem_map.1 hb2
      rw [← hb0]
      simp
  · rintro ⟨x, hx, hxN, hx1⟩ y hy hyW
    rcases List.mem_append.1 hy with hyQ | hyP
    · rcases List.mem_append.1 hx with hxQ | hxP
      · exact hc ⟨x, List.mem_append_right _ hxQ, hxN, hx1⟩ y (List.mem_append_right _ hyQ) hyW
      · obtain ⟨x0, hx0, hx0e⟩ := List.mem_map.1 hxP
        intro hy1
        apply ha.2.2 x0 hx0 y hyQ
        rw [← hx0e] at hxN
        exact ⟨hxN, hyW, hy1⟩
    · obtain ⟨y0, _, hy0⟩ := List.mem_map.1 hyP
      rw [← hy0]
      simp
  · rw [List.pairwise_append]
    refine ⟨hb.2.1, ?_, ?_⟩
    · rw [List.pairwise_map]
      refine List.Pairwise.imp_of_mem ?_ ha.1
      intro a b _ hbm hab hcon
      exact hab ⟨hcon.1, hcon.2.2, hP b hbm⟩
    · intro a haQ b hbP hcon
      obtain ⟨b0, hb0, hb0e⟩ := List.mem_map.1 hbP
      rw [← hb0e] at hcon
      exact hc ⟨a, List.mem_append_right _ haQ, hcon.1, hcon.2.1⟩ b0
        (List.mem_append_left _ hb0) hcon.2.2 (hP b0 hb0)

theorem Fresh.push {W : Finset PagePtr} {N : List PagePtr} {v : List (PagePtr × Nat)}
    (h : Fresh W N v) {p : PagePtr} (hp : p ∈ W) (hk : p ∉ v.map Prod.fst) :
    Fresh W (p :: N) (v ++ [(p, 1)]) := by
  have hkey : ∀ x ∈ v, (x.1 ∈ p :: N ↔ x.1 ∈ N) := by
    intro x hx
    constructor
    · intro hm
      rcases List.mem_cons.1 hm with e | e
      · exact absurd (List.mem_map.2 ⟨x, hx, e⟩) hk
      · exact e
    · exact List.mem_cons_of_mem _
  refine ⟨?_, ?_, ?_, ?_⟩
  · intro x hx
    rcases List.mem_cons.1 hx with e | e
    · rw [e]; exact hp
    · exact h.sub x e
  · rw [List.pairwise_append]
    refine ⟨List.Pairwise.imp_of_mem ?_ h.ahead, List.pairwise_singleton _ _, ?_⟩
    · intro a b ham _ hab hcon
      exact hab ⟨(hkey a ham).1 hcon.1, hcon.2⟩
    · intro a _ b hb hcon
      rw [List.mem_singleton.1 hb] at hcon
      exact hcon.2.1 hp
  · rintro ⟨x, hx, hxN, hx1⟩ y hy hyW
    rcases List.mem_append.1 hy with hyv | hyp
    · rcases List.mem_append.1 hx with hxv | hxp
      · exact h.clean ⟨x, hxv, (hkey x hxv).1 hxN, hx1⟩ y hyv hyW
      · rw [List.mem_singleton.1 hxp] at hx1
        exact absurd rfl hx1
    · rw [List.mem_singleton.1 hyp] at hyW
      exact absurd hp hyW
  · rw [List.pairwise_append]
    refine ⟨List.Pairwise.imp_of_mem ?_ h.behind, List.pairwise_singleton _ _, ?_⟩
    · intro a b ham _ hab hcon
      exact hab ⟨(hkey a ham).1 hcon.1, hcon.2⟩
    · intro a _ b hb hcon
      rw [List.mem_singleton.1 hb] at hcon
      exact hcon.2.2 hp

theorem Fresh.touch {W : Finset PagePtr} {N : List PagePtr} {v : List (PagePtr × Nat)}
    (h : Fresh W N v) {p : PagePtr} (hp : p ∈ W) :
    Fresh W N (v.map (fun x => if x.1 = p then (x.1, 1) else x)) := by
  refine ⟨h.sub, ?_, ?_, ?_⟩
  · rw [List.pairwise_map]
    refine List.Pairwise.imp ?_ h.ahead
    intro a b hab hcon
    by_cases e : b.1 = p
    · simp only [e, if_true] at hcon
      exact hcon.2.1 hp
    · simp only [e, if_false] at hcon
      by_cases e2 : a.1 = p
      · simp only [e2, if_true] at hcon
        exact hab ⟨e2 ▸ hcon.1, hcon.2⟩
      · simp only [e2, if_false] at hcon
        exact hab hcon
  · rintro ⟨x, hx, hxN, hx1⟩ y hy hyW
    obtain ⟨x0, hx0, hx0e⟩ := List.mem_map.1 hx
    obtain ⟨y0, hy0, hy0e⟩ := List.mem_map.1 hy
    by_cases e : x0.1 = p
    · rw [← hx0e] at hx1
      simp [e] at hx1
    · simp only [e, if_false] at hx0e
      subst hx0e
      by_cases e2 : y0.1 = p
      · rw [← hy0e] at hyW
        simp only [e2, if_true] at hyW
        exact absurd hp hyW
      · simp only [e2, if_false] at hy0e
        subst hy0e
        exact h.clean ⟨x0, hx0, hxN, hx1⟩ y0 hy0 hyW
  · rw [List.pairwise_map]
    refine List.Pairwise.imp ?_ h.behind
    intro a b hab hcon
    by_cases e : a.1 = p
    · simp [e] at hcon
    · simp only [e, if_false] at hcon
      by_cases e2 : b.1 = p
      · simp only [e2, if_true] at hcon
        exact hcon.2.2 hp
      · simp only [e2, if_false] at hcon
        exact hab hcon

theorem Fresh.victim {W : Finset PagePtr} {N : List PagePtr} {v : List (PagePtr × Nat)}
    (h : Fresh W N v) (hz : ∃ z ∈ v, z.1 ∉ W) {y : PagePtr × Nat} {T : List (PagePtr × Nat)}
    (hs : viewScan v = y :: T) : y.1 ∉ N := by
  intro hy
  obtain ⟨z, hzv, hzW⟩ := hz
  have hy1 : y.2 ≠ 1 := viewScan_head v y (by rw [hs]; rfl)
  have hzk : z.1 ∈ (viewScan v).map Prod.fst :=
    (viewScan_keys v).mem_iff.2 (List.mem_map.2 ⟨z, hzv, rfl⟩)
  obtain ⟨z1, hz1, hz1e⟩ := List.mem_map.1 hzk
  rw [hs] at hz1
  have hb := h.scan.behind
  rw [hs, List.pairwise_cons] at hb
  rcases List.mem_cons.1 hz1 with e | e
  · apply hzW
    rw [← hz1e, e]
    exact h.sub _ hy
  · exact hb.1 z1 e ⟨hy, hy1, by rw [hz1e]; exact hzW⟩

theorem outside_working_set {W : Finset PagePtr} {v : List (PagePtr × Nat)} {F : Nat}
    {p : PagePtr} (hn : (v.map Prod.fst).Nodup) (hl : F ≤ v.length) (hW : W.card ≤ F)
    (hp : p ∈ W) (hk : p ∉ v.map Prod.fst) : ∃ z ∈ v, z.1 ∉ W := by
  by_contra hcon
  have hall : ∀ z ∈ v, z.1 ∈ W := by
    intro z hz
    by_contra hzW
    exact hcon ⟨z, hz, hzW⟩
  have hsub : (v.map Prod.fst).toFinset ⊆ W.erase p := by
    intro x hx
    rw [List.mem_toFinset] at hx
    obtain ⟨z, hz, hze⟩ := List.mem_map.1 hx
    rw [Finset.mem_erase]
    refine ⟨fun e => hk (e ▸ hx), ?_⟩
    rw [← hze]
    exact hall z hz
  have h1 := Finset.card_le_card hsub
  rw [List.toFinset_card_of_nodup hn, Finset.card_erase_of_mem hp, List.length_map] at h1
  have : 0 < W.card := Finset.card_pos.2 ⟨p, hp⟩
  omega

theorem oldCount_push (N : List PagePtr) (v : List (PagePtr × Nat)) (p : PagePtr)
    (hk : p ∉ v.map Prod.fst) : oldCount (p :: N) (v ++ [(p, 1)]) = oldCount N v := by
  unfold oldCount
  simp only [List.map_append, List.map_cons, List.map_nil, List.filter_append, List.length_append]
  have h1 : List.filter (fun h => !decide (h ∈ p :: N)) [p] = [] := by simp
  rw [h1, List.length_nil, Nat.add_zero]
  congr 1
  apply List.filter_congr
  intro x hx
  have : x ≠ p := fun e => hk (e ▸ hx)
  simp [this]

theorem oldCount_perm (N : List PagePtr) {v v1 : List (PagePtr × Nat)}
    (h : (v1.map Prod.fst).Perm (v.map Prod.fst)) : oldCount N v1 = oldCount N v := by
  unfold oldCount
  exact (h.filter _).length_eq

theorem oldCount_cons (N : List PagePtr) {y : PagePtr × Nat} (T : List (PagePtr × Nat))
    (hy : y.1 ∉ N) : oldCount N (y :: T) = oldCount N T + 1 := by
  unfold oldCount
  simp [List.filter_cons, hy]

theorem viewFault_step {W : Finset PagePtr} {N : List PagePtr} {v : List (PagePtr × Nat)}
    {F : Nat} {p : PagePtr} (h : Fresh W N v) (hn : (v.map Prod.fst).Nodup)
    (hl : v.length ≤ F) (hF : 1 ≤ F) (hW : W.card ≤ F) (hp : p ∈ W) :
    ∃ N1, Fresh W N1 (viewFault F v p).2 ∧ ((viewFault F v p).2.map Prod.fst).Nodup ∧
      (viewFault F v p).2.length ≤ F ∧
      (viewFault F v p).1.length + oldCount N1 (viewFault F v p).2 ≤ oldCount N v := by
  unfold viewFault
  by_cases hk : p ∈ v.map Prod.fst
  · simp only [hk, if_true]
    have hkeys : (v.map (fun x => if x.1 = p then (x.1, 1) else x)).map Prod.fst =
        v.map Prod.fst := by
      rw [List.map_map]
      apply List.map_congr_left
      intro x _
      by_cases e : x.1 = p <;> simp [e]
    refine ⟨N, h.touch hp, by rw [hkeys]; exact hn, by simpa using hl, ?_⟩
    rw [List.length_nil, Nat.zero_add]
    exact Nat.le_of_eq (oldCount_perm N (by rw [hkeys]))
  · simp only [hk, if_false]
    by_cases hlt : v.length < F
    · simp only [hlt, if_true]
      refine ⟨p :: N, h.push hp hk, ?_, ?_, ?_⟩
      · rw [List.map_append, List.nodup_append]
        refine ⟨hn, List.nodup_singleton _, ?_⟩
        intro a ha hb
        simp only [List.map_cons, List.map_nil, List.mem_singleton] at hb
        exact hk (hb ▸ ha)
      · simp only [List.length_append, List.length_singleton]
        omega
      · rw [List.length_nil, Nat.zero_add, oldCount_push N v p hk]
    · simp only [hlt, if_false]
      have hlen : (viewScan v).length = v.length := by
        have := (viewScan_keys v).length_eq
        simpa using this
      cases hs : viewScan v with
      | nil =>
        rw [hs] at hlen
        simp only [List.length_nil] at hlen
        omega
      | cons y T =>
        have hz := outside_working_set hn (by omega) hW hp hk
        have hy := h.victim hz hs
        have hsub : T.Sublist (viewScan v) := by rw [hs]; exact List.sublist_cons_self y T
        have hkeysT : (T.map Prod.fst).Sublist ((viewScan v).map Prod.fst) := hsub.map _
        have hnT : (T.map Prod.fst).Nodup :=
          ((viewScan_keys v).nodup_iff.2 hn).sublist hkeysT
        have hkT : p ∉ T.map Prod.fst := by
          intro hm
          exact hk ((viewScan_keys v).mem_iff.1 (hkeysT.subset hm))
        simp only [List.head?_cons, Option.map_some', Option.toList_some, List.tail_cons,
          List.length_singleton]
        refine ⟨p :: N, (h.scan.sublist hsub).push hp hkT, ?_, ?_, ?_⟩
        · rw [List.map_append, List.nodup_append]
          refine ⟨hnT, List.nodup_singleton _, ?_⟩
          intro a ha hb
          simp only [List.map_cons, List.map_nil, List.mem_singleton] at hb
          exact hkT (hb ▸ ha)
        · rw [hs] at hlen
          simp only [List.length_append, List.length_singleton, List.length_cons,
            List.length_nil] at hlen ⊢
          omega
        · rw [oldCount_push N T p hkT, ← oldCount_perm N (viewScan_keys v), hs,
            oldCount_cons N T hy]
          omega

theorem viewRun_bound {W : Finset PagePtr} {F : Nat} (hF : 1 ≤ F) (hW : W.card ≤ F) :
    ∀ (ps : List PagePtr) (N : List PagePtr) (v : List (PagePtr × Nat)), Fresh W N v →
      (v.map Prod.fst).Nodup → v.length ≤ F → (∀ p ∈ ps, p ∈ W) →
      ((viewRun F v ps).1.map List.length).sum ≤ oldCount N v := by
  intro ps
  induction ps with
  | nil =>
    intro N v _ _ _ _
    simp [viewRun]
  | cons p ps ih =>
    intro N v h hn hl hps
    obtain ⟨N1, g1, g2, g3, g4⟩ :=
      viewFault_step h hn hl hF hW (hps p (List.mem_cons_self _ _))
    have := ih N1 _ g1 g2 g3 (fun q hq => hps q (List.mem_cons_of_mem _ hq))
    simp only [viewRun, List.map_cons, List.sum_cons]
    omega

theorem viewRun_resident (F : Nat) : ∀ (ps : List PagePtr) (v : List (PagePtr × Nat)),
    (∀ p ∈ ps, p ∈ v.map Prod.fst) → ∀ e ∈ (viewRun F v ps).1, e = [] := by
  intro ps
  induction ps with
  | nil =>
    intro v _ e he
    simp [viewRun] at he
  | cons p ps ih =>
    intro v hps e he
    have hk := hps p (List.mem_cons_self _ _)
    have hvf : viewFault F v p = ([], v.map (fun x => if x.1 = p then (x.1, 1) else x)) := by
      unfold viewFault
      simp only [hk, if_true]
    have hkeys : (v.map (fun x => if x.1 = p then (x.1, 1) else x)).map Prod.fst =
        v.map Prod.fst := by
      rw [List.map_map]
      apply List.map_congr_left
      intro x _
      by_cases e : x.1 = p <;> simp [e]
    simp only [viewRun, hvf, List.mem_cons] at he
    rcases he with he | he
    · exact he
    · apply ih _ _ e he
      intro q hq
      rw [hkeys]
      exact hps q (List.mem_cons_of_mem _ hq)

theorem Fresh.start (W : Finset PagePtr) (v : List (PagePtr × Nat)) : Fresh W [] v :=
  ⟨fun _ hx => absurd hx (List.not_mem_nil _),
    List.Pairwise.imp_of_mem (fun _ _ _ hcon => by simp at hcon)
      (List.pairwise_of_forall (fun _ _ => trivial)),
    fun ⟨_, _, hx, _⟩ => absurd hx (List.not_mem_nil _),
    List.Pairwise.imp_of_mem (fun _ _ _ hcon => by simp at hcon)
      (List.pairwise_of_forall (fun _ _ => trivial))⟩

/-! ## Faults seen on the clock queue with reference bits -/

theorem clockView_keys (s : Pager) : (clockView s).map Prod.fst = s.clockStructure := by
  unfold clockView
  rw [List.map_map]
  exact List.map_id _

theorem clockView_length (s : Pager) : (clockView s).length = s.clockStructure.length := by
  unfold clockView
  exact List.length_map _ _

theorem evictedBy_perm {arenaSize F D : Nat} {s s1 : Pager} (hinv : Inv arenaSize F D [] s)
    (hinv1 : Inv arenaSize F D [] s1) :
    (evictedBy s s1).Perm (s.clockStructure.filter (fun h => !decide (h ∈ s1.clockStructure))) := by
  unfold evictedBy
  have hfun : (fun h => !decide (h ∈ residentPtrs s1.records)) =
      (fun h => !decide (h ∈ s1.clockStructure)) := by
    funext h
    have hiff : h ∈ s1.clockStructure ↔ h ∈ residentPtrs s1.records := hinv1.clock.mem_iff
    by_cases m : h ∈ s1.clockStructure
    · simp [m, hiff.1 m]
    · have m2 : h ∉ residentPtrs s1.records := fun x => m (hiff.2 x)
      simp [m, m2]
  rw [hfun]
  exact hinv.clock.symm.filter _

theorem evictedBy_nil {arenaSize F D : Nat} {s s1 : Pager} (hinv : Inv arenaSize F D [] s)
    (hinv1 : Inv arenaSize F D [] s1) (hsub : ∀ h ∈ s.clockStructure, h ∈ s1.clockStructure) :
    evictedBy s s1 = [] := by
  apply List.Perm.eq_nil
  refine (evictedBy_perm hinv hinv1).trans ?_
  rw [List.filter_eq_nil_iff.2]
  intro h hh
  simp [hsub h hh]

theorem filter_singleton_of_nodup {α : Type} [DecidableEq α] (p : α → Bool) (a : α) :
    ∀ (l : List α), l.Nodup → a ∈ l → (∀ x ∈ l, (p x = true ↔ x = a)) → l.filter p = [a] := by
  intro l
  induction l with
  | nil => intro _ h; simp at h
  | cons b t ih =>
    intro hn hm hp
    rw [List.nodup_cons] at hn
    by_cases e : b = a
    · subst e
      have h1 : p b = true := (hp b (List.mem_cons_self _ _)).2 rfl
      have h2 : t.filter p = [] := by
        rw [List.filter_eq_nil_iff]
        intro x hx hpx
        have := (hp x (List.mem_cons_of_mem _ hx)).1 hpx
        exact hn.1 (this ▸ hx)
      simp [List.filter_cons, h1, h2]
    · have h1 : ¬ p b = true := fun h => e ((hp b (List.mem_cons_self _ _)).1 h)
      have hm2 : a ∈ t := by
        rcases List.mem_cons.1 hm with h | h
        · exact absurd h.symm e
        · exact h
      simp only [List.filter_cons, h1, if_false, Bool.false_eq_true]
      exact ih hn.2 hm2 (fun x hx => hp x (List.mem_cons_of_mem _ hx))

theorem refBit_of_deref {s : Pager} {h : PagePtr} {r : perPageInfo} (hd : s.deref h = some r) :
    refBit s h = r.reference := by
  unfold refBit
  rw [hd]

/-- A fault on a resident page, seen on the clock queue. -/
theorem view_resident {arenaSize F D : Nat} {s : Pager} (hinv : Inv arenaSize F D [] s)
    {cur : pid_t} {pr : perProcessInfo} {r : perPageInfo} {addr : Nat} (write_flag : Bool)
    (hc : s.currentProcessInfo = some cur) (hp : s.findProcess cur = some pr)
    (hm : mapFind (vpageOf addr) pr.pageInfo = some r) (hres : r.resident = 1) :
    ∃ s1, vm_fault s addr write_flag = some (0, s1) ∧
      clockView s1 = (viewFault F (clockView s) ⟨cur, vpageOf addr⟩).2 ∧
      evictedBy s s1 = (viewFault F (clockView s) ⟨cur, vpageOf addr⟩).1 := by
  have hd : s.deref ⟨cur, vpageOf addr⟩ = some r := by rw [deref_of_findProcess hp, hm]
  have hres0 : r.resident ≠ 0 := by omega
  have hflt := vm_fault_resident write_flag hc hp hm hres0
  have hin : (⟨cur, vpageOf addr⟩ : PagePtr) ∈ s.clockStructure := hinv.clock_of_resident hd hres
  have hvf : viewFault F (clockView s) ⟨cur, vpageOf addr⟩ =
      ([], (clockView s).map (fun x => if x.1 = ⟨cur, vpageOf addr⟩ then (x.1, 1) else x)) := by
    unfold viewFault
    rw [clockView_keys]
    simp only [hin, if_true]
  have hcl := (updatePage_fields s ⟨cur, vpageOf addr⟩ (upgradeRecord r write_flag)
    (upgradeEntry r write_flag)).1
  refine ⟨_, hflt, ?_, ?_⟩
  · rw [hvf]
    unfold clockView
    rw [hcl, List.map_map]
    apply List.map_congr_left
    intro h _
    simp only [Function.comp]
    by_cases e : h = ⟨cur, vpageOf addr⟩
    · subst e
      simp only [if_true]
      have : (s.updatePage ⟨cur, vpageOf addr⟩ (upgradeRecord r write_flag)
          (upgradeEntry r write_flag)).deref ⟨cur, vpageOf addr⟩ =
          some (upgradeRecord r write_flag r) := by
        rw [updatePage_deref, if_pos rfl, hd]; rfl
      rw [refBit_of_deref this]
      unfold upgradeRecord
      by_cases z : r.notZeroFilled = 0 <;> cases write_flag <;> simp [z]
    · simp only [e, if_false]
      unfold refBit
      rw [updatePage_deref, if_neg e]
  · rw [hvf]
    apply evictedBy_nil hinv (vm_fault_inv hinv hflt)
    intro h hh
    rw [hcl]
    exact hh

theorem viewScan_clockView (s : Pager) (hn : s.clockStructure.Nodup) :
    viewScan (clockView s) =
      (notPassed s ++ passedOver s).map
        (fun h => (h, if h ∈ passedOver s then 0 else refBit s h)) := by
  have h1 : (clockView s).dropWhile (fun x => decide (x.2 = 1)) =
      (notPassed s).map (fun h => (h, refBit s h)) := by
    unfold clockView notPassed
    rw [List.dropWhile_map]
    rfl
  have h2 : (clockView s).takeWhile (fun x => decide (x.2 = 1)) =
      (passedOver s).map (fun h => (h, refBit s h)) := by
    unfold clockView passedOver
    rw [List.takeWhile_map]
    rfl
  have hdis : ∀ h ∈ notPassed s, h ∉ passedOver s := by
    intro h hq hp
    rw [← passed_append s] at hn
    exact (List.nodup_append.1 hn).2.2 hp hq
  unfold viewScan
  rw [h1, h2, List.map_append, List.map_map]
  congr 1
  · apply List.map_congr_left
    intro h hh
    simp only [hdis h hh, if_false]
  · apply List.map_congr_left
    intro h hh
    simp only [Function.comp, hh, if_true]

/-- A fault on a page that is not resident, seen on the clock queue. -/
theorem view_fault_in {arenaSize F D : Nat} {s : Pager} (hinv : Inv arenaSize F D [] s)
    (hF : 1 ≤ F) {cur : pid_t} {pr : perProcessInfo} {r : perPageInfo} {addr : Nat}
    (write_flag : Bool) (hc : s.currentProcessInfo = some cur)
    (hp : s.findProcess cur = some pr) (hm : mapFind (vpageOf addr) pr.pageInfo = some r)
    (hnr : r.resident = 0) :
    ∃ s1, vm_fault s addr write_flag = some (0, s1) ∧
      clockView s1 = (viewFault F (clockView s) ⟨cur, vpageOf addr⟩).2 ∧
      evictedBy s s1 = (viewFault F (clockView s) ⟨cur, vpageOf addr⟩).1 := by
  obtain ⟨frame, sg, s1, hg, hflt, hdg, _, hder, _, ⟨c1, _⟩, _, _⟩ :=
    fault_in_effect hinv hF write_flag hc hp hm hnr
  have hd : s.deref ⟨cur, vpageOf addr⟩ = some r := by rw [deref_of_findProcess hp, hm]
  have hout := hinv.not_in_clock hd hnr
  have hinv1 := vm_fault_inv hinv hflt
  have hlen := hinv.clock_length
  simp only [List.length_nil, Nat.zero_add] at hlen
  have hnew : refBit s1 ⟨cur, vpageOf addr⟩ = 1 := by
    have : s1.deref ⟨cur, vpageOf addr⟩ = some (zeroFilledRecord frame write_flag r) := by
      rw [hder, if_pos rfl]
    rw [refBit_of_deref this]
    rfl
  have hother : ∀ h, h ≠ ⟨cur, vpageOf addr⟩ → refBit s1 h = refBit sg h := by
    intro h hne
    unfold refBit
    rw [hder, if_neg hne]
  refine ⟨s1, hflt, ?_, ?_⟩
  · cases hf : s.freePages with
    | cons f rest =>
      rw [getPhysPage_free s f rest hf] at hg
      simp only [Option.some.injEq, Prod.mk.injEq] at hg
      obtain ⟨_, hg2⟩ := hg
      subst hg2
      have hvf : viewFault F (clockView s) ⟨cur, vpageOf addr⟩ =
          ([], clockView s ++ [(⟨cur, vpageOf addr⟩, 1)]) := by
        unfold viewFault
        rw [clockView_keys, clockView_length]
        rw [hf] at hlen
        have : s.clockStructure.length < F := by
          simp only [List.length_cons] at hlen
          omega
        simp only [hout, if_false, this, if_true]
      rw [hvf]
      unfold clockView
      rw [c1, List.map_append]
      congr 1
      · apply List.map_congr_left
        intro h hh
        have hne : h ≠ ⟨cur, vpageOf addr⟩ := fun e => hout (e ▸ hh)
        rw [hother h hne]
        rfl
      · simp only [List.map_cons, List.map_nil, hnew]
    | nil =>
      obtain ⟨victim, rest, r0, s2, hq, hmem, hd0, _, hg2, hcl, hder2, _⟩ :=
        getPhysPage_evict hinv hF hf
      rw [hg] at hg2
      simp only [Option.some.injEq, Prod.mk.injEq] at hg2
      obtain ⟨_, hg4⟩ := hg2
      subst hg4
      have hnd : (victim :: rest).Nodup := by
        have := (scan_perm s).nodup_iff.2 hinv.clock_nodup
        rw [hq] at this
        exact this
      have hvf : viewFault F (clockView s) ⟨cur, vpageOf addr⟩ =
          ([victim], rest.map (fun h => (h, if h ∈ passedOver s then 0 else refBit s h)) ++
            [(⟨cur, vpageOf addr⟩, 1)]) := by
        unfold viewFault
        rw [clockView_keys, clockView_length, viewScan_clockView s hinv.clock_nodup, hq]
        rw [hf] at hlen
        have : ¬ s.clockStructure.length < F := by
          simp only [List.length_nil, Nat.zero_add] at hlen
          omega
        simp only [hout, if_false, this, List.map_cons, List.head?_cons, Option.map_some',
          Option.toList_some, List.tail_cons]
      rw [hvf]
      unfold clockView
      rw [c1, hcl, List.map_append]
      congr 1
      · apply List.map_congr_left
        intro h hh
        have hne : h ≠ ⟨cur, vpageOf addr⟩ := by
          intro e
          apply hout
          rw [← e]
          exact (scan_perm s).subset (by rw [hq]; exact List.mem_cons_of_mem _ hh)
        have hnv : h ≠ victim := by
          intro e
          exact (List.nodup_cons.1 hnd).1 (e ▸ hh)
        rw [hother h hne]
        unfold refBit
        rw [hder2, if_neg hnv]
        by_cases m : h ∈ passedOver s
        · simp only [m, if_true]
          cases s.deref h <;> rfl
        · simp only [m, if_false]
      · simp only [List.map_cons, List.map_nil, hnew]
  · cases hf : s.freePages with
    | cons f rest =>
      rw [getPhysPage_free s f rest hf] at hg
      simp only [Option.some.injEq, Prod.mk.injEq] at hg
      obtain ⟨_, hg2⟩ := hg
      subst hg2
      have hvf : (viewFault F (clockView s) ⟨cur, vpageOf addr⟩).1 = [] := by
        unfold viewFault
        rw [clockView_keys, clockView_length]
        rw [hf] at hlen
        have : s.clockStructure.length < F := by
          simp only [List.length_cons] at hlen
          omega
        simp only [hout, if_false, this, if_true]
      rw [hvf]
      apply evictedBy_nil hinv hinv1
      intro h hh
      rw [c1]
      exact List.mem_append_left _ hh
    | nil =>
      obtain ⟨victim, rest, r0, s2, hq, hmem, hd0, _, hg2, hcl, hder2, _⟩ :=
        getPhysPage_evict hinv hF hf
      rw [hg] at hg2
      simp only [Option.some.injEq, Prod.mk.injEq] at hg2
      obtain ⟨_, hg4⟩ := hg2
      subst hg4
      have hnd : (victim :: rest).Nodup := by
        have := (scan_perm s).nodup_iff.2 hinv.clock_nodup
        rw [hq] at this
        exact this
      have hvf : (viewFault F (clockView s) ⟨cur, vpageOf addr⟩).1 = [victim] := by
        unfold viewFault
        rw [clockView_keys, clockView_length, viewScan_clockView s hinv.clock_nodup, hq]
        rw [hf] at hlen
        have : ¬ s.clockStructure.length < F := by
          simp only [List.length_nil, Nat.zero_add] at hlen
          omega
        simp only [hout, if_false, this, List.map_cons, List.head?_cons, Option.map_some',
          Option.toList_some]
      rw [hvf]
      apply List.perm_singleton.1
      refine (evictedBy_perm hinv hinv1).trans ?_
      rw [filter_singleton_of_nodup _ victim s.clockStructure hinv.clock_nodup hmem]
      intro x hx
      have hx2 : x ∈ victim :: rest := by
        rw [← hq]
        exact (scan_perm s).symm.subset hx
      have hxp : x ≠ ⟨cur, vpageOf addr⟩ := fun e => hout (e ▸ hx)
      rw [c1, hcl]
      constructor
      · intro hb
        rcases List.mem_cons.1 hx2 with e | e
        · exact e
        · simp [e] at hb
      · intro e
        subst e
        have := (List.nodup_cons.1 hnd).1
        simp [this, hxp]

/-- A fault on a page of the current process, seen on the clock queue with its
reference bits: it returns `0`, keeps the invariant, the current process and the
arena of every process, and does to the queue what `viewFault` says. -/
theorem vm_fault_view {arenaSize F D : Nat} {s : Pager} (hinv : Inv arenaSize F D [] s)
    (hF : 1 ≤ F) {cur : pid_t} {pr : perProcessInfo} {r : perPageInfo} {addr : Nat}
    (write_flag : Bool) (hc : s.currentProcessInfo = some cur)
    (hp : s.findProcess cur = some pr) (hm : mapFind (vpageOf addr) pr.pageInfo = some r) :
    ∃ s1, vm_fault s addr write_flag = some (0, s1) ∧ Inv arenaSize F D [] s1 ∧
      s1.currentProcessInfo = some cur ∧
      (∀ q, (s1.findProcess q).map arenaOf = (s.findProcess q).map arenaOf) ∧
      clockView s1 = (viewFault F (clockView s) ⟨cur, vpageOf addr⟩).2 ∧
      evictedBy s s1 = (viewFault F (clockView s) ⟨cur, vpageOf addr⟩).1 := by
  obtain ⟨s1, hflt, hinv1, hc1, har, _⟩ := vm_fault_post hinv hF write_flag hc hp hm
  have hd : s.deref ⟨cur, vpageOf addr⟩ = some r := by rw [deref_of_findProcess hp, hm]
  have hok := hinv.recs ⟨cur, vpageOf addr⟩ r _ hd (hinv.pte_some hp (vpageOf addr))
  rcases hok.residentBit with hnr | hres
  · obtain ⟨s2, hflt2, hv, he⟩ := view_fault_in hinv hF write_flag hc hp hm hnr
    rw [hflt] at hflt2
    simp only [Option.some.injEq, Prod.mk.injEq, true_and] at hflt2
    subst hflt2
    exact ⟨s1, hflt, hinv1, hc1, har, hv, he⟩
  · obtain ⟨s2, hflt2, hv, he⟩ := view_resident hinv (F := F) write_flag hc hp hm hres
    rw [hflt] at hflt2
    simp only [Option.some.injEq, Prod.mk.injEq, true_and] at hflt2
    subst hflt2
    exact ⟨s1, hflt, hinv1, hc1, har, hv, he⟩

/-! ## Sequences of faults -/

theorem arenaOf_eq {p q : perProcessInfo} (h : arenaOf p = arenaOf q) :
    p.nextVirtualADDR = q.nextVirtualADDR ∧ p.nextVirtualPage = q.nextVirtualPage ∧
    p.pageInfo.map Prod.fst = q.pageInfo.map Prod.fst := by
  unfold arenaOf at h
  simp only [Prod.mk.injEq] at h
  exact h

/-- A sequence of faults on pages of the current process returns, and does to the
clock queue what `viewRun` says. -/
theorem faultTrace_view {arenaSize F D : Nat} (hF : 1 ≤ F) {cur : pid_t} :
    ∀ (accesses : List (Nat × Bool)) (s : Pager) (pr : perProcessInfo),
    Inv arenaSize F D [] s → s.currentProcessInfo = some cur → s.findProcess cur = some pr →
    (∀ a ∈ accesses, vpageOf a.1 < pr.nextVirtualPage) →
    ∃ s1 pr1, faultTrace s accesses =
        some ((viewRun F (clockView s) (accesses.map (fun a => ⟨cur, vpageOf a.1⟩))).1, s1) ∧
      Inv arenaSize F D [] s1 ∧
      clockView s1 = (viewRun F (clockView s) (accesses.map (fun a => ⟨cur, vpageOf a.1⟩))).2 ∧
      s1.currentProcessInfo = some cur ∧ s1.findProcess cur = some pr1 ∧
      arenaOf pr1 = arenaOf pr := by
  intro accesses
  induction accesses with
  | nil =>
    intro s pr hinv hc hp _
    exact ⟨s, pr, rfl, hinv, rfl, hc, hp, rfl⟩
  | cons a rest ih =>
    intro s pr hinv hc hp hv
    obtain ⟨r, hm, _⟩ := hinv.record_at hp (hv a (List.mem_cons_self _ _))
    obtain ⟨s1, hflt, hinv1, hc1, har, hview, hev⟩ := vm_fault_view hinv hF a.2 hc hp hm
    have har1 := har cur
    rw [hp] at har1
    cases hp1 : s1.findProcess cur with
    | none => simp [hp1] at har1
    | some pr1 =>
      simp only [hp1, Option.map_some', Option.some.injEq] at har1
      have hnv := (arenaOf_eq har1).2.1
      obtain ⟨s2, pr2, htr, hinv2, hview2, hc2, hp2, har2⟩ := ih s1 pr1 hinv1 hc1 hp1
        (fun b hb => by rw [hnv]; exact hv b (List.mem_cons_of_mem _ hb))
      refine ⟨s2, pr2, ?_, hinv2, ?_, hc2, hp2, har2.trans har1⟩
      · simp only [faultTrace, hflt, htr, List.map_cons, viewRun, hview, hev]
      · simp only [List.map_cons, viewRun]
        rw [← hview]
        exact hview2

theorem faultTrace_append : ∀ (pre : List (Nat × Bool)) (s : Pager) (post : List (Nat × Bool))
    (e0 e1 : List (List PagePtr)) (sm s1 : Pager), faultTrace s pre = some (e0, sm) →
    faultTrace sm post = some (e1, s1) → faultTrace s (pre ++ post) = some (e0 ++ e1, s1) := by
  intro pre
  induction pre with
  | nil =>
    intro s post e0 e1 sm s1 h0 h1
    simp only [faultTrace, Option.some.injEq, Prod.mk.injEq] at h0
    obtain ⟨h01, h02⟩ := h0
    subst h01
    subst h02
    exact h1
  | cons a rest ih =>
    intro s post e0 e1 sm s1 h0 h1
    simp only [faultTrace] at h0
    cases hf : vm_fault s a.1 a.2 with
    | none => simp [hf] at h0
    | some x =>
      obtain ⟨rc, s2⟩ := x
      simp only [hf] at h0
      cases ht : faultTrace s2 rest with
      | none => simp [ht] at h0
      | some y =>
        obtain ⟨evs, s3⟩ := y
        simp only [ht, Option.some.injEq, Prod.mk.injEq] at h0
        have h3 := ih s2 post evs e1 s3 s1 ht (by rw [h0.2]; exact h1)
        rw [← h0.1]
        show faultTrace s (a :: (rest ++ post)) = _
        simp only [faultTrace, hf, h3, List.cons_append]

theorem viewRun_length (F : Nat) : ∀ (ps : List PagePtr) (v : List (PagePtr × Nat)),
    (viewRun F v ps).1.length = ps.length := by
  intro ps
  induction ps with
  | nil => intro v; rfl
  | cons p ps ih => intro v; simp [viewRun, ih]

/-- C14: in every state reachable from `vm_init F D` with `F ≥ 1`, for every set `W`
of at most `F` pages of the current process and every finite sequence of `vm_fault`
calls, with any write flags, whose addresses all lie in pages of `W`: every call
returns, and the calls evict at most `F` pages in total. Moreover, at every point of
the sequence at which all pages of `W` are resident, none of the remaining calls
evicts a page. (`faultTrace` lists the pages that each call evicts.) -/
theorem working_set_bound {arenaSize F D : Nat} {s : Pager} (h : Reachable arenaSize F D s)
    (hF : 1 ≤ F) {cur : pid_t} {pr : perProcessInfo} (hc : s.currentProcessInfo = some cur)
    (hp : s.findProcess cur = some pr) (W : Finset Nat) (hW : W.card ≤ F)
    (hpages : ∀ k ∈ W, k < pr.nextVirtualPage) (accesses : List (Nat × Bool))
    (hacc : ∀ a ∈ accesses, vpageOf a.1 ∈ W) :
    ∃ evs s1, faultTrace s accesses = some (evs, s1) ∧ evs.length = accesses.length ∧
      (evs.map List.length).sum ≤ F ∧
      ∀ n, ∃ evn sn, faultTrace s (accesses.take n) = some (evn, sn) ∧
        ((∀ k ∈ W, ∃ r, sn.deref ⟨cur, k⟩ = some r ∧ r.resident = 1) →
          ∀ e ∈ evs.drop n, e = []) := by
  have hinv := reachable_inv h
  obtain ⟨s1, _, htr, _⟩ := faultTrace_view hF accesses s pr hinv hc hp
    (fun a ha => hpages _ (hacc a ha))
  have hWc : (W.image (fun k => (⟨cur, k⟩ : PagePtr))).card ≤ F :=
    Nat.le_trans Finset.card_image_le hW
  have hps : ∀ p ∈ accesses.map (fun a => (⟨cur, vpageOf a.1⟩ : PagePtr)),
      p ∈ W.image (fun k => (⟨cur, k⟩ : PagePtr)) := by
    intro p hp2
    obtain ⟨a, ha, hae⟩ := List.mem_map.1 hp2
    rw [← hae]
    exact Finset.mem_image_of_mem _ (hacc a ha)
  have hcl := hinv.clock_length
  simp only [List.length_nil, Nat.zero_add] at hcl
  have hbound := viewRun_bound hF hWc _ [] (clockView s) (Fresh.start _ _)
    (by rw [clockView_keys]; exact hinv.clock_nodup)
    (by rw [clockView_length]; omega) hps
  refine ⟨_, s1, htr, ?_, ?_, ?_⟩
  · rw [viewRun_length, List.length_map]
  · refine Nat.le_trans hbound ?_
    unfold oldCount
    refine Nat.le_trans (List.length_filter_le _ _) ?_
    rw [clockView_keys]
    omega
  · intro n
    obtain ⟨sn, prn, htn, hinvn, _, hcn, hpn, harn⟩ := faultTrace_view hF (accesses.take n) s pr
      hinv hc hp (fun a ha => hpages _ (hacc a (List.mem_of_mem_take ha)))
    refine ⟨_, sn, htn, ?_⟩
    intro hres
    have hnv := (arenaOf_eq harn).2.1
    obtain ⟨s2, _, htd, _⟩ := faultTrace_view hF (accesses.drop n) sn prn hinvn hcn hpn
      (fun a ha => by rw [hnv]; exact hpages _ (hacc a (List.mem_of_mem_drop ha)))
    have happ := faultTrace_append _ _ _ _ _ _ _ htn htd
    rw [List.take_append_drop, htr] at happ
    simp only [Option.some.injEq, Prod.mk.injEq] at happ
    rw [happ.1, List.drop_append_eq_append_drop, List.drop_of_length_le, List.nil_append]
    · intro e he
      refine viewRun_resident F _ _ ?_ e (List.mem_of_mem_drop he)
      intro p hp2
      obtain ⟨a, ha, hae⟩ := List.mem_map.1 hp2
      obtain ⟨r, hd, hr⟩ := hres _ (hacc a (List.mem_of_mem_drop ha))
      rw [clockView_keys, ← hae]
      exact hinvn.clock_of_resident hd hr
    · rw [viewRun_length, List.length_map, List.length_take]
      omega

/-- C14, witness: in the state `Example.mixed` (three physical pages; the clock queue
is `b, c, d`, and `a` is not resident) the working set is `a, b, d`. The faults on
`a`, `b`, `d`, `a` evict one page, `c`, during the first call. -/
theorem working_set_bound_witness :
    Reachable Example.arenaSize 3 4 Example.mixed ∧ 1 ≤ 3 ∧
    Example.mixed.currentProcessInfo = some 1 ∧
    Example.mixed.findProcess 1 = some (Example.mixed.processD 1) ∧
    ({0, 1, 3} : Finset Nat).card ≤ 3 ∧
    (∀ k ∈ ({0, 1, 3} : Finset Nat), k < (Example.mixed.processD 1).nextVirtualPage) ∧
    (∀ a ∈ Example.retouch, vpageOf a.1 ∈ ({0, 1, 3} : Finset Nat)) ∧
    (∃ evs s1, faultTrace Example.mixed Example.retouch = some (evs, s1) ∧ evs.length = Example.retouch.length ∧
      (evs.map List.length).sum ≤ 3 ∧
      ∀ n, ∃ evn sn, faultTrace Example.mixed (Example.retouch.take n) = some (evn, sn) ∧
        ((∀ k ∈ ({0, 1, 3} : Finset Nat), ∃ r, sn.deref ⟨1, k⟩ = some r ∧ r.resident = 1) →
          ∀ e ∈ evs.drop n, e = [])) ∧
    (faultTrace Example.mixed Example.retouch).map Prod.fst = some [[⟨1, 2⟩], [], [], []] :=
  ⟨Example.mixed_reachable, by decide, rfl, rfl, by decide, by decide, by decide,
    working_set_bound Example.mixed_reachable (by decide) rfl rfl _ (by decide) (by decide) _
      (by decide), by decide⟩

/-! ## Filling the physical pages -/

theorem viewRun_fill (F : Nat) : ∀ (ps : List PagePtr) (v : List (PagePtr × Nat)),
    (v.map Prod.fst ++ ps).Nodup → v.length + ps.length ≤ F →
    viewRun F v ps = (List.replicate ps.length [], v ++ ps.map (fun p => (p, 1))) := by
  intro ps
  induction ps with
  | nil => intro v _ _; simp [viewRun]
  | cons p ps ih =>
    intro v hn hl
    have hk : p ∉ v.map Prod.fst := by
      intro hm
      exact (List.nodup_append.1 hn).2.2 hm (List.mem_cons_self _ _)
    have hlt : v.length < F := by
      simp only [List.length_cons] at hl
      omega
    have hvf : viewFault F v p = ([], v ++ [(p, 1)]) := by
      unfold viewFault
      simp only [hk, if_false, hlt, if_true]
    have hn2 : ((v ++ [(p, 1)]).map Prod.fst ++ ps).Nodup := by
      simpa using hn
    have hl2 : (v ++ [(p, 1)]).length + ps.length ≤ F := by
      simp only [List.length_append, List.length_cons, List.length_nil] at hl ⊢
      omega
    simp only [viewRun, hvf, ih _ hn2 hl2, List.length_cons, List.replicate_succ,
      List.map_cons, List.append_assoc, List.singleton_append]

theorem viewRun_append (F : Nat) : ∀ (ps qs : List PagePtr) (v : List (PagePtr × Nat)),
    viewRun F v (ps ++ qs) =
      ((viewRun F v ps).1 ++ (viewRun F (viewRun F v ps).2 qs).1,
        (viewRun F (viewRun F v ps).2 qs).2) := by
  intro ps
  induction ps with
  | nil => intro qs v; rfl
  | cons p ps ih =>
    intro qs v
    show viewRun F v (p :: (ps ++ qs)) = _
    simp only [viewRun, ih, List.cons_append]

theorem viewFault_full {F : Nat} {v : List (PagePtr × Nat)} {p : PagePtr} (hF : 1 ≤ F)
    (hl : v.length = F) (hk : p ∉ v.map Prod.fst) :
    ∃ y T, viewScan v = y :: T ∧ viewFault F v p = ([y.1], T ++ [(p, 1)]) ∧
      (T ++ [(p, 1)]).length = F := by
  have hlen : (viewScan v).length = v.length := by
    have := (viewScan_keys v).length_eq
    simpa using this
  cases hs : viewScan v with
  | nil =>
    rw [hs] at hlen
    simp only [List.length_nil] at hlen
    omega
  | cons y T =>
    refine ⟨y, T, rfl, ?_, ?_⟩
    · unfold viewFault
      have : ¬ v.length < F := by omega
      simp only [hk, if_false, this, hs, List.head?_cons, Option.map_some', Option.toList_some,
        List.tail_cons]
    · rw [hs] at hlen
      simp only [List.length_append, List.length_cons, List.length_nil] at hlen ⊢
      omega

/-- The clock algorithm with `F` physical pages, all free: faults on `F + 1`
distinct pages bind the first `F` of them without eviction, and the last one
evicts exactly one page. -/
theorem viewRun_overflow {F : Nat} (hF : 1 ≤ F) (ps : List PagePtr) (hn : ps.Nodup)
    (hl : ps.length = F + 1) :
    ∃ victim, (viewRun F [] ps).1 = List.replicate F [] ++ [[victim]] ∧
      (viewRun F [] ps).2.length = F := by
  have hne : ps ≠ [] := by
    intro e
    rw [e] at hl
    simp at hl
  have hsplit := List.dropLast_append_getLast hne
  have hdl : ps.dropLast.length = F := by
    rw [List.length_dropLast, hl]
    rfl
  have hn2 : (ps.dropLast ++ [ps.getLast hne]).Nodup := by rw [hsplit]; exact hn
  have hfill := viewRun_fill F ps.dropLast [] (by
      simp only [List.map_nil, List.nil_append]
      exact (List.nodup_append.1 hn2).1)
    (by simp only [List.length_nil, Nat.zero_add]; omega)
  have hk : ps.getLast hne ∉ (ps.dropLast.map (fun p => (p, 1))).map Prod.fst := by
    rw [List.map_map]
    have : (Prod.fst ∘ fun p : PagePtr => (p, 1)) = id := by funext x; rfl
    rw [this, List.map_id]
    intro hm
    exact (List.nodup_append.1 hn2).2.2 hm (List.mem_singleton.2 rfl)
  obtain ⟨y, T, _, hvf, hlen⟩ := viewFault_full (v := ps.dropLast.map (fun p => (p, 1)))
    (p := ps.getLast hne) hF (by rw [List.length_map]; exact hdl) hk
  refine ⟨y.1, ?_, ?_⟩
  · rw [← hsplit, viewRun_append, hfill]
    simp only [List.nil_append, viewRun, hvf, hdl]
  · rw [← hsplit, viewRun_append, hfill]
    simp only [List.nil_append, viewRun, hvf]
    exact hlen

/-- Successful `vm_extend` calls in a row: with enough free disk blocks and enough
room in the arena each call creates one more page of the current process; the
clock queue and the free physical pages are untouched. -/
theorem extend_run {arenaSize F D : Nat} (pid : pid_t) : ∀ (junk : List (Nat × Nat)) (s : Pager)
    (pr : perProcessInfo), Reachable arenaSize F D s → s.currentProcessInfo = some pid →
    s.findProcess pid = some pr → junk.length ≤ s.freeBlocks.length →
    (pr.nextVirtualPage + junk.length) * VM_PAGESIZE ≤ arenaSize →
    ∃ s0 pr0, run arenaSize s (junk.map (fun j => Call.extend j.1 j.2)) = some s0 ∧
      Reachable arenaSize F D s0 ∧ s0.currentProcessInfo = some pid ∧
      s0.findProcess pid = some pr0 ∧
      pr0.nextVirtualPage = pr.nextVirtualPage + junk.length ∧
      s0.clockStructure = s.clockStructure ∧ s0.freePages = s.freePages ∧
      s0.freeBlocks.length + junk.length = s.freeBlocks.length := by
  intro junk
  induction junk with
  | nil =>
    intro s pr hr hc hp _ _
    exact ⟨s, pr, rfl, hr, hc, hp, rfl, rfl, rfl, rfl⟩
  | cons j rest ih =>
    intro s pr hr hc hp hb hsize
    have hinv := reachable_inv hr
    obtain ⟨hcur, ha⟩ := hinv.hasCurrent hc hp
    obtain ⟨_, _, w3, _⟩ := arena_no_wrap hinv.fits ha
    simp only [List.length_cons] at hb hsize
    have hroom : ¬ (pr.nextVirtualADDR + VM_PAGESIZE > VM_ARENA_BASEADDR + arenaSize) := by
      rw [ha.2.1]
      unfold VM_PAGESIZE at *
      omega
    cases hfb : s.freeBlocks with
    | nil =>
      rw [hfb] at hb
      simp at hb
    | cons block restBlocks =>
      have hext := (vm_extend_total arenaSize s pid pr j.1 j.2 hcur hinv.fits ha).2 hroom
        block restBlocks hfb
      have hr1 := Reachable.extend j.1 j.2 pr.nextVirtualADDR hr hext
      have hp1 : Pager.findProcess
          { s with
            perProcessInfos :=
              mapModify pid (extendProcess pr.nextVirtualPage j.1 j.2 block) s.perProcessInfos
            freeBlocks := restBlocks } pid =
          some (extendProcess pr.nextVirtualPage j.1 j.2 block pr) := by
        have := findProcess_modifyProcess s pid pid
          (extendProcess pr.nextVirtualPage j.1 j.2 block)
        rw [if_pos rfl, hp] at this
        exact this
      have hnv : (extendProcess pr.nextVirtualPage j.1 j.2 block pr).nextVirtualPage =
          pr.nextVirtualPage + 1 := w3
      rw [hfb] at hb
      simp only [List.length_cons] at hb
      obtain ⟨s0, pr0, hrun, hr0, hc0, hp0, hn0, hcl0, hfp0, hfb0⟩ := ih _ _ hr1 hc hp1
        (by show rest.length ≤ restBlocks.length; omega)
        (by rw [hnv]; rw [Nat.add_assoc, Nat.add_comm 1]; exact hsize)
      refine ⟨s0, pr0, ?_, hr0, hc0, hp0, ?_, hcl0, hfp0, ?_⟩
      · simp only [List.map_cons, run, step, hext, Option.map_some']
        exact hrun
      · rw [hn0, hnv, List.length_cons]
        omega
      · have : s0.freeBlocks.length + rest.length = restBlocks.length := hfb0
        simp only [List.length_cons]
        omega

/-- The state after `vm_init`, `vm_create pid` and `vm_switch pid`. -/
theorem start_run (arenaSize F D : Nat) (physmem : Nat → Nat) (disk : Nat → Nat → Nat)
    (pid : pid_t) (fresh : page_table_t) (hF : F < UINT_MOD) (hD : D < UINT_MOD)
    (hfit : ArenaFits arenaSize) :
    ∃ sb, (∀ cs, run arenaSize (vm_init F D physmem disk)
        (Call.create pid fresh :: Call.switch pid :: cs) = run arenaSize sb cs) ∧
      Reachable arenaSize F D sb ∧ sb.currentProcessInfo = some pid ∧
      sb.findProcess pid = some (newProcess fresh) ∧ sb.clockStructure = [] ∧
      sb.freePages = List.range F ∧ sb.freeBlocks = List.range D := by
  have hfind : (vm_create (vm_init F D physmem disk) pid fresh).findProcess pid =
      some (newProcess fresh) := by
    simp [vm_create, vm_init, Pager.findProcess, mapInsert, mapFind, insertSorted]
  have hsw : vm_switch (vm_create (vm_init F D physmem disk) pid fresh) pid =
      some { vm_create (vm_init F D physmem disk) pid fresh with
        page_table_base_register := some pid, currentProcessInfo := some pid } := by
    unfold vm_switch
    rw [hfind]
  refine ⟨_, ?_, Reachable.switch pid (Reachable.create pid fresh
    (Reachable.init physmem disk hF hD hfit)) hsw, rfl, hfind, rfl, rfl, rfl⟩
  intro cs
  simp only [run, step, hsw]

/-! ## Replacement progress -/

theorem resident_of_clock_view {arenaSize F D : Nat} {s : Pager} (hinv : Inv arenaSize F D [] s)
    {cur : pid_t} {pr : perProcessInfo} (hp : s.findProcess cur = some pr) {k : Nat}
    (hk : k < pr.nextVirtualPage) :
    (s.deref ⟨cur, k⟩).map (fun r => r.resident) =
      some (if (⟨cur, k⟩ : PagePtr) ∈ s.clockStructure then 1 else 0) := by
  obtain ⟨r, hm, hok⟩ := hinv.record_at hp hk
  have hd : s.deref ⟨cur, k⟩ = some r := by rw [deref_of_findProcess hp, hm]
  rw [hd]
  rcases hok.residentBit with h0 | h1
  · rw [if_neg (hinv.not_in_clock hd h0)]
    simp [h0]
  · rw [if_pos (hinv.clock_of_resident hd h1)]
    simp [h1]

/-- C13: for every `F ≥ 1` and `D ≥ F + 1` (an `unsigned` number, with room for
`F + 1` pages in the arena): `vm_init F D`, `vm_create`, `vm_switch` and `F + 1`
calls of `vm_extend` run through and leave a process with `F + 1` pages. Then one
`vm_fault` on each of the `F + 1` pages, in any order and with any write flags,
returns every time; no page is evicted during the first `F` faults and exactly one
during the last; afterwards no physical page is free and the clock queue holds `F`
records. Scenario 3 (two physical pages; writes to `a`, `b`, `c`, then a read of
`a`): afterwards `a` and `c` are resident and `b` is not, no physical page is free,
the clock queue holds two records, and the evicted pages `a` and `b` were written to
their disk blocks before the block of `a` was read back. -/
theorem replacement_progress {arenaSize F D : Nat} (hF : 1 ≤ F) (hD : F + 1 ≤ D)
    (hDs : D < UINT_MOD) (hfit : ArenaFits arenaSize)
    (hroom : (F + 1) * VM_PAGESIZE ≤ arenaSize) (physmem : Nat → Nat)
    (disk : Nat → Nat → Nat) (pid : pid_t) (fresh : page_table_t) (junk : List (Nat × Nat))
    (hj : junk.length = F + 1) (accesses : List (Nat × Bool))
    (hlen : accesses.length = F + 1)
    (hdist : (accesses.map (fun a => vpageOf a.1)).Nodup)
    (hin : ∀ a ∈ accesses, vpageOf a.1 < F + 1) :
    (∃ s0 pr victim s1,
      run arenaSize (vm_init F D physmem disk) (setup pid fresh junk) = some s0 ∧
      s0.currentProcessInfo = some pid ∧ s0.findProcess pid = some pr ∧
      pr.nextVirtualPage = F + 1 ∧
      faultTrace s0 accesses = some (List.replicate F [] ++ [[victim]], s1) ∧
      s1.freePages = [] ∧ s1.clockStructure.length = F) ∧
    (∃ s, run Example.arenaSize (vm_init 2 4 (fun _ => 9) (fun _ _ => 5))
        (setup 1 Example.staleTable [(3, 4), (3, 4), (3, 4)] ++
          [Call.fault VM_ARENA_BASEADDR true, Call.fault (VM_ARENA_BASEADDR + VM_PAGESIZE) true,
            Call.fault (VM_ARENA_BASEADDR + 2 * VM_PAGESIZE) true,
            Call.fault VM_ARENA_BASEADDR false]) = some s ∧
      residentBits s 1 3 = [some 1, some 0, some 1] ∧ s.freePages = [] ∧
      s.clockStructure.length = 2 ∧
      s.hostCalls = [HostCall.disk_write 0 0, HostCall.disk_write 1 1,
        HostCall.disk_read 0 1]) := by
  refine ⟨?_, Example.evicted, rfl, by decide, by decide, by decide, by decide⟩
  obtain ⟨sb, hrun, hrb, hcb, hpb, hclb, hfpb, hfbb⟩ :=
    start_run arenaSize F D physmem disk pid fresh (by omega) hDs hfit
  obtain ⟨s0, pr0, hrun0, hr0, hc0, hp0, hn0, hcl0, _, _⟩ :=
    extend_run pid junk sb (newProcess fresh) hrb hcb hpb
      (by rw [hfbb, List.length_range, hj]; exact hD)
      (by
        have : (newProcess fresh).nextVirtualPage = 0 := rfl
        rw [this, hj, Nat.zero_add]
        exact hroom)
  have hnv : pr0.nextVirtualPage = F + 1 := by
    have : (newProcess fresh).nextVirtualPage = 0 := rfl
    rw [hn0, this, hj, Nat.zero_add]
  have hinv0 := reachable_inv hr0
  obtain ⟨s1, pr1, htr, hinv1, hview, _, _, _⟩ := faultTrace_view hF accesses s0 pr0 hinv0 hc0 hp0
    (fun a ha => by rw [hnv]; exact hin a ha)
  have hv0 : clockView s0 = [] := by
    unfold clockView
    rw [hcl0, hclb]
    rfl
  have hnodup : (accesses.map (fun a => (⟨pid, vpageOf a.1⟩ : PagePtr))).Nodup := by
    have hm : accesses.map (fun a => (⟨pid, vpageOf a.1⟩ : PagePtr)) =
        (accesses.map (fun a => vpageOf a.1)).map (fun k => (⟨pid, k⟩ : PagePtr)) := by
      rw [List.map_map]
      rfl
    rw [hm]
    refine hdist.map ?_
    intro x y hxy
    simp only [PagePtr.mk.injEq, true_and] at hxy
    exact hxy
  obtain ⟨victim, hev, hlenv⟩ := viewRun_overflow hF _ hnodup (by rw [List.length_map, hlen])
  rw [hv0, hev] at htr
  rw [hv0] at hview
  have hclen : s1.clockStructure.length = F := by
    rw [← clockView_length, hview]
    exact hlenv
  have hcl := hinv1.clock_length
  simp only [List.length_nil, Nat.zero_add] at hcl
  refine ⟨s0, pr0, victim, s1, ?_, hc0, hp0, hnv, htr, ?_, hclen⟩
  · unfold setup
    rw [hrun]
    exact hrun0
  · apply List.eq_nil_of_length_eq_zero
    omega

/-- C13, witness: two physical pages, four disk blocks and writes to the pages `a`,
`b`, `c`: the third fault evicts `a`. -/
theorem replacement_progress_witness :
    1 ≤ 2 ∧ 2 + 1 ≤ 4 ∧ 4 < UINT_MOD ∧ ArenaFits Example.arenaSize ∧
    (2 + 1) * VM_PAGESIZE ≤ Example.arenaSize ∧
    [((3 : Nat), (4 : Nat)), (3, 4), (3, 4)].length = 2 + 1 ∧ Example.fill.length = 2 + 1 ∧
    (Example.fill.map (fun a => vpageOf a.1)).Nodup ∧
    (∀ a ∈ Example.fill, vpageOf a.1 < 2 + 1) ∧
    ((∃ s0 pr victim s1,
      run Example.arenaSize (vm_init 2 4 (fun _ => 9) (fun _ _ => 5)) (setup 1 Example.staleTable [(3, 4), (3, 4), (3, 4)]) = some s0 ∧
      s0.currentProcessInfo = some 1 ∧ s0.findProcess 1 = some pr ∧
      pr.nextVirtualPage = 2 + 1 ∧
      faultTrace s0 Example.fill = some (List.replicate 2 [] ++ [[victim]], s1) ∧
      s1.freePages = [] ∧ s1.clockStructure.length = 2) ∧
    (∃ s, run Example.arenaSize (vm_init 2 4 (fun _ => 9) (fun _ _ => 5))
        (setup 1 Example.staleTable [(3, 4), (3, 4), (3, 4)] ++
          [Call.fault VM_ARENA_BASEADDR true, Call.fault (VM_ARENA_BASEADDR + VM_PAGESIZE) true,
            Call.fault (VM_ARENA_BASEADDR + 2 * VM_PAGESIZE) true,
            Call.fault VM_ARENA_BASEADDR false]) = some s ∧
      residentBits s 1 3 = [some 1, some 0, some 1] ∧ s.freePages = [] ∧
      s.clockStructure.length = 2 ∧
      s.hostCalls = [HostCall.disk_write 0 0, HostCall.disk_write 1 1,
        HostCall.disk_read 0 1])) ∧
    (faultTrace Example.threePages Example.fill).map Prod.fst = some [[], [], [⟨1, 0⟩]] :=
  ⟨by decide, by decide, by decide, by unfold ArenaFits; decide, by decide, rfl, rfl,
    by decide, by decide,
    replacement_progress (by decide) (by decide) (by decide) (by unfold ArenaFits; decide)
      (by decide) (fun _ => 9) (fun _ _ => 5) 1 Example.staleTable [(3, 4), (3, 4), (3, 4)] rfl
      Example.fill rfl (by decide) (by decide), by decide⟩

/-! ## Second chance with every page referenced -/

/-- An access of the application does to the clock queue what a fault does: an
access that the page-table bits permit finds the reference bit set already. -/
theorem hostAccess_view {arenaSize F D : Nat} {s : Pager} (hinv : Inv arenaSize F D [] s)
    (hF : 1 ≤ F) {cur : pid_t} {pr : perProcessInfo} {addr : Nat} (write_flag : Bool)
    (hc : s.currentProcessInfo = some cur) (hp : s.findProcess cur = some pr)
    (hk : vpageOf addr < pr.nextVirtualPage) :
    ∃ s1 pr1, hostAccess s addr write_flag = some s1 ∧ Inv arenaSize F D [] s1 ∧
      s1.currentProcessInfo = some cur ∧ s1.findProcess cur = some pr1 ∧
      pr1.nextVirtualPage = pr.nextVirtualPage ∧
      clockView s1 = (viewFault F (clockView s) ⟨cur, vpageOf addr⟩).2 ∧
      evictedBy s s1 = (viewFault F (clockView s) ⟨cur, vpageOf addr⟩).1 ∧
      ((⟨cur, vpageOf addr⟩ : PagePtr) ∉ s.clockStructure →
        vm_fault s addr write_flag = some (0, s1)) := by
  obtain ⟨r, hm, hok⟩ := hinv.record_at hp hk
  have hd : s.deref ⟨cur, vpageOf addr⟩ = some r := by rw [deref_of_findProcess hp, hm]
  have hpt : s.page_table_base_register = some cur := by rw [hinv.ptbr, hc]
  have hpte := hinv.pte_some hp (vpageOf addr)
  unfold hostAccess
  simp only [hpt, hpte]
  by_cases hb : (if write_flag then (pr.pageTable.ptes (vpageOf addr)).write_enable
      else (pr.pageTable.ptes (vpageOf addr)).read_enable) = 1
  · rw [if_pos hb]
    have hres : r.resident = 1 := by
      cases write_flag with
      | true => exact (hok.writeOK (by simpa using hb)).1
      | false => exact hok.readOK (by simpa using hb)
    have href : r.reference = 1 := by
      cases write_flag with
      | true => exact hok.refOK (Or.inr (by simpa using hb))
      | false => exact hok.refOK (Or.inl (by simpa using hb))
    have hin : (⟨cur, vpageOf addr⟩ : PagePtr) ∈ s.clockStructure :=
      hinv.clock_of_resident hd hres
    have hvf : viewFault F (clockView s) ⟨cur, vpageOf addr⟩ = ([], clockView s) := by
      unfold viewFault
      rw [clockView_keys, if_pos hin]
      congr 1
      conv_rhs => rw [← List.map_id (clockView s)]
      apply List.map_congr_left
      intro x hx
      unfold clockView at hx
      obtain ⟨h, _, hxe⟩ := List.mem_map.1 hx
      subst hxe
      by_cases hh : h = ⟨cur, vpageOf addr⟩
      · subst hh
        simp [refBit_of_deref hd, href]
      · simp [hh]
    refine ⟨s, pr, rfl, hinv, hc, hp, rfl, ?_, ?_, fun hn => absurd hin hn⟩
    · rw [hvf]
    · rw [hvf]
      exact evictedBy_nil hinv hinv (fun _ hh => hh)
  · rw [if_neg hb]
    obtain ⟨s1, hflt, hinv1, hc1, har, hview, hev⟩ := vm_fault_view hinv hF write_flag hc hp hm
    have har1 := har cur
    rw [hp] at har1
    cases hp1 : s1.findProcess cur with
    | none => simp [hp1] at har1
    | some pr1 =>
      simp only [hp1, Option.map_some', Option.some.injEq] at har1
      refine ⟨s1, pr1, ?_, hinv1, hc1, hp1, (arenaOf_eq har1).2.1, hview, hev, fun _ => hflt⟩
      rw [hflt]
      rfl

theorem residentBits_three {arenaSize F D : Nat} {s : Pager} (hinv : Inv arenaSize F D [] s)
    {cur : pid_t} {pr : perProcessInfo} (hp : s.findProcess cur = some pr)
    (hn : pr.nextVirtualPage = 3) :
    residentBits s cur 3 =
      [some (if (⟨cur, 0⟩ : PagePtr) ∈ (clockView s).map Prod.fst then 1 else 0),
        some (if (⟨cur, 1⟩ : PagePtr) ∈ (clockView s).map Prod.fst then 1 else 0),
        some (if (⟨cur, 2⟩ : PagePtr) ∈ (clockView s).map Prod.fst then 1 else 0)] := by
  have hr : List.range 3 = [0, 1, 2] := rfl
  unfold residentBits
  rw [hr, clockView_keys]
  simp only [List.map_cons, List.map_nil]
  rw [resident_of_clock_view hinv hp (by omega : 0 < pr.nextVirtualPage),
    resident_of_clock_view hinv hp (by omega : 1 < pr.nextVirtualPage),
    resident_of_clock_view hinv hp (by omega : 2 < pr.nextVirtualPage)]

/-- C12 (as amended): starting from `vm_init 2 4`, `vm_create pid`, `vm_switch pid` and
three successful `vm_extend` calls giving the pages `a`, `b`, `c`, the accesses
write `a`, write `b`, write `a` leave `a` and `b` resident and `c` not resident; the
fourth access, write `c`, traps to `vm_fault`, which evicts `a` and not `b`:
afterwards `b` and `c` are resident and `a` is not resident. (An access that the
page-table bits do not permit goes through `vm_fault` with `write = true`; the
reference bits of `a` and `b` are both set when `c` is faulted in, so the scan clears
both and takes the front of the queue, `a`.) -/
theorem second_chance_fifo {arenaSize : Nat} (hfit : ArenaFits arenaSize)
    (hroom : 3 * VM_PAGESIZE ≤ arenaSize) (physmem : Nat → Nat) (disk : Nat → Nat → Nat)
    (pid : pid_t) (fresh : page_table_t) (junk : List (Nat × Nat)) (hj : junk.length = 3) :
    ∃ s0 s3 s1, run arenaSize (vm_init 2 4 physmem disk) (setup pid fresh junk) = some s0 ∧
      hostAccesses s0 [(VM_ARENA_BASEADDR, true), (VM_ARENA_BASEADDR + VM_PAGESIZE, true),
        (VM_ARENA_BASEADDR, true)] = some s3 ∧
      residentBits s3 pid 3 = [some 1, some 1, some 0] ∧
      hostAccess s3 (VM_ARENA_BASEADDR + 2 * VM_PAGESIZE) true = some s1 ∧
      vm_fault s3 (VM_ARENA_BASEADDR + 2 * VM_PAGESIZE) true = some (0, s1) ∧
      hostAccesses s0 Example.writes = some s1 ∧
      evictedBy s3 s1 = [⟨pid, 0⟩] ∧
      residentBits s1 pid 3 = [some 0, some 1, some 1] := by
  obtain ⟨sb, hrun, hrb, hcb, hpb, hclb, hfpb, hfbb⟩ :=
    start_run arenaSize 2 4 physmem disk pid fresh (by decide) (by decide) hfit
  have hz : (newProcess fresh).nextVirtualPage = 0 := rfl
  obtain ⟨s0, pr0, hrun0, hr0, hc0, hp0, hn0, hcl0, _, _⟩ :=
    extend_run pid junk sb (newProcess fresh) hrb hcb hpb
      (by rw [hfbb, List.length_range, hj]; decide)
      (by rw [hz, hj, Nat.zero_add]; exact hroom)
  rw [hz, hj, Nat.zero_add] at hn0
  have hinv0 := reachable_inv hr0
  have hv0 : clockView s0 = [] := by
    unfold clockView
    rw [hcl0, hclb]
    rfl
  have va : vpageOf VM_ARENA_BASEADDR = 0 := by decide
  have vb : vpageOf (VM_ARENA_BASEADDR + VM_PAGESIZE) = 1 := by decide
  have vc : vpageOf (VM_ARENA_BASEADDR + 2 * VM_PAGESIZE) = 2 := by decide
  obtain ⟨sA, prA, hA, hinvA, hcA, hpA, hnA, hviewA, _, _⟩ :=
    hostAccess_view hinv0 (by decide) true hc0 hp0
      (by rw [va, hn0]; decide : vpageOf VM_ARENA_BASEADDR < pr0.nextVirtualPage)
  rw [hn0] at hnA
  have hvA : clockView sA = [(⟨pid, 0⟩, 1)] := by
    rw [hviewA, hv0, va]
    simp [viewFault]
  obtain ⟨sB, prB, hB, hinvB, hcB, hpB, hnB, hviewB, _, _⟩ :=
    hostAccess_view hinvA (by decide) true hcA hpA
      (by rw [vb, hnA]; decide : vpageOf (VM_ARENA_BASEADDR + VM_PAGESIZE) < prA.nextVirtualPage)
  rw [hnA] at hnB
  have hvB : clockView sB = [(⟨pid, 0⟩, 1), (⟨pid, 1⟩, 1)] := by
    rw [hviewB, hvA, vb]
    simp [viewFault]
  obtain ⟨sC, prC, hC, hinvC, hcC, hpC, hnC, hviewC, _, _⟩ :=
    hostAccess_view hinvB (by decide) true hcB hpB
      (by rw [va, hnB]; decide : vpageOf VM_ARENA_BASEADDR < prB.nextVirtualPage)
  rw [hnB] at hnC
  have hvC : clockView sC = [(⟨pid, 0⟩, 1), (⟨pid, 1⟩, 1)] := by
    rw [hviewC, hvB, va]
    simp [viewFault]
  obtain ⟨sD, prD, hD, hinvD, hcD, hpD, hnD, hviewD, hevD, hfltD⟩ :=
    hostAccess_view hinvC (by decide) true hcC hpC
      (by rw [vc, hnC]; decide :
        vpageOf (VM_ARENA_BASEADDR + 2 * VM_PAGESIZE) < prC.nextVirtualPage)
  rw [hnC] at hnD
  have hvD : clockView sD = [(⟨pid, 1⟩, 0), (⟨pid, 2⟩, 1)] := by
    rw [hviewD, hvC, vc]
    simp [viewFault, viewScan]
  have hnotin : (⟨pid, vpageOf (VM_ARENA_BASEADDR + 2 * VM_PAGESIZE)⟩ : PagePtr) ∉
      sC.clockStructure := by
    rw [← clockView_keys, hvC, vc]
    simp
  refine ⟨s0, sC, sD, ?_, ?_, ?_, hD, hfltD hnotin, ?_, ?_, ?_⟩
  · unfold setup
    rw [hrun]
    exact hrun0
  · simp only [hostAccesses, hA, hB, hC]
  · rw [residentBits_three hinvC hpC hnC, hvC]
    simp
  · unfold Example.writes
    simp only [hostAccesses, hA, hB, hC, hD]
  · rw [hevD, hvC, vc]
    simp [viewFault, viewScan]
  · rw [residentBits_three hinvD hpD hnD, hvD]
    simp

/-- C12, witness: the scenario with memory full of the byte 9, a disk full of the byte
5, a stale page table and the junk values 3 and 4. -/
theorem second_chance_fifo_witness :
    ArenaFits Example.arenaSize ∧ 3 * VM_PAGESIZE ≤ Example.arenaSize ∧
    [((3 : Nat), (4 : Nat)), (3, 4), (3, 4)].length = 3 ∧
    (∃ s0 s3 s1, run Example.arenaSize (vm_init 2 4 (fun _ => 9) (fun _ _ => 5)) (setup 1 Example.staleTable [(3, 4), (3, 4), (3, 4)]) = some s0 ∧
      hostAccesses s0 [(VM_ARENA_BASEADDR, true), (VM_ARENA_BASEADDR + VM_PAGESIZE, true),
        (VM_ARENA_BASEADDR, true)] = some s3 ∧
      residentBits s3 1 3 = [some 1, some 1, some 0] ∧
      hostAccess s3 (VM_ARENA_BASEADDR + 2 * VM_PAGESIZE) true = some s1 ∧
      vm_fault s3 (VM_ARENA_BASEADDR + 2 * VM_PAGESIZE) true = some (0, s1) ∧
      hostAccesses s0 Example.writes = some s1 ∧
      evictedBy s3 s1 = [⟨1, 0⟩] ∧
      residentBits s1 1 3 = [some 0, some 1, some 1]) ∧
    (hostAccesses Example.threePages Example.writes).map
      (fun s => (s.clockStructure, s.hostCalls)) =
      some ([⟨1, 1⟩, ⟨1, 2⟩], [HostCall.disk_write 0 0]) :=
  ⟨by unfold ArenaFits; decide, by decide, rfl,
    second_chance_fifo (by unfold ArenaFits; decide) (by decide) (fun _ => 9) (fun _ _ => 5) 1
      Example.staleTable [(3, 4), (3, 4), (3, 4)] rfl, by decide⟩

/-- C12, counterexample: in the scenario of the claim (two physical pages, four disk
blocks, process 1 with the untouched pages `a`, `b`, `c`) the accesses write `a`,
write `b`, write `a`, write `c` end with `a` not resident and `b` and `c` resident, and
not with `a` and `c` resident and `b` not resident. The third access does not trap,
since the entry of `a` is write enabled; when all four accesses are made through
`vm_fault` instead, the fourth likewise evicts `a`. -/
theorem referenced_page_evicted :
    run Example.arenaSize (vm_init 2 4 (fun _ => 9) (fun _ _ => 5))
      (setup 1 Example.staleTable [(3, 4), (3, 4), (3, 4)]) = some Example.threePages ∧
    (hostAccesses Example.threePages Example.writes).map (fun s => residentBits s 1 3) =
      some [some 0, some 1, some 1] ∧
    (¬ ∃ s1, hostAccesses Example.threePages Example.writes = some s1 ∧
      residentBits s1 1 3 = [some 1, some 0, some 1]) ∧
    (faultTrace Example.threePages Example.writes).map
      (fun x => (x.1, residentBits x.2 1 3)) =
      some ([[], [], [], [⟨1, 0⟩]], [some 0, some 1, some 1]) := by
  have h : (hostAccesses Example.threePages Example.writes).map (fun s => residentBits s 1 3) =
      some [some 0, some 1, some 1] := by decide
  refine ⟨rfl, h, ?_, by decide⟩
  rintro ⟨s1, h1, h2⟩
  rw [h1, Option.map_some', h2] at h
  exact absurd h (by decide)

/-! ## Accesses to unreferenced pages -/

/-- C21: in every state reachable from `vm_init F D`, for every page record `r` of
every registered process and its page-table entry: if the entry has
`read_enable = 1` or `write_enable = 1` then `r.reference = 1`; a resident record
with `reference = 0` has both enable bits equal to `0`; and when the process is
the current one, every access of the application to a page whose record has not
`reference = 1` traps to `vm_fault`. -/
theorem unreferenced_traps {arenaSize F D : Nat} {s : Pager} (h : Reachable arenaSize F D s)
    (pid : pid_t) (pr : perProcessInfo) (hp : s.findProcess pid = some pr) (k : Nat)
    (r : perPageInfo) (hm : mapFind k pr.pageInfo = some r) :
    ((pr.pageTable.ptes k).read_enable = 1 ∨ (pr.pageTable.ptes k).write_enable = 1 →
      r.reference = 1) ∧
    (r.resident = 1 → r.reference = 0 →
      (pr.pageTable.ptes k).read_enable = 0 ∧ (pr.pageTable.ptes k).write_enable = 0) ∧
    (s.currentProcessInfo = some pid → r.reference ≠ 1 → ∀ addr write_flag,
      vpageOf addr = k →
      hostAccess s addr write_flag = (vm_fault s addr write_flag).map (fun x => x.2)) := by
  have hinv := reachable_inv h
  have hd : s.deref ⟨pid, k⟩ = some r := by rw [deref_of_findProcess hp, hm]
  have hok := hinv.recs ⟨pid, k⟩ r _ hd (hinv.pte_some hp k)
  refine ⟨hok.refOK, ?_, ?_⟩
  · intro _ hr0
    have hnr : ¬ (pr.pageTable.ptes k).read_enable = 1 := fun hx => by
      have := hok.refOK (Or.inl hx)
      omega
    have hnw : ¬ (pr.pageTable.ptes k).write_enable = 1 := fun hx => by
      have := hok.refOK (Or.inr hx)
      omega
    exact ⟨hok.readBit.resolve_right hnr, hok.writeBit.resolve_right hnw⟩
  · intro hc hr addr write_flag hk
    have hpt : s.page_table_base_register = some pid := by rw [hinv.ptbr, hc]
    have hpte := hinv.pte_some hp (vpageOf addr)
    unfold hostAccess
    simp only [hpt, hpte]
    rw [if_neg]
    rw [hk]
    cases write_flag with
    | true => exact fun hx => hr (hok.refOK (Or.inr (by simpa using hx)))
    | false => exact fun hx => hr (hok.refOK (Or.inl (by simpa using hx)))

/-- C21, witness: page `c` of process 1 in the state `Example.mixed` is resident with
`reference = 0`, the scan of the last eviction having passed it: its entry has both
enable bits cleared, and a read of it traps to `vm_fault`, which sets the reference
bit and enables the entry again. -/
theorem unreferenced_traps_witness :
    Reachable Example.arenaSize 3 4 Example.mixed ∧
    Example.mixed.findProcess 1 = some (Example.mixed.processD 1) ∧
    mapFind 2 (Example.mixed.processD 1).pageInfo = some (⟨2, 1, 0, 0, 1, 2⟩ : perPageInfo) ∧
    ((((Example.mixed.processD 1).pageTable.ptes 2).read_enable = 1 ∨
        ((Example.mixed.processD 1).pageTable.ptes 2).write_enable = 1 →
      (⟨2, 1, 0, 0, 1, 2⟩ : perPageInfo).reference = 1) ∧
    ((⟨2, 1, 0, 0, 1, 2⟩ : perPageInfo).resident = 1 →
      (⟨2, 1, 0, 0, 1, 2⟩ : perPageInfo).reference = 0 →
      ((Example.mixed.processD 1).pageTable.ptes 2).read_enable = 0 ∧
        ((Example.mixed.processD 1).pageTable.ptes 2).write_enable = 0) ∧
    (Example.mixed.currentProcessInfo = some 1 →
      (⟨2, 1, 0, 0, 1, 2⟩ : perPageInfo).reference ≠ 1 → ∀ addr write_flag,
      vpageOf addr = 2 →
      hostAccess Example.mixed addr write_flag =
        (vm_fault Example.mixed addr write_flag).map (fun x => x.2))) ∧
    ((Example.mixed.processD 1).pageTable.ptes 2).read_enable = 0 ∧
    ((Example.mixed.processD 1).pageTable.ptes 2).write_enable = 0 ∧
    (hostAccess Example.mixed (VM_ARENA_BASEADDR + 2 * VM_PAGESIZE) false).map
      (fun x => (x.clockStructure, x.deref ⟨1, 2⟩, x.pte 1 2)) =
      some ([⟨1, 1⟩, ⟨1, 2⟩, ⟨1, 3⟩], some ⟨2, 1, 0, 1, 1, 2⟩, some ⟨2, 1, 1⟩) :=
  ⟨Example.mixed_reachable, rfl, by decide,
    unreferenced_traps Example.mixed_reachable 1 _ rfl 2 _ (by decide), by decide, by decide,
    by decide⟩

end VMPager
